import Mathlib

/-!
dict_trans: a shallow embedding of the translation engine

The Go package resolves coded field values of records into labels by walking the
records with reflection.  This development models

* Go strings as Lean `String`s (the helpers of package `strings` that the code
  uses are defined on the underlying character lists),
* Go values reached through `reflect` as the tree type `Value`,
* the mutable package state (`DictManager`, the enum registry, the three
  database-flavoured managers) as explicit records threaded through every
  operation, and
* user supplied functions (query functions, custom translators, unwrappers) as
  pure functions whose invocations are recorded in a trace.

Every function that changes a record in place in Go returns the changed record
here, together with the package state after the call and the error, if any.

Not modelled: sharing between pointers and cyclic data (a value is a tree),
the locks and goroutines, and strings that are not valid UTF-8.
-/

set_option autoImplicit false
set_option maxRecDepth 100000

namespace DictTrans

/-! ## Package `strings` -/

/-- Go `unicode.IsSpace`: the characters that `strings.TrimSpace` removes. -/
def isSpace (c : Char) : Bool :=
  c = '\t' || c = '\n' || c = Char.ofNat 0x0B || c = Char.ofNat 0x0C || c = '\r' || c = ' ' ||
  c = Char.ofNat 0x85 || c = Char.ofNat 0xA0 || c = Char.ofNat 0x1680 ||
  (0x2000 ≤ c.toNat && c.toNat ≤ 0x200A) ||
  c = Char.ofNat 0x2028 || c = Char.ofNat 0x2029 || c = Char.ofNat 0x202F ||
  c = Char.ofNat 0x205F || c = Char.ofNat 0x3000

/-- Splitting of a character list at every occurrence of the separator `sep`
(the empty input gives one empty piece, as `strings.Split` does). -/
def splitChars (sep : Char) : List Char → List (List Char)
  | [] => [[]]
  | c :: cs =>
    if c = sep then [] :: splitChars sep cs
    else
      match splitChars sep cs with
      | [] => [[c]]
      | p :: ps => (c :: p) :: ps

/-- Go `strings.Split(s, sep)` for a separator of one character. -/
def split (s : String) (sep : Char) : List String :=
  (splitChars sep s.data).map String.mk

/-- Go `strings.Contains(s, sep)` for a separator of one character. -/
def contains (s : String) (sep : Char) : Bool :=
  s.data.contains sep

/-- Removal of leading white space. -/
def trimLeft : List Char → List Char
  | [] => []
  | c :: cs => if isSpace c then trimLeft cs else c :: cs

/-- Go `strings.TrimSpace`. -/
def trimSpace (s : String) : String :=
  String.mk (trimLeft (trimLeft s.data).reverse).reverse

/-- Go `strings.HasPrefix`. -/
def hasPrefix (s pre : String) : Bool :=
  pre.data.isPrefixOf s.data

/-- Go `strings.TrimPrefix`. -/
def trimPrefix (s pre : String) : String :=
  if hasPrefix s pre then String.mk (s.data.drop pre.data.length) else s

/-- The simple case foldings of Unicode outside ASCII: the mappings with status
C and S of `CaseFolding.txt` (Unicode 14.0.0, to which Unicode 15.0.0 adds no
case pair), which are the orbits that `unicode.SimpleFold` walks.  A row
`(lo, hi, stride, add, sub)` stands for the code points `lo`, `lo + stride`,
and so on up to `hi`; each of them folds to the code point `add` above or `sub`
below it. -/
def caseFoldRows : List (Nat × Nat × Nat × Nat × Nat) :=
  [(0x00B5, 0x00B5, 1, 775, 0), (0x00C0, 0x00D6, 1, 32, 0), (0x00D8, 0x00DE, 1, 32, 0),
   (0x0100, 0x012E, 2, 1, 0), (0x0132, 0x0136, 2, 1, 0), (0x0139, 0x0147, 2, 1, 0),
   (0x014A, 0x0176, 2, 1, 0), (0x0178, 0x0178, 1, 0, 121), (0x0179, 0x017D, 2, 1, 0),
   (0x017F, 0x017F, 1, 0, 268), (0x0181, 0x0181, 1, 210, 0), (0x0182, 0x0184, 2, 1, 0),
   (0x0186, 0x0186, 1, 206, 0), (0x0187, 0x0187, 1, 1, 0), (0x0189, 0x018A, 1, 205, 0),
   (0x018B, 0x018B, 1, 1, 0), (0x018E, 0x018E, 1, 79, 0), (0x018F, 0x018F, 1, 202, 0),
   (0x0190, 0x0190, 1, 203, 0), (0x0191, 0x0191, 1, 1, 0), (0x0193, 0x0193, 1, 205, 0),
   (0x0194, 0x0194, 1, 207, 0), (0x0196, 0x0196, 1, 211, 0), (0x0197, 0x0197, 1, 209, 0),
   (0x0198, 0x0198, 1, 1, 0), (0x019C, 0x019C, 1, 211, 0), (0x019D, 0x019D, 1, 213, 0),
   (0x019F, 0x019F, 1, 214, 0), (0x01A0, 0x01A4, 2, 1, 0), (0x01A6, 0x01A6, 1, 218, 0),
   (0x01A7, 0x01A7, 1, 1, 0), (0x01A9, 0x01A9, 1, 218, 0), (0x01AC, 0x01AC, 1, 1, 0),
   (0x01AE, 0x01AE, 1, 218, 0), (0x01AF, 0x01AF, 1, 1, 0), (0x01B1, 0x01B2, 1, 217, 0),
   (0x01B3, 0x01B5, 2, 1, 0), (0x01B7, 0x01B7, 1, 219, 0), (0x01B8, 0x01B8, 1, 1, 0),
   (0x01BC, 0x01BC, 1, 1, 0), (0x01C4, 0x01C4, 1, 2, 0), (0x01C5, 0x01C5, 1, 1, 0),
   (0x01C7, 0x01C7, 1, 2, 0), (0x01C8, 0x01C8, 1, 1, 0), (0x01CA, 0x01CA, 1, 2, 0),
   (0x01CB, 0x01DB, 2, 1, 0), (0x01DE, 0x01EE, 2, 1, 0), (0x01F1, 0x01F1, 1, 2, 0),
   (0x01F2, 0x01F4, 2, 1, 0), (0x01F6, 0x01F6, 1, 0, 97), (0x01F7, 0x01F7, 1, 0, 56),
   (0x01F8, 0x021E, 2, 1, 0), (0x0220, 0x0220, 1, 0, 130), (0x0222, 0x0232, 2, 1, 0),
   (0x023A, 0x023A, 1, 10795, 0), (0x023B, 0x023B, 1, 1, 0), (0x023D, 0x023D, 1, 0, 163),
   (0x023E, 0x023E, 1, 10792, 0), (0x0241, 0x0241, 1, 1, 0), (0x0243, 0x0243, 1, 0, 195),
   (0x0244, 0x0244, 1, 69, 0), (0x0245, 0x0245, 1, 71, 0), (0x0246, 0x024E, 2, 1, 0),
   (0x0345, 0x0345, 1, 116, 0), (0x0370, 0x0372, 2, 1, 0), (0x0376, 0x0376, 1, 1, 0),
   (0x037F, 0x037F, 1, 116, 0), (0x0386, 0x0386, 1, 38, 0), (0x0388, 0x038A, 1, 37, 0),
   (0x038C, 0x038C, 1, 64, 0), (0x038E, 0x038F, 1, 63, 0), (0x0391, 0x03A1, 1, 32, 0),
   (0x03A3, 0x03AB, 1, 32, 0), (0x03C2, 0x03C2, 1, 1, 0), (0x03CF, 0x03CF, 1, 8, 0),
   (0x03D0, 0x03D0, 1, 0, 30), (0x03D1, 0x03D1, 1, 0, 25), (0x03D5, 0x03D5, 1, 0, 15),
   (0x03D6, 0x03D6, 1, 0, 22), (0x03D8, 0x03EE, 2, 1, 0), (0x03F0, 0x03F0, 1, 0, 54),
   (0x03F1, 0x03F1, 1, 0, 48), (0x03F4, 0x03F4, 1, 0, 60), (0x03F5, 0x03F5, 1, 0, 64),
   (0x03F7, 0x03F7, 1, 1, 0), (0x03F9, 0x03F9, 1, 0, 7), (0x03FA, 0x03FA, 1, 1, 0),
   (0x03FD, 0x03FF, 1, 0, 130), (0x0400, 0x040F, 1, 80, 0), (0x0410, 0x042F, 1, 32, 0),
   (0x0460, 0x0480, 2, 1, 0), (0x048A, 0x04BE, 2, 1, 0), (0x04C0, 0x04C0, 1, 15, 0),
   (0x04C1, 0x04CD, 2, 1, 0), (0x04D0, 0x052E, 2, 1, 0), (0x0531, 0x0556, 1, 48, 0),
   (0x10A0, 0x10C5, 1, 7264, 0), (0x10C7, 0x10C7, 1, 7264, 0), (0x10CD, 0x10CD, 1, 7264, 0),
   (0x13F8, 0x13FD, 1, 0, 8), (0x1C80, 0x1C80, 1, 0, 6222), (0x1C81, 0x1C81, 1, 0, 6221),
   (0x1C82, 0x1C82, 1, 0, 6212), (0x1C83, 0x1C84, 1, 0, 6210), (0x1C85, 0x1C85, 1, 0, 6211),
   (0x1C86, 0x1C86, 1, 0, 6204), (0x1C87, 0x1C87, 1, 0, 6180), (0x1C88, 0x1C88, 1, 35267, 0),
   (0x1C90, 0x1CBA, 1, 0, 3008), (0x1CBD, 0x1CBF, 1, 0, 3008), (0x1E00, 0x1E94, 2, 1, 0),
   (0x1E9B, 0x1E9B, 1, 0, 58), (0x1E9E, 0x1E9E, 1, 0, 7615), (0x1EA0, 0x1EFE, 2, 1, 0),
   (0x1F08, 0x1F0F, 1, 0, 8), (0x1F18, 0x1F1D, 1, 0, 8), (0x1F28, 0x1F2F, 1, 0, 8),
   (0x1F38, 0x1F3F, 1, 0, 8), (0x1F48, 0x1F4D, 1, 0, 8), (0x1F59, 0x1F5F, 2, 0, 8),
   (0x1F68, 0x1F6F, 1, 0, 8), (0x1F88, 0x1F8F, 1, 0, 8), (0x1F98, 0x1F9F, 1, 0, 8),
   (0x1FA8, 0x1FAF, 1, 0, 8), (0x1FB8, 0x1FB9, 1, 0, 8), (0x1FBA, 0x1FBB, 1, 0, 74),
   (0x1FBC, 0x1FBC, 1, 0, 9), (0x1FBE, 0x1FBE, 1, 0, 7173), (0x1FC8, 0x1FCB, 1, 0, 86),
   (0x1FCC, 0x1FCC, 1, 0, 9), (0x1FD8, 0x1FD9, 1, 0, 8), (0x1FDA, 0x1FDB, 1, 0, 100),
   (0x1FE8, 0x1FE9, 1, 0, 8), (0x1FEA, 0x1FEB, 1, 0, 112), (0x1FEC, 0x1FEC, 1, 0, 7),
   (0x1FF8, 0x1FF9, 1, 0, 128), (0x1FFA, 0x1FFB, 1, 0, 126), (0x1FFC, 0x1FFC, 1, 0, 9),
   (0x2126, 0x2126, 1, 0, 7517), (0x212A, 0x212A, 1, 0, 8383), (0x212B, 0x212B, 1, 0, 8262),
   (0x2132, 0x2132, 1, 28, 0), (0x2160, 0x216F, 1, 16, 0), (0x2183, 0x2183, 1, 1, 0),
   (0x24B6, 0x24CF, 1, 26, 0), (0x2C00, 0x2C2F, 1, 48, 0), (0x2C60, 0x2C60, 1, 1, 0),
   (0x2C62, 0x2C62, 1, 0, 10743), (0x2C63, 0x2C63, 1, 0, 3814), (0x2C64, 0x2C64, 1, 0, 10727),
   (0x2C67, 0x2C6B, 2, 1, 0), (0x2C6D, 0x2C6D, 1, 0, 10780), (0x2C6E, 0x2C6E, 1, 0, 10749),
   (0x2C6F, 0x2C6F, 1, 0, 10783), (0x2C70, 0x2C70, 1, 0, 10782), (0x2C72, 0x2C72, 1, 1, 0),
   (0x2C75, 0x2C75, 1, 1, 0), (0x2C7E, 0x2C7F, 1, 0, 10815), (0x2C80, 0x2CE2, 2, 1, 0),
   (0x2CEB, 0x2CED, 2, 1, 0), (0x2CF2, 0x2CF2, 1, 1, 0), (0xA640, 0xA66C, 2, 1, 0),
   (0xA680, 0xA69A, 2, 1, 0), (0xA722, 0xA72E, 2, 1, 0), (0xA732, 0xA76E, 2, 1, 0),
   (0xA779, 0xA77B, 2, 1, 0), (0xA77D, 0xA77D, 1, 0, 35332), (0xA77E, 0xA786, 2, 1, 0),
   (0xA78B, 0xA78B, 1, 1, 0), (0xA78D, 0xA78D, 1, 0, 42280), (0xA790, 0xA792, 2, 1, 0),
   (0xA796, 0xA7A8, 2, 1, 0), (0xA7AA, 0xA7AA, 1, 0, 42308), (0xA7AB, 0xA7AB, 1, 0, 42319),
   (0xA7AC, 0xA7AC, 1, 0, 42315), (0xA7AD, 0xA7AD, 1, 0, 42305), (0xA7AE, 0xA7AE, 1, 0, 42308),
   (0xA7B0, 0xA7B0, 1, 0, 42258), (0xA7B1, 0xA7B1, 1, 0, 42282), (0xA7B2, 0xA7B2, 1, 0, 42261),
   (0xA7B3, 0xA7B3, 1, 928, 0), (0xA7B4, 0xA7C2, 2, 1, 0), (0xA7C4, 0xA7C4, 1, 0, 48),
   (0xA7C5, 0xA7C5, 1, 0, 42307), (0xA7C6, 0xA7C6, 1, 0, 35384), (0xA7C7, 0xA7C9, 2, 1, 0),
   (0xA7D0, 0xA7D0, 1, 1, 0), (0xA7D6, 0xA7D8, 2, 1, 0), (0xA7F5, 0xA7F5, 1, 1, 0),
   (0xAB70, 0xABBF, 1, 0, 38864), (0xFF21, 0xFF3A, 1, 32, 0), (0x10400, 0x10427, 1, 40, 0),
   (0x104B0, 0x104D3, 1, 40, 0), (0x10570, 0x1057A, 1, 39, 0), (0x1057C, 0x1058A, 1, 39, 0),
   (0x1058C, 0x10592, 1, 39, 0), (0x10594, 0x10595, 1, 39, 0), (0x10C80, 0x10CB2, 1, 64, 0),
   (0x118A0, 0x118BF, 1, 32, 0), (0x16E40, 0x16E5F, 1, 32, 0), (0x1E900, 0x1E921, 1, 34, 0)]

/-- The representative of a code point under simple case folding: the small
letter for an ASCII capital, the target of its row in `caseFoldRows` for a code
point outside ASCII that has one, the code point itself otherwise.  Two code
points lie in the same orbit of `unicode.SimpleFold` exactly when they have the
same representative (so `K`, `k` and the Kelvin sign fold together, and the
dotted capital I and the dotless small i fold to themselves only). -/
def foldRune (r : Nat) : Nat :=
  if r < 128 then
    if 65 ≤ r ∧ r ≤ 90 then r + 32 else r
  else
    match caseFoldRows.find? (fun row => row.1 ≤ r && r ≤ row.2.1 &&
        (r - row.1) % row.2.2.1 == 0) with
    | some row => r + row.2.2.2.1 - row.2.2.2.2
    | none => r

/-- Go `strings.EqualFold`: the two strings have the same number of runes, and
the runes at every position are equal under simple Unicode case folding. -/
def equalFold (s t : String) : Bool :=
  s.data.map (fun c => foldRune c.toNat) == t.data.map (fun c => foldRune c.toNat)

/-! ## Errors, types and values -/

/-- Go `error` values: the three sentinels of `errors.go`, the errors the
package builds with `fmt.Errorf`, and the errors of user supplied functions. -/
inductive Error where
  | ErrNotPointer
  | ErrNotStruct
  | ErrNotSlice
  | errorf (msg : String)
  | user (msg : String)
  deriving DecidableEq, Repr

/-- The part of `reflect.StructField` the code reads: the field name, whether
the field is exported (only then is the field value settable), and the struct
tag as the key/value pairs that `Tag.Get` looks up. -/
structure StructField where
  name : String
  exported : Bool
  tag : List (String × String)
  deriving DecidableEq, Repr

/-- Go `reflect.StructTag.Get`: the value of the first pair with the key, the
empty string when there is none. -/
def StructField.tagGet (f : StructField) (key : String) : String :=
  (f.tag.lookup key).getD ""

/-- A record type as seen through `reflect.Type`: its identity and its fields
in declaration order. -/
structure StructType where
  name : String
  fields : List StructField
  deriving DecidableEq, Repr

/-- Go values as `reflect` sees them.  Strings, signed and unsigned integers of
every width (also of named types) are the first three constructors; `other`
is a value of any further kind (bool, float, map, interface, ...), with its
type name and its `%v` rendering; `nilPtr` is the nil pointer. -/
inductive Value where
  | str (s : String)
  | int (i : Int)
  | uint (n : Nat)
  | other (type : String) (repr : String)
  | struct (rt : StructType) (fields : List Value)
  | nilPtr
  | ptr (elem : Value)
  | slice (elems : List Value)
  deriving Repr

/-- The test `Kind() == reflect.Struct`. -/
def Value.isStruct : Value → Bool
  | .struct _ _ => true
  | _ => false

/-- The test `Kind() == reflect.Ptr`: the value is a pointer, nil or not. -/
def Value.isPtr : Value → Bool
  | .ptr _ => true
  | .nilPtr => true
  | _ => false

/-- The test `Kind() == reflect.Slice`. -/
def Value.isSlice : Value → Bool
  | .slice _ => true
  | _ => false

/-- The loop of `translateStruct` does not descend into the value: it is not a
record, not a pointer to a record and not a sequence. -/
def Value.isLeaf : Value → Bool
  | .struct _ _ => false
  | .ptr e => !e.isStruct
  | .slice _ => false
  | _ => true

/-- A Go `map[string]string` that is not nil, as an association list. -/
abbrev GoMap := List (String × String)

/-- Reading of a map, `m[k]`: the zero value when the key is absent. -/
def GoMap.get (m : GoMap) (k : String) : String :=
  (m.lookup k).getD ""

/-- Assignment to a map, `m[k] = v`. -/
def mapSet {β : Type} (m : List (String × β)) (k : String) (v : β) : List (String × β) :=
  (k, v) :: m.filter (fun p => p.1 ≠ k)

/-- A registry `map[string]map[string]string`; a registered map may be nil. -/
abbrev Registry := List (String × Option GoMap)

/-- Reading of a registry, `r[name]`: nil when the name is absent. -/
def Registry.get (r : Registry) (name : String) : Option GoMap :=
  (r.lookup name).join

/-! ## Translators and managers -/

/-- The implementations of the `Translator` interface: the default enum
translator, the closures built by `createDBTranslator`,
`createDictTableTranslator` and `createDictTableTwoTranslator` (with the
values they capture), and a user supplied translator. -/
inductive Translator where
  | enum
  | db (table keyField valueField : String)
  | dictTable (dictType : String)
  | dictTableTwo (dictTypeCode : String)
  | custom (f : Value → String → String → Except Error String)

/-- Go `fieldConfig`; a nil `translator` is `none`. -/
structure fieldConfig where
  fieldIndex : Nat
  sourceField : String
  targetField : String
  translatorTag : String
  translator : Option Translator

/-- Go `structConfig`: the plan of one record type. -/
structure structConfig where
  fields : List fieldConfig

/-- Go `UnWrapper`: `none` stands for a nil payload. -/
abbrev UnWrapper := Value → Except Error (Option Value)

/-- Go `DictManager`.  A translator registered under a tag may be nil. -/
structure DictManager where
  dicts : Registry
  translators : List (String × Option Translator)
  unwrappers : List UnWrapper
  configCache : List (StructType × structConfig)

/-- Go `dbTranslatorManager`; `translator` is `none` until a query function is
registered. -/
structure dbTranslatorManager where
  translator : Option (String → String → String → Value → Except Error String)
  cache : GoMap
  enabled : Bool

/-- Go `dictTableManager`. -/
structure dictTableManager where
  translator : Option (String → String → Except Error String)
  cache : GoMap
  enabled : Bool

/-- Go `dictTableTwoManager`. -/
structure dictTableTwoManager where
  translator : Option (String → String → Except Error String)
  cache : GoMap
  enabled : Bool

/-- One invocation of a user supplied function. -/
inductive Event where
  | dbQuery (table keyField valueField : String) (key : Value)
  | dictTableQuery (dictType dictKey : String)
  | dictTableTwoQuery (dictTypeCode dictKey : String)
  | custom (value : Value) (fieldName tagValue : String)

/-- The package level variables other than the default manager:
`defaultEnumTranslator.enumMap`, `defaultDBTranslatorManager`,
`defaultDictTableManager`, `defaultDictTableTwoManager`; `trace` records the
invocations of user supplied functions, oldest first. -/
structure Env where
  enumMap : Registry
  db : dbTranslatorManager
  dictTable : dictTableManager
  dictTableTwo : dictTableTwoManager
  trace : List Event

/-- A manager together with the package level state it works on. -/
structure World where
  dm : DictManager
  env : Env

/-- The package state at start-up: empty registries and caches, caching
enabled, no query function registered. -/
def Env.init : Env :=
  { enumMap := [], db := ⟨none, [], true⟩, dictTable := ⟨none, [], true⟩,
    dictTableTwo := ⟨none, [], true⟩, trace := [] }

/-- A fresh manager, as `defaultManager` is at start-up. -/
def DictManager.init : DictManager :=
  { dicts := [], translators := [], unwrappers := [], configCache := [] }

/-- The world at start-up. -/
def World.init : World := ⟨DictManager.init, Env.init⟩

/-! ## Formatting -/

mutual
/-- Go `fmt.Sprintf("%v", value)`.  Strings and integers are rendered as Go
renders them; for composite values the rendering follows the shape Go prints
(the address printed for a pointer that is not at top level is not modelled). -/
def fmtV : Value → String
  | .str s => s
  | .int i => toString i
  | .uint n => toString n
  | .other _ r => r
  | .struct _ fs => "\x7b" ++ fmtVs fs ++ "\x7d"
  | .nilPtr => "<nil>"
  | .ptr e => "&" ++ fmtV e
  | .slice es => "[" ++ fmtVs es ++ "]"
/-- The elements of a composite value, separated by blanks. -/
def fmtVs : List Value → String
  | [] => ""
  | [v] => fmtV v
  | v :: vs => fmtV v ++ " " ++ fmtVs vs
end

/-- Go `fmt.Sprintf("%T", value)`, up to the element types of pointers and
slices, which the value tree does not record when they are nil or empty. -/
def fmtT : Value → String
  | .str _ => "string"
  | .int _ => "int64"
  | .uint _ => "uint64"
  | .other t _ => t
  | .struct rt _ => rt.name
  | .nilPtr => "*"
  | .ptr e => "*" ++ fmtT e
  | .slice _ => "[]"

/-! ## `db_parser.go` -/

/-- The loop body of the explicit form in `parseDBTag`: one comma separated
part updates the triple `(table, keyField, valueField)`. -/
def parseDBPart (acc : String × String × String) (part : String) : String × String × String :=
  let part := trimSpace part
  if hasPrefix part "table=" then (trimPrefix part "table=", acc.2.1, acc.2.2)
  else if hasPrefix part "key=" then (acc.1, trimPrefix part "key=", acc.2.2)
  else if hasPrefix part "value=" then (acc.1, acc.2.1, trimPrefix part "value=")
  else acc

/-- The triple `(table, keyField, valueField)` that `parseDBTag` extracts from
a tag before it checks the triple for completeness. -/
def parseDBTriple (tag : String) : String × String × String :=
  if contains tag ':' && !contains tag '=' then
    match split tag ':' with
    | [a, b, c] => (trimSpace a, trimSpace b, trimSpace c)
    | _ => ("", "", "")
  else
    (split tag ',').foldl parseDBPart ("", "", "")

/-- Go `parseDBTag`: `none` is the nil translator. -/
def parseDBTag (tag : String) : Option Translator :=
  if tag = "" then none
  else
    let t := parseDBTriple tag
    if t.1 = "" || t.2.1 = "" || t.2.2 = "" then none
    else some (Translator.db t.1 t.2.1 t.2.2)

/-! ## `enum.go`, `db_translator.go`, `dict_table.go`, `dict_table_two.go` -/

/-- Go `RegisterEnum`. -/
def RegisterEnum (env : Env) (name : String) (enum : Option GoMap) : Env :=
  { env with enumMap := mapSet env.enumMap name enum }

/-- Go `GetEnum`. -/
def GetEnum (env : Env) (name : String) : Option GoMap :=
  env.enumMap.get name

/-- Go `EnumTranslator.Translate` on the default enum translator.  The typed
cases and the reflective default case of the type switch agree on strings and
integers, whatever their width or named type. -/
def EnumTranslator.Translate (enumMap : Registry) (value : Value) (_fieldName tagValue : String) :
    Except Error String :=
  match enumMap.get tagValue with
  | none => .error (.errorf ("enum '" ++ tagValue ++ "' not found"))
  | some enum =>
    match value with
    | .str v => .ok (enum.get v)
    | .int v => .ok (enum.get (toString v))
    | .uint v => .ok (enum.get (toString v))
    | v => .error (.errorf ("unsupported enum value type: " ++ fmtT v))

/-- Go `RegisterDBTranslator`. -/
def RegisterDBTranslator (env : Env)
    (translator : Option (String → String → String → Value → Except Error String)) : Env :=
  { env with db := { env.db with translator := translator } }

/-- Go `EnableDBCache`. -/
def EnableDBCache (env : Env) (enabled : Bool) : Env :=
  { env with db := { env.db with enabled := enabled } }

/-- Go `ClearDBCache`. -/
def ClearDBCache (env : Env) : Env :=
  { env with db := { env.db with cache := [] } }

/-- The closure returned by Go `createDBTranslator (table, keyField, valueField)`. -/
def createDBTranslator (table keyField valueField : String) (env : Env) (value : Value)
    (_fieldName _tagValue : String) : Env × Except Error String :=
  let manager := env.db
  let cacheKey := table ++ ":" ++ keyField ++ ":" ++ valueField ++ ":" ++ fmtV value
  match (if manager.enabled then manager.cache.lookup cacheKey else none) with
  | some cached => (env, .ok cached)
  | none =>
    match manager.translator with
    | none => (env, .error (.errorf "database translator not registered"))
    | some query =>
      let env1 := { env with trace := env.trace ++ [Event.dbQuery table keyField valueField value] }
      match query table keyField valueField value with
      | .error err => (env1, .error err)
      | .ok result =>
        if manager.enabled && result ≠ "" then
          ({ env1 with db := { manager with cache := mapSet manager.cache cacheKey result } },
            .ok result)
        else (env1, .ok result)

/-- Go `RegisterDictTableTranslator`. -/
def RegisterDictTableTranslator (env : Env)
    (translator : Option (String → String → Except Error String)) : Env :=
  { env with dictTable := { env.dictTable with translator := translator } }

/-- Go `EnableDictTableCache`. -/
def EnableDictTableCache (env : Env) (enabled : Bool) : Env :=
  { env with dictTable := { env.dictTable with enabled := enabled } }

/-- Go `ClearDictTableCache`. -/
def ClearDictTableCache (env : Env) : Env :=
  { env with dictTable := { env.dictTable with cache := [] } }

/-- The closure returned by Go `createDictTableTranslator (dictType)`. -/
def createDictTableTranslator (dictType : String) (env : Env) (value : Value)
    (_fieldName _tagValue : String) : Env × Except Error String :=
  let manager := env.dictTable
  let dictKey := fmtV value
  let cacheKey := dictType ++ ":" ++ dictKey
  match (if manager.enabled then manager.cache.lookup cacheKey else none) with
  | some cached => (env, .ok cached)
  | none =>
    match manager.translator with
    | none => (env, .error (.errorf "dict table translator not registered"))
    | some query =>
      let env1 := { env with trace := env.trace ++ [Event.dictTableQuery dictType dictKey] }
      match query dictType dictKey with
      | .error err => (env1, .error err)
      | .ok result =>
        if manager.enabled && result ≠ "" then
          ({ env1 with dictTable := { manager with cache := mapSet manager.cache cacheKey result } },
            .ok result)
        else (env1, .ok result)

/-- Go `RegisterDictTableTwoTranslator`. -/
def RegisterDictTableTwoTranslator (env : Env)
    (translator : Option (String → String → Except Error String)) : Env :=
  { env with dictTableTwo := { env.dictTableTwo with translator := translator } }

/-- Go `EnableDictTableTwoCache`. -/
def EnableDictTableTwoCache (env : Env) (enabled : Bool) : Env :=
  { env with dictTableTwo := { env.dictTableTwo with enabled := enabled } }

/-- Go `ClearDictTableTwoCache`. -/
def ClearDictTableTwoCache (env : Env) : Env :=
  { env with dictTableTwo := { env.dictTableTwo with cache := [] } }

/-- The closure returned by Go `createDictTableTwoTranslator (dictTypeCode)`. -/
def createDictTableTwoTranslator (dictTypeCode : String) (env : Env) (value : Value)
    (_fieldName _tagValue : String) : Env × Except Error String :=
  let manager := env.dictTableTwo
  let dictKey := fmtV value
  let cacheKey := dictTypeCode ++ ":" ++ dictKey
  match (if manager.enabled then manager.cache.lookup cacheKey else none) with
  | some cached => (env, .ok cached)
  | none =>
    match manager.translator with
    | none => (env, .error (.errorf "dict table two translator not registered"))
    | some query =>
      let env1 := { env with trace := env.trace ++ [Event.dictTableTwoQuery dictTypeCode dictKey] }
      match query dictTypeCode dictKey with
      | .error err => (env1, .error err)
      | .ok result =>
        if manager.enabled && result ≠ "" then
          ({ env1 with
              dictTableTwo := { manager with cache := mapSet manager.cache cacheKey result } },
            .ok result)
        else (env1, .ok result)

/-- The method `Translate` of the `Translator` interface, dispatched on the
implementation.  It returns the package state after the call and the pair
`(string, error)` of the Go method. -/
def Translator.Translate (t : Translator) (env : Env) (value : Value)
    (fieldName tagValue : String) : Env × Except Error String :=
  match t with
  | .enum => (env, EnumTranslator.Translate env.enumMap value fieldName tagValue)
  | .db table keyField valueField =>
    createDBTranslator table keyField valueField env value fieldName tagValue
  | .dictTable dictType => createDictTableTranslator dictType env value fieldName tagValue
  | .dictTableTwo dictTypeCode =>
    createDictTableTwoTranslator dictTypeCode env value fieldName tagValue
  | .custom f =>
    ({ env with trace := env.trace ++ [Event.custom value fieldName tagValue] },
      f value fieldName tagValue)

/-! ## `dict.go` -/

/-- Go `RegisterDict` on a manager. -/
def RegisterDict (dm : DictManager) (name : String) (dict : Option GoMap) : DictManager :=
  { dm with dicts := mapSet dm.dicts name dict }

/-- Go `GetDict` on a manager. -/
def GetDict (dm : DictManager) (name : String) : Option GoMap :=
  dm.dicts.get name

/-- Go `RegisterTranslator` on a manager. -/
def RegisterTranslator (dm : DictManager) (tagName : String) (translator : Option Translator) :
    DictManager :=
  { dm with translators := mapSet dm.translators tagName translator }

/-- Go `RegisterUnWrapper` on a manager. -/
def RegisterUnWrapper (dm : DictManager) (unwrapper : UnWrapper) : DictManager :=
  { dm with unwrappers := dm.unwrappers ++ [unwrapper] }

/-- The body of the loop of `getOrCreateConfig` for the field with index `i`:
the `fieldConfig` it builds before it decides whether to append it. -/
def planField (translators : List (String × Option Translator)) (i : Nat)
    (fieldType : StructField) : fieldConfig :=
  let dictTag := fieldType.tagGet "dict"
  let dictTableTag := fieldType.tagGet "dictTable"
  let dictTableTwoTag := fieldType.tagGet "dictTableTwo"
  let enumTag := fieldType.tagGet "enum"
  let translateTag := fieldType.tagGet "translate"
  let dbTag := fieldType.tagGet "db"
  let dictFieldTag := fieldType.tagGet "dictField"
  let fieldCfg : fieldConfig :=
    { fieldIndex := i, sourceField := "", targetField := dictFieldTag, translatorTag := "",
      translator := none }
  if translateTag ≠ "" then
    let tagName := (split translateTag ',').headD ""
    match translators.lookup tagName with
    | some translator => { fieldCfg with translator := translator, translatorTag := translateTag }
    | none => fieldCfg
  else if dbTag ≠ "" then
    match parseDBTag dbTag with
    | some translator => { fieldCfg with translator := some translator, translatorTag := dbTag }
    | none => fieldCfg
  else if dictTableTwoTag ≠ "" then
    { fieldCfg with translator := some (Translator.dictTableTwo dictTableTwoTag),
                    translatorTag := dictTableTwoTag }
  else if dictTableTag ≠ "" then
    { fieldCfg with translator := some (Translator.dictTable dictTableTag),
                    translatorTag := dictTableTag }
  else if enumTag ≠ "" then
    { fieldCfg with translator := some Translator.enum, translatorTag := enumTag }
  else if dictTag ≠ "" then
    { fieldCfg with translatorTag := dictTag }
  else fieldCfg

/-- The loop of `getOrCreateConfig` over the fields from index `i` on. -/
def buildFields (translators : List (String × Option Translator)) :
    Nat → List StructField → List fieldConfig
  | _, [] => []
  | i, fieldType :: rest =>
    let fieldCfg := planField translators i fieldType
    if fieldCfg.translator.isSome || fieldCfg.translatorTag ≠ "" then
      fieldCfg :: buildFields translators (i + 1) rest
    else buildFields translators (i + 1) rest

/-- Go `getOrCreateConfig`: the cached plan of the type, or a new plan that is
stored in the cache (the locks are not modelled). -/
def getOrCreateConfig (dm : DictManager) (rt : StructType) : DictManager × structConfig :=
  match dm.configCache.lookup rt with
  | some config => (dm, config)
  | none =>
    let config : structConfig := ⟨buildFields dm.translators 0 rt.fields⟩
    ({ dm with configCache := (rt, config) :: dm.configCache }, config)

/-- The map `fieldConfigMap` of `translateStruct`, read at index `i`: the last
plan entry with that field index. -/
def fieldConfigMap (config : structConfig) (i : Nat) : Option fieldConfig :=
  config.fields.reverse.find? (fun c => c.fieldIndex = i)

/-- The loop shared by `translateField` and `translateFieldWithTranslator`
that looks for the target field: the first field whose name equals the target
name, exactly or under case folding, and that is a settable string receives
the label; the loop then stops. -/
def setTarget (target label : String) : List StructField → List Value → List Value
  | structField :: sfs, v :: vs =>
    if structField.name = target || equalFold structField.name target then
      match structField.exported, v with
      | true, .str _ => Value.str label :: vs
      | _, _ => v :: setTarget target label sfs vs
    else v :: setTarget target label sfs vs
  | _, vs => vs

/-- Go `translateField` (the legacy in-memory `dict` tag): the field values of
the enclosing record after the call.  The Go function always returns a nil
error. -/
def translateField (dm : DictManager) (field : Value) (fieldType : StructField)
    (dictTag : String) (rt : StructType) (structValue : List Value) : List Value :=
  let dictName := (split dictTag ',').headD ""
  match dm.dicts.get dictName with
  | none => structValue
  | some dict =>
    match field with
    | .str sourceValue =>
      if sourceValue = "" then structValue
      else
        let translatedValue := dict.get sourceValue
        if translatedValue = "" then structValue
        else
          let dictFieldTag := fieldType.tagGet "dictField"
          if dictFieldTag = "" then structValue
          else setTarget dictFieldTag translatedValue rt.fields structValue
    | _ => structValue

/-- Go `translateFieldWithTranslator`: the package state, the field values of
the enclosing record and the error after the call. -/
def translateFieldWithTranslator (env : Env) (field : Value) (fieldType : StructField)
    (translator : Translator) (fieldCfg : fieldConfig) (rt : StructType)
    (structValue : List Value) : Env × List Value × Option Error :=
  let sourceValue := field
  match translator.Translate env sourceValue fieldType.name fieldCfg.translatorTag with
  | (env1, .error err) => (env1, structValue, some err)
  | (env1, .ok translatedValue) =>
    if translatedValue = "" then (env1, structValue, none)
    else if fieldCfg.targetField = "" then (env1, structValue, none)
    else (env1, setTarget fieldCfg.targetField translatedValue rt.fields structValue, none)

/-- The branch of the loop body of `translateStruct` that is taken when field
`i` has the plan entry `fieldCfg`: a translator is invoked if the entry has one,
else the legacy `dict` tag is resolved. -/
def translateEntry (w : World) (fieldCfg : fieldConfig) (i : Nat) (fieldType : StructField)
    (rt : StructType) (structValue : List Value) : World × List Value × Option Error :=
  let field := structValue.getD i Value.nilPtr
  match fieldCfg.translator with
  | some translator =>
    let r := translateFieldWithTranslator w.env field fieldType translator fieldCfg rt structValue
    (⟨w.dm, r.1⟩, r.2.1, r.2.2)
  | none =>
    if fieldCfg.translatorTag ≠ "" then
      (w, translateField w.dm field fieldType fieldCfg.translatorTag rt structValue, none)
    else (w, structValue, none)

/-- The last step of the loop body of `translateStruct` for field `i`: the
translation tag of the field is resolved through its plan entry, if any. -/
def translateTagged (w : World) (config : structConfig) (i : Nat) (fieldType : StructField)
    (rt : StructType) (structValue : List Value) : World × List Value × Option Error :=
  match fieldConfigMap config i with
  | none => (w, structValue, none)
  | some fieldCfg => translateEntry w fieldCfg i fieldType rt structValue

mutual
/-- Go `translateStruct`: the world, the record and the error after the call.
The record is changed in place in Go; here the changed record is returned,
also when an error cuts the traversal short. -/
def translateStruct (w : World) : Value → World × Value × Option Error
  | .struct rt fs =>
    let c := getOrCreateConfig w.dm rt
    let r := translateFields rt c.2 0 fs ⟨c.1, w.env⟩ fs
    (r.1, Value.struct rt r.2.1, r.2.2)
  | v => (w, v, none)
/-- The loop of `translateStruct` from field index `i` on.  `cur` holds the
current values of all fields of the record.  The first argument lists the
fields still to visit as they were when the loop started: the nested value of
field `i` is read from it, which is the current value of that field, because
an assignment to a target field only ever replaces a string by a string and
only records, pointers and sequences are descended into. -/
def translateFields (rt : StructType) (config : structConfig) (i : Nat) :
    List Value → World → List Value → World × List Value × Option Error
  | [], w, cur => (w, cur, none)
  | v :: rest, w, cur =>
    match rt.fields[i]? with
    | none => (w, cur, none)
    | some fieldType =>
      if !fieldType.exported then translateFields rt config (i + 1) rest w cur
      else
        let n : World × List Value × Option Error :=
          if v.isStruct then
            let r := translateStruct w v
            (r.1, cur.set i r.2.1, r.2.2)
          else
            match v with
            | .ptr e =>
              if e.isStruct then
                let r := translateStruct w e
                (r.1, cur.set i (Value.ptr r.2.1), r.2.2)
              else (w, cur, none)
            | .slice es =>
              let r := translateSlice es w
              (r.1, cur.set i (Value.slice r.2.1), r.2.2)
            | _ => (w, cur, none)
        match n.2.2 with
        | some err => (n.1, n.2.1, some err)
        | none =>
          let t := translateTagged n.1 config i fieldType rt n.2.1
          match t.2.2 with
          | some err => (t.1, t.2.1, some err)
          | none => translateFields rt config (i + 1) rest t.1 t.2.1
/-- Go `translateSlice`: the world, the elements and the error after the call. -/
def translateSlice : List Value → World → World × List Value × Option Error
  | [], w => (w, [], none)
  | elem :: rest, w =>
    let r : World × Value × Option Error :=
      if elem.isStruct then translateStruct w elem
      else
        match elem with
        | .ptr e =>
          if e.isStruct then
            let r := translateStruct w e
            (r.1, Value.ptr r.2.1, r.2.2)
          else (w, elem, none)
        | _ => (w, elem, none)
    match r.2.2 with
    | some err => (r.1, r.2.1 :: rest, some err)
    | none =>
      let r2 := translateSlice rest r.1
      (r2.1, r.2.1 :: r2.2.1, r2.2.2)
end

/-- The first part of the loop body of `translateStruct` for field `i` with
value `v`: the descent into a nested record, a pointer to a record, or a
sequence.  It restates the corresponding part of `translateFields`. -/
def nestedStep (w : World) (cur : List Value) (i : Nat) (v : Value) :
    World × List Value × Option Error :=
  if v.isStruct then
    let r := translateStruct w v
    (r.1, cur.set i r.2.1, r.2.2)
  else
    match v with
    | .ptr e =>
      if e.isStruct then
        let r := translateStruct w e
        (r.1, cur.set i (Value.ptr r.2.1), r.2.2)
      else (w, cur, none)
    | .slice es =>
      let r := translateSlice es w
      (r.1, cur.set i (Value.slice r.2.1), r.2.2)
    | _ => (w, cur, none)

/-- The body of the loop of `translateSlice` for one element.  It restates the
corresponding part of `translateSlice`. -/
def elemStep (w : World) (elem : Value) : World × Value × Option Error :=
  if elem.isStruct then translateStruct w elem
  else
    match elem with
    | .ptr e =>
      if e.isStruct then
        let r := translateStruct w e
        (r.1, Value.ptr r.2.1, r.2.2)
      else (w, elem, none)
    | _ => (w, elem, none)

/-- Go `tryUnwrap`: the payload of the first unwrapper that returns a non-nil
payload and no error. -/
def tryUnwrap (dm : DictManager) (v : Value) : Option Value :=
  dm.unwrappers.findSome? (fun unwrapper =>
    match unwrapper v with
    | .ok (some result) => some result
    | _ => none)

/-- Go `DictManager.Translate`: the world, the (unwrapped) argument and the
error after the call. -/
def Translate (w : World) (v : Value) : World × Value × Option Error :=
  let v := (tryUnwrap w.dm v).getD v
  match v with
  | .ptr rv =>
    match rv with
    | .slice es =>
      let r := translateSlice es w
      (r.1, Value.ptr (Value.slice r.2.1), r.2.2)
    | .struct _ _ =>
      let r := translateStruct w rv
      (r.1, Value.ptr r.2.1, r.2.2)
    | _ => (w, v, some Error.ErrNotStruct)
  | .nilPtr => (w, v, some Error.ErrNotStruct)
  | _ => (w, v, some Error.ErrNotPointer)

/-! ## Predicates used in the statements -/

/-- A string has no leading and no trailing white space. -/
def NoOuterSpace (s : String) : Prop :=
  s.data.head?.map isSpace ≠ some true ∧ s.data.getLast?.map isSpace ≠ some true

instance (s : String) : Decidable (NoOuterSpace s) := by
  unfold NoOuterSpace; infer_instance

/-- A string contains none of the characters `:`, `=` and `,`. -/
def NoDelim (s : String) : Prop :=
  ':' ∉ s.data ∧ '=' ∉ s.data ∧ ',' ∉ s.data

instance (s : String) : Decidable (NoDelim s) := by
  unfold NoDelim; infer_instance

/-- The field carries none of the six translation tags. -/
def StructField.untagged (f : StructField) : Bool :=
  f.tagGet "translate" = "" && f.tagGet "db" = "" && f.tagGet "dictTableTwo" = "" &&
  f.tagGet "dictTable" = "" && f.tagGet "enum" = "" && f.tagGet "dict" = ""

/-- A flat record whose only translation-tagged field is field `i`: the
values fit the type, no field value is a record, a pointer to a record or a
sequence, field `i` is exported, and every other field is untagged. -/
def flatSingle (rt : StructType) (fs : List Value) (i : Nat) : Bool :=
  fs.length == rt.fields.length && fs.all Value.isLeaf &&
  rt.fields[i]?.any (fun f => f.exported) &&
  rt.fields.enum.all (fun p => p.1 == i || p.2.untagged)

/-- The name of a field matches a target name as the target search of
`translateField` tests it: exactly, or under case folding. -/
def nameMatches (f : StructField) (target : String) : Bool :=
  f.name = target || equalFold f.name target

/-- Field `j` of the record is what the target search for the name `target`
finds: a settable string field whose name matches, with no field of a matching
name declared before it. -/
def targetAt (rt : StructType) (fs : List Value) (target : String) (j : Nat) : Bool :=
  match rt.fields[j]?, fs[j]? with
  | some tf, some (Value.str _) =>
    tf.exported && nameMatches tf target &&
      (rt.fields.take j).all (fun f => !nameMatches f target)
  | _, _ => false

/-- Every plan cached for the type was built by `getOrCreateConfig` from the
fields of the type (with the translators registered at that time). -/
def PlanSound (dm : DictManager) (rt : StructType) : Prop :=
  ∀ cfg, dm.configCache.lookup rt = some cfg →
    ∃ trs, cfg.fields = buildFields trs 0 rt.fields

/-- The field carries the tags `dict:"n" dictField:"T"` and no translation tag
of higher priority. -/
def StructField.dictTagged (f : StructField) (n T : String) : Bool :=
  f.tagGet "translate" = "" && f.tagGet "db" = "" && f.tagGet "dictTableTwo" = "" &&
  f.tagGet "dictTable" = "" && f.tagGet "enum" = "" && f.tagGet "dict" = n &&
  f.tagGet "dictField" = T

/-- The record type of `TestTranslate`: `Sex` tagged `dict:"sex"
dictField:"SexName"`, and the target `SexName`. -/
def userType : StructType :=
  ⟨"User", [⟨"Sex", true, [("dict", "sex"), ("dictField", "SexName")]⟩, ⟨"SexName", true, []⟩]⟩

/-- A world in which the dictionary `sex` is registered with the entries of
`dict`. -/
def sexWorld (dict : GoMap) : World :=
  ⟨RegisterDict DictManager.init "sex" (some dict), Env.init⟩

/-- After parsing, one of table, key field and value field is missing or empty. -/
def dbTagIncomplete (tag : String) : Bool :=
  (parseDBTriple tag).1 = "" || (parseDBTriple tag).2.1 = "" || (parseDBTriple tag).2.2 = ""

/-- A tag in compact form whose number of colon separated parts is not three,
or one of whose parts is blank. -/
def compactMalformed (tag : String) : Bool :=
  (contains tag ':' && !contains tag '=') &&
    (decide ((split tag ':').length ≠ 3) || (split tag ':').any (fun p => trimSpace p = ""))

/-- A tag in explicit form that lacks a part `table=`, a part `key=` or a part
`value=`. -/
def explicitLacking (tag : String) : Bool :=
  !(contains tag ':' && !contains tag '=') &&
    (!(split tag ',').any (fun p => hasPrefix (trimSpace p) "table=") ||
     !(split tag ',').any (fun p => hasPrefix (trimSpace p) "key=") ||
     !(split tag ',').any (fun p => hasPrefix (trimSpace p) "value="))

/-- A record type with one field `ID` that carries the given `db` tag and the
target `Name`, as in `TestDBCache`. -/
def itemType (dbTag : String) : StructType :=
  ⟨"Item", [⟨"ID", true, [("db", dbTag), ("dictField", "Name")]⟩, ⟨"Name", true, []⟩]⟩

/-! ### A common view of the three database flavoured backends -/

/-- The translator is one of the closures of the backends `db`, `dictTable`
and `dictTableTwo`. -/
def Translator.isDBFlavoured : Translator → Bool
  | .db _ _ _ => true
  | .dictTable _ => true
  | .dictTableTwo _ => true
  | _ => false

/-- The cache key the backend computes for a source value. -/
def Translator.cacheKey : Translator → Value → String
  | .db table keyField valueField, value =>
    table ++ ":" ++ keyField ++ ":" ++ valueField ++ ":" ++ fmtV value
  | .dictTable dictType, value => dictType ++ ":" ++ fmtV value
  | .dictTableTwo dictTypeCode, value => dictTypeCode ++ ":" ++ fmtV value
  | _, _ => ""

/-- The result cache of the manager of the backend. -/
def Translator.cache : Translator → Env → GoMap
  | .db _ _ _, env => env.db.cache
  | .dictTable _, env => env.dictTable.cache
  | .dictTableTwo _, env => env.dictTableTwo.cache
  | _, _ => []

/-- The cache switch of the manager of the backend. -/
def Translator.cacheEnabled : Translator → Env → Bool
  | .db _ _ _, env => env.db.enabled
  | .dictTable _, env => env.dictTable.enabled
  | .dictTableTwo _, env => env.dictTableTwo.enabled
  | _, _ => false

/-- The result of the registered query function of the backend on a source
value; `none` when no query function is registered. -/
def Translator.query : Translator → Env → Value → Option (Except Error String)
  | .db table keyField valueField, env, value =>
    env.db.translator.map (fun q => q table keyField valueField value)
  | .dictTable dictType, env, value =>
    env.dictTable.translator.map (fun q => q dictType (fmtV value))
  | .dictTableTwo dictTypeCode, env, value =>
    env.dictTableTwo.translator.map (fun q => q dictTypeCode (fmtV value))
  | _, _, _ => none

/-- The trace entry of one invocation of the query function of the backend. -/
def Translator.queryEvent : Translator → Value → Event
  | .db table keyField valueField, value => Event.dbQuery table keyField valueField value
  | .dictTable dictType, value => Event.dictTableQuery dictType (fmtV value)
  | .dictTableTwo dictTypeCode, value => Event.dictTableTwoQuery dictTypeCode (fmtV value)
  | _, value => Event.custom value "" ""

/-- The message of the error of the backend when no query function is
registered. -/
def Translator.notRegistered : Translator → String
  | .db _ _ _ => "database translator not registered"
  | .dictTable _ => "dict table translator not registered"
  | .dictTableTwo _ => "dict table two translator not registered"
  | _ => ""

/-- The package state with an invocation appended to the trace. -/
def Env.log (env : Env) (e : Event) : Env :=
  { env with trace := env.trace ++ [e] }

/-- The package state with the result cache of the backend replaced. -/
def Translator.setCache : Translator → Env → GoMap → Env
  | .db _ _ _, env, c => { env with db := { env.db with cache := c } }
  | .dictTable _, env, c => { env with dictTable := { env.dictTable with cache := c } }
  | .dictTableTwo _, env, c => { env with dictTableTwo := { env.dictTableTwo with cache := c } }
  | _, env, _ => env

/-- The package state with the cache switch of the backend set, as
`EnableDBCache`, `EnableDictTableCache` and `EnableDictTableTwoCache` do. -/
def Translator.enableCache : Translator → Env → Bool → Env
  | .db _ _ _, env, b => EnableDBCache env b
  | .dictTable _, env, b => EnableDictTableCache env b
  | .dictTableTwo _, env, b => EnableDictTableTwoCache env b
  | _, env, _ => env

/-- The common shape of the three closures, in terms of the view above. -/
def backendTranslate (t : Translator) (env : Env) (value : Value) : Env × Except Error String :=
  match (if t.cacheEnabled env then (t.cache env).lookup (t.cacheKey value) else none) with
  | some cached => (env, .ok cached)
  | none =>
    match t.query env value with
    | none => (env, .error (.errorf t.notRegistered))
    | some (.error err) => (env.log (t.queryEvent value), .error err)
    | some (.ok result) =>
      if t.cacheEnabled env && result ≠ "" then
        (t.setCache (env.log (t.queryEvent value)) (mapSet (t.cache env) (t.cacheKey value) result),
          .ok result)
      else (env.log (t.queryEvent value), .ok result)

/-- The database flavoured translator that the plan binds to a field: the one
of its `db` tag if the tag is complete, else of its `dictTableTwo` tag, else of
its `dictTable` tag; none when the field has a `translate` tag. -/
def StructField.dbFlavoured (f : StructField) : Option Translator :=
  if f.tagGet "translate" ≠ "" then none
  else if f.tagGet "db" ≠ "" then parseDBTag (f.tagGet "db")
  else if f.tagGet "dictTableTwo" ≠ "" then some (Translator.dictTableTwo (f.tagGet "dictTableTwo"))
  else if f.tagGet "dictTable" ≠ "" then some (Translator.dictTable (f.tagGet "dictTable"))
  else none

/-- A flat record of type `rt` whose only tagged field is field `i` with
field description `ft` and value `kv`, and in which the target search for the
name in the `dictField` tag of that field finds field `j`. -/
def BackendRecord (rt : StructType) (fs : List Value) (i j : Nat) (ft : StructField)
    (kv : Value) : Prop :=
  flatSingle rt fs i = true ∧ rt.fields[i]? = some ft ∧ fs[i]? = some kv ∧
  ft.tagGet "dictField" ≠ "" ∧ targetAt rt fs (ft.tagGet "dictField") j = true

/-- A world without dictionaries in which the `db` backend has the query
function of `TestDBCache`, which answers every query with the same label. -/
def dbWorld (label : String) : World :=
  ⟨DictManager.init, RegisterDBTranslator Env.init (some (fun _ _ _ _ => Except.ok label))⟩

/-- A world in which the `db` backend holds one cached label, has caching
switched off, and has a query function that answers every query with another
label. -/
def dbCachedOffWorld (cacheKey label : String) : World :=
  ⟨DictManager.init,
   { Env.init with db := ⟨some (fun _ _ _ _ => Except.ok "新结果"), [(cacheKey, label)], false⟩ }⟩

/-- Every cached plan of the manager was built by `getOrCreateConfig`. -/
def CacheSound (dm : DictManager) : Prop :=
  ∀ rt, PlanSound dm rt

/-- The fields `Status` (tagged `dict:"n" dictField:"StatusName"`) and
`StatusName` that every level of the records of `TestNestedDepth` has. -/
def levelFields (n : String) : List StructField :=
  [⟨"Status", true, [("dict", n), ("dictField", "StatusName")]⟩, ⟨"StatusName", true, []⟩]

/-- The record types of `TestNestedDepth`: `Level1` has the two fields of
`levelFields`, and the type of depth `d + 2` has in addition a field holding
a record of the type of depth `d + 1`. -/
def levelType (n : String) : Nat → StructType
  | 0 => ⟨"Level1", levelFields n⟩
  | d + 1 =>
    ⟨"Level" ++ toString (d + 2), levelFields n ++ [⟨"L" ++ toString (d + 1), true, []⟩]⟩

/-- A record nested `ks.length + 1` levels deep: the outermost level holds the
key `k`, the levels below hold the keys `ks`, outermost first; the field
`StatusName` of the level with key `x` holds `name x`. -/
def nested (n : String) (name : String → String) : String → List String → Value
  | k, [] => Value.struct (levelType n 0) [Value.str k, Value.str (name k)]
  | k, k2 :: ks =>
    Value.struct (levelType n (ks.length + 1))
      [Value.str k, Value.str (name k), nested n name k2 ks]

/-- A world in which the dictionary `status` is registered with the entries
of `dict`. -/
def statusWorld (dict : GoMap) : World :=
  ⟨RegisterDict DictManager.init "status" (some dict), Env.init⟩

/-- Every plan cached for the type equals the plan that `getOrCreateConfig`
builds from the translators registered now. -/
def PlanCurrent (dm : DictManager) (rt : StructType) : Prop :=
  ∀ cfg, dm.configCache.lookup rt = some cfg →
    cfg.fields = buildFields dm.translators 0 rt.fields

/-- Every cached plan of the manager is current. -/
def CacheCurrent (dm : DictManager) : Prop :=
  ∀ rt, PlanCurrent dm rt

/-- The label the legacy `dict` tag finds for a field value, as `translateField`
computes it before it looks for the target: empty when the dictionary is not
registered, the field is not a string, the field is empty, or the key is
absent. -/
def dictLabel (dm : DictManager) (dictTag : String) (field : Value) : String :=
  match dm.dicts.get ((split dictTag ',').headD "") with
  | none => ""
  | some dict =>
    match field with
    | .str sourceValue => if sourceValue = "" then "" else dict.get sourceValue
    | _ => ""

/-- The lookup that the loop body of `translateStruct` performs for a field
with the plan entry `fieldCfg`: the call of the translator of the entry, or the
lookup of the legacy `dict` tag when the entry has no translator. -/
def lookupLabel (w : World) (fieldCfg : fieldConfig) (fieldType : StructField) (field : Value) :
    Env × Except Error String :=
  match fieldCfg.translator with
  | some translator => translator.Translate w.env field fieldType.name fieldCfg.translatorTag
  | none => (w.env, Except.ok (dictLabel w.dm fieldCfg.translatorTag field))

/-- The name of the target field that the loop body uses for a plan entry:
`targetField` of the entry on the translator path, the `dictField` tag of the
field on the legacy path (the two agree for every plan that was built). -/
def targetName (fieldCfg : fieldConfig) (fieldType : StructField) : String :=
  match fieldCfg.translator with
  | some _ => fieldCfg.targetField
  | none => fieldType.tagGet "dictField"

/-- The test `Kind() == reflect.String`. -/
def Value.isString : Value → Bool
  | .str _ => true
  | _ => false

/-- The field with description `sf` and value `v` is one the target search for
`target` assigns to: its name matches exactly or under case folding, it is
exported, and it holds a string. -/
def writableMatch (target : String) (sf : StructField) (v : Value) : Bool :=
  nameMatches sf target && sf.exported && v.isString

/-- The index of the field that the target search assigns to: the first field
whose name matches the target name, exactly or under case folding, and that
is an exported string field. -/
def firstWritable (target : String) : List StructField → List Value → Option Nat
  | structField :: sfs, v :: vs =>
    if writableMatch target structField v then some 0
    else (firstWritable target sfs vs).map (fun j => j + 1)
  | _, _ => none

/-- The value is a string or an integer (signed or unsigned, of any width). -/
def Value.isStringOrInteger : Value → Bool
  | .str _ => true
  | .int _ => true
  | .uint _ => true
  | _ => false

/-- The field carries the tags `enum:"e" dictField:"T"` and no translation tag
of higher priority. -/
def StructField.enumTagged (f : StructField) (e T : String) : Bool :=
  f.tagGet "translate" = "" && f.tagGet "db" = "" && f.tagGet "dictTableTwo" = "" &&
  f.tagGet "dictTable" = "" && f.tagGet "enum" = e && f.tagGet "dictField" = T

/-- The record type of `TestEnumTranslateInt`: `Priority` tagged
`enum:"priority" dictField:"PriorityName"`, and the target `PriorityName`. -/
def taskType : StructType :=
  ⟨"Task", [⟨"Priority", true, [("enum", "priority"), ("dictField", "PriorityName")]⟩,
    ⟨"PriorityName", true, []⟩]⟩

/-- The translation tags in the order of their priority. -/
def tagPriority : List String :=
  ["translate", "db", "dictTableTwo", "dictTable", "enum", "dict"]

/-- The translation tag of highest priority that is present on a field, with
its argument. -/
def StructField.topTag (f : StructField) : Option (String × String) :=
  (tagPriority.map (fun key => (key, f.tagGet key))).find? (fun p => p.2 ≠ "")

/-- The translator and the tag argument that a single translation tag with
its argument stands for, following the description of the tags: `translate`
names a registered custom translator by the part before the first comma (no
binding when none is registered), `db` is parsed (no binding when incomplete),
`dictTableTwo`, `dictTable` and `enum` select their backend, and `dict` is the
legacy tag without a translator. -/
def bindTop (trs : List (String × Option Translator)) :
    Option (String × String) → Option Translator × String
  | none => (none, "")
  | some (key, arg) =>
    if key = "translate" then
      match trs.lookup ((split arg ',').headD "") with
      | some translator => (translator, arg)
      | none => (none, "")
    else if key = "db" then
      match parseDBTag arg with
      | some translator => (some translator, arg)
      | none => (none, "")
    else if key = "dictTableTwo" then (some (Translator.dictTableTwo arg), arg)
    else if key = "dictTable" then (some (Translator.dictTable arg), arg)
    else if key = "enum" then (some Translator.enum, arg)
    else (none, arg)

/-- The record type of `TestEnumTranslateInt` with a further string field
`PRIORITYNAME` declared before the target `PriorityName`. -/
def taskTypeTwoNames : StructType :=
  ⟨"Task", [⟨"Priority", true, [("enum", "priority"), ("dictField", "PriorityName")]⟩,
    ⟨"PRIORITYNAME", true, []⟩, ⟨"PriorityName", true, []⟩]⟩

/-- A world in which the enum table `priority` of `TestEnumTranslateInt` is
registered. -/
def priorityWorld : World :=
  ⟨DictManager.init, RegisterEnum Env.init "priority" (some [("1", "低"), ("2", "中"), ("3", "高")])⟩

/-- The body of the loop of `translateStruct` for an exported field `i` with
description `fieldType` and value `v`: first the descent into the value held
by the field, then, if that raised no error, the resolution of the translation
tag of the field.  It restates the corresponding part of `translateFields`. -/
def fieldStep (rt : StructType) (config : structConfig) (i : Nat) (fieldType : StructField)
    (w : World) (cur : List Value) (v : Value) : World × List Value × Option Error :=
  match (nestedStep w cur i v).2.2 with
  | some err => ((nestedStep w cur i v).1, (nestedStep w cur i v).2.1, some err)
  | none => translateTagged (nestedStep w cur i v).1 config i fieldType rt (nestedStep w cur i v).2.1

/-- A record type with three tagged fields in a row: `Sex` (legacy `dict`
tag), `Priority` (`enum` tag) and `Status` (`dictTable` tag), each followed by
its target. -/
def mixedType : StructType :=
  ⟨"Mixed", [⟨"Sex", true, [("dict", "sex"), ("dictField", "SexName")]⟩,
    ⟨"SexName", true, []⟩,
    ⟨"Priority", true, [("enum", "priority"), ("dictField", "PriorityName")]⟩,
    ⟨"PriorityName", true, []⟩,
    ⟨"Status", true, [("dictTable", "status"), ("dictField", "StatusName")]⟩,
    ⟨"StatusName", true, []⟩]⟩

/-- A world in which the dictionary `sex` and a query function of the
`dictTable` backend are registered, but no enum table. -/
def mixedWorld : World :=
  ⟨RegisterDict DictManager.init "sex" (some [("1", "男"), ("2", "女")]),
   RegisterDictTableTranslator Env.init (some (fun _ _ => Except.ok "启用"))⟩

/-- The record type of `TestTranslateSlice`. -/
def statusItemType : StructType :=
  ⟨"Item", [⟨"Status", true, [("dict", "status"), ("dictField", "StatusName")]⟩,
    ⟨"StatusName", true, []⟩]⟩

/-- The trace of the second state extends the trace of the first: nothing is
ever removed from the record of invocations. -/
def TraceExt (e1 e2 : Env) : Prop :=
  ∃ evs, e2.trace = e1.trace ++ evs

/-- A record type with a `dictTable`-tagged field `ID` (dictionary type
`inner`) and its target. -/
def orderInnerType : StructType :=
  ⟨"Inner", [⟨"ID", true, [("dictTable", "inner"), ("dictField", "Name")]⟩, ⟨"Name", true, []⟩]⟩

/-- A record type with a `dictTable`-tagged field `ID` (dictionary type
`outer`), its target, and after them a field holding a record of type
`orderInnerType`. -/
def orderOuterType : StructType :=
  ⟨"Outer", [⟨"ID", true, [("dictTable", "outer"), ("dictField", "Name")]⟩, ⟨"Name", true, []⟩,
    ⟨"Inner", true, []⟩]⟩

/-- The worker count of `batchTranslateParallel`: 10, or the length of the
sequence when that is smaller. -/
def workerCount (length : Nat) : Nat :=
  if length < 10 then length else 10

/-- The chunk size of `batchTranslateParallel`,
`(length + workerCount - 1) / workerCount`; `none` stands for the run-time
panic of the integer division when the worker count is zero. -/
def chunkSize (length : Nat) : Option Nat :=
  if workerCount length = 0 then none
  else some ((length + workerCount length - 1) / workerCount length)

/-- The loop of `batchTranslateParallel` that hands an index range
`(start, end)` to one worker per round, from round `i` on, with `remaining`
rounds left; it breaks off when `start` reaches the length. -/
def chunkLoop (length chunkSize : Nat) : Nat → Nat → List (Nat × Nat)
  | 0, _ => []
  | remaining + 1, i =>
    if i * chunkSize ≥ length then []
    else
      (i * chunkSize, if i * chunkSize + chunkSize > length then length else i * chunkSize + chunkSize)
        :: chunkLoop length chunkSize remaining (i + 1)

/-- The index ranges that `batchTranslateParallel` hands to its workers, in the
order in which the workers are started. -/
def chunkRanges (length : Nat) : Option (List (Nat × Nat)) :=
  (chunkSize length).map (fun c => chunkLoop length c (workerCount length) 0)

/-- The indexes of the ranges, one range after the other. -/
def rangeIndexes (ranges : List (Nat × Nat)) : List Nat :=
  (ranges.map (fun p => List.range' p.1 (p.2 - p.1))).flatten

/-- Two package states that differ at most in the record of invocations: the
registries, the query functions, the caches and the cache switches agree. -/
def EnvSame (e1 e2 : Env) : Prop :=
  e1.enumMap = e2.enumMap ∧ e1.db = e2.db ∧ e1.dictTable = e2.dictTable ∧
    e1.dictTableTwo = e2.dictTableTwo

/-- Two worlds between which a traversal cannot tell the difference: the same
dictionaries and translators, managers that plan every record type alike (from
the plan cache or afresh), and package states that differ at most in the
record of invocations. -/
def WorldSim (w1 w2 : World) : Prop :=
  w1.dm.dicts = w2.dm.dicts ∧ w1.dm.translators = w2.dm.translators ∧
    (∀ rt, (getOrCreateConfig w1.dm rt).2 = (getOrCreateConfig w2.dm rt).2) ∧
    EnvSame w1.env w2.env

/-- The outcomes `r1` and `r2` of one traversal step started in the world `w1`
and in a world similar to it: the same values and the same error, similar
worlds, and the dictionaries, translators and plans of `w1` kept. -/
def SimOut {α : Type} (w1 : World) (r1 r2 : World × α × Option Error) : Prop :=
  r1.2 = r2.2 ∧ WorldSim r1.1 r2.1 ∧ r1.1.dm.dicts = w1.dm.dicts ∧
    r1.1.dm.translators = w1.dm.translators ∧
    (∀ rt, (getOrCreateConfig r1.1.dm rt).2 = (getOrCreateConfig w1.dm rt).2)

/-- One worker goroutine of `batchTranslateParallel`: its loop variable `j`,
the bound `end` of its index range (here `stop`), and whether it has returned
after sending an error. -/
structure Worker where
  j : Nat
  stop : Nat
  returned : Bool

/-- The state of a run of `batchTranslateParallel`: the world, the elements of
the sequence, the workers in the order in which they were started, and the
errors sent to `errChan`, oldest first.  The channel has room for one error
per worker and a worker sends at most one, so a send never blocks. -/
structure ParState where
  w : World
  elems : List Value
  workers : List Worker
  errChan : List Error

/-- One iteration of the loop of worker `id`: element `j` is translated in
place; on an error the worker sends it to `errChan` and returns, else it moves
on to `j + 1`.  A worker that has returned or has reached the end of its range
does nothing.  The iteration is one atomic step of the interleaving (the
traversal of one element is not interleaved with those of other workers). -/
def stepWorker (s : ParState) (id : Nat) : ParState :=
  match s.workers[id]? with
  | none => s
  | some wk =>
    if wk.returned || wk.j ≥ wk.stop then s
    else
      match s.elems[wk.j]? with
      | none => s
      | some elem =>
        let r := elemStep s.w elem
        match r.2.2 with
        | some err =>
          ⟨r.1, s.elems.set wk.j r.2.1, s.workers.set id { wk with returned := true },
            s.errChan ++ [err]⟩
        | none => ⟨r.1, s.elems.set wk.j r.2.1, s.workers.set id { wk with j := wk.j + 1 }, s.errChan⟩

/-- The workers run in the interleaving given by a schedule: a list of worker
numbers, each of which lets that worker do one iteration. -/
def runSchedule (s : ParState) (sched : List Nat) : ParState :=
  sched.foldl stepWorker s

/-- A schedule that lets every worker run to its end: `rounds` rounds in each
of which every worker does one iteration. -/
def completion (rounds workers : Nat) : List Nat :=
  (List.replicate rounds (List.range workers)).flatten

/-- Go `batchTranslateParallel` under a schedule: the workers first interleave
as `sched` says and then all run to their end, which is what `wg.Wait` waits
for.  The result holds the world and the elements once every worker has
finished, and the error that the collecting loop returns: nil when no error
was sent; else the oldest error in the channel, unless the `select` ran when
the `done` signal was ready as well and picked it (`pickDone`), in which case
nil.  `none` stands for the run-time panic of the division by a zero worker
count. -/
def batchTranslateParallel (sched : List Nat) (pickDone : Bool) (w : World) (es : List Value) :
    Option (World × List Value × Option Error) :=
  match chunkRanges es.length with
  | none => none
  | some chunks =>
    let s := runSchedule ⟨w, es, chunks.map (fun p => ⟨p.1, p.2, false⟩), []⟩
      (sched ++ completion es.length chunks.length)
    some (s.w, s.elems,
      match s.errChan with
      | [] => none
      | err :: _ => if pickDone then none else some err)

/-- Go `DictManager.BatchTranslate`: the world, the argument and the error
after the call; `sched` and `pickDone` resolve the non-determinism of the
parallel path. -/
def BatchTranslate (sched : List Nat) (pickDone : Bool) (w : World) (items : Value)
    (parallel : Bool) : Option (World × Value × Option Error) :=
  match items with
  | .ptr rv =>
    match rv with
    | .slice es =>
      if es.length = 0 then some (w, items, none)
      else if !parallel || es.length < 10 then
        let r := translateSlice es w
        some (r.1, Value.ptr (Value.slice r.2.1), r.2.2)
      else
        (batchTranslateParallel sched pickDone w es).map
          (fun r => (r.1, Value.ptr (Value.slice r.2.1), r.2.2))
    | _ => some (w, items, some Error.ErrNotSlice)
  | .nilPtr => some (w, items, some Error.ErrNotSlice)
  | _ => some (w, items, some Error.ErrNotPointer)

/-- The loop step of a worker that meets no error, on the worker alone. -/
def Worker.advance (wk : Worker) : Worker :=
  if wk.returned || wk.j ≥ wk.stop then wk else { wk with j := wk.j + 1 }

/-- The element `e`, translated on its own in the world `w`, raises no error
and leaves the package state as it was, the record of invocations apart. -/
def Quiet (w : World) (e : Value) : Prop :=
  (elemStep w e).2.2 = none ∧ EnvSame w.env (elemStep w e).1.env

/-- The invariant of a run of `batchTranslateParallel` on the elements `es`
with chunk size `c` from the world `w`, when every element is quiet: no error
was sent, worker `k` is within its range, which lies in `[k * c, k * c + c)`,
and an element of that range has been translated exactly if the worker is past
it. -/
def ParInv (w : World) (es : List Value) (c : Nat) (s : ParState) : Prop :=
  WorldSim w s.w ∧ s.errChan = [] ∧ s.elems.length = es.length ∧
  (∀ (k : Nat) (wk : Worker), s.workers[k]? = some wk →
    wk.returned = false ∧ k * c ≤ wk.j ∧ wk.j ≤ wk.stop ∧ wk.stop ≤ k * c + c ∧
      wk.stop ≤ es.length) ∧
  (∀ (idx : Nat) (e : Value) (k : Nat) (wk : Worker), es[idx]? = some e →
    s.workers[k]? = some wk → k * c ≤ idx → idx < wk.stop →
    s.elems[idx]? = some (if idx < wk.j then (elemStep w e).2.1 else e))

/-- A world in which the `db` backend has caching switched off and a query
function that answers with a label made from the key. -/
def batchWorld : World :=
  ⟨DictManager.init,
   { Env.init with db := ⟨some (fun _ _ _ key => Except.ok ("name-" ++ fmtV key)), [], false⟩ }⟩

/-- A record of the type `itemType "test:id:name"` with the given `ID` and an
empty `Name`. -/
def batchItem (id : String) : Value :=
  Value.struct (itemType "test:id:name") [Value.str id, Value.str ""]

/-- Twelve records, enough for the parallel path of `BatchTranslate`. -/
def batchItems : List Value :=
  ["1", "2", "3", "1", "2", "3", "1", "2", "3", "1", "2", "3"].map batchItem

/-- A world in which the `db` backend has caching switched off and a query
function that fails for the key `bad` and answers every other key with a label
made from the key. -/
def failWorld : World :=
  ⟨DictManager.init,
   { Env.init with
      db := ⟨some (fun _ _ _ key =>
          if fmtV key = "bad" then Except.error (Error.user "no such row")
          else Except.ok ("name-" ++ fmtV key)), [], false⟩ }⟩

/-- Twelve records of the type `itemType "test:id:name"`, the fourth of which
has the `ID` for which the query of `failWorld` fails. -/
def failItems : List Value :=
  ["1", "2", "3", "bad", "5", "6", "7", "8", "9", "10", "11", "12"].map batchItem

/-- A custom translator that answers with the rendering of the value, the
field name and the tag argument, and fails for the value `bad`. -/
def echoTranslator : Translator :=
  Translator.custom (fun v fieldName tag =>
    if fmtV v = "bad" then Except.error (Error.user "cannot translate")
    else Except.ok (fmtV v ++ "/" ++ fieldName ++ "/" ++ tag))

/-- A world in which `echoTranslator` is registered under the tag name `echo`. -/
def echoWorld : World :=
  ⟨RegisterTranslator DictManager.init "echo" (some echoTranslator), Env.init⟩

/-- A record type whose field `Code` carries `translate:"echo,x=1"` and the
`dictField` tag `Name`, and the target `Name`. -/
def docType : StructType :=
  ⟨"Doc", [⟨"Code", true, [("translate", "echo,x=1"), ("dictField", "Name")]⟩,
    ⟨"Name", true, []⟩]⟩

/-- The record type `docType` without the `dictField` tag. -/
def docTypeNoTarget : StructType :=
  ⟨"Doc", [⟨"Code", true, [("translate", "echo,x=1")]⟩, ⟨"Name", true, []⟩]⟩

/-- Go `Framework`; of its parts only the manager is modelled. -/
structure Framework where
  manager : DictManager

/-- The state of a process: the default manager, the package level state
(the enum tables and the three database flavoured backends), and the
frameworks created so far, in the order of their creation. -/
structure Process where
  defaultManager : DictManager
  env : Env
  frameworks : List Framework

/-- Go `NewFramework`: a framework with a manager of its own, whose maps are
empty; the result is the process with the new framework and its number. -/
def NewFramework (p : Process) : Process × Nat :=
  ({ p with frameworks := p.frameworks ++ [⟨DictManager.init⟩] }, p.frameworks.length)

/-- The package level function `RegisterDict`, which assigns to the map of the
default manager. -/
def Process.RegisterDict (p : Process) (name : String) (dict : Option GoMap) : Process :=
  { p with defaultManager := DictTrans.RegisterDict p.defaultManager name dict }

/-- The package level function `GetDict`. -/
def Process.GetDict (p : Process) (name : String) : Option GoMap :=
  DictTrans.GetDict p.defaultManager name

/-- The package level function `RegisterTranslator`. -/
def Process.RegisterTranslator (p : Process) (tagName : String)
    (translator : Option Translator) : Process :=
  { p with defaultManager := DictTrans.RegisterTranslator p.defaultManager tagName translator }

/-- The package level function `RegisterEnum`, which assigns to the map of the
default enum translator. -/
def Process.RegisterEnum (p : Process) (name : String) (enum : Option GoMap) : Process :=
  { p with env := DictTrans.RegisterEnum p.env name enum }

/-- The package level function `GetEnum`. -/
def Process.GetEnum (p : Process) (name : String) : Option GoMap :=
  DictTrans.GetEnum p.env name

/-- The package level function `Translate`, which runs on the default
manager. -/
def Process.Translate (p : Process) (v : Value) : Process × Value × Option Error :=
  let r := DictTrans.Translate ⟨p.defaultManager, p.env⟩ v
  ({ p with defaultManager := r.1.dm, env := r.1.env }, r.2.1, r.2.2)

/-- Go `Framework.RegisterDict` on framework number `f`. -/
def Framework.RegisterDict (p : Process) (f : Nat) (name : String) (dict : Option GoMap) :
    Process :=
  { p with frameworks :=
      List.modify (fun fw => ⟨DictTrans.RegisterDict fw.manager name dict⟩) f p.frameworks }

/-- Go `Framework.RegisterTranslator` on framework number `f`. -/
def Framework.RegisterTranslator (p : Process) (f : Nat) (tagName : String)
    (translator : Option Translator) : Process :=
  { p with frameworks :=
      List.modify (fun fw => ⟨DictTrans.RegisterTranslator fw.manager tagName translator⟩) f p.frameworks }

/-- Go `Framework.Translate` on framework number `f`, called without a
strategy option while no middleware is registered (the default
configuration): the call is `Translate` on the manager of the framework.  A
number that names no framework leaves everything as it is. -/
def Framework.Translate (p : Process) (f : Nat) (v : Value) : Process × Value × Option Error :=
  match p.frameworks[f]? with
  | none => (p, v, none)
  | some fw =>
    let r := DictTrans.Translate ⟨fw.manager, p.env⟩ v
    ({ p with env := r.1.env, frameworks := p.frameworks.set f ⟨r.1.dm⟩ }, r.2.1, r.2.2)

/-- A custom translator that answers every call with the label `new`. -/
def constTranslator : Translator :=
  Translator.custom (fun _ _ _ => Except.ok "new")

/-- A process in which two frameworks have been created and nothing has been
registered. -/
def twoFrameworks : Process :=
  (NewFramework (NewFramework ⟨DictManager.init, Env.init, []⟩).1).1

/-- The two translators are closures of the same database flavoured backend. -/
def Translator.sameBackend : Translator → Translator → Bool
  | .db _ _ _, .db _ _ _ => true
  | .dictTable _, .dictTable _ => true
  | .dictTableTwo _, .dictTableTwo _ => true
  | _, _ => false

/-- The package state after the cache of the backend has been cleared, as
`ClearDBCache`, `ClearDictTableCache` and `ClearDictTableTwoCache` do. -/
def Translator.clearCache : Translator → Env → Env
  | .db _ _ _, env => ClearDBCache env
  | .dictTable _, env => ClearDictTableCache env
  | .dictTableTwo _, env => ClearDictTableTwoCache env
  | _, env => env

/-- A world in which the backends `db` and `dictTable` each have a query
function and one cached label. -/
def twoBackendsEnv : Env :=
  { Env.init with
    db := ⟨some (fun _ _ _ _ => Except.ok "row"), [("t:k:v:1", "old row")], true⟩,
    dictTable := ⟨some (fun _ _ => Except.ok "entry"), [("status:1", "old entry")], true⟩ }

/-- The calls that change a manager or the registries it reads: the
registrations, a call of `getOrCreateConfig` for a type, and a call of
`Translate`. -/
inductive ManagerOp where
  | registerDict (name : String) (dict : Option GoMap)
  | registerEnum (name : String) (enum : Option GoMap)
  | registerTranslator (tagName : String) (translator : Option Translator)
  | registerUnWrapper (unwrapper : UnWrapper)
  | getOrCreateConfig (rt : StructType)
  | translate (v : Value)

/-- The world after one call. -/
def World.apply (w : World) : ManagerOp → World
  | .registerDict name dict => ⟨RegisterDict w.dm name dict, w.env⟩
  | .registerEnum name enum => ⟨w.dm, RegisterEnum w.env name enum⟩
  | .registerTranslator tagName translator => ⟨RegisterTranslator w.dm tagName translator, w.env⟩
  | .registerUnWrapper unwrapper => ⟨RegisterUnWrapper w.dm unwrapper, w.env⟩
  | .getOrCreateConfig rt => ⟨(getOrCreateConfig w.dm rt).1, w.env⟩
  | .translate v => (Translate w v).1

/-- The world after a sequence of calls. -/
def World.applyAll (w : World) (ops : List ManagerOp) : World :=
  ops.foldl World.apply w

/-- Every plan stored in the cache of the first manager is stored, unchanged,
in the cache of the second. -/
def PlansKept (dm1 dm2 : DictManager) : Prop :=
  ∀ rt cfg, dm1.configCache.lookup rt = some cfg → dm2.configCache.lookup rt = some cfg

/-- Removal of a key from a map, `delete(m, k)`. -/
def mapDelete {β : Type} (m : List (String × β)) (k : String) : List (String × β) :=
  m.filter (fun p => p.1 ≠ k)

/-- The value of a Go `int64` computation whose exact result is `x`
(two's complement wrap-around). -/
def wrapInt64 (x : Int) : Int :=
  (x + 2 ^ 63) % 2 ^ 64 - 2 ^ 63

/-- Go `cacheItem`; the expiry time, when there is one, is an instant in
nanoseconds. -/
structure cacheItem where
  value : String
  expiresAt : Option Int

/-- Go `memoryCache` (the lock is not modelled). -/
structure memoryCache where
  data : List (String × cacheItem)
  maxEntries : Int

/-- Go `NewMemoryCache`. -/
def NewMemoryCache (maxEntries : Int) : memoryCache :=
  ⟨[], maxEntries⟩

/-- Go `memoryCache.Get` at the instant `now`.  For an expired entry the Go
method also starts a goroutine that deletes the key later; that deletion is a
separate `Delete` step and not part of the result. -/
def memoryCache.Get (c : memoryCache) (now : Int) (key : String) : String × Bool :=
  match c.data.lookup key with
  | none => ("", false)
  | some item =>
    match item.expiresAt with
    | some expiresAt => if now > expiresAt then ("", false) else (item.value, true)
    | none => (item.value, true)

/-- Go `memoryCache.Set` at the instant `now` (the returned error is always
nil).  When the map holds at least `maxEntries` entries, the first key that the
iteration over the map yields is deleted; the order of that iteration is not
fixed, and `pick` selects the key.  The duration `ttl` seconds is computed in
`int64` nanoseconds. -/
def memoryCache.Set (c : memoryCache) (pick : Nat) (now : Int) (key value : String)
    (ttl : Int) : memoryCache :=
  let data :=
    if (c.data.length : Int) ≥ c.maxEntries then
      match c.data[pick % c.data.length]? with
      | some p => mapDelete c.data p.1
      | none => c.data
    else c.data
  let expiresAt := if ttl > 0 then some (now + wrapInt64 (ttl * 1000000000)) else none
  { c with data := mapSet data key ⟨value, expiresAt⟩ }

/-- Go `memoryCache.Delete`. -/
def memoryCache.Delete (c : memoryCache) (key : String) : memoryCache :=
  { c with data := mapDelete c.data key }

/-- Go `memoryCache.Clear`. -/
def memoryCache.Clear (c : memoryCache) : memoryCache :=
  { c with data := [] }

/-- A call that changes a memory cache. -/
inductive CacheOp where
  | set (pick : Nat) (now : Int) (key value : String) (ttl : Int)
  | delete (key : String)
  | clear

/-- The cache after one call. -/
def memoryCache.apply (c : memoryCache) : CacheOp → memoryCache
  | .set pick now key value ttl => c.Set pick now key value ttl
  | .delete key => c.Delete key
  | .clear => c.Clear

/-- The cache after a sequence of calls. -/
def memoryCache.applyAll (c : memoryCache) (ops : List CacheOp) : memoryCache :=
  ops.foldl memoryCache.apply c

/-- The call is a `Set` of the key. -/
def CacheOp.sets (key : String) : CacheOp → Bool
  | .set _ _ k _ _ => k = key
  | _ => false

/-- The expiry that `Set` stores for a time to live of `ttl` seconds at the
instant `now`. -/
def expiryOf (now ttl : Int) : Option Int :=
  if ttl > 0 then some (now + wrapInt64 (ttl * 1000000000)) else none

/-- Go `TableFields`. -/
structure TableFields where
  TypeField : String
  KeyField : String
  ValueField : String

/-- Go `StatusFieldConfig`. -/
structure StatusFieldConfig where
  FieldName : String
  EnabledValue : String
  DisabledValue : String

/-- Go `TableConfig`; a nil `StatusField` is `none`. -/
structure TableConfig where
  TableName : String
  Fields : TableFields
  StatusField : Option StatusFieldConfig
  SortField : String

/-- Go `DefaultTableConfig`. -/
def DefaultTableConfig (tableName : String) : TableConfig :=
  { TableName := tableName,
    Fields := ⟨"dict_type", "dict_key", "dict_value"⟩,
    StatusField := some ⟨"status", "1", "0"⟩,
    SortField := "" }

/-- Go `TableConfig.BuildQueryWithKey`: the query text and the arguments (all
of them strings).  The three steps follow the three `if` statements of the
method; `len(args) > 0` is the test for a separator. -/
def TableConfig.BuildQueryWithKey (tc : TableConfig) (dictType dictKey : String) :
    String × List String :=
  let query := "SELECT " ++ tc.Fields.ValueField ++ " FROM " ++ tc.TableName ++ " WHERE "
  let args : List String := []
  let s1 : String × List String :=
    if tc.Fields.TypeField ≠ "" then (query ++ (tc.Fields.TypeField ++ " = ?"), args ++ [dictType])
    else (query, args)
  let s2 : String × List String :=
    if tc.Fields.KeyField ≠ "" then
      let q := if s1.2.length > 0 then s1.1 ++ " AND " else s1.1
      (q ++ (tc.Fields.KeyField ++ " = ?"), s1.2 ++ [dictKey])
    else s1
  match tc.StatusField with
  | some status =>
    let q := if s2.2.length > 0 then s2.1 ++ " AND " else s2.1
    (q ++ (status.FieldName ++ " = ?"), s2.2 ++ [status.EnabledValue])
  | none => s2

/-- The conditions of the query that the description of `BuildQueryWithKey`
lists, each with its argument: the type condition if a type field is set, the
key condition if a key field is set, the status condition if there is a status
configuration, in that order. -/
def TableConfig.conditions (tc : TableConfig) (dictType dictKey : String) :
    List (String × String) :=
  (if tc.Fields.TypeField ≠ "" then [(tc.Fields.TypeField ++ " = ?", dictType)] else []) ++
  (if tc.Fields.KeyField ≠ "" then [(tc.Fields.KeyField ++ " = ?", dictKey)] else []) ++
  (match tc.StatusField with
    | some status => [(status.FieldName ++ " = ?", status.EnabledValue)]
    | none => [])

/-- The query that the description of `BuildQueryWithKey` gives: the head
`SELECT <ValueField> FROM <TableName> WHERE ` followed by the conditions joined
by ` AND `, and the arguments of the conditions in the same order. -/
def TableConfig.describedQuery (tc : TableConfig) (dictType dictKey : String) :
    String × List String :=
  ("SELECT " ++ tc.Fields.ValueField ++ " FROM " ++ tc.TableName ++ " WHERE " ++
      " AND ".intercalate ((tc.conditions dictType dictKey).map Prod.fst),
    (tc.conditions dictType dictKey).map Prod.snd)

/-- The part of `Translate` after the unwrapping: the dispatch on the kind of
the (unwrapped) argument.  It restates the corresponding part of `Translate`. -/
def translatePayload (w : World) (v : Value) : World × Value × Option Error :=
  match v with
  | .ptr rv =>
    match rv with
    | .slice es =>
      let r := translateSlice es w
      (r.1, Value.ptr (Value.slice r.2.1), r.2.2)
    | .struct _ _ =>
      let r := translateStruct w rv
      (r.1, Value.ptr r.2.1, r.2.2)
    | _ => (w, v, some Error.ErrNotStruct)
  | .nilPtr => (w, v, some Error.ErrNotStruct)
  | _ => (w, v, some Error.ErrNotPointer)

/-- The unwrapper yields no payload for the value: it returns an error or a
nil payload. -/
def UnWrapper.declines (u : UnWrapper) (v : Value) : Bool :=
  match u v with
  | .ok (some _) => false
  | _ => true

/-- The record type `Page` of `TestUnWrapper`, with the sequence `Data`. -/
def pageType : StructType :=
  ⟨"Page", [⟨"Data", true, [("json", "data")]⟩]⟩

/-- The unwrapper of `TestUnWrapper`: for a pointer to a `Page` it returns a
pointer to the sequence `Data`, for every other value a nil payload. -/
def pageUnWrapper : UnWrapper := fun value =>
  match value with
  | .ptr (.struct rt [.slice es]) =>
    if rt = pageType then Except.ok (some (Value.ptr (Value.slice es))) else Except.ok none
  | _ => Except.ok none

/-- An unwrapper that fails for every value. -/
def failingUnWrapper : UnWrapper := fun _ => Except.error (Error.user "not a wrapper")

/-- Go `PerformanceConfig` of config.go. -/
structure PerformanceConfig where
  BatchQueryThreshold : Int
  ParallelThreshold : Int
  MaxConcurrency : Int
  DBPoolSize : Int

/-- The performance part of the configuration that `defaultConfig` starts
with and `ResetConfig` restores. -/
def defaultPerformanceConfig : PerformanceConfig := ⟨10, 100, 10, 10⟩

/-- Go `BatchOptions` of optimizer.go. -/
structure BatchOptions where
  Parallel : Bool
  BatchQuery : Bool
  Concurrency : Int

/-- Go `DictManager.TranslateBatch`: the world, the argument and the error
after the call, `none` for a run-time panic.  `config` is the performance part
of what `GetConfig()` returns, `options = none` the nil pointer; `sched` and
`pickDone` resolve the non-determinism of the parallel path. -/
def TranslateBatch (sched : List Nat) (pickDone : Bool) (config : PerformanceConfig)
    (w : World) (items : Value) (options : Option BatchOptions) :
    Option (World × Value × Option Error) :=
  match items with
  | .ptr rv =>
    match rv with
    | .slice es =>
      let options : BatchOptions :=
        match options with
        | none => ⟨true, true, 0⟩
        | some o => o
      if options.Parallel && decide ((es.length : Int) ≥ config.ParallelThreshold) then
        (batchTranslateParallel sched pickDone w es).map
          (fun r => (r.1, Value.ptr (Value.slice r.2.1), r.2.2))
      else
        let r := translateSlice es w
        some (r.1, Value.ptr (Value.slice r.2.1), r.2.2)
    | _ => some (w, items, some Error.ErrNotSlice)
  | .nilPtr => some (w, items, some Error.ErrNotSlice)
  | _ => some (w, items, some Error.ErrNotPointer)

/-- A query function of a dictionary table whose label tells the type code and
the key it was asked for. -/
def echoDictQuery : String → String → Except Error String :=
  fun dictType dictKey => Except.ok (dictType ++ "/" ++ dictKey)

/-- A query function of the `db` backend whose label tells whether the source
value was handed over as a string. -/
def kindDBQuery : String → String → String → Value → Except Error String :=
  fun _ _ _ value =>
    match value with
    | .str _ => Except.ok "text"
    | _ => Except.ok "number"

/-- The start-up world with `echoDictQuery` registered for the dictionary
table and `kindDBQuery` for the `db` backend. -/
def collisionWorld : World :=
  ⟨DictManager.init,
   RegisterDBTranslator (RegisterDictTableTranslator Env.init (some echoDictQuery))
     (some kindDBQuery)⟩

/-- A record type whose field `Code` is tagged `dictTable:"a:b"`. -/
def colonTypeRecord : StructType :=
  ⟨"ColonType", [⟨"Code", true, [("dictTable", "a:b"), ("dictField", "Name")]⟩,
    ⟨"Name", true, []⟩]⟩

/-- A record type whose field `Code` is tagged `dictTable:"a"`. -/
def plainTypeRecord : StructType :=
  ⟨"PlainType", [⟨"Code", true, [("dictTable", "a"), ("dictField", "Name")]⟩,
    ⟨"Name", true, []⟩]⟩

/-- A record type whose field `ID` is tagged `db:"user:id:name"`. -/
def userRefRecord : StructType :=
  ⟨"UserRef", [⟨"ID", true, [("db", "user:id:name"), ("dictField", "UserName")]⟩,
    ⟨"UserName", true, []⟩]⟩

/-- A record type whose field `Status` carries the tags `tags` and whose field
`StatusName` is untagged. -/
def taggedStatusType (tags : List (String × String)) : StructType :=
  ⟨"Tagged", [⟨"Status", true, tags⟩, ⟨"StatusName", true, []⟩]⟩

/-- A world in which the dictionary `status` and the enum table `status` are
registered, and no custom translator. -/
def dictEnumWorld : World :=
  ⟨RegisterDict DictManager.init "status" (some [("1", "启用")]),
   RegisterEnum Env.init "status" (some [("1", "在线")])⟩

/-- The field `sf` of the record type is named, exactly or under case folding,
by the `dictField` tag of a field of the type that carries a translation
tag. -/
def StructType.isTarget (rt : StructType) (sf : StructField) : Bool :=
  rt.fields.any (fun g => !g.untagged && nameMatches sf (g.tagGet "dictField"))

mutual
/-- The second value is the first one up to writes to targets: the two trees
have the same shape (the same record types, sequences of the same length, nil
pointers at the same places) and the same values at every leaf, but for string
fields of records that are exported and are a target of their record type. -/
def Frame : Value → Value → Prop
  | .struct rt fs, v2 => ∃ fs2, v2 = Value.struct rt fs2 ∧ FrameFields rt 0 fs fs2
  | .ptr e, v2 => ∃ e2, v2 = Value.ptr e2 ∧ Frame e e2
  | .slice es, v2 => ∃ es2, v2 = Value.slice es2 ∧ FrameElems es es2
  | .str s, v2 => v2 = Value.str s
  | .int n, v2 => v2 = Value.int n
  | .uint n, v2 => v2 = Value.uint n
  | .other t r, v2 => v2 = Value.other t r
  | .nilPtr, v2 => v2 = Value.nilPtr
/-- The relation `Frame` on the field values of a record of type `rt`, from the
field with index `i` on: a field is related as `Frame` says, or it is an
exported target of the type and holds a string before and after. -/
def FrameFields (rt : StructType) : Nat → List Value → List Value → Prop
  | _, [], vs2 => vs2 = []
  | i, v :: vs, vs2 =>
    ∃ v2 rest2, vs2 = v2 :: rest2 ∧
      (Frame v v2 ∨
        ∃ sf s s2, rt.fields[i]? = some sf ∧ v = Value.str s ∧ v2 = Value.str s2 ∧
          sf.exported = true ∧ rt.isTarget sf = true) ∧
      FrameFields rt (i + 1) vs rest2
/-- The relation `Frame` on the elements of a sequence, index by index. -/
def FrameElems : List Value → List Value → Prop
  | [], vs2 => vs2 = []
  | v :: vs, vs2 => ∃ v2 rest2, vs2 = v2 :: rest2 ∧ Frame v v2 ∧ FrameElems vs rest2
end

/-- The relation between the values of the field with index `idx` of a record
of type `rt` before and after: `Frame`, or a string in an exported target
replaced by a string. -/
def FieldRel (rt : StructType) (idx : Nat) (v v2 : Value) : Prop :=
  Frame v v2 ∨
    ∃ sf s s2, rt.fields[idx]? = some sf ∧ v = Value.str s ∧ v2 = Value.str s2 ∧
      sf.exported = true ∧ rt.isTarget sf = true

/-- The field values `cur` of a record of type `rt` are related to the values
`orig` field by field. -/
def FieldsInv (rt : StructType) (orig cur : List Value) : Prop :=
  cur.length = orig.length ∧
  ∀ (k : Nat) (x x2 : Value), orig[k]? = some x → cur[k]? = some x2 → FieldRel rt k x x2

/-- Every translation tag of the record type is a `dict` or an `enum` tag: the
labels of its fields come from the in-memory dictionaries and the enum
tables. -/
def StructType.memoryTagged (rt : StructType) : Bool :=
  rt.fields.all (fun f => f.tagGet "translate" = "" && f.tagGet "db" = "" &&
    f.tagGet "dictTableTwo" = "" && f.tagGet "dictTable" = "")

/-- No target of the record type carries a translation tag itself. -/
def StructType.targetsUntagged (rt : StructType) : Bool :=
  rt.fields.all (fun f => !rt.isTarget f || f.untagged)

mutual
/-- Every record type that occurs in the tree passes the test `p`. -/
def Value.allTypes (p : StructType → Bool) : Value → Bool
  | .struct rt fs => p rt && Value.allTypesList p fs
  | .ptr e => Value.allTypes p e
  | .slice es => Value.allTypesList p es
  | _ => true
/-- Every record type that occurs in one of the trees passes the test `p`. -/
def Value.allTypesList (p : StructType → Bool) : List Value → Bool
  | [] => true
  | v :: vs => Value.allTypes p v && Value.allTypesList p vs
end

/-- The record type can be translated again with the same outcome as far as
its own tags go: its labels come from the in-memory dictionaries and the enum
tables, and none of its targets carries a translation tag. -/
def StructType.repeatable (rt : StructType) : Bool :=
  rt.memoryTagged && rt.targetsUntagged

/-- A query function of the `db` backend that knows string keys only: for a
source value of any other type it finds no label. -/
def textOnlyQuery : String → String → String → Value → Except Error String :=
  fun _ _ _ value =>
    match value with
    | .str _ => Except.ok "文本"
    | _ => Except.ok ""

/-- A record type with two fields tagged `db:"user:id:name"`, each followed by
its target. -/
def twoKeysType : StructType :=
  ⟨"TwoKeys", [⟨"A", true, [("db", "user:id:name"), ("dictField", "AName")]⟩,
    ⟨"AName", true, []⟩,
    ⟨"B", true, [("db", "user:id:name"), ("dictField", "BName")]⟩,
    ⟨"BName", true, []⟩]⟩

/-- The start-up world with `textOnlyQuery` registered for the `db` backend. -/
def textOnlyWorld : World :=
  ⟨DictManager.init, RegisterDBTranslator Env.init (some textOnlyQuery)⟩

/-- The descent of the loop body of `translateStruct` into the value `v` of a
field: the world, the value left in the field and the error after it.  It
restates the corresponding part of `translateFields`. -/
def nestedValue (w : World) (v : Value) : World × Value × Option Error :=
  if v.isStruct then translateStruct w v
  else
    match v with
    | .ptr e =>
      if e.isStruct then
        let r := translateStruct w e
        (r.1, Value.ptr r.2.1, r.2.2)
      else (w, v, none)
    | .slice es =>
      let r := translateSlice es w
      (r.1, Value.slice r.2.1, r.2.2)
    | _ => (w, v, none)

/-- The two lists of field values have the same length and hold strings at the
same positions. -/
def SameKinds (a b : List Value) : Prop :=
  a.length = b.length ∧
  ∀ (k : Nat) (x y : Value), a[k]? = some x → b[k]? = some y → y.isString = x.isString

/-- Every value of `c2` is the value of `c1` or the value of `fin` at the same
index. -/
def Between (c1 fin c2 : List Value) : Prop :=
  ∀ (k : Nat) (y : Value), c2[k]? = some y → c1[k]? = some y ∨ fin[k]? = some y

/-- The values of `l` that the loop of `translateStruct` descends into are the
values that `cur` holds from index `i` on. -/
def NestedAt (cur : List Value) (i : Nat) (l : List Value) : Prop :=
  ∀ (m : Nat) (x : Value), l[m]? = some x → x.isLeaf = false → cur[i + m]? = some x

/-- The list `l2` is what a second run reads where the first run read `l`, the
first run having left `fin`: plain values where `l` holds plain values, and the
values of `fin` from index `i` on where the first run descended. -/
def TodoRel (l l2 fin : List Value) (i : Nat) : Prop :=
  l2.length = l.length ∧
  ∀ (m : Nat) (x y : Value), l[m]? = some x → l2[m]? = some y →
    (x.isLeaf = true → y.isLeaf = true) ∧ (x.isLeaf = false → fin[i + m]? = some y)

/-- The world has the dictionaries `D` and the enum tables `E`, and every
stored plan was built by `getOrCreateConfig`. -/
def MemoryWorld (D E : Registry) (w : World) : Prop :=
  w.dm.dicts = D ∧ w.env.enumMap = E ∧ CacheSound w.dm

/-- A record type whose `dictField` tag and field names have a letter outside
ASCII: `Sex` is tagged `dict:"sex" dictField:"NAMEÄ"`, and the fields `Nameä`
and `NAMEÄ` follow in this order. -/
def foldUnicodeType : StructType :=
  ⟨"FoldUnicode", [⟨"Sex", true, [("dict", "sex"), ("dictField", "NAMEÄ")]⟩,
    ⟨"Nameä", true, []⟩, ⟨"NAMEÄ", true, []⟩]⟩

/-- One level of a record that is nested through record fields: the record
type of the level, its field values (for a level that holds a further level,
the value at index `c` is a placeholder for the record of that level), the
index `i` of the field tagged `dict:"n" dictField:"T"`, the index `j` of the
field that the target search for `T` finds, the index `c` of the field that
holds the next level, and the dictionary `D` registered under `n`. -/
structure NestLevel where
  rt : StructType
  fs : List Value
  i : Nat
  j : Nat
  c : Nat
  n : String
  T : String
  D : GoMap

/-- The key that the dict-tagged field of the level holds. -/
def NestLevel.key (lv : NestLevel) : String :=
  match lv.fs[lv.i]? with
  | some (Value.str s) => s
  | _ => ""

/-- The record nested through the levels, outermost level first: each level
but the last holds the record of the levels below it in its field `c`. -/
def nestedRecord : List NestLevel → Value
  | [] => Value.nilPtr
  | [lv] => Value.struct lv.rt lv.fs
  | lv :: lv2 :: rest => Value.struct lv.rt (lv.fs.set lv.c (nestedRecord (lv2 :: rest)))

/-- The nested record with the label `D[key]` in the target of every level. -/
def nestedResult : List NestLevel → Value
  | [] => Value.nilPtr
  | [lv] => Value.struct lv.rt (lv.fs.set lv.j (Value.str (lv.D.get lv.key)))
  | lv :: lv2 :: rest =>
    Value.struct lv.rt
      ((lv.fs.set lv.c (nestedResult (lv2 :: rest))).set lv.j (Value.str (lv.D.get lv.key)))

/-- The level carries its own dict-tagged field and nothing else that the
traversal acts on: the values fit the type; field `i` is exported, tagged
`dict:"n" dictField:"T"` and holds a key that is not empty and has a label that
is not empty; the target search for `T` finds field `j`; no other field is
tagged; every field value is plain, but for the record of the next level when
`inner` is set, which sits in the exported field `c`. -/
def NestLevel.wellFormed (lv : NestLevel) (inner : Bool) : Bool :=
  lv.fs.length == lv.rt.fields.length &&
  (match lv.rt.fields[lv.i]? with
    | some ft => ft.exported && ft.dictTagged lv.n lv.T
    | none => false) &&
  decide (lv.n ≠ "") && decide (',' ∉ lv.n.data) && decide (lv.T ≠ "") &&
  decide (lv.key ≠ "") && decide (lv.D.get lv.key ≠ "") &&
  targetAt lv.rt lv.fs lv.T lv.j &&
  lv.rt.fields.enum.all (fun p => p.1 == lv.i || p.2.untagged) &&
  lv.fs.enum.all (fun p => (inner && p.1 == lv.c) || p.2.isLeaf) &&
  (!inner || (decide (lv.c < lv.fs.length) && decide (lv.c ≠ lv.i) && decide (lv.c ≠ lv.j) &&
    (lv.rt.fields[lv.c]?).any (fun f => f.exported)))

/-- Every level is well formed; there is at least one level. -/
def nestedWellFormed : List NestLevel → Bool
  | [] => false
  | [lv] => lv.wellFormed false
  | lv :: lv2 :: rest => lv.wellFormed true && nestedWellFormed (lv2 :: rest)

/-- The record type `Device` of `TestTranslateNested`. -/
def deviceType : StructType :=
  ⟨"Device", [⟨"Status", true, [("dict", "status"), ("dictField", "StatusName")]⟩,
    ⟨"StatusName", true, []⟩]⟩

/-- The record type `User` of `TestTranslateNested`. -/
def userDeviceType : StructType :=
  ⟨"User", [⟨"Sex", true, [("dict", "sex"), ("dictField", "SexName")]⟩,
    ⟨"SexName", true, []⟩, ⟨"Device", true, []⟩]⟩

/-- The levels of the record of `TestTranslateNested`: a `User` with `Sex = "1"`
that holds a `Device` with `Status = "1"`. -/
def userDeviceLevels : List NestLevel :=
  [⟨userDeviceType, [Value.str "1", Value.str "", Value.nilPtr], 0, 1, 2, "sex", "SexName",
      [("1", "男"), ("2", "女")]⟩,
   ⟨deviceType, [Value.str "1", Value.str ""], 0, 1, 0, "status", "StatusName",
      [("1", "启用"), ("0", "禁用")]⟩]

/-- The levels of a record of `TestNestedDepth` with the keys `k :: ks`,
outermost first, and the dictionary `D` registered under `n`: every level has
the fields `Status` (index 0) and `StatusName` (index 1), and every level but
the innermost holds the next level in its third field (index 2). -/
def depthLevels (n : String) (D : GoMap) : String → List String → List NestLevel
  | k, [] => [⟨levelType n 0, [Value.str k, Value.str ""], 0, 1, 2, n, "StatusName", D⟩]
  | k, k2 :: ks =>
    ⟨levelType n (ks.length + 1), [Value.str k, Value.str "", Value.nilPtr], 0, 1, 2, n,
      "StatusName", D⟩ :: depthLevels n D k2 ks

/-- A record type in which a target is a source under case folding of a letter
outside ASCII: `A` is tagged `dict:"d1" dictField:"BÄ"`, and the field `Bä`,
declared before it, is tagged `dict:"d2" dictField:"C"`. -/
def foldSourceType : StructType :=
  ⟨"FoldSource", [⟨"Bä", true, [("dict", "d2"), ("dictField", "C")]⟩,
    ⟨"A", true, [("dict", "d1"), ("dictField", "BÄ")]⟩, ⟨"C", true, []⟩]⟩

/-! # Theorems -/

/-! ## Strings and `parseDBTag` -/

theorem splitChars_of_not_mem (sep : Char) (l : List Char) (h : sep ∉ l) :
    splitChars sep l = [l] := by
  induction l with
  | nil => rfl
  | cons c cs ih =>
    have hc : c ≠ sep := fun e => h (by simp [e])
    have hcs : sep ∉ cs := fun e => h (by simp [e])
    simp [splitChars, hc, ih hcs]

theorem splitChars_append (sep : Char) (a b : List Char) (h : sep ∉ a) :
    splitChars sep (a ++ sep :: b) = a :: splitChars sep b := by
  induction a with
  | nil => simp [splitChars]
  | cons c cs ih =>
    have hc : c ≠ sep := fun e => h (by simp [e])
    have hcs : sep ∉ cs := fun e => h (by simp [e])
    simp [splitChars, hc, ih hcs]

theorem trimLeft_of_head (l : List Char) (h : ∀ c, l.head? = some c → isSpace c = false) :
    trimLeft l = l := by
  cases l with
  | nil => rfl
  | cons c cs => simp [trimLeft, h c rfl]

theorem noOuterSpace_iff (s : String) :
    NoOuterSpace s ↔ (∀ c, s.data.head? = some c → isSpace c = false) ∧
      (∀ c, s.data.getLast? = some c → isSpace c = false) := by
  unfold NoOuterSpace
  constructor
  · rintro ⟨h1, h2⟩
    constructor
    · intro c hc
      rw [hc] at h1
      simpa using h1
    · intro c hc
      rw [hc] at h2
      simpa using h2
  · rintro ⟨h1, h2⟩
    constructor
    · cases h : s.data.head? with
      | none => simp
      | some c => simp [h1 c h]
    · cases h : s.data.getLast? with
      | none => simp
      | some c => simp [h2 c h]

theorem trimSpace_of_noOuterSpace (s : String) (h : NoOuterSpace s) : trimSpace s = s := by
  obtain ⟨h1, h2⟩ := (noOuterSpace_iff s).1 h
  unfold trimSpace
  rw [trimLeft_of_head _ h1, trimLeft_of_head]
  · simp
  · intro c hc
    apply h2 c
    simpa [List.head?_reverse] using hc

theorem compact_triple (t k v : String) (ht : NoDelim t) (hk : NoDelim k) (hv : NoDelim v)
    (st : NoOuterSpace t) (sk : NoOuterSpace k) (sv : NoOuterSpace v) :
    parseDBTriple (t ++ ":" ++ k ++ ":" ++ v) = (t, k, v) := by
  obtain ⟨ht1, ht2, -⟩ := ht
  obtain ⟨hk1, hk2, -⟩ := hk
  obtain ⟨hv1, hv2, -⟩ := hv
  have hd : (t ++ ":" ++ k ++ ":" ++ v).data = t.data ++ ':' :: (k.data ++ ':' :: v.data) := by
    simp [String.data_append]
  have h1 : contains (t ++ ":" ++ k ++ ":" ++ v) ':' = true := by
    simp [contains, hd]
  have h2 : contains (t ++ ":" ++ k ++ ":" ++ v) '=' = false := by
    simp [contains, hd, ht2, hk2, hv2]
  have h3 : split (t ++ ":" ++ k ++ ":" ++ v) ':' = [t, k, v] := by
    simp [split, hd, splitChars_append _ _ _ ht1, splitChars_append _ _ _ hk1,
      splitChars_of_not_mem _ _ hv1]
  simp [parseDBTriple, h1, h2, h3, trimSpace_of_noOuterSpace, st, sk, sv]

theorem noOuterSpace_prefixed (c : Char) (p s : String) (hc : isSpace c = false)
    (hl : ∀ d, (c :: p.data).getLast? = some d → isSpace d = false)
    (hs : NoOuterSpace s) : trimSpace (String.mk (c :: p.data ++ s.data)) = String.mk (c :: p.data ++ s.data) := by
  apply trimSpace_of_noOuterSpace
  rw [noOuterSpace_iff]
  rw [noOuterSpace_iff] at hs
  constructor
  · intro d hd
    simp at hd
    subst hd; exact hc
  · intro d hd
    cases hsd : s.data with
    | nil =>
      simp [hsd] at hd
      apply hl d
      simpa using hd
    | cons e es =>
      apply hs.2 d
      rw [hsd]
      rw [hsd] at hd
      simp only [List.cons_append] at hd
      rw [← List.cons_append, List.getLast?_append_cons] at hd
      exact hd

theorem explicit_triple (t k v : String) (ht : NoDelim t) (hk : NoDelim k) (hv : NoDelim v)
    (st : NoOuterSpace t) (sk : NoOuterSpace k) (sv : NoOuterSpace v) :
    parseDBTriple ("table=" ++ t ++ ",key=" ++ k ++ ",value=" ++ v) = (t, k, v) := by
  obtain ⟨ht1, -, ht3⟩ := ht
  obtain ⟨hk1, -, hk3⟩ := hk
  obtain ⟨hv1, -, hv3⟩ := hv
  have hd : ("table=" ++ t ++ ",key=" ++ k ++ ",value=" ++ v).data
      = ('t' :: "able=".data ++ t.data) ++ ',' :: (('k' :: "ey=".data ++ k.data) ++ ',' ::
          ('v' :: "alue=".data ++ v.data)) := by
    simp [String.data_append]
  have h1 : contains ("table=" ++ t ++ ",key=" ++ k ++ ",value=" ++ v) ':' = false := by
    simp [contains, hd, ht1, hk1, hv1]
  have h3 : split ("table=" ++ t ++ ",key=" ++ k ++ ",value=" ++ v) ',' =
      [String.mk ('t' :: "able=".data ++ t.data), String.mk ('k' :: "ey=".data ++ k.data),
        String.mk ('v' :: "alue=".data ++ v.data)] := by
    have a1 : ',' ∉ ('t' :: "able=".data ++ t.data) := by simp [ht3]
    have a2 : ',' ∉ ('k' :: "ey=".data ++ k.data) := by simp [hk3]
    have a3 : ',' ∉ ('v' :: "alue=".data ++ v.data) := by simp [hv3]
    rw [split, hd, splitChars_append _ _ _ a1, splitChars_append _ _ _ a2,
      splitChars_of_not_mem _ _ a3]
    rfl
  have e1 := noOuterSpace_prefixed 't' "able=" t (by decide) (by decide) st
  have e2 := noOuterSpace_prefixed 'k' "ey=" k (by decide) (by decide) sk
  have e3 := noOuterSpace_prefixed 'v' "alue=" v (by decide) (by decide) sv
  simp only [parseDBTriple, h1, h3, Bool.false_and, List.foldl, parseDBPart, e1, e2, e3]
  simp [hasPrefix, trimPrefix]

/-- C4: for non-empty `t`, `k`, `v` without `:`, `=`, `,` and without leading or
trailing white space, `parseDBTag` succeeds on the compact tag `t:k:v` and on
the explicit tag `table=t,key=k,value=v`, and both give the translator of the
triple `(t, k, v)`. -/
theorem parseDBTag_compact_explicit (t k v : String)
    (ht0 : t ≠ "") (hk0 : k ≠ "") (hv0 : v ≠ "")
    (ht : NoDelim t) (hk : NoDelim k) (hv : NoDelim v)
    (st : NoOuterSpace t) (sk : NoOuterSpace k) (sv : NoOuterSpace v) :
    parseDBTag (t ++ ":" ++ k ++ ":" ++ v) = some (Translator.db t k v) ∧
    parseDBTag ("table=" ++ t ++ ",key=" ++ k ++ ",value=" ++ v) = some (Translator.db t k v) := by
  have n1 : t ++ ":" ++ k ++ ":" ++ v ≠ "" := by
    intro h
    have := congrArg String.data h
    simp [String.data_append] at this
  have n2 : "table=" ++ t ++ ",key=" ++ k ++ ",value=" ++ v ≠ "" := by
    intro h
    have := congrArg String.data h
    simp [String.data_append] at this
  constructor
  · simp [parseDBTag, n1, compact_triple t k v ht hk hv st sk sv, ht0, hk0, hv0]
  · simp [parseDBTag, n2, explicit_triple t k v ht hk hv st sk sv, ht0, hk0, hv0]

theorem parseDBTag_compact_explicit_witness :
    parseDBTag ("user" ++ ":" ++ "id" ++ ":" ++ "name") = some (Translator.db "user" "id" "name") ∧
    parseDBTag ("table=" ++ "user" ++ ",key=" ++ "id" ++ ",value=" ++ "name") =
      some (Translator.db "user" "id" "name") :=
  parseDBTag_compact_explicit "user" "id" "name" (by decide) (by decide) (by decide)
    (by decide) (by decide) (by decide) (by decide) (by decide) (by decide)

/-! ## Entry contract of `Translate` -/

/-- C2: with no unwrapper registered, `Translate` returns `ErrNotPointer` for
every input that is not a pointer and `ErrNotStruct` for every pointer whose
pointee is neither a record nor a sequence; the world and the input are
unchanged in both cases. -/
theorem Translate_entry_errors (w : World) (hu : w.dm.unwrappers = []) :
    (∀ v : Value, v.isPtr = false → Translate w v = (w, v, some Error.ErrNotPointer)) ∧
    (∀ e : Value, e.isStruct = false → e.isSlice = false →
      Translate w (Value.ptr e) = (w, Value.ptr e, some Error.ErrNotStruct)) := by
  constructor
  · intro v hv
    cases v <;> simp_all [Translate, tryUnwrap, Value.isPtr]
  · intro e h1 h2
    cases e <;> simp_all [Translate, tryUnwrap, Value.isStruct, Value.isSlice]

theorem Translate_entry_errors_witness :
    Translate World.init (Value.int 7) = (World.init, Value.int 7, some Error.ErrNotPointer) ∧
    Translate World.init (Value.ptr (Value.int 7)) =
      (World.init, Value.ptr (Value.int 7), some Error.ErrNotStruct) :=
  ⟨(Translate_entry_errors World.init rfl).1 (Value.int 7) rfl,
   (Translate_entry_errors World.init rfl).2 (Value.int 7) rfl rfl⟩

/-! ## The enum backend -/

/-- C10: when the tag argument names a registered enum table `E`,
`EnumTranslator.Translate` returns without error the label `E[key]`, where
`key` is the source string, or the decimal form of the signed or unsigned
source integer; the label of a key absent from `E` is empty. -/
theorem EnumTranslator_Translate_label (enumMap : Registry) (fieldName tag : String)
    (E : GoMap) (h : enumMap.get tag = some E) :
    (∀ s : String,
      EnumTranslator.Translate enumMap (Value.str s) fieldName tag = Except.ok (E.get s)) ∧
    (∀ i : Int,
      EnumTranslator.Translate enumMap (Value.int i) fieldName tag
        = Except.ok (E.get (toString i))) ∧
    (∀ n : Nat,
      EnumTranslator.Translate enumMap (Value.uint n) fieldName tag
        = Except.ok (E.get (toString n))) ∧
    (∀ key : String, E.lookup key = none → E.get key = "") := by
  refine ⟨?_, ?_, ?_, ?_⟩
  · intro s; simp [EnumTranslator.Translate, h]
  · intro i; simp [EnumTranslator.Translate, h]
  · intro n; simp [EnumTranslator.Translate, h]
  · intro key hk; simp [GoMap.get, hk]

theorem EnumTranslator_Translate_label_witness :
    EnumTranslator.Translate [("priority", some [("1", "低"), ("2", "中"), ("3", "高")])]
      (Value.int 2) "Priority" "priority" = Except.ok "中" :=
  (EnumTranslator_Translate_label [("priority", some [("1", "低"), ("2", "中"), ("3", "高")])]
    "Priority" "priority" [("1", "低"), ("2", "中"), ("3", "高")] (by decide)).2.1 2

theorem planField_fieldIndex (trs : List (String × Option Translator)) (i : Nat)
    (f : StructField) : (planField trs i f).fieldIndex = i := by
  unfold planField
  simp only []
  repeat' split
  all_goals rfl

theorem mem_buildFields (trs : List (String × Option Translator)) (fields : List StructField)
    (s : Nat) (c : fieldConfig) :
    c ∈ buildFields trs s fields ↔
      ∃ idx f, fields[idx]? = some f ∧ c = planField trs (s + idx) f ∧
        ((planField trs (s + idx) f).translator.isSome ∨
          (planField trs (s + idx) f).translatorTag ≠ "") := by
  induction fields generalizing s with
  | nil => simp [buildFields]
  | cons f fs ih =>
    unfold buildFields
    simp only []
    constructor
    · intro h
      split at h
      · rename_i hact
        rcases List.mem_cons.1 h with h | h
        · exact ⟨0, f, by simp, by simpa using h, by simpa using hact⟩
        · obtain ⟨idx, g, h1, h2, h3⟩ := (ih (s + 1) ).1 h
          refine ⟨idx + 1, g, by simpa using h1, ?_, ?_⟩
          · rw [h2]; congr 1; omega
          · have : s + (idx + 1) = s + 1 + idx := by omega
            rw [this]; exact h3
      · obtain ⟨idx, g, h1, h2, h3⟩ := (ih (s + 1) ).1 h
        refine ⟨idx + 1, g, by simpa using h1, ?_, ?_⟩
        · rw [h2]; congr 1; omega
        · have : s + (idx + 1) = s + 1 + idx := by omega
          rw [this]; exact h3
    · rintro ⟨idx, g, h1, h2, h3⟩
      cases idx with
      | zero =>
        simp at h1
        subst h1
        have hact : ((planField trs s f).translator.isSome ||
            decide ((planField trs s f).translatorTag ≠ "")) = true := by
          simpa using h3
        rw [if_pos hact]
        simp [h2]
      | succ n =>
        have hm : c ∈ buildFields trs (s + 1) fs := by
          apply (ih (s + 1)).2
          refine ⟨n, g, by simpa using h1, ?_, ?_⟩
          · rw [h2]; congr 1; omega
          · have : s + (n + 1) = s + 1 + n := by omega
            rw [← this]; exact h3
        split
        · exact List.mem_cons_of_mem _ hm
        · exact hm

theorem find?_unique {α : Type} (p : α → Bool) (l : List α) (x : α) (hx : x ∈ l) (hp : p x = true)
    (hu : ∀ y ∈ l, p y = true → y = x) : l.find? p = some x := by
  induction l with
  | nil => simp at hx
  | cons a as ih =>
    by_cases ha : p a = true
    · have := hu a (by simp) ha
      subst this
      simp [List.find?, ha]
    · have hx2 : x ∈ as := by
        rcases List.mem_cons.1 hx with h | h
        · subst h; exact absurd hp ha
        · exact h
      have ha2 : p a = false := by simpa using ha
      simp only [List.find?, ha2]
      exact ih hx2 (fun y hy => hu y (List.mem_cons_of_mem _ hy))

/-- The plan built for a type, read at the index of one of its fields. -/
theorem fieldConfigMap_buildFields (trs : List (String × Option Translator))
    (fields : List StructField) (j : Nat) (f : StructField) (hf : fields[j]? = some f) :
    fieldConfigMap ⟨buildFields trs 0 fields⟩ j =
      if (planField trs j f).translator.isSome || decide ((planField trs j f).translatorTag ≠ "")
      then some (planField trs j f) else none := by
  unfold fieldConfigMap
  simp only []
  split
  · rename_i hact
    apply find?_unique
    · rw [List.mem_reverse, mem_buildFields]
      exact ⟨j, f, hf, by simp, by simpa using hact⟩
    · simp [planField_fieldIndex]
    · intro y hy hyj
      rw [List.mem_reverse, mem_buildFields] at hy
      obtain ⟨idx, g, h1, h2, -⟩ := hy
      have : idx = j := by
        rw [h2, planField_fieldIndex] at hyj
        simpa using hyj
      subst this
      rw [hf] at h1
      cases h1
      simpa using h2
  · rename_i hact
    rw [List.find?_eq_none]
    intro y hy
    rw [List.mem_reverse, mem_buildFields] at hy
    obtain ⟨idx, g, h1, h2, h3⟩ := hy
    intro hyj
    have : idx = j := by
      rw [h2, planField_fieldIndex] at hyj
      simpa using hyj
    subst this
    rw [hf] at h1
    cases h1
    apply hact
    simpa using h3

theorem translateFields_cons (rt : StructType) (cfg : structConfig) (i : Nat) (v : Value)
    (rest : List Value) (w : World) (cur : List Value) :
    translateFields rt cfg i (v :: rest) w cur =
      match rt.fields[i]? with
      | none => (w, cur, none)
      | some fieldType =>
        if !fieldType.exported then translateFields rt cfg (i + 1) rest w cur
        else
          match (nestedStep w cur i v).2.2 with
          | some err => ((nestedStep w cur i v).1, (nestedStep w cur i v).2.1, some err)
          | none =>
            match (translateTagged (nestedStep w cur i v).1 cfg i fieldType rt
                (nestedStep w cur i v).2.1).2.2 with
            | some err =>
              ((translateTagged (nestedStep w cur i v).1 cfg i fieldType rt
                  (nestedStep w cur i v).2.1).1,
               (translateTagged (nestedStep w cur i v).1 cfg i fieldType rt
                  (nestedStep w cur i v).2.1).2.1, some err)
            | none =>
              translateFields rt cfg (i + 1) rest
                (translateTagged (nestedStep w cur i v).1 cfg i fieldType rt
                  (nestedStep w cur i v).2.1).1
                (translateTagged (nestedStep w cur i v).1 cfg i fieldType rt
                  (nestedStep w cur i v).2.1).2.1 := by
  cases v <;> simp [translateFields, nestedStep, Value.isStruct]

theorem translateSlice_cons (elem : Value) (rest : List Value) (w : World) :
    translateSlice (elem :: rest) w =
      match (elemStep w elem).2.2 with
      | some err => ((elemStep w elem).1, (elemStep w elem).2.1 :: rest, some err)
      | none =>
        ((translateSlice rest (elemStep w elem).1).1,
         (elemStep w elem).2.1 :: (translateSlice rest (elemStep w elem).1).2.1,
         (translateSlice rest (elemStep w elem).1).2.2) := by
  cases elem <;> simp [translateSlice, elemStep, Value.isStruct]

theorem nestedStep_leaf (w : World) (cur : List Value) (i : Nat) (v : Value)
    (hv : v.isLeaf = true) : nestedStep w cur i v = (w, cur, none) := by
  cases v <;> simp_all [nestedStep, Value.isLeaf, Value.isStruct]

theorem translateFields_cons_leaf (rt : StructType) (cfg : structConfig) (i : Nat) (v : Value)
    (rest : List Value) (w : World) (cur : List Value) (hv : v.isLeaf = true) :
    translateFields rt cfg i (v :: rest) w cur =
      match rt.fields[i]? with
      | none => (w, cur, none)
      | some fieldType =>
        if !fieldType.exported then translateFields rt cfg (i + 1) rest w cur
        else
          match (translateTagged w cfg i fieldType rt cur).2.2 with
          | some err => ((translateTagged w cfg i fieldType rt cur).1,
              (translateTagged w cfg i fieldType rt cur).2.1, some err)
          | none => translateFields rt cfg (i + 1) rest (translateTagged w cfg i fieldType rt cur).1
              (translateTagged w cfg i fieldType rt cur).2.1 := by
  rw [translateFields_cons, nestedStep_leaf _ _ _ _ hv]

theorem translateFields_out_of_range (rt : StructType) (cfg : structConfig) (i : Nat)
    (todo : List Value) (w : World) (cur : List Value) (h : rt.fields.length ≤ i) :
    translateFields rt cfg i todo w cur = (w, cur, none) := by
  have hn : rt.fields[i]? = none := List.getElem?_eq_none h
  cases todo with
  | nil => simp [translateFields]
  | cons v rest =>
    rw [translateFields_cons]
    simp only [hn]

theorem translateTagged_none (w : World) (cfg : structConfig) (i : Nat) (ft : StructField)
    (rt : StructType) (cur : List Value) (h : fieldConfigMap cfg i = none) :
    translateTagged w cfg i ft rt cur = (w, cur, none) := by
  simp [translateTagged, h]

/-- Fields that are leaves and have no plan entry (or are not exported) are
passed over by the loop of `translateStruct`. -/
theorem translateFields_skip_inert (rt : StructType) (cfg : structConfig) (pre : List Value) :
    ∀ (i : Nat) (rest : List Value) (w : World) (cur : List Value),
      (∀ v ∈ pre, v.isLeaf = true) →
      (∀ k ft, k < pre.length → rt.fields[i + k]? = some ft → ft.exported = true →
        fieldConfigMap cfg (i + k) = none) →
      translateFields rt cfg i (pre ++ rest) w cur
        = translateFields rt cfg (i + pre.length) rest w cur := by
  induction pre with
  | nil => intro i rest w cur _ _; simp
  | cons v vs ih =>
    intro i rest w cur hleaf hinert
    have hv : v.isLeaf = true := hleaf v (by simp)
    rw [List.cons_append, translateFields_cons_leaf _ _ _ _ _ _ _ hv]
    have hrec : translateFields rt cfg (i + 1) (vs ++ rest) w cur
        = translateFields rt cfg (i + (v :: vs).length) rest w cur := by
      rw [ih (i + 1) rest w cur (fun x hx => hleaf x (by simp [hx]))]
      · congr 1; simp; omega
      · intro k ft hk hft hexp
        have := hinert (k + 1) ft (by simpa using hk) (by rw [← hft]; congr 1; omega) hexp
        rw [← this]; congr 1; omega
    cases hft : rt.fields[i]? with
    | none =>
      simp only []
      rw [translateFields_out_of_range]
      have := List.getElem?_eq_none_iff.1 hft
      omega
    | some ft =>
      simp only []
      by_cases hexp : ft.exported = true
      · have hnone := hinert 0 ft (by simp) (by simpa using hft) hexp
        simp only [Nat.add_zero] at hnone
        rw [translateTagged_none _ _ _ _ _ _ hnone]
        simp [hexp, hrec]
      · simp [hexp, hrec]

theorem translateFields_nil (rt : StructType) (cfg : structConfig) (i : Nat) (w : World)
    (cur : List Value) : translateFields rt cfg i [] w cur = (w, cur, none) := by
  simp [translateFields]

/-- In a record of leaves in which only field `i` can have a plan entry, the
loop of `translateStruct` does what its last step does for field `i`. -/
theorem translateFields_single (rt : StructType) (cfg : structConfig) (fs : List Value)
    (i : Nat) (ft : StructField) (w : World) (cur : List Value)
    (hi : i < fs.length) (hft : rt.fields[i]? = some ft) (hexp : ft.exported = true)
    (hleaf : ∀ v ∈ fs, v.isLeaf = true)
    (hinert : ∀ j ft2, j ≠ i → rt.fields[j]? = some ft2 → ft2.exported = true →
      fieldConfigMap cfg j = none) :
    translateFields rt cfg 0 fs w cur = translateTagged w cfg i ft rt cur := by
  have hsplit : fs = fs.take i ++ fs[i] :: fs.drop (i + 1) := by
    simp
  rw [hsplit, translateFields_skip_inert]
  · have hlen : (List.take i fs).length = i := by simp; omega
    rw [hlen, Nat.zero_add, translateFields_cons_leaf _ _ _ _ _ _ _ (hleaf _ (List.getElem_mem _)),
      hft]
    simp only [hexp, Bool.not_true, Bool.false_eq_true, if_false]
    cases ht : (translateTagged w cfg i ft rt cur).2.2 with
    | some err =>
      simp only []
      rw [← ht]
    | none =>
      simp only []
      have := translateFields_skip_inert rt cfg (fs.drop (i + 1)) (i + 1) []
        (translateTagged w cfg i ft rt cur).1 (translateTagged w cfg i ft rt cur).2.1
        (fun v hv => hleaf v (List.mem_of_mem_drop hv))
        (fun k ft2 _ hk hexp2 => hinert (i + 1 + k) ft2 (by omega) hk hexp2)
      rw [List.append_nil] at this
      rw [this, translateFields_nil, ← ht]
  · intro v hv
    exact hleaf v (List.mem_of_mem_take hv)
  · intro k ft2 hk hft2 hexp2
    have hlen : (List.take i fs).length = i := by simp; omega
    rw [hlen] at hk
    simp only [Nat.zero_add] at hft2 ⊢
    exact hinert k ft2 (by omega) hft2 hexp2

theorem setTarget_eq_set (target label : String) :
    ∀ (fields : List StructField) (fs : List Value) (j : Nat) (tf : StructField) (s : String),
      fields[j]? = some tf → fs[j]? = some (Value.str s) → tf.exported = true →
      nameMatches tf target = true →
      (∀ f ∈ fields.take j, nameMatches f target = false) →
      setTarget target label fields fs = fs.set j (Value.str label) := by
  intro fields
  induction fields with
  | nil => intro fs j tf s h; simp at h
  | cons f rest ih =>
    intro fs j tf s hf hv hexp hm hbefore
    cases fs with
    | nil => simp at hv
    | cons v vs =>
      cases j with
      | zero =>
        simp at hf hv
        subst hf hv
        have hm2 : (f.name = target ∨ equalFold f.name target = true) := by
          simpa [nameMatches] using hm
        simp [setTarget, hm2, hexp]
      | succ n =>
        have h0 : nameMatches f target = false := hbefore f (by simp)
        have h02 : ¬ (f.name = target ∨ equalFold f.name target = true) := by
          simpa [nameMatches] using h0
        have := ih vs n tf s (by simpa using hf) (by simpa using hv) hexp hm
          (fun g hg => hbefore g (by simp [hg]))
        simp only [setTarget, List.set_cons_succ]
        simp [h02, this]

theorem setTarget_of_targetAt (rt : StructType) (fs : List Value) (target label : String)
    (j : Nat) (h : targetAt rt fs target j = true) :
    setTarget target label rt.fields fs = fs.set j (Value.str label) := by
  unfold targetAt at h
  split at h
  · rename_i tf s h1 h2
    simp only [Bool.and_eq_true, List.all_eq_true, Bool.not_eq_true'] at h
    exact setTarget_eq_set target label rt.fields fs j tf s h1 h2 h.1.1 h.1.2 h.2
  · simp at h

theorem planField_no_translate (trs : List (String × Option Translator)) (i : Nat)
    (f : StructField) (h : f.tagGet "translate" = "") :
    planField trs i f = planField [] i f := by
  simp [planField, h]

theorem planField_untagged (trs : List (String × Option Translator)) (i : Nat)
    (f : StructField) (h : f.untagged = true) :
    (planField trs i f).translator = none ∧ (planField trs i f).translatorTag = "" := by
  simp only [StructField.untagged, Bool.and_eq_true, decide_eq_true_eq] at h
  obtain ⟨⟨⟨⟨⟨h1, h2⟩, h3⟩, h4⟩, h5⟩, h6⟩ := h
  simp [planField, h1, h2, h3, h4, h5, h6]

theorem getOrCreateConfig_sound (dm : DictManager) (rt : StructType) (h : PlanSound dm rt) :
    ∃ trs, (getOrCreateConfig dm rt).2.fields = buildFields trs 0 rt.fields := by
  unfold getOrCreateConfig
  cases hl : dm.configCache.lookup rt with
  | none => exact ⟨dm.translators, rfl⟩
  | some cfg => exact h cfg hl

theorem flatSingle_elim (rt : StructType) (fs : List Value) (i : Nat) (ft : StructField)
    (h : flatSingle rt fs i = true) (hft : rt.fields[i]? = some ft) :
    fs.length = rt.fields.length ∧ i < fs.length ∧ ft.exported = true ∧
    (∀ v ∈ fs, v.isLeaf = true) ∧
    (∀ j ft2, j ≠ i → rt.fields[j]? = some ft2 → ft2.untagged = true) := by
  simp only [flatSingle, Bool.and_eq_true, beq_iff_eq, List.all_eq_true, Bool.or_eq_true,
    hft, Option.any_some] at h
  obtain ⟨⟨⟨h1, h2⟩, h3⟩, h4⟩ := h
  refine ⟨h1, ?_, h3, h2, ?_⟩
  · have := (List.getElem?_eq_some_iff.1 hft).1
    omega
  · intro j ft2 hj hft2
    have := h4 (j, ft2) (List.mk_mem_enum_iff_getElem?.2 hft2)
    simpa [hj] using this

/-- `Translate` on a pointer to a flat record whose only tagged field is field
`i` (without a `translate` tag): the plan of the type is fetched or built, and
the entry of field `i`, if the plan has one, is resolved. -/
theorem Translate_flatSingle (w : World) (rt : StructType) (fs : List Value) (i : Nat)
    (ft : StructField)
    (hu : tryUnwrap w.dm (Value.ptr (Value.struct rt fs)) = none)
    (hplan : PlanSound w.dm rt) (hshape : flatSingle rt fs i = true)
    (hft : rt.fields[i]? = some ft) (htr : ft.tagGet "translate" = "") :
    Translate w (Value.ptr (Value.struct rt fs)) =
      if (planField [] i ft).translator.isSome || decide ((planField [] i ft).translatorTag ≠ "")
      then
        ((translateEntry ⟨(getOrCreateConfig w.dm rt).1, w.env⟩ (planField [] i ft) i ft rt fs).1,
         Value.ptr (Value.struct rt
          (translateEntry ⟨(getOrCreateConfig w.dm rt).1, w.env⟩ (planField [] i ft) i ft rt fs).2.1),
         (translateEntry ⟨(getOrCreateConfig w.dm rt).1, w.env⟩ (planField [] i ft) i ft rt fs).2.2)
      else (⟨(getOrCreateConfig w.dm rt).1, w.env⟩, Value.ptr (Value.struct rt fs), none) := by
  obtain ⟨hlen, hi, hexp, hleaf, hothers⟩ := flatSingle_elim rt fs i ft hshape hft
  obtain ⟨trs, htrs⟩ := getOrCreateConfig_sound w.dm rt hplan
  have hcfg : (getOrCreateConfig w.dm rt).2 = ⟨buildFields trs 0 rt.fields⟩ := by
    cases hc : (getOrCreateConfig w.dm rt).2
    rw [hc] at htrs
    simp only at htrs
    rw [htrs]
  have hinert : ∀ j ft2, j ≠ i → rt.fields[j]? = some ft2 → ft2.exported = true →
      fieldConfigMap (getOrCreateConfig w.dm rt).2 j = none := by
    intro j ft2 hj hft2 _
    rw [hcfg, fieldConfigMap_buildFields trs rt.fields j ft2 hft2]
    have := planField_untagged trs j ft2 (hothers j ft2 hj hft2)
    simp [this.1, this.2]
  have hmain := translateFields_single rt (getOrCreateConfig w.dm rt).2 fs i ft
    ⟨(getOrCreateConfig w.dm rt).1, w.env⟩ fs hi hft hexp hleaf hinert
  have hT : Translate w (Value.ptr (Value.struct rt fs)) =
      ((translateTagged ⟨(getOrCreateConfig w.dm rt).1, w.env⟩ (getOrCreateConfig w.dm rt).2
          i ft rt fs).1,
       Value.ptr (Value.struct rt (translateTagged ⟨(getOrCreateConfig w.dm rt).1, w.env⟩
          (getOrCreateConfig w.dm rt).2 i ft rt fs).2.1),
       (translateTagged ⟨(getOrCreateConfig w.dm rt).1, w.env⟩ (getOrCreateConfig w.dm rt).2
          i ft rt fs).2.2) := by
    simp only [Translate, hu, Option.getD_none, translateStruct, hmain]
  rw [hT]
  unfold translateTagged
  rw [hcfg, fieldConfigMap_buildFields trs rt.fields i ft hft, planField_no_translate trs i ft htr]
  by_cases hact : ((planField [] i ft).translator.isSome ||
      decide ((planField [] i ft).translatorTag ≠ "")) = true
  · simp only [hact, if_true]
  · simp only [hact, if_false, Bool.false_eq_true]

/-! ## The in-memory dictionary tag -/

theorem split_headD_of_no_comma (n : String) (h : ',' ∉ n.data) :
    (split n ',').headD "" = n := by
  simp [split, splitChars_of_not_mem _ _ h]

theorem planField_dictTagged (trs : List (String × Option Translator)) (i : Nat)
    (f : StructField) (n T : String) (h : f.dictTagged n T = true) (hn : n ≠ "") :
    planField trs i f =
      { fieldIndex := i, sourceField := "", targetField := T, translatorTag := n,
        translator := none } := by
  simp only [StructField.dictTagged, Bool.and_eq_true, decide_eq_true_eq] at h
  obtain ⟨⟨⟨⟨⟨⟨h1, h2⟩, h3⟩, h4⟩, h5⟩, h6⟩, h7⟩ := h
  simp [planField, h1, h2, h3, h4, h5, h6, h7, hn]

theorem foldl_parseDBPart_table (parts : List String) (acc : String × String × String)
    (h : ∀ p ∈ parts, hasPrefix (trimSpace p) "table=" = false) :
    (parts.foldl parseDBPart acc).1 = acc.1 := by
  induction parts generalizing acc with
  | nil => rfl
  | cons p ps ih =>
    rw [List.foldl_cons, ih _ (fun q hq => h q (by simp [hq]))]
    have hp := h p (by simp)
    by_cases h1 : hasPrefix (trimSpace p) "table=" = true <;>
    by_cases h2 : hasPrefix (trimSpace p) "key=" = true <;>
    by_cases h3 : hasPrefix (trimSpace p) "value=" = true <;>
    simp_all [parseDBPart]

theorem foldl_parseDBPart_key (parts : List String) (acc : String × String × String)
    (h : ∀ p ∈ parts, hasPrefix (trimSpace p) "key=" = false) :
    (parts.foldl parseDBPart acc).2.1 = acc.2.1 := by
  induction parts generalizing acc with
  | nil => rfl
  | cons p ps ih =>
    rw [List.foldl_cons, ih _ (fun q hq => h q (by simp [hq]))]
    have hp := h p (by simp)
    by_cases h1 : hasPrefix (trimSpace p) "table=" = true <;>
    by_cases h2 : hasPrefix (trimSpace p) "key=" = true <;>
    by_cases h3 : hasPrefix (trimSpace p) "value=" = true <;>
    simp_all [parseDBPart]

theorem foldl_parseDBPart_value (parts : List String) (acc : String × String × String)
    (h : ∀ p ∈ parts, hasPrefix (trimSpace p) "value=" = false) :
    (parts.foldl parseDBPart acc).2.2 = acc.2.2 := by
  induction parts generalizing acc with
  | nil => rfl
  | cons p ps ih =>
    rw [List.foldl_cons, ih _ (fun q hq => h q (by simp [hq]))]
    have hp := h p (by simp)
    by_cases h1 : hasPrefix (trimSpace p) "table=" = true <;>
    by_cases h2 : hasPrefix (trimSpace p) "key=" = true <;>
    by_cases h3 : hasPrefix (trimSpace p) "value=" = true <;>
    simp_all [parseDBPart]

theorem dbTagIncomplete_of_compactMalformed (tag : String) (h : compactMalformed tag = true) :
    dbTagIncomplete tag = true := by
  simp only [compactMalformed, Bool.and_eq_true, Bool.or_eq_true, decide_eq_true_eq] at h
  obtain ⟨hform, hbad⟩ := h
  have hform2 : (contains tag ':' && !contains tag '=') = true := by simpa using hform
  unfold dbTagIncomplete parseDBTriple
  rw [if_pos hform2]
  rcases hs : split tag ':' with _ | ⟨a, _ | ⟨b, _ | ⟨c, _ | ⟨d, l⟩⟩⟩⟩
  · simp
  · simp
  · simp
  · rw [hs] at hbad
    rcases hbad with hbad | hbad
    · simp at hbad
    · simp only [List.any_cons, List.any_nil, Bool.or_false, Bool.or_eq_true,
        decide_eq_true_eq] at hbad
      simp only [Bool.or_eq_true, decide_eq_true_eq]
      tauto
  · simp

theorem dbTagIncomplete_of_explicitLacking (tag : String) (h : explicitLacking tag = true) :
    dbTagIncomplete tag = true := by
  simp only [explicitLacking, Bool.and_eq_true, Bool.or_eq_true, Bool.not_eq_true',
    List.any_eq_false] at h
  obtain ⟨hform, hbad⟩ := h
  have hform2 : ¬ ((contains tag ':' && !contains tag '=') = true) := by simp [hform]
  unfold dbTagIncomplete parseDBTriple
  rw [if_neg hform2]
  simp only [Bool.or_eq_true, decide_eq_true_eq]
  rcases hbad with (hbad | hbad) | hbad
  · left; left
    rw [foldl_parseDBPart_table _ _ (fun p hp => by simpa using hbad p hp)]
  · left; right
    rw [foldl_parseDBPart_key _ _ (fun p hp => by simpa using hbad p hp)]
  · right
    rw [foldl_parseDBPart_value _ _ (fun p hp => by simpa using hbad p hp)]

theorem parseDBTag_of_incomplete (tag : String) (h : dbTagIncomplete tag = true) :
    parseDBTag tag = none := by
  simp only [dbTagIncomplete] at h
  simp [parseDBTag, h]

theorem planField_incomplete_db (trs : List (String × Option Translator)) (i : Nat)
    (f : StructField) (htr : f.tagGet "translate" = "") (hne : f.tagGet "db" ≠ "")
    (hnone : parseDBTag (f.tagGet "db") = none) :
    (planField trs i f).translator = none ∧ (planField trs i f).translatorTag = "" := by
  simp [planField, htr, hne, hnone]

/-- C5: a `db` tag that is incomplete (a component missing or empty after
parsing; in particular a compact tag without exactly three non-blank parts, or
an explicit tag lacking `table=`, `key=` or `value=`) yields no translator; a
field whose translation tag is such a tag has no entry in the plan of its
type; and `Translate` on a flat record whose only tagged field is that field
returns no error and leaves the record unchanged. -/
theorem Translate_incomplete_db_tag (w : World) (rt : StructType) (fs : List Value) (i : Nat)
    (ft : StructField) (tag : String)
    (hinc : dbTagIncomplete tag = true ∨ compactMalformed tag = true ∨ explicitLacking tag = true)
    (hne : tag ≠ "")
    (hu : tryUnwrap w.dm (Value.ptr (Value.struct rt fs)) = none)
    (hplan : PlanSound w.dm rt) (hshape : flatSingle rt fs i = true)
    (hft : rt.fields[i]? = some ft) (htr : ft.tagGet "translate" = "")
    (hdb : ft.tagGet "db" = tag) :
    parseDBTag tag = none ∧
    (∀ trs, ∀ c ∈ buildFields trs 0 rt.fields, c.fieldIndex ≠ i) ∧
    Translate w (Value.ptr (Value.struct rt fs))
      = (⟨(getOrCreateConfig w.dm rt).1, w.env⟩, Value.ptr (Value.struct rt fs), none) := by
  have hsem : dbTagIncomplete tag = true := by
    rcases hinc with h | h | h
    · exact h
    · exact dbTagIncomplete_of_compactMalformed tag h
    · exact dbTagIncomplete_of_explicitLacking tag h
  have hnone : parseDBTag tag = none := parseDBTag_of_incomplete tag hsem
  have hpf : ∀ trs, (planField trs i ft).translator = none ∧
      (planField trs i ft).translatorTag = "" := fun trs =>
    planField_incomplete_db trs i ft htr (by rw [hdb]; exact hne) (by rw [hdb]; exact hnone)
  refine ⟨hnone, ?_, ?_⟩
  · intro trs c hc hidx
    rw [mem_buildFields] at hc
    obtain ⟨idx, g, h1, h2, h3⟩ := hc
    rw [h2, planField_fieldIndex] at hidx
    simp only [Nat.zero_add] at hidx h3
    subst hidx
    rw [hft] at h1
    cases h1
    rw [(hpf trs).1, (hpf trs).2] at h3
    simp at h3
  · rw [Translate_flatSingle w rt fs i ft hu hplan hshape hft htr, (hpf []).1, (hpf []).2]
    simp

theorem Translate_incomplete_db_tag_witness :
    parseDBTag "user:id" = none ∧
    (∀ trs, ∀ c ∈ buildFields trs 0 (itemType "user:id").fields, c.fieldIndex ≠ 0) ∧
    Translate World.init (Value.ptr (Value.struct (itemType "user:id") [Value.str "1", Value.str ""]))
      = (⟨(getOrCreateConfig World.init.dm (itemType "user:id")).1, World.init.env⟩,
          Value.ptr (Value.struct (itemType "user:id") [Value.str "1", Value.str ""]), none) :=
  Translate_incomplete_db_tag World.init (itemType "user:id") [Value.str "1", Value.str ""] 0
    ⟨"ID", true, [("db", "user:id"), ("dictField", "Name")]⟩ "user:id"
    (Or.inr (Or.inl (by decide))) (by decide) rfl
    (by intro cfg h; simp [World.init, DictManager.init] at h) (by decide) rfl (by decide)
    (by decide)

/-! ## The database flavoured backends -/

theorem Translate_eq_backendTranslate (t : Translator) (ht : t.isDBFlavoured = true) (env : Env)
    (value : Value) (fieldName tagValue : String) :
    t.Translate env value fieldName tagValue = backendTranslate t env value := by
  cases t with
  | enum => simp [Translator.isDBFlavoured] at ht
  | custom f => simp [Translator.isDBFlavoured] at ht
  | db a b c =>
    simp only [Translator.Translate, createDBTranslator, backendTranslate, Translator.cacheEnabled,
      Translator.cache, Translator.cacheKey, Translator.query, Translator.notRegistered,
      Translator.queryEvent, Translator.setCache, Env.log]
    cases hq : env.db.translator with
    | none => rfl
    | some q =>
      simp only [Option.map_some']
      cases hr : q a b c value <;> rfl
  | dictTable a =>
    simp only [Translator.Translate, createDictTableTranslator, backendTranslate,
      Translator.cacheEnabled, Translator.cache, Translator.cacheKey, Translator.query,
      Translator.notRegistered, Translator.queryEvent, Translator.setCache, Env.log]
    cases hq : env.dictTable.translator with
    | none => rfl
    | some q =>
      simp only [Option.map_some']
      cases hr : q a (fmtV value) <;> rfl
  | dictTableTwo a =>
    simp only [Translator.Translate, createDictTableTwoTranslator, backendTranslate,
      Translator.cacheEnabled, Translator.cache, Translator.cacheKey, Translator.query,
      Translator.notRegistered, Translator.queryEvent, Translator.setCache, Env.log]
    cases hq : env.dictTableTwo.translator with
    | none => rfl
    | some q =>
      simp only [Option.map_some']
      cases hr : q a (fmtV value) <;> rfl

theorem parseDBTag_isDBFlavoured (tag : String) (t : Translator) (h : parseDBTag tag = some t) :
    t.isDBFlavoured = true := by
  unfold parseDBTag at h
  split at h
  · simp at h
  · simp only [] at h
    split at h
    · simp at h
    · simp only [Option.some.injEq] at h
      subst h
      rfl

theorem planField_dbFlavoured (trs : List (String × Option Translator)) (i : Nat)
    (f : StructField) (t : Translator) (h : f.dbFlavoured = some t) :
    (planField trs i f).translator = some t ∧
    (planField trs i f).targetField = f.tagGet "dictField" ∧
    f.tagGet "translate" = "" ∧ t.isDBFlavoured = true := by
  unfold StructField.dbFlavoured at h
  by_cases h1 : f.tagGet "translate" = ""
  · by_cases h2 : f.tagGet "db" = ""
    · by_cases h3 : f.tagGet "dictTableTwo" = ""
      · by_cases h4 : f.tagGet "dictTable" = ""
        · simp [h1, h2, h3, h4] at h
        · simp only [h1, h2, h3, h4, ne_eq, not_true_eq_false, if_false, not_false_eq_true,
            if_true, Option.some.injEq] at h
          subst h
          simp [planField, h1, h2, h3, h4, Translator.isDBFlavoured]
      · simp only [h1, h2, h3, ne_eq, not_true_eq_false, if_false, not_false_eq_true,
          if_true, Option.some.injEq] at h
        subst h
        simp [planField, h1, h2, h3, Translator.isDBFlavoured]
    · simp only [h1, h2, ne_eq, not_true_eq_false, if_false, not_false_eq_true, if_true] at h
      simp [planField, h1, h2, h, parseDBTag_isDBFlavoured _ _ h]
  · simp [h1] at h

/-- `Translate` on a pointer to a flat record whose only tagged field is bound
to a database flavoured backend: the backend is asked once for the value of
the field, and a non-empty label goes to the target named by `dictField`. -/
theorem Translate_flatSingle_backend (w : World) (rt : StructType) (fs : List Value) (i : Nat)
    (ft : StructField) (t : Translator) (kv : Value)
    (hu : tryUnwrap w.dm (Value.ptr (Value.struct rt fs)) = none)
    (hplan : PlanSound w.dm rt) (hshape : flatSingle rt fs i = true)
    (hft : rt.fields[i]? = some ft) (hdb : ft.dbFlavoured = some t)
    (hval : fs[i]? = some kv) :
    Translate w (Value.ptr (Value.struct rt fs)) =
      (⟨(getOrCreateConfig w.dm rt).1, (backendTranslate t w.env kv).1⟩,
        Value.ptr (Value.struct rt
          (match (backendTranslate t w.env kv).2 with
            | .ok label =>
              if label = "" ∨ ft.tagGet "dictField" = "" then fs
              else setTarget (ft.tagGet "dictField") label rt.fields fs
            | .error _ => fs)),
        match (backendTranslate t w.env kv).2 with
        | .ok _ => none
        | .error err => some err) := by
  obtain ⟨h1, h2, h3, h4⟩ := planField_dbFlavoured [] i ft t hdb
  have hgetD : fs.getD i Value.nilPtr = kv := by simp [List.getD, hval]
  rw [Translate_flatSingle w rt fs i ft hu hplan hshape hft h3]
  simp only [h1, Option.isSome_some, Bool.true_or, if_true, translateEntry, hgetD,
    translateFieldWithTranslator, Translate_eq_backendTranslate t h4, h2]
  rcases hb : backendTranslate t w.env kv with ⟨env1, r⟩
  cases r with
  | error err => rfl
  | ok label =>
    by_cases hl : label = ""
    · simp [hl]
    · by_cases hT : ft.tagGet "dictField" = ""
      · simp [hl, hT]
      · simp [hl, hT]

theorem tryUnwrap_of_no_unwrappers (dm : DictManager) (v : Value) (h : dm.unwrappers = []) :
    tryUnwrap dm v = none := by
  simp [tryUnwrap, h]

theorem getOrCreateConfig_unwrappers (dm : DictManager) (rt : StructType) :
    (getOrCreateConfig dm rt).1.unwrappers = dm.unwrappers := by
  unfold getOrCreateConfig
  split <;> rfl

theorem getOrCreateConfig_lookup (dm : DictManager) (rt : StructType) :
    (getOrCreateConfig dm rt).1.configCache.lookup rt = some (getOrCreateConfig dm rt).2 := by
  unfold getOrCreateConfig
  cases h : dm.configCache.lookup rt with
  | some cfg => simpa using h
  | none => simp [List.lookup]

/-- The plan of a type is built once: a second call of `getOrCreateConfig`
returns the stored plan and leaves the manager as it is. -/
theorem getOrCreateConfig_idem (dm : DictManager) (rt : StructType) :
    getOrCreateConfig (getOrCreateConfig dm rt).1 rt
      = ((getOrCreateConfig dm rt).1, (getOrCreateConfig dm rt).2) := by
  have h := getOrCreateConfig_lookup dm rt
  generalize (getOrCreateConfig dm rt).1 = dm1 at h ⊢
  generalize (getOrCreateConfig dm rt).2 = c at h ⊢
  simp [getOrCreateConfig, h]

theorem getOrCreateConfig_planSound (dm : DictManager) (rt : StructType) (h : PlanSound dm rt) :
    PlanSound (getOrCreateConfig dm rt).1 rt := by
  intro cfg hcfg
  rw [getOrCreateConfig_lookup] at hcfg
  cases hcfg
  exact getOrCreateConfig_sound dm rt h

theorem lookup_mapSet_self (m : GoMap) (k v : String) : (mapSet m k v).lookup k = some v := by
  simp [mapSet, List.lookup]

theorem cacheEnabled_setCache (t : Translator) (env : Env) (c : GoMap) :
    t.cacheEnabled (t.setCache env c) = t.cacheEnabled env := by
  cases t <;> rfl

theorem cache_setCache (t : Translator) (ht : t.isDBFlavoured = true) (env : Env) (c : GoMap) :
    t.cache (t.setCache env c) = c := by
  cases t <;> first | rfl | simp [Translator.isDBFlavoured] at ht

theorem query_setCache (t : Translator) (env : Env) (c : GoMap) (v : Value) :
    t.query (t.setCache env c) v = t.query env v := by
  cases t <;> rfl

theorem trace_setCache (t : Translator) (env : Env) (c : GoMap) :
    (t.setCache env c).trace = env.trace := by
  cases t <;> rfl

theorem cacheEnabled_log (t : Translator) (env : Env) (e : Event) :
    t.cacheEnabled (env.log e) = t.cacheEnabled env := by
  cases t <;> rfl

theorem cache_log (t : Translator) (env : Env) (e : Event) :
    t.cache (env.log e) = t.cache env := by
  cases t <;> rfl

theorem query_log (t : Translator) (env : Env) (e : Event) (v : Value) :
    t.query (env.log e) v = t.query env v := by
  cases t <;> rfl

theorem cacheEnabled_enableCache (t : Translator) (ht : t.isDBFlavoured = true) (env : Env)
    (b : Bool) : t.cacheEnabled (t.enableCache env b) = b := by
  cases t <;> first | rfl | simp [Translator.isDBFlavoured] at ht

theorem cache_enableCache (t : Translator) (env : Env) (b : Bool) :
    t.cache (t.enableCache env b) = t.cache env := by
  cases t <;> rfl

theorem query_enableCache (t : Translator) (env : Env) (b : Bool) (v : Value) :
    t.query (t.enableCache env b) v = t.query env v := by
  cases t <;> rfl

theorem trace_enableCache (t : Translator) (env : Env) (b : Bool) :
    (t.enableCache env b).trace = env.trace := by
  cases t <;> rfl

/-- `Translate` on a record as described by `BackendRecord`, in a world without
unwrappers. -/
theorem Translate_backendRecord (w : World) (rt : StructType) (fs : List Value) (i j : Nat)
    (ft : StructField) (t : Translator) (kv : Value)
    (hu : w.dm.unwrappers = []) (hplan : PlanSound w.dm rt)
    (hdb : ft.dbFlavoured = some t) (hr : BackendRecord rt fs i j ft kv) :
    Translate w (Value.ptr (Value.struct rt fs)) =
      (⟨(getOrCreateConfig w.dm rt).1, (backendTranslate t w.env kv).1⟩,
        Value.ptr (Value.struct rt
          (match (backendTranslate t w.env kv).2 with
            | .ok label => if label = "" then fs else fs.set j (Value.str label)
            | .error _ => fs)),
        match (backendTranslate t w.env kv).2 with
        | .ok _ => none
        | .error err => some err) := by
  obtain ⟨h1, h2, h3, h4, h5⟩ := hr
  rw [Translate_flatSingle_backend w rt fs i ft t kv (tryUnwrap_of_no_unwrappers _ _ hu) hplan
    h1 h2 hdb h3]
  cases hb : (backendTranslate t w.env kv).2 with
  | error err => rfl
  | ok label =>
    by_cases hl : label = ""
    · simp [hl]
    · simp [hl, h4, setTarget_of_targetAt rt fs _ label j h5]

/-- C9: for each of the backends `db`, `dictTable` and `dictTableTwo`, when no
query function is registered (and so nothing was ever cached), `Translate` on a
record whose field carries the tag of the backend returns the "translator not
registered" error of that backend; the record, and with it the target field,
and the package state are unchanged. -/
theorem Translate_backend_not_registered (w : World) (rt : StructType) (fs : List Value)
    (i : Nat) (ft : StructField) (t : Translator) (kv : Value)
    (hu : w.dm.unwrappers = []) (hplan : PlanSound w.dm rt)
    (hshape : flatSingle rt fs i = true) (hft : rt.fields[i]? = some ft)
    (hdb : ft.dbFlavoured = some t) (hval : fs[i]? = some kv)
    (hq : t.query w.env kv = none) (hc : t.cache w.env = []) :
    Translate w (Value.ptr (Value.struct rt fs))
      = (⟨(getOrCreateConfig w.dm rt).1, w.env⟩, Value.ptr (Value.struct rt fs),
          some (Error.errorf t.notRegistered)) ∧
    (t.notRegistered = "database translator not registered" ∨
     t.notRegistered = "dict table translator not registered" ∨
     t.notRegistered = "dict table two translator not registered") := by
  have hb : backendTranslate t w.env kv = (w.env, .error (.errorf t.notRegistered)) := by
    simp [backendTranslate, hq, hc]
  constructor
  · rw [Translate_flatSingle_backend w rt fs i ft t kv (tryUnwrap_of_no_unwrappers _ _ hu) hplan
      hshape hft hdb hval, hb]
  · have h4 := (planField_dbFlavoured [] i ft t hdb).2.2.2
    cases t <;> simp [Translator.isDBFlavoured, Translator.notRegistered] at h4 ⊢

theorem Translate_backend_not_registered_witness :
    Translate World.init
        (Value.ptr (Value.struct (itemType "test:id:name") [Value.str "1", Value.str ""]))
      = (⟨(getOrCreateConfig World.init.dm (itemType "test:id:name")).1, World.init.env⟩,
          Value.ptr (Value.struct (itemType "test:id:name") [Value.str "1", Value.str ""]),
          some (Error.errorf "database translator not registered")) :=
  (Translate_backend_not_registered World.init (itemType "test:id:name")
    [Value.str "1", Value.str ""] 0 ⟨"ID", true, [("db", "test:id:name"), ("dictField", "Name")]⟩
    (Translator.db "test" "id" "name") (Value.str "1") rfl
    (by intro cfg h; simp [World.init, DictManager.init] at h) (by decide) rfl rfl rfl
    rfl rfl).1

theorem backendTranslate_store (t : Translator) (env : Env) (kv : Value) (label : String)
    (hen : t.cacheEnabled env = true) (hmiss : (t.cache env).lookup (t.cacheKey kv) = none)
    (hq : t.query env kv = some (.ok label)) (hl : label ≠ "") :
    backendTranslate t env kv =
      (t.setCache (env.log (t.queryEvent kv)) (mapSet (t.cache env) (t.cacheKey kv) label),
        .ok label) := by
  simp [backendTranslate, hen, hmiss, hq, hl]

theorem backendTranslate_hit (t : Translator) (env : Env) (kv : Value) (c : String)
    (hen : t.cacheEnabled env = true) (hhit : (t.cache env).lookup (t.cacheKey kv) = some c) :
    backendTranslate t env kv = (env, .ok c) := by
  simp [backendTranslate, hen, hhit]

/-- C6: with caching enabled and no cache entry for the key, two consecutive
translations of records with the same key through a field of a database
flavoured backend (`db`, `dictTable` or `dictTableTwo`) whose query function
answers with a non-empty label invoke the query function exactly once, and
both records receive the label. -/
theorem Translate_backend_cached_once (w : World) (rt : StructType) (fs1 fs2 : List Value)
    (i j1 j2 : Nat) (ft : StructField) (t : Translator) (kv : Value) (label : String)
    (hu : w.dm.unwrappers = []) (hplan : PlanSound w.dm rt)
    (hdb : ft.dbFlavoured = some t)
    (hr1 : BackendRecord rt fs1 i j1 ft kv) (hr2 : BackendRecord rt fs2 i j2 ft kv)
    (hen : t.cacheEnabled w.env = true)
    (hmiss : (t.cache w.env).lookup (t.cacheKey kv) = none)
    (hq : t.query w.env kv = some (.ok label)) (hl : label ≠ "") :
    (Translate w (Value.ptr (Value.struct rt fs1))).2.2 = none ∧
    (Translate w (Value.ptr (Value.struct rt fs1))).2.1
      = Value.ptr (Value.struct rt (fs1.set j1 (Value.str label))) ∧
    (Translate (Translate w (Value.ptr (Value.struct rt fs1))).1
      (Value.ptr (Value.struct rt fs2))).2.2 = none ∧
    (Translate (Translate w (Value.ptr (Value.struct rt fs1))).1
      (Value.ptr (Value.struct rt fs2))).2.1
      = Value.ptr (Value.struct rt (fs2.set j2 (Value.str label))) ∧
    (Translate (Translate w (Value.ptr (Value.struct rt fs1))).1
      (Value.ptr (Value.struct rt fs2))).1.env.trace = w.env.trace ++ [t.queryEvent kv] := by
  have ht := (planField_dbFlavoured [] i ft t hdb).2.2.2
  have h1 := Translate_backendRecord w rt fs1 i j1 ft t kv hu hplan hdb hr1
  rw [backendTranslate_store t w.env kv label hen hmiss hq hl] at h1
  simp only [hl, if_false] at h1
  have hu1 : (getOrCreateConfig w.dm rt).1.unwrappers = [] := by
    rw [getOrCreateConfig_unwrappers]; exact hu
  have hplan1 := getOrCreateConfig_planSound w.dm rt hplan
  have hhit : backendTranslate t
      (t.setCache (w.env.log (t.queryEvent kv)) (mapSet (t.cache w.env) (t.cacheKey kv) label)) kv
      = (t.setCache (w.env.log (t.queryEvent kv))
          (mapSet (t.cache w.env) (t.cacheKey kv) label), .ok label) := by
    apply backendTranslate_hit
    · rw [cacheEnabled_setCache, cacheEnabled_log]; exact hen
    · rw [cache_setCache t ht, lookup_mapSet_self]
  have h2 := Translate_backendRecord
    ⟨(getOrCreateConfig w.dm rt).1,
      t.setCache (w.env.log (t.queryEvent kv)) (mapSet (t.cache w.env) (t.cacheKey kv) label)⟩
    rt fs2 i j2 ft t kv hu1 hplan1 hdb hr2
  simp only [] at h2
  rw [hhit] at h2
  simp only [hl, if_false] at h2
  rw [h1]
  simp only []
  rw [h2]
  simp only []
  refine ⟨trivial, trivial, trivial, trivial, ?_⟩
  rw [trace_setCache]
  rfl

theorem Translate_backend_cached_once_witness :
    (Translate (Translate (dbWorld "结果")
        (Value.ptr (Value.struct (itemType "test:id:name") [Value.str "1", Value.str ""]))).1
      (Value.ptr (Value.struct (itemType "test:id:name") [Value.str "1", Value.str ""]))).2.1
      = Value.ptr (Value.struct (itemType "test:id:name") [Value.str "1", Value.str "结果"]) ∧
    (Translate (Translate (dbWorld "结果")
        (Value.ptr (Value.struct (itemType "test:id:name") [Value.str "1", Value.str ""]))).1
      (Value.ptr (Value.struct (itemType "test:id:name") [Value.str "1", Value.str ""]))).1.env.trace
      = [Event.dbQuery "test" "id" "name" (Value.str "1")] :=
  ⟨(Translate_backend_cached_once (dbWorld "结果") (itemType "test:id:name")
      [Value.str "1", Value.str ""] [Value.str "1", Value.str ""] 0 1 1
      ⟨"ID", true, [("db", "test:id:name"), ("dictField", "Name")]⟩
      (Translator.db "test" "id" "name") (Value.str "1") "结果" rfl
      (by intro cfg h; simp [dbWorld, DictManager.init] at h) rfl
      ⟨by decide, rfl, rfl, by decide, by decide⟩ ⟨by decide, rfl, rfl, by decide, by decide⟩
      rfl rfl rfl (by decide)).2.2.2.1,
   (Translate_backend_cached_once (dbWorld "结果") (itemType "test:id:name")
      [Value.str "1", Value.str ""] [Value.str "1", Value.str ""] 0 1 1
      ⟨"ID", true, [("db", "test:id:name"), ("dictField", "Name")]⟩
      (Translator.db "test" "id" "name") (Value.str "1") "结果" rfl
      (by intro cfg h; simp [dbWorld, DictManager.init] at h) rfl
      ⟨by decide, rfl, rfl, by decide, by decide⟩ ⟨by decide, rfl, rfl, by decide, by decide⟩
      rfl rfl rfl (by decide)).2.2.2.2⟩

theorem backendTranslate_no_store (t : Translator) (env : Env) (kv : Value)
    (r : Except Error String)
    (hnohit : t.cacheEnabled env = false ∨ (t.cache env).lookup (t.cacheKey kv) = none)
    (hq : t.query env kv = some r)
    (hr : t.cacheEnabled env = false ∨ r = .ok "" ∨ ∃ e, r = .error e) :
    backendTranslate t env kv = (env.log (t.queryEvent kv), r) := by
  have hl : (if t.cacheEnabled env then (t.cache env).lookup (t.cacheKey kv) else none) = none := by
    rcases hnohit with h | h
    · simp [h]
    · simp [h]
  unfold backendTranslate
  rw [hl, hq]
  cases r with
  | error e => rfl
  | ok s =>
    rcases hr with h | h | ⟨e, h⟩
    · simp [h]
    · cases h; simp
    · cases h

/-- C8: a lookup of a database flavoured backend whose query function returns
the empty label or an error stores nothing: the first translation leaves the
package state as it was but for the recorded invocation, in particular the
cache of the backend, and the next translation of the same key invokes the
query function again. -/
theorem Translate_backend_no_store (w : World) (rt : StructType) (fs1 fs2 : List Value)
    (i j1 j2 : Nat) (ft : StructField) (t : Translator) (kv : Value) (r : Except Error String)
    (hu : w.dm.unwrappers = []) (hplan : PlanSound w.dm rt)
    (hdb : ft.dbFlavoured = some t)
    (hr1 : BackendRecord rt fs1 i j1 ft kv) (hr2 : BackendRecord rt fs2 i j2 ft kv)
    (hnohit : t.cacheEnabled w.env = false ∨ (t.cache w.env).lookup (t.cacheKey kv) = none)
    (hq : t.query w.env kv = some r) (hr : r = .ok "" ∨ ∃ e, r = .error e) :
    (Translate w (Value.ptr (Value.struct rt fs1))).1.env = w.env.log (t.queryEvent kv) ∧
    t.cache (Translate w (Value.ptr (Value.struct rt fs1))).1.env = t.cache w.env ∧
    (Translate (Translate w (Value.ptr (Value.struct rt fs1))).1
      (Value.ptr (Value.struct rt fs2))).1.env.trace
      = w.env.trace ++ [t.queryEvent kv, t.queryEvent kv] := by
  have h1 := Translate_backendRecord w rt fs1 i j1 ft t kv hu hplan hdb hr1
  rw [backendTranslate_no_store t w.env kv r hnohit hq (Or.inr hr)] at h1
  have hu1 : (getOrCreateConfig w.dm rt).1.unwrappers = [] := by
    rw [getOrCreateConfig_unwrappers]; exact hu
  have hplan1 := getOrCreateConfig_planSound w.dm rt hplan
  have h2 := Translate_backendRecord
    ⟨(getOrCreateConfig w.dm rt).1, w.env.log (t.queryEvent kv)⟩
    rt fs2 i j2 ft t kv hu1 hplan1 hdb hr2
  simp only [] at h2
  rw [backendTranslate_no_store t (w.env.log (t.queryEvent kv)) kv r
    (by rw [cacheEnabled_log, cache_log]; exact hnohit) (by rw [query_log]; exact hq)
    (Or.inr hr)] at h2
  rw [h1]
  simp only []
  rw [h2]
  simp only []
  refine ⟨trivial, cache_log t w.env _, ?_⟩
  simp [Env.log]

theorem Translate_backend_no_store_witness :
    (Translate (Translate (dbWorld "")
        (Value.ptr (Value.struct (itemType "test:id:name") [Value.str "1", Value.str ""]))).1
      (Value.ptr (Value.struct (itemType "test:id:name") [Value.str "1", Value.str ""]))).1.env.trace
      = [Event.dbQuery "test" "id" "name" (Value.str "1"),
         Event.dbQuery "test" "id" "name" (Value.str "1")] :=
  (Translate_backend_no_store (dbWorld "") (itemType "test:id:name")
      [Value.str "1", Value.str ""] [Value.str "1", Value.str ""] 0 1 1
      ⟨"ID", true, [("db", "test:id:name"), ("dictField", "Name")]⟩
      (Translator.db "test" "id" "name") (Value.str "1") (Except.ok "") rfl
      (by intro cfg h; simp [dbWorld, DictManager.init] at h) rfl
      ⟨by decide, rfl, rfl, by decide, by decide⟩ ⟨by decide, rfl, rfl, by decide, by decide⟩
      (Or.inr rfl) rfl (Or.inl rfl)).2.2

/-- C7: while the cache of a database flavoured backend is disabled, a
translation invokes the registered query function whether or not the key is
cached, and leaves the cache of the backend (and the rest of the package state
but for the recorded invocation) as it was; an entry cached before is still
there and, once caching is enabled again, is served without a further query. -/
theorem Translate_backend_cache_disabled (w : World) (rt : StructType) (fs1 fs2 : List Value)
    (i j1 j2 : Nat) (ft : StructField) (t : Translator) (kv : Value) (r : Except Error String)
    (hu : w.dm.unwrappers = []) (hplan : PlanSound w.dm rt)
    (hdb : ft.dbFlavoured = some t)
    (hr1 : BackendRecord rt fs1 i j1 ft kv) (hr2 : BackendRecord rt fs2 i j2 ft kv)
    (hoff : t.cacheEnabled w.env = false) (hq : t.query w.env kv = some r) :
    (Translate w (Value.ptr (Value.struct rt fs1))).1.env = w.env.log (t.queryEvent kv) ∧
    t.cache (Translate w (Value.ptr (Value.struct rt fs1))).1.env = t.cache w.env ∧
    (∀ c : String, (t.cache w.env).lookup (t.cacheKey kv) = some c →
      Translate ⟨(Translate w (Value.ptr (Value.struct rt fs1))).1.dm,
          t.enableCache (Translate w (Value.ptr (Value.struct rt fs1))).1.env true⟩
        (Value.ptr (Value.struct rt fs2))
      = (⟨(Translate w (Value.ptr (Value.struct rt fs1))).1.dm,
          t.enableCache (Translate w (Value.ptr (Value.struct rt fs1))).1.env true⟩,
         Value.ptr (Value.struct rt (if c = "" then fs2 else fs2.set j2 (Value.str c))), none)) := by
  have ht := (planField_dbFlavoured [] i ft t hdb).2.2.2
  have h1 := Translate_backendRecord w rt fs1 i j1 ft t kv hu hplan hdb hr1
  rw [backendTranslate_no_store t w.env kv r (Or.inl hoff) hq (Or.inl hoff)] at h1
  have hu1 : (getOrCreateConfig w.dm rt).1.unwrappers = [] := by
    rw [getOrCreateConfig_unwrappers]; exact hu
  have hplan1 := getOrCreateConfig_planSound w.dm rt hplan
  rw [h1]
  simp only []
  refine ⟨trivial, cache_log t w.env _, ?_⟩
  intro c hc
  have h2 := Translate_backendRecord
    ⟨(getOrCreateConfig w.dm rt).1, t.enableCache (w.env.log (t.queryEvent kv)) true⟩
    rt fs2 i j2 ft t kv hu1 hplan1 hdb hr2
  simp only [] at h2
  rw [backendTranslate_hit t _ kv c (cacheEnabled_enableCache t ht _ true)
    (by rw [cache_enableCache, cache_log]; exact hc)] at h2
  rw [h2, getOrCreateConfig_idem]

theorem Translate_backend_cache_disabled_witness :
    (Translate (dbCachedOffWorld "test:id:name:1" "结果")
        (Value.ptr (Value.struct (itemType "test:id:name") [Value.str "1", Value.str ""]))).1.env
      = (dbCachedOffWorld "test:id:name:1" "结果").env.log
          (Event.dbQuery "test" "id" "name" (Value.str "1")) ∧
    (Translate (dbCachedOffWorld "test:id:name:1" "结果")
        (Value.ptr (Value.struct (itemType "test:id:name") [Value.str "1", Value.str ""]))).1.env.db.cache
      = [("test:id:name:1", "结果")] :=
  ⟨(Translate_backend_cache_disabled (dbCachedOffWorld "test:id:name:1" "结果")
      (itemType "test:id:name")
      [Value.str "1", Value.str ""] [Value.str "1", Value.str ""] 0 1 1
      ⟨"ID", true, [("db", "test:id:name"), ("dictField", "Name")]⟩
      (Translator.db "test" "id" "name") (Value.str "1") (Except.ok "新结果") rfl
      (by intro cfg h; simp [dbCachedOffWorld, DictManager.init] at h) rfl
      ⟨by decide, rfl, rfl, by decide, by decide⟩ ⟨by decide, rfl, rfl, by decide, by decide⟩
      rfl rfl).1,
   (Translate_backend_cache_disabled (dbCachedOffWorld "test:id:name:1" "结果")
      (itemType "test:id:name")
      [Value.str "1", Value.str ""] [Value.str "1", Value.str ""] 0 1 1
      ⟨"ID", true, [("db", "test:id:name"), ("dictField", "Name")]⟩
      (Translator.db "test" "id" "name") (Value.str "1") (Except.ok "新结果") rfl
      (by intro cfg h; simp [dbCachedOffWorld, DictManager.init] at h) rfl
      ⟨by decide, rfl, rfl, by decide, by decide⟩ ⟨by decide, rfl, rfl, by decide, by decide⟩
      rfl rfl).2.1⟩

/-! ## Nested records -/

theorem getOrCreateConfig_cacheSound (dm : DictManager) (rt : StructType) (h : CacheSound dm) :
    CacheSound (getOrCreateConfig dm rt).1 := by
  intro rt2 cfg hcfg
  unfold getOrCreateConfig at hcfg
  cases hl : dm.configCache.lookup rt with
  | some c =>
    rw [hl] at hcfg
    exact h rt2 cfg hcfg
  | none =>
    rw [hl] at hcfg
    simp only [List.lookup] at hcfg
    by_cases he : rt2 = rt
    · subst he
      simp at hcfg
      exact ⟨dm.translators, by rw [← hcfg]⟩
    · have : (rt2 == rt) = false := by simpa using he
      rw [this] at hcfg
      exact h rt2 cfg hcfg

theorem getOrCreateConfig_dicts (dm : DictManager) (rt : StructType) :
    (getOrCreateConfig dm rt).1.dicts = dm.dicts := by
  unfold getOrCreateConfig
  split <;> rfl

theorem nested_isStruct (n : String) (name : String → String) (k : String) (ks : List String) :
    (nested n name k ks).isStruct = true := by
  cases ks <;> rfl

theorem translateTagged_untagged (w : World) (cfg : structConfig) (i : Nat) (ft : StructField)
    (rt : StructType) (cur : List Value)
    (hcfg : ∃ trs, cfg.fields = buildFields trs 0 rt.fields)
    (hft : rt.fields[i]? = some ft) (hun : ft.untagged = true) :
    translateTagged w cfg i ft rt cur = (w, cur, none) := by
  obtain ⟨trs, htrs⟩ := hcfg
  have hc : cfg = ⟨buildFields trs 0 rt.fields⟩ := by
    cases cfg; simp only at htrs; rw [htrs]
  apply translateTagged_none
  rw [hc, fieldConfigMap_buildFields trs rt.fields i ft hft]
  have := planField_untagged trs i ft hun
  simp [this.1, this.2]

theorem translateTagged_dict (w : World) (cfg : structConfig) (i j : Nat) (ft : StructField)
    (rt : StructType) (cur : List Value) (n T k : String) (D : GoMap)
    (hcfg : ∃ trs, cfg.fields = buildFields trs 0 rt.fields)
    (hft : rt.fields[i]? = some ft) (htags : ft.dictTagged n T = true)
    (hn : n ≠ "") (hcomma : ',' ∉ n.data) (hT : T ≠ "")
    (hD : w.dm.dicts.get n = some D) (hval : cur[i]? = some (Value.str k))
    (hk : k ≠ "") (hl : D.get k ≠ "") (htarget : targetAt rt cur T j = true) :
    translateTagged w cfg i ft rt cur = (w, cur.set j (Value.str (D.get k)), none) := by
  obtain ⟨trs, htrs⟩ := hcfg
  have hc : cfg = ⟨buildFields trs 0 rt.fields⟩ := by
    cases cfg; simp only at htrs; rw [htrs]
  have hdf : ft.tagGet "dictField" = T := by
    simp only [StructField.dictTagged, Bool.and_eq_true, decide_eq_true_eq] at htags
    exact htags.2
  have hgetD : cur.getD i Value.nilPtr = Value.str k := by
    simp [List.getD, hval]
  unfold translateTagged
  rw [hc, fieldConfigMap_buildFields trs rt.fields i ft hft,
    planField_dictTagged trs i ft n T htags hn]
  simp only [Option.isSome_none, Bool.false_or, ne_eq, hn, not_false_eq_true, decide_True,
    if_true, translateEntry, hgetD, translateField, split_headD_of_no_comma n hcomma, hD,
    hk, if_false, hdf, hT, hl, setTarget_of_targetAt rt cur T (D.get k) j htarget]

theorem status_not_fold : equalFold "Status" "StatusName" = false := by decide

/-- The traversal of a nested record of `TestNestedDepth` whose keys are
non-empty and have non-empty labels fills in the label at every level. -/
theorem translateStruct_nested (n : String) (D : GoMap) (hn : n ≠ "") (hcomma : ',' ∉ n.data)
    (ks : List String) :
    ∀ (k : String) (w : World), w.dm.dicts.get n = some D → CacheSound w.dm →
      (∀ x ∈ k :: ks, x ≠ "" ∧ D.get x ≠ "") →
      ∃ dm2, translateStruct w (nested n (fun _ => "") k ks)
          = (⟨dm2, w.env⟩, nested n D.get k ks, none) ∧
        dm2.dicts = w.dm.dicts ∧ dm2.unwrappers = w.dm.unwrappers ∧ CacheSound dm2 := by
  induction ks with
  | nil =>
    intro k w hD hcs hkeys
    obtain ⟨hk, hl⟩ := hkeys k (by simp)
    refine ⟨(getOrCreateConfig w.dm (levelType n 0)).1, ?_, getOrCreateConfig_dicts _ _,
      getOrCreateConfig_unwrappers _ _, getOrCreateConfig_cacheSound _ _ hcs⟩
    have hcfg := getOrCreateConfig_sound w.dm (levelType n 0) (hcs _)
    have hD1 : (⟨(getOrCreateConfig w.dm (levelType n 0)).1, w.env⟩ : World).dm.dicts.get n
        = some D := by
      simp only [getOrCreateConfig_dicts]; exact hD
    simp only [nested, translateStruct]
    have e0 : (levelType n 0).fields[0]?
        = some ⟨"Status", true, [("dict", n), ("dictField", "StatusName")]⟩ := rfl
    have e1 : (levelType n 0).fields[1]? = some ⟨"StatusName", true, []⟩ := rfl
    rw [translateFields_cons_leaf _ _ _ (Value.str k) _ _ _ rfl, e0]
    simp only [Bool.not_true, Bool.false_eq_true, if_false]
    rw [translateTagged_dict _ _ 0 1 _ _ _ n "StatusName" k D hcfg e0
      (by simp [StructField.dictTagged, StructField.tagGet, List.lookup]) hn hcomma (by decide) hD1 rfl hk hl
      (by simp [targetAt, levelType, levelFields, nameMatches, status_not_fold])]
    simp only []
    rw [translateFields_cons_leaf _ _ _ (Value.str "") _ _ _ rfl, e1]
    simp only [Bool.not_true, Bool.false_eq_true, if_false]
    rw [translateTagged_untagged _ _ 1 _ _ _ hcfg e1 (by decide)]
    simp only [translateFields_nil]
    rfl
  | cons k2 ks ih =>
    intro k w hD hcs hkeys
    obtain ⟨hk, hl⟩ := hkeys k (by simp)
    have hcfg := getOrCreateConfig_sound w.dm (levelType n (ks.length + 1)) (hcs _)
    have hD1 : (⟨(getOrCreateConfig w.dm (levelType n (ks.length + 1))).1, w.env⟩ : World).dm.dicts.get n
        = some D := by
      simp only [getOrCreateConfig_dicts]; exact hD
    obtain ⟨dm2, h2, hd2, hu2, hcs2⟩ := ih k2
      ⟨(getOrCreateConfig w.dm (levelType n (ks.length + 1))).1, w.env⟩ hD1
      (getOrCreateConfig_cacheSound _ _ hcs) (fun x hx => hkeys x (by simp [hx]))
    refine ⟨dm2, ?_, by rw [hd2, getOrCreateConfig_dicts], by rw [hu2, getOrCreateConfig_unwrappers],
      hcs2⟩
    have e0 : (levelType n (ks.length + 1)).fields[0]?
        = some ⟨"Status", true, [("dict", n), ("dictField", "StatusName")]⟩ := rfl
    have e1 : (levelType n (ks.length + 1)).fields[1]? = some ⟨"StatusName", true, []⟩ := rfl
    have e2 : (levelType n (ks.length + 1)).fields[2]?
        = some ⟨"L" ++ toString (ks.length + 1), true, []⟩ := rfl
    simp only [nested, translateStruct]
    rw [translateFields_cons_leaf _ _ _ (Value.str k) _ _ _ rfl, e0]
    simp only [Bool.not_true, Bool.false_eq_true, if_false]
    rw [translateTagged_dict _ _ 0 1 _ _ _ n "StatusName" k D hcfg e0
      (by simp [StructField.dictTagged, StructField.tagGet, List.lookup]) hn hcomma (by decide) hD1 rfl hk hl
      (by simp [targetAt, levelType, levelFields, nameMatches, status_not_fold])]
    simp only []
    rw [translateFields_cons_leaf _ _ _ (Value.str "") _ _ _ rfl, e1]
    simp only [Bool.not_true, Bool.false_eq_true, if_false]
    rw [translateTagged_untagged _ _ 1 _ _ _ hcfg e1 (by decide)]
    simp only []
    rw [translateFields_cons, e2]
    simp only [Bool.not_true, Bool.false_eq_true, if_false, nestedStep, nested_isStruct, if_true]
    rw [h2]
    simp only []
    rw [translateTagged_untagged _ _ 2 _ _ _ hcfg e2 rfl]
    simp only [translateFields_nil]
    rfl

/-- The records of `TestNestedDepth` at any depth: when the key of every level
is not empty and has a non-empty label in the dictionary `n`, one `Translate`
call returns no error and leaves the label in `StatusName` at every level. -/
theorem Translate_nested_depth (w : World) (n : String) (D : GoMap) (k : String) (ks : List String)
    (hD : GetDict w.dm n = some D) (hn : n ≠ "") (hcomma : ',' ∉ n.data)
    (hu : w.dm.unwrappers = []) (hcs : CacheSound w.dm)
    (hkeys : ∀ x ∈ k :: ks, x ≠ "" ∧ D.get x ≠ "") :
    (Translate w (Value.ptr (nested n (fun _ => "") k ks))).2.2 = none ∧
    (Translate w (Value.ptr (nested n (fun _ => "") k ks))).2.1
      = Value.ptr (nested n D.get k ks) := by
  obtain ⟨dm2, h2, -, -, -⟩ := translateStruct_nested n D hn hcomma ks k w hD hcs hkeys
  have hT : Translate w (Value.ptr (nested n (fun _ => "") k ks)) =
      ((translateStruct w (nested n (fun _ => "") k ks)).1,
        Value.ptr (translateStruct w (nested n (fun _ => "") k ks)).2.1,
        (translateStruct w (nested n (fun _ => "") k ks)).2.2) := by
    cases ks <;> simp [Translate, tryUnwrap, hu, nested]
  rw [hT, h2]
  exact ⟨rfl, rfl⟩

/-- An assignment to a target field leaves every field that does not hold a
string as it is, and never changes the number of fields: this is why the loop
of `translateStruct` may read a nested value from the field list it started
with. -/
theorem setTarget_keeps_non_strings (target label : String) :
    ∀ (fields : List StructField) (cur : List Value),
      (setTarget target label fields cur).length = cur.length ∧
      ∀ (idx : Nat) (v : Value), cur[idx]? = some v → (∀ s, v ≠ Value.str s) →
        (setTarget target label fields cur)[idx]? = some v := by
  intro fields
  induction fields with
  | nil =>
    intro cur
    cases cur with
    | nil => simp [setTarget]
    | cons c cs => exact ⟨by simp [setTarget], fun idx v hv _ => by simpa [setTarget] using hv⟩
  | cons f rest ih =>
    intro cur
    cases cur with
    | nil => simp [setTarget]
    | cons c cs =>
      obtain ⟨ihl, ihv⟩ := ih cs
      by_cases hm : (f.name = target ∨ equalFold f.name target = true)
      · cases hexp : f.exported with
        | false =>
          simp only [setTarget, Bool.or_eq_true, decide_eq_true_eq, hm, if_true, hexp,
            List.length_cons, ihl, true_and]
          intro idx v hv hns
          cases idx with
          | zero => simpa using hv
          | succ m => simpa using ihv m v (by simpa using hv) hns
        | true =>
          cases c with
          | str s =>
            simp only [setTarget, Bool.or_eq_true, decide_eq_true_eq, hm, if_true, hexp,
              List.length_cons, true_and]
            intro idx v hv hns
            cases idx with
            | zero =>
              simp at hv
              exact absurd hv.symm (hns s)
            | succ m => simpa using hv
          | _ =>
            simp only [setTarget, Bool.or_eq_true, decide_eq_true_eq, hm, if_true, hexp,
              List.length_cons, ihl, true_and]
            intro idx v hv hns
            cases idx with
            | zero => simpa using hv
            | succ m => simpa using ihv m v (by simpa using hv) hns
      · simp only [setTarget, Bool.or_eq_true, decide_eq_true_eq, hm, if_false,
          List.length_cons, ihl, true_and]
        intro idx v hv hns
        cases idx with
        | zero => simpa using hv
        | succ m => simpa using ihv m v (by simpa using hv) hns

/-! ## General facts about the traversal -/

/-- Induction over values and lists of values together. -/
theorem Value.induction (PS : Value → Prop) (PL : List Value → Prop)
    (h_str : ∀ s, PS (Value.str s)) (h_int : ∀ i, PS (Value.int i))
    (h_uint : ∀ n, PS (Value.uint n)) (h_other : ∀ t r, PS (Value.other t r))
    (h_struct : ∀ rt fs, PL fs → PS (Value.struct rt fs)) (h_nilPtr : PS Value.nilPtr)
    (h_ptr : ∀ e, PS e → PS (Value.ptr e)) (h_slice : ∀ es, PL es → PS (Value.slice es))
    (h_nil : PL []) (h_cons : ∀ v vs, PS v → PL vs → PL (v :: vs)) :
    (∀ v, PS v) ∧ (∀ l, PL l) :=
  ⟨fun v => @Value.rec PS PL h_str h_int h_uint h_other h_struct h_nilPtr h_ptr h_slice h_nil
      h_cons v,
   fun l => @Value.rec_1 PS PL h_str h_int h_uint h_other h_struct h_nilPtr h_ptr h_slice h_nil
      h_cons l⟩

theorem translateSlice_nil (w : World) : translateSlice [] w = (w, [], none) := by
  simp [translateSlice]

/-- The loop of `translateSlice` over a sequence in two parts: the second part
is visited, in the state the first part left, only if the first part raised no
error. -/
theorem translateSlice_append (pre post : List Value) :
    ∀ w : World, translateSlice (pre ++ post) w =
      match (translateSlice pre w).2.2 with
      | some err => ((translateSlice pre w).1, (translateSlice pre w).2.1 ++ post, some err)
      | none =>
        ((translateSlice post (translateSlice pre w).1).1,
         (translateSlice pre w).2.1 ++ (translateSlice post (translateSlice pre w).1).2.1,
         (translateSlice post (translateSlice pre w).1).2.2) := by
  induction pre with
  | nil => intro w; simp [translateSlice_nil]
  | cons e es ih =>
    intro w
    rw [List.cons_append, translateSlice_cons, translateSlice_cons]
    cases h1 : (elemStep w e).2.2 with
    | some err => simp
    | none =>
      simp only []
      rw [ih]
      cases h2 : (translateSlice es (elemStep w e).1).2.2 with
      | some err => simp
      | none => simp

/-- `translateSlice` keeps the number of elements, whether it fails or not. -/
theorem translateSlice_length (es : List Value) :
    ∀ w : World, (translateSlice es w).2.1.length = es.length := by
  induction es with
  | nil => intro w; simp [translateSlice_nil]
  | cons e es ih =>
    intro w
    rw [translateSlice_cons]
    cases h1 : (elemStep w e).2.2 with
    | some err => simp
    | none => simp [ih]

/-- The loop of `translateStruct` over a list of fields in two parts: the
second part is visited, in the state the first part left, only if the first
part raised no error. -/
theorem translateFields_append (rt : StructType) (cfg : structConfig) (pre post : List Value) :
    ∀ (i : Nat) (w : World) (cur : List Value),
      translateFields rt cfg i (pre ++ post) w cur =
        match (translateFields rt cfg i pre w cur).2.2 with
        | some err =>
          ((translateFields rt cfg i pre w cur).1, (translateFields rt cfg i pre w cur).2.1,
            some err)
        | none =>
          translateFields rt cfg (i + pre.length) post (translateFields rt cfg i pre w cur).1
            (translateFields rt cfg i pre w cur).2.1 := by
  induction pre with
  | nil => intro i w cur; simp [translateFields_nil]
  | cons v vs ih =>
    intro i w cur
    have hlen : i + (v :: vs).length = i + 1 + vs.length := by simp; omega
    rw [List.cons_append, translateFields_cons, translateFields_cons, hlen]
    cases hft : rt.fields[i]? with
    | none =>
      simp only []
      rw [translateFields_out_of_range]
      have := List.getElem?_eq_none_iff.1 hft
      omega
    | some ft =>
      simp only []
      by_cases hexp : ft.exported = true
      · simp only [hexp, Bool.not_true, Bool.false_eq_true, if_false]
        cases h1 : (nestedStep w cur i v).2.2 with
        | some err => simp
        | none =>
          simp only []
          cases h2 : (translateTagged (nestedStep w cur i v).1 cfg i ft rt
              (nestedStep w cur i v).2.1).2.2 with
          | some err => simp
          | none =>
            simp only []
            rw [ih]
      · simp only [hexp, Bool.not_false, if_true]
        rw [ih]

theorem getOrCreateConfig_current (dm : DictManager) (rt : StructType) (h : PlanCurrent dm rt) :
    (getOrCreateConfig dm rt).2 = ⟨buildFields dm.translators 0 rt.fields⟩ := by
  unfold getOrCreateConfig
  cases hl : dm.configCache.lookup rt with
  | none => rfl
  | some cfg =>
    have := h cfg hl
    cases cfg
    simp only at this
    simp [this]

theorem getOrCreateConfig_translators (dm : DictManager) (rt : StructType) :
    (getOrCreateConfig dm rt).1.translators = dm.translators := by
  unfold getOrCreateConfig
  split <;> rfl

theorem getOrCreateConfig_cacheCurrent (dm : DictManager) (rt : StructType) (h : CacheCurrent dm) :
    CacheCurrent (getOrCreateConfig dm rt).1 := by
  intro rt2 cfg hcfg
  rw [getOrCreateConfig_translators]
  unfold getOrCreateConfig at hcfg
  cases hl : dm.configCache.lookup rt with
  | some c =>
    rw [hl] at hcfg
    exact h rt2 cfg hcfg
  | none =>
    rw [hl] at hcfg
    simp only [List.lookup] at hcfg
    by_cases he : rt2 = rt
    · subst he
      simp at hcfg
      rw [← hcfg]
    · have : (rt2 == rt) = false := by simpa using he
      rw [this] at hcfg
      exact h rt2 cfg hcfg

theorem planSound_of_planCurrent (dm : DictManager) (rt : StructType) (h : PlanCurrent dm rt) :
    PlanSound dm rt :=
  fun cfg hcfg => ⟨dm.translators, h cfg hcfg⟩

/-- The loop body for a field with an active plan entry: the lookup, and the
assignment of a non-empty label to the target. -/
theorem translateEntry_eq_lookup (w : World) (fieldCfg : fieldConfig) (i : Nat)
    (ft : StructField) (rt : StructType) (cur : List Value)
    (hact : fieldCfg.translator.isSome = true ∨ fieldCfg.translatorTag ≠ "") :
    translateEntry w fieldCfg i ft rt cur =
      (⟨w.dm, (lookupLabel w fieldCfg ft (cur.getD i Value.nilPtr)).1⟩,
        (match (lookupLabel w fieldCfg ft (cur.getD i Value.nilPtr)).2 with
          | .ok label =>
            if label = "" ∨ targetName fieldCfg ft = "" then cur
            else setTarget (targetName fieldCfg ft) label rt.fields cur
          | .error _ => cur),
        match (lookupLabel w fieldCfg ft (cur.getD i Value.nilPtr)).2 with
        | .ok _ => none
        | .error err => some err) := by
  cases ht : fieldCfg.translator with
  | some t =>
    simp only [translateEntry, ht, lookupLabel, targetName, translateFieldWithTranslator]
    rcases hb : t.Translate w.env (cur.getD i Value.nilPtr) ft.name fieldCfg.translatorTag
      with ⟨env1, r⟩
    cases r with
    | error err => rfl
    | ok label =>
      by_cases hl : label = ""
      · simp [hl]
      · by_cases hT : fieldCfg.targetField = ""
        · simp [hl, hT]
        · simp [hl, hT]
  | none =>
    have htag : fieldCfg.translatorTag ≠ "" := by
      rcases hact with h | h
      · rw [ht] at h; simp at h
      · exact h
    simp only [translateEntry, ht, lookupLabel, targetName, translateField, dictLabel, htag,
      ne_eq, not_false_eq_true, if_true]
    cases hd : w.dm.dicts.get ((split fieldCfg.translatorTag ',').headD "") with
    | none => simp
    | some dict =>
      cases hf : cur.getD i Value.nilPtr with
      | str s =>
        by_cases hs : s = ""
        · simp [hs]
        · by_cases hl : dict.get s = ""
          · simp [hs, hl]
          · by_cases hT : ft.tagGet "dictField" = ""
            · simp [hs, hl, hT]
            · simp [hs, hl, hT]
      | _ => simp

theorem lookupLabel_congr (w1 w2 : World) (fieldCfg : fieldConfig) (ft : StructField)
    (field : Value) (hd : w1.dm.dicts = w2.dm.dicts) (he : w1.env = w2.env) :
    lookupLabel w1 fieldCfg ft field = lookupLabel w2 fieldCfg ft field := by
  simp [lookupLabel, dictLabel, hd, he]

/-- `Translate` on a pointer to a flat record whose only tagged field is field
`i`, when the plan of the type was built with the translators `trs`: the plan
entry of the field, if it has one, is resolved by one lookup. -/
theorem Translate_flatSingle_trs (w : World) (rt : StructType) (fs : List Value) (i : Nat)
    (ft : StructField) (kv : Value) (trs : List (String × Option Translator))
    (hu : tryUnwrap w.dm (Value.ptr (Value.struct rt fs)) = none)
    (hcfg : (getOrCreateConfig w.dm rt).2 = ⟨buildFields trs 0 rt.fields⟩)
    (hshape : flatSingle rt fs i = true)
    (hft : rt.fields[i]? = some ft) (hval : fs[i]? = some kv) :
    Translate w (Value.ptr (Value.struct rt fs)) =
      if (planField trs i ft).translator.isSome ||
          decide ((planField trs i ft).translatorTag ≠ "")
      then
        (⟨(getOrCreateConfig w.dm rt).1,
            (lookupLabel w (planField trs i ft) ft kv).1⟩,
         Value.ptr (Value.struct rt
          (match (lookupLabel w (planField trs i ft) ft kv).2 with
            | .ok label =>
              if label = "" ∨ targetName (planField trs i ft) ft = "" then fs
              else setTarget (targetName (planField trs i ft) ft) label rt.fields fs
            | .error _ => fs)),
         match (lookupLabel w (planField trs i ft) ft kv).2 with
         | .ok _ => none
         | .error err => some err)
      else (⟨(getOrCreateConfig w.dm rt).1, w.env⟩, Value.ptr (Value.struct rt fs), none) := by
  obtain ⟨hlen, hi, hexp, hleaf, hothers⟩ := flatSingle_elim rt fs i ft hshape hft
  have hinert : ∀ j ft2, j ≠ i → rt.fields[j]? = some ft2 → ft2.exported = true →
      fieldConfigMap (getOrCreateConfig w.dm rt).2 j = none := by
    intro j ft2 hj hft2 _
    rw [hcfg, fieldConfigMap_buildFields trs rt.fields j ft2 hft2]
    have := planField_untagged trs j ft2 (hothers j ft2 hj hft2)
    simp [this.1, this.2]
  have hmain := translateFields_single rt (getOrCreateConfig w.dm rt).2 fs i ft
    ⟨(getOrCreateConfig w.dm rt).1, w.env⟩ fs hi hft hexp hleaf hinert
  have hT : Translate w (Value.ptr (Value.struct rt fs)) =
      ((translateTagged ⟨(getOrCreateConfig w.dm rt).1, w.env⟩ (getOrCreateConfig w.dm rt).2
          i ft rt fs).1,
       Value.ptr (Value.struct rt (translateTagged ⟨(getOrCreateConfig w.dm rt).1, w.env⟩
          (getOrCreateConfig w.dm rt).2 i ft rt fs).2.1),
       (translateTagged ⟨(getOrCreateConfig w.dm rt).1, w.env⟩ (getOrCreateConfig w.dm rt).2
          i ft rt fs).2.2) := by
    simp only [Translate, hu, Option.getD_none, translateStruct, hmain]
  have hgetD : fs.getD i Value.nilPtr = kv := by simp [List.getD, hval]
  rw [hT]
  unfold translateTagged
  rw [hcfg, fieldConfigMap_buildFields trs rt.fields i ft hft]
  by_cases hact : ((planField trs i ft).translator.isSome ||
      decide ((planField trs i ft).translatorTag ≠ "")) = true
  · have hact2 : (planField trs i ft).translator.isSome = true ∨
        (planField trs i ft).translatorTag ≠ "" := by simpa using hact
    simp only [hact, if_true]
    rw [translateEntry_eq_lookup _ _ _ _ _ _ hact2, hgetD,
      lookupLabel_congr ⟨(getOrCreateConfig w.dm rt).1, w.env⟩ w _ _ _
        (getOrCreateConfig_dicts w.dm rt) rfl]
  · simp only [hact, if_false, Bool.false_eq_true]

theorem getOrCreateConfig_of_sound (dm : DictManager) (rt : StructType) (h : PlanSound dm rt) :
    ∃ trs, (getOrCreateConfig dm rt).2 = ⟨buildFields trs 0 rt.fields⟩ := by
  obtain ⟨trs, htrs⟩ := getOrCreateConfig_sound dm rt h
  refine ⟨trs, ?_⟩
  cases hc : (getOrCreateConfig dm rt).2
  rw [hc] at htrs
  simp only at htrs
  rw [htrs]

/-! ## Errors of the enum backend -/

theorem planField_enumTagged (trs : List (String × Option Translator)) (i : Nat)
    (f : StructField) (e T : String) (h : f.enumTagged e T = true) (he : e ≠ "") :
    planField trs i f =
      { fieldIndex := i, sourceField := "", targetField := T, translatorTag := e,
        translator := some Translator.enum } := by
  simp only [StructField.enumTagged, Bool.and_eq_true, decide_eq_true_eq] at h
  obtain ⟨⟨⟨⟨⟨h1, h2⟩, h3⟩, h4⟩, h5⟩, h6⟩ := h
  simp [planField, h1, h2, h3, h4, h5, h6, he]

/-- C11: `EnumTranslator.Translate` returns an error exactly when the tag
argument names no (non-nil) registered enum table or the source value is
neither a string nor an integer; and when it returns an error for the
enum-tagged field of a flat record, `Translate` on the record returns that
error (and leaves the record and the package state as they were). -/
theorem EnumTranslator_Translate_error_iff (w : World) (rt : StructType) (fs : List Value)
    (i : Nat) (ft : StructField) (kv : Value) (e T : String)
    (hu : tryUnwrap w.dm (Value.ptr (Value.struct rt fs)) = none)
    (hplan : PlanSound w.dm rt) (hshape : flatSingle rt fs i = true)
    (hft : rt.fields[i]? = some ft) (htags : ft.enumTagged e T = true) (he : e ≠ "")
    (hval : fs[i]? = some kv) :
    (∀ (enumMap : Registry) (value : Value) (fieldName tag : String),
      (∃ err, EnumTranslator.Translate enumMap value fieldName tag = Except.error err) ↔
        (enumMap.get tag = none ∨ value.isStringOrInteger = false)) ∧
    (∀ err, EnumTranslator.Translate w.env.enumMap kv ft.name e = Except.error err →
      Translate w (Value.ptr (Value.struct rt fs))
        = (⟨(getOrCreateConfig w.dm rt).1, w.env⟩, Value.ptr (Value.struct rt fs), some err)) := by
  constructor
  · intro enumMap value fieldName tag
    cases hg : enumMap.get tag with
    | none => simp [EnumTranslator.Translate, hg]
    | some E => cases value <;> simp [EnumTranslator.Translate, hg, Value.isStringOrInteger]
  · intro err herr
    obtain ⟨trs, hcfg⟩ := getOrCreateConfig_of_sound w.dm rt hplan
    rw [Translate_flatSingle_trs w rt fs i ft kv trs hu hcfg hshape hft hval,
      planField_enumTagged trs i ft e T htags he]
    simp [lookupLabel, Translator.Translate, herr]

theorem EnumTranslator_Translate_error_iff_witness :
    Translate World.init (Value.ptr (Value.struct taskType [Value.int 2, Value.str ""]))
      = (⟨(getOrCreateConfig World.init.dm taskType).1, World.init.env⟩,
         Value.ptr (Value.struct taskType [Value.int 2, Value.str ""]),
         some (Error.errorf "enum 'priority' not found")) :=
  (EnumTranslator_Translate_error_iff World.init taskType [Value.int 2, Value.str ""] 0
    ⟨"Priority", true, [("enum", "priority"), ("dictField", "PriorityName")]⟩ (Value.int 2)
    "priority" "PriorityName" rfl (by intro cfg h; simp [World.init, DictManager.init] at h)
    (by decide) rfl (by decide) (by decide) rfl).2 _ rfl

/-! ## The legacy `dict` tag without a label -/

/-- C12: for a field with the in-memory `dict` tag whose value is not a string,
or whose tag names a dictionary that is not registered, `Translate` on the
(flat) record returns no error and leaves every field of the record, and the
package state, unchanged. -/
theorem Translate_dict_no_label (w : World) (rt : StructType) (fs : List Value) (i : Nat)
    (ft : StructField) (kv : Value) (n T : String)
    (hu : tryUnwrap w.dm (Value.ptr (Value.struct rt fs)) = none)
    (hplan : PlanSound w.dm rt) (hshape : flatSingle rt fs i = true)
    (hft : rt.fields[i]? = some ft) (htags : ft.dictTagged n T = true) (hn : n ≠ "")
    (hval : fs[i]? = some kv)
    (hno : (∀ s, kv ≠ Value.str s) ∨ GetDict w.dm ((split n ',').headD "") = none) :
    Translate w (Value.ptr (Value.struct rt fs))
      = (⟨(getOrCreateConfig w.dm rt).1, w.env⟩, Value.ptr (Value.struct rt fs), none) := by
  obtain ⟨trs, hcfg⟩ := getOrCreateConfig_of_sound w.dm rt hplan
  rw [Translate_flatSingle_trs w rt fs i ft kv trs hu hcfg hshape hft hval,
    planField_dictTagged trs i ft n T htags hn]
  have hlabel : dictLabel w.dm n kv = "" := by
    unfold dictLabel
    rcases hno with h | h
    · cases hd : w.dm.dicts.get ((split n ',').headD "") with
      | none => rfl
      | some dict =>
        cases kv with
        | str s => exact absurd rfl (h s)
        | _ => rfl
    · have h2 : w.dm.dicts.get ((split n ',').headD "") = none := h
      rw [h2]
  simp [lookupLabel, hlabel, hn]

theorem Translate_dict_no_label_witness :
    Translate (sexWorld [("1", "男")])
        (Value.ptr (Value.struct
          ⟨"User", [⟨"Sex", true, [("dict", "sex"), ("dictField", "SexName")]⟩,
            ⟨"SexName", true, []⟩]⟩ [Value.int 1, Value.str "旧"]))
      = (⟨(getOrCreateConfig (sexWorld [("1", "男")]).dm userType).1, (sexWorld [("1", "男")]).env⟩,
         Value.ptr (Value.struct userType [Value.int 1, Value.str "旧"]), none) :=
  Translate_dict_no_label (sexWorld [("1", "男")]) userType [Value.int 1, Value.str "旧"] 0
    ⟨"Sex", true, [("dict", "sex"), ("dictField", "SexName")]⟩ (Value.int 1) "sex" "SexName" rfl
    (by intro cfg h; simp [sexWorld, RegisterDict, DictManager.init] at h)
    (by decide) rfl (by decide) (by decide) rfl (Or.inl (fun s h => by cases h))

/-! ## The priority of the tags -/

theorem planField_eq_bindTop (trs : List (String × Option Translator)) (i : Nat)
    (f : StructField) :
    planField trs i f =
      { fieldIndex := i, sourceField := "", targetField := f.tagGet "dictField",
        translatorTag := (bindTop trs f.topTag).2, translator := (bindTop trs f.topTag).1 } := by
  by_cases h1 : f.tagGet "translate" = ""
  · by_cases h2 : f.tagGet "db" = ""
    · by_cases h3 : f.tagGet "dictTableTwo" = ""
      · by_cases h4 : f.tagGet "dictTable" = ""
        · by_cases h5 : f.tagGet "enum" = ""
          · by_cases h6 : f.tagGet "dict" = ""
            · simp [planField, StructField.topTag, tagPriority, bindTop, h1, h2, h3, h4, h5, h6]
            · simp [planField, StructField.topTag, tagPriority, bindTop, h1, h2, h3, h4, h5, h6]
          · simp [planField, StructField.topTag, tagPriority, bindTop, h1, h2, h3, h4, h5]
        · simp [planField, StructField.topTag, tagPriority, bindTop, h1, h2, h3, h4]
      · simp [planField, StructField.topTag, tagPriority, bindTop, h1, h2, h3]
    · simp only [planField, StructField.topTag, tagPriority, bindTop, h1, h2, List.map,
        List.find?, ne_eq, not_true_eq_false, decide_False, not_false_eq_true, decide_True,
        if_false, if_true]
      cases parseDBTag (f.tagGet "db") <;> simp
  · simp only [planField, StructField.topTag, tagPriority, bindTop, h1, List.map,
      List.find?, ne_eq, not_false_eq_true, decide_True, if_true]
    cases trs.lookup ((split (f.tagGet "translate") ',').headD "") <;> simp

theorem buildFields_index_ge (trs : List (String × Option Translator)) (fields : List StructField) :
    ∀ (s : Nat) (c : fieldConfig), c ∈ buildFields trs s fields → s ≤ c.fieldIndex := by
  intro s c hc
  rw [mem_buildFields] at hc
  obtain ⟨idx, g, -, h2, -⟩ := hc
  rw [h2, planField_fieldIndex]
  omega

theorem buildFields_count_le_one (trs : List (String × Option Translator))
    (fields : List StructField) :
    ∀ (s i : Nat), ((buildFields trs s fields).filter (fun c => c.fieldIndex = i)).length ≤ 1 := by
  induction fields with
  | nil => intro s i; simp [buildFields]
  | cons f rest ih =>
    intro s i
    unfold buildFields
    simp only []
    split
    · by_cases hi : s = i
      · have hnone : (buildFields trs (s + 1) rest).filter (fun c => c.fieldIndex = i) = [] := by
          rw [List.filter_eq_nil_iff]
          intro c hc
          have := buildFields_index_ge trs rest (s + 1) c hc
          simp
          omega
        rw [List.filter_cons, hnone]
        split <;> simp
      · simp only [List.filter_cons, planField_fieldIndex, hi, decide_False, Bool.false_eq_true,
          if_false]
        exact ih (s + 1) i
    · exact ih (s + 1) i

/-- C13: the plan entry of a field is decided by the translation tag of highest
priority (translate > db > dictTableTwo > dictTable > enum > dict) that is
present on the field: that tag alone gives the translator and the tag
argument, a field with the same highest tag and the same `dictField` gets the
same entry whatever lower tags it carries, and the plan of a type holds at
most one entry for the field. -/
theorem planField_priority (trs : List (String × Option Translator))
    (fields : List StructField) (i : Nat) (f g : StructField)
    (hf : fields[i]? = some f) (htop : f.topTag = g.topTag)
    (hdf : f.tagGet "dictField" = g.tagGet "dictField") :
    (planField trs i f).translator = (bindTop trs f.topTag).1 ∧
    (planField trs i f).translatorTag = (bindTop trs f.topTag).2 ∧
    planField trs i f = planField trs i g ∧
    (∀ c ∈ buildFields trs 0 fields, c.fieldIndex = i → c = planField trs i f) ∧
    ((buildFields trs 0 fields).filter (fun c => c.fieldIndex = i)).length ≤ 1 := by
  refine ⟨by rw [planField_eq_bindTop], by rw [planField_eq_bindTop], ?_, ?_,
    buildFields_count_le_one trs fields 0 i⟩
  · rw [planField_eq_bindTop trs i f, planField_eq_bindTop trs i g, htop, hdf]
  · intro c hc hidx
    rw [mem_buildFields] at hc
    obtain ⟨idx, g2, h1, h2, -⟩ := hc
    rw [h2, planField_fieldIndex] at hidx
    simp only [Nat.zero_add] at hidx h2
    subst hidx
    rw [hf] at h1
    cases h1
    exact h2

theorem planField_priority_witness :
    (planField [] 0 ⟨"Status", true,
        [("dict", "status"), ("enum", "deviceStatus"), ("dictField", "StatusName")]⟩).translatorTag
      = "deviceStatus" ∧
    planField [] 0 ⟨"Status", true,
        [("dict", "status"), ("enum", "deviceStatus"), ("dictField", "StatusName")]⟩
      = planField [] 0 ⟨"Status", true, [("enum", "deviceStatus"), ("dictField", "StatusName")]⟩ :=
  ⟨(planField_priority []
      [⟨"Status", true, [("dict", "status"), ("enum", "deviceStatus"), ("dictField", "StatusName")]⟩]
      0 ⟨"Status", true, [("dict", "status"), ("enum", "deviceStatus"), ("dictField", "StatusName")]⟩
      ⟨"Status", true, [("enum", "deviceStatus"), ("dictField", "StatusName")]⟩
      rfl (by decide) (by decide)).2.1,
   (planField_priority []
      [⟨"Status", true, [("dict", "status"), ("enum", "deviceStatus"), ("dictField", "StatusName")]⟩]
      0 ⟨"Status", true, [("dict", "status"), ("enum", "deviceStatus"), ("dictField", "StatusName")]⟩
      ⟨"Status", true, [("enum", "deviceStatus"), ("dictField", "StatusName")]⟩
      rfl (by decide) (by decide)).2.2.1⟩

/-! ## The target of a label -/

theorem planField_targetField (trs : List (String × Option Translator)) (i : Nat)
    (f : StructField) : (planField trs i f).targetField = f.tagGet "dictField" := by
  rw [planField_eq_bindTop]

theorem targetName_planField (trs : List (String × Option Translator)) (i : Nat)
    (f : StructField) : targetName (planField trs i f) f = f.tagGet "dictField" := by
  unfold targetName
  split
  · exact planField_targetField trs i f
  · rfl

/-- The target search assigns to the first field that is a writable string
field of a matching name, and to no field when there is none. -/
theorem setTarget_eq_firstWritable (target label : String) :
    ∀ (fields : List StructField) (cur : List Value),
      setTarget target label fields cur =
        match firstWritable target fields cur with
        | some j => cur.set j (Value.str label)
        | none => cur := by
  intro fields
  induction fields with
  | nil => intro cur; cases cur <;> simp [setTarget, firstWritable]
  | cons f rest ih =>
    intro cur
    cases cur with
    | nil => simp [setTarget, firstWritable]
    | cons c cs =>
      have ih2 := ih cs
      by_cases hm : (f.name = target ∨ equalFold f.name target = true)
      · have hnm : nameMatches f target = true := by simpa [nameMatches] using hm
        cases hexp : f.exported with
        | false =>
          simp only [setTarget, Bool.or_eq_true, decide_eq_true_eq, hm, if_true, hexp, firstWritable,
            writableMatch, hnm, Bool.and_false, Bool.false_and, Bool.false_eq_true, if_false,
            Bool.true_and]
          rw [ih2]
          cases firstWritable target rest cs <;> simp
        | true =>
          cases c with
          | str s => simp [setTarget, hm, hexp, firstWritable, writableMatch, hnm, Value.isString]
          | _ =>
            simp only [setTarget, Bool.or_eq_true, decide_eq_true_eq, hm, if_true, hexp,
              firstWritable, writableMatch, hnm, Value.isString, Bool.and_false, Bool.and_self,
              Bool.false_eq_true, if_false]
            rw [ih2]
            cases firstWritable target rest cs <;> simp
      · have hnm : nameMatches f target = false := by simpa [nameMatches] using hm
        simp only [setTarget, Bool.or_eq_true, decide_eq_true_eq, hm, if_false, firstWritable,
          writableMatch, hnm, Bool.false_and, Bool.false_eq_true]
        rw [ih2]
        cases firstWritable target rest cs <;> simp

/-- `firstWritable` returns the least index of a writable string field of a
matching name. -/
theorem firstWritable_spec (target : String) :
    ∀ (fields : List StructField) (cur : List Value) (j : Nat),
      firstWritable target fields cur = some j →
        (∃ sf v, fields[j]? = some sf ∧ cur[j]? = some v ∧ writableMatch target sf v = true) ∧
        (∀ m sf v, m < j → fields[m]? = some sf → cur[m]? = some v →
          writableMatch target sf v = false) := by
  intro fields
  induction fields with
  | nil => intro cur j h; cases cur <;> simp [firstWritable] at h
  | cons f rest ih =>
    intro cur j h
    cases cur with
    | nil => simp [firstWritable] at h
    | cons c cs =>
      unfold firstWritable at h
      by_cases hw : writableMatch target f c = true
      · rw [if_pos hw] at h
        cases h
        refine ⟨⟨f, c, by simp, by simp, hw⟩, ?_⟩
        intro m sf v hm
        omega
      · rw [if_neg hw] at h
        cases hr : firstWritable target rest cs with
        | none => rw [hr] at h; simp at h
        | some j2 =>
          rw [hr] at h
          simp only [Option.map_some', Option.some.injEq] at h
          subst h
          obtain ⟨⟨sf, v, h1, h2, h3⟩, hlt⟩ := ih cs j2 hr
          refine ⟨⟨sf, v, by simpa using h1, by simpa using h2, h3⟩, ?_⟩
          intro m sf2 v2 hm hf hv
          cases m with
          | zero =>
            simp at hf hv
            subst hf hv
            simpa using hw
          | succ m2 =>
            exact hlt m2 sf2 v2 (by omega) (by simpa using hf) (by simpa using hv)

/-- C14 (amended): when the lookup for the tagged field of a flat record
returns a non-empty label and the `dictField` tag names `T`, the label is
assigned to the first field in declaration order that is a writable string
field and whose name equals `T` exactly or under case folding; no field
declared before it is such a field, so a field named exactly `T` receives the
label only if no writable string field with a case-insensitively equal name is
declared before it. -/
theorem Translate_label_first_writable (w : World) (rt : StructType) (fs : List Value)
    (i j : Nat) (ft : StructField) (kv : Value) (label : String) (env1 : Env)
    (hu : tryUnwrap w.dm (Value.ptr (Value.struct rt fs)) = none)
    (hcur : PlanCurrent w.dm rt) (hshape : flatSingle rt fs i = true)
    (hft : rt.fields[i]? = some ft) (hval : fs[i]? = some kv)
    (hact : (planField w.dm.translators i ft).translator.isSome = true ∨
      (planField w.dm.translators i ft).translatorTag ≠ "")
    (hlab : lookupLabel w (planField w.dm.translators i ft) ft kv = (env1, Except.ok label))
    (hl : label ≠ "") (hT : ft.tagGet "dictField" ≠ "")
    (hj : firstWritable (ft.tagGet "dictField") rt.fields fs = some j) :
    Translate w (Value.ptr (Value.struct rt fs))
      = (⟨(getOrCreateConfig w.dm rt).1, env1⟩,
          Value.ptr (Value.struct rt (fs.set j (Value.str label))), none) ∧
    (∃ sf v, rt.fields[j]? = some sf ∧ fs[j]? = some v ∧
      writableMatch (ft.tagGet "dictField") sf v = true) ∧
    (∀ m sf v, m < j → rt.fields[m]? = some sf → fs[m]? = some v →
      writableMatch (ft.tagGet "dictField") sf v = false) := by
  have hspec := firstWritable_spec (ft.tagGet "dictField") rt.fields fs j hj
  refine ⟨?_, hspec.1, hspec.2⟩
  have hact2 : ((planField w.dm.translators i ft).translator.isSome ||
      decide ((planField w.dm.translators i ft).translatorTag ≠ "")) = true := by
    simpa using hact
  rw [Translate_flatSingle_trs w rt fs i ft kv w.dm.translators hu
    (getOrCreateConfig_current w.dm rt hcur) hshape hft hval, if_pos hact2, hlab,
    targetName_planField]
  simp only [hl, hT, or_self, if_false, setTarget_eq_firstWritable, hj]

theorem Translate_label_first_writable_witness :
    Translate priorityWorld
        (Value.ptr (Value.struct taskTypeTwoNames [Value.int 2, Value.str "", Value.str ""]))
      = (⟨(getOrCreateConfig priorityWorld.dm taskTypeTwoNames).1, priorityWorld.env⟩,
          Value.ptr (Value.struct taskTypeTwoNames [Value.int 2, Value.str "中", Value.str ""]),
          none) :=
  (Translate_label_first_writable priorityWorld taskTypeTwoNames
    [Value.int 2, Value.str "", Value.str ""] 0 1
    ⟨"Priority", true, [("enum", "priority"), ("dictField", "PriorityName")]⟩ (Value.int 2) "中"
    priorityWorld.env rfl (by intro cfg h; simp [priorityWorld, DictManager.init] at h)
    (by decide) rfl rfl (Or.inl rfl) rfl (by decide) (by decide) (by decide)).1

/-- C14 as stated fails when a writable string field whose name matches the
target only under case folding is declared before the field of the exact name:
the enum label of `Priority` goes to `PRIORITYNAME`, and the exact-name sibling
`PriorityName`, a writable string field, stays empty. -/
theorem Translate_exact_name_not_preferred_counterexample :
    writableMatch "PriorityName" ⟨"PriorityName", true, []⟩ (Value.str "") = true ∧
    (Translate priorityWorld
        (Value.ptr (Value.struct taskTypeTwoNames
          [Value.int 2, Value.str "", Value.str ""]))).2.2 = none ∧
    (Translate priorityWorld
        (Value.ptr (Value.struct taskTypeTwoNames
          [Value.int 2, Value.str "", Value.str ""]))).2.1
      = Value.ptr (Value.struct taskTypeTwoNames [Value.int 2, Value.str "中", Value.str ""]) ∧
    (Translate priorityWorld
        (Value.ptr (Value.struct taskTypeTwoNames
          [Value.int 2, Value.str "", Value.str ""]))).2.1
      ≠ Value.ptr (Value.struct taskTypeTwoNames [Value.int 2, Value.str "", Value.str "中"]) := by
  refine ⟨by decide, rfl, rfl, ?_⟩
  intro h
  have h2 : Value.ptr (Value.struct taskTypeTwoNames [Value.int 2, Value.str "中", Value.str ""])
      = Value.ptr (Value.struct taskTypeTwoNames [Value.int 2, Value.str "", Value.str "中"]) := h
  simp at h2

/-! ## Empty labels -/

/-- C15: when the lookup for the tagged field of a flat record produces the
empty label, `Translate` returns no error and every field of the record, the
target field included, keeps the value it had; a key that the dictionary or
the enum table does not hold is a case of the empty label. -/
theorem Translate_empty_label (w : World) (rt : StructType) (fs : List Value) (i : Nat)
    (ft : StructField) (kv : Value) (env1 : Env)
    (hu : tryUnwrap w.dm (Value.ptr (Value.struct rt fs)) = none)
    (hcur : PlanCurrent w.dm rt) (hshape : flatSingle rt fs i = true)
    (hft : rt.fields[i]? = some ft) (hval : fs[i]? = some kv)
    (hlab : lookupLabel w (planField w.dm.translators i ft) ft kv = (env1, Except.ok "")) :
    (Translate w (Value.ptr (Value.struct rt fs))).2.2 = none ∧
    (Translate w (Value.ptr (Value.struct rt fs))).2.1 = Value.ptr (Value.struct rt fs) ∧
    (∀ (dictTag k : String) (D : GoMap),
      w.dm.dicts.get ((split dictTag ',').headD "") = some D → D.lookup k = none →
      dictLabel w.dm dictTag (Value.str k) = "") ∧
    (∀ (tag fieldName k : String) (E : GoMap), w.env.enumMap.get tag = some E →
      E.lookup k = none →
      EnumTranslator.Translate w.env.enumMap (Value.str k) fieldName tag = Except.ok "") := by
  have hT := Translate_flatSingle_trs w rt fs i ft kv w.dm.translators hu
    (getOrCreateConfig_current w.dm rt hcur) hshape hft hval
  rw [hlab] at hT
  refine ⟨?_, ?_, ?_, ?_⟩
  · rw [hT]; split <;> rfl
  · rw [hT]; split <;> simp
  · intro dictTag k D hD hk
    have hg : D.get k = "" := by simp [GoMap.get, hk]
    unfold dictLabel
    rw [hD]
    simp only [hg]
    split <;> rfl
  · intro tag fieldName k E hE hk
    simp [EnumTranslator.Translate, hE, GoMap.get, hk]

theorem Translate_empty_label_witness :
    (Translate (sexWorld [("1", "男")])
      (Value.ptr (Value.struct userType [Value.str "9", Value.str "旧"]))).2.2 = none ∧
    (Translate (sexWorld [("1", "男")])
      (Value.ptr (Value.struct userType [Value.str "9", Value.str "旧"]))).2.1
      = Value.ptr (Value.struct userType [Value.str "9", Value.str "旧"]) :=
  ⟨(Translate_empty_label (sexWorld [("1", "男")]) userType [Value.str "9", Value.str "旧"] 0
      ⟨"Sex", true, [("dict", "sex"), ("dictField", "SexName")]⟩ (Value.str "9")
      (sexWorld [("1", "男")]).env rfl
      (by intro cfg h; simp [sexWorld, RegisterDict, DictManager.init] at h)
      (by decide) rfl rfl rfl).1,
   (Translate_empty_label (sexWorld [("1", "男")]) userType [Value.str "9", Value.str "旧"] 0
      ⟨"Sex", true, [("dict", "sex"), ("dictField", "SexName")]⟩ (Value.str "9")
      (sexWorld [("1", "男")]).env rfl
      (by intro cfg h; simp [sexWorld, RegisterDict, DictManager.init] at h)
      (by decide) rfl rfl rfl).2.1⟩

/-! ## Errors cut the traversal short -/

theorem translateFields_cons_exported (rt : StructType) (cfg : structConfig) (i : Nat) (v : Value)
    (rest : List Value) (w : World) (cur : List Value) (ft : StructField)
    (hft : rt.fields[i]? = some ft) (hexp : ft.exported = true) :
    translateFields rt cfg i (v :: rest) w cur =
      match (fieldStep rt cfg i ft w cur v).2.2 with
      | some err => ((fieldStep rt cfg i ft w cur v).1, (fieldStep rt cfg i ft w cur v).2.1, some err)
      | none =>
        translateFields rt cfg (i + 1) rest (fieldStep rt cfg i ft w cur v).1
          (fieldStep rt cfg i ft w cur v).2.1 := by
  rw [translateFields_cons, hft]
  simp only [hexp, Bool.not_true, Bool.false_eq_true, if_false, fieldStep]
  cases h1 : (nestedStep w cur i v).2.2 with
  | some err => rfl
  | none => rfl

theorem translateFields_stops (rt : StructType) (cfg : structConfig) (i : Nat)
    (pre : List Value) (v : Value) (post : List Value) (w : World) (cur : List Value)
    (ft : StructField) (err : Error)
    (hpre : (translateFields rt cfg i pre w cur).2.2 = none)
    (hft : rt.fields[i + pre.length]? = some ft) (hexp : ft.exported = true)
    (hfail : (fieldStep rt cfg (i + pre.length) ft (translateFields rt cfg i pre w cur).1
      (translateFields rt cfg i pre w cur).2.1 v).2.2 = some err) :
    translateFields rt cfg i (pre ++ v :: post) w cur =
      ((fieldStep rt cfg (i + pre.length) ft (translateFields rt cfg i pre w cur).1
          (translateFields rt cfg i pre w cur).2.1 v).1,
       (fieldStep rt cfg (i + pre.length) ft (translateFields rt cfg i pre w cur).1
          (translateFields rt cfg i pre w cur).2.1 v).2.1, some err) := by
  rw [translateFields_append, hpre]
  simp only []
  rw [translateFields_cons_exported _ _ _ _ _ _ _ ft hft hexp, hfail]

theorem translateSlice_stops (pre : List Value) (e : Value) (post : List Value) (w : World)
    (err : Error) (hpre : (translateSlice pre w).2.2 = none)
    (hfail : (elemStep (translateSlice pre w).1 e).2.2 = some err) :
    translateSlice (pre ++ e :: post) w =
      ((elemStep (translateSlice pre w).1 e).1,
       (translateSlice pre w).2.1 ++ (elemStep (translateSlice pre w).1 e).2.1 :: post,
       some err) := by
  rw [translateSlice_append, hpre]
  simp only []
  rw [translateSlice_cons, hfail]

theorem fieldStep_translator_error (rt : StructType) (cfg : structConfig) (i : Nat)
    (ft : StructField) (w : World) (cur : List Value) (v : Value) (c : fieldConfig)
    (env1 : Env) (err : Error)
    (hn : (nestedStep w cur i v).2.2 = none)
    (hc : fieldConfigMap cfg i = some c)
    (hact : c.translator.isSome = true ∨ c.translatorTag ≠ "")
    (hlab : lookupLabel (nestedStep w cur i v).1 c ft
      ((nestedStep w cur i v).2.1.getD i Value.nilPtr) = (env1, Except.error err)) :
    fieldStep rt cfg i ft w cur v
      = (⟨(nestedStep w cur i v).1.dm, env1⟩, (nestedStep w cur i v).2.1, some err) := by
  unfold fieldStep
  rw [hn]
  simp only []
  unfold translateTagged
  rw [hc]
  simp only []
  rw [translateEntry_eq_lookup _ _ _ _ _ _ hact, hlab]

/-- C16: when the loop body of `translateStruct` for a field (the descent into
its value, or the translator of its tag) returns an error, the loop returns
that error in the state the failing step left: the fields after it are not
visited, whatever they are, and what the fields before it assigned stays.  The
same holds for the elements of a sequence, where the elements after the failing
one are returned as they were.  An error of the translator of a field is an
error of the loop body, with the fields as they were before the call, and
errors of nested records and sequences and of the top-level record or
sequence are passed on unchanged up to `Translate`. -/
theorem Translate_stops_at_error (rt : StructType) (cfg : structConfig) (i : Nat)
    (pre : List Value) (v : Value) (post : List Value) (w : World) (cur : List Value)
    (ft : StructField) (err : Error)
    (hpre : (translateFields rt cfg i pre w cur).2.2 = none)
    (hft : rt.fields[i + pre.length]? = some ft) (hexp : ft.exported = true)
    (hfail : (fieldStep rt cfg (i + pre.length) ft (translateFields rt cfg i pre w cur).1
      (translateFields rt cfg i pre w cur).2.1 v).2.2 = some err) :
    translateFields rt cfg i (pre ++ v :: post) w cur =
      ((fieldStep rt cfg (i + pre.length) ft (translateFields rt cfg i pre w cur).1
          (translateFields rt cfg i pre w cur).2.1 v).1,
       (fieldStep rt cfg (i + pre.length) ft (translateFields rt cfg i pre w cur).1
          (translateFields rt cfg i pre w cur).2.1 v).2.1, some err) ∧
    (∀ (spre : List Value) (e : Value) (spost : List Value) (w2 : World) (err2 : Error),
      (translateSlice spre w2).2.2 = none →
      (elemStep (translateSlice spre w2).1 e).2.2 = some err2 →
      translateSlice (spre ++ e :: spost) w2 =
        ((elemStep (translateSlice spre w2).1 e).1,
         (translateSlice spre w2).2.1 ++ (elemStep (translateSlice spre w2).1 e).2.1 :: spost,
         some err2)) ∧
    (∀ (w2 : World) (cur2 : List Value) (k : Nat) (ft2 : StructField) (x : Value)
      (c : fieldConfig) (env1 : Env) (err2 : Error),
      (nestedStep w2 cur2 k x).2.2 = none → fieldConfigMap cfg k = some c →
      (c.translator.isSome = true ∨ c.translatorTag ≠ "") →
      lookupLabel (nestedStep w2 cur2 k x).1 c ft2
        ((nestedStep w2 cur2 k x).2.1.getD k Value.nilPtr) = (env1, Except.error err2) →
      fieldStep rt cfg k ft2 w2 cur2 x
        = (⟨(nestedStep w2 cur2 k x).1.dm, env1⟩, (nestedStep w2 cur2 k x).2.1, some err2)) ∧
    (∀ (w2 : World) (cur2 : List Value) (k : Nat) (x : Value), x.isStruct = true →
      (nestedStep w2 cur2 k x).2.2 = (translateStruct w2 x).2.2 ∧
      (nestedStep w2 cur2 k (Value.ptr x)).2.2 = (translateStruct w2 x).2.2 ∧
      (elemStep w2 x).2.2 = (translateStruct w2 x).2.2 ∧
      (elemStep w2 (Value.ptr x)).2.2 = (translateStruct w2 x).2.2 ∧
      (tryUnwrap w2.dm (Value.ptr x) = none →
        (Translate w2 (Value.ptr x)).2.2 = (translateStruct w2 x).2.2)) ∧
    (∀ (w2 : World) (cur2 : List Value) (k : Nat) (es : List Value),
      (nestedStep w2 cur2 k (Value.slice es)).2.2 = (translateSlice es w2).2.2 ∧
      (tryUnwrap w2.dm (Value.ptr (Value.slice es)) = none →
        (Translate w2 (Value.ptr (Value.slice es))).2.2 = (translateSlice es w2).2.2)) ∧
    (∀ (w2 : World) (rt2 : StructType) (fs : List Value),
      (translateStruct w2 (Value.struct rt2 fs)).2.2 =
        (translateFields rt2 (getOrCreateConfig w2.dm rt2).2 0 fs
          ⟨(getOrCreateConfig w2.dm rt2).1, w2.env⟩ fs).2.2) := by
  refine ⟨translateFields_stops rt cfg i pre v post w cur ft err hpre hft hexp hfail,
    fun spre e spost w2 err2 h1 h2 => translateSlice_stops spre e spost w2 err2 h1 h2,
    fun w2 cur2 k ft2 x c env1 err2 h1 h2 h3 h4 =>
      fieldStep_translator_error rt cfg k ft2 w2 cur2 x c env1 err2 h1 h2 h3 h4,
    ?_, ?_, ?_⟩
  · intro w2 cur2 k x hx
    cases x with
    | struct rt2 fs =>
      refine ⟨by simp [nestedStep, Value.isStruct], by simp [nestedStep, Value.isStruct],
        by simp [elemStep, Value.isStruct], by simp [elemStep, Value.isStruct], ?_⟩
      intro hu
      simp [Translate, hu]
    | _ => simp [Value.isStruct] at hx
  · intro w2 cur2 k es
    refine ⟨by simp [nestedStep, Value.isStruct], ?_⟩
    intro hu
    simp [Translate, hu]
  · intro w2 rt2 fs
    simp [translateStruct]

theorem Translate_stops_at_error_witness :
    translateFields mixedType (getOrCreateConfig mixedWorld.dm mixedType).2 0
        ([Value.str "1", Value.str ""] ++ Value.int 2 :: [Value.str "", Value.str "1", Value.str ""])
        ⟨(getOrCreateConfig mixedWorld.dm mixedType).1, mixedWorld.env⟩
        [Value.str "1", Value.str "", Value.int 2, Value.str "", Value.str "1", Value.str ""]
      = (⟨(getOrCreateConfig mixedWorld.dm mixedType).1, mixedWorld.env⟩,
         [Value.str "1", Value.str "男", Value.int 2, Value.str "", Value.str "1", Value.str ""],
         some (Error.errorf "enum 'priority' not found")) :=
  (Translate_stops_at_error mixedType (getOrCreateConfig mixedWorld.dm mixedType).2 0
    [Value.str "1", Value.str ""] (Value.int 2) [Value.str "", Value.str "1", Value.str ""]
    ⟨(getOrCreateConfig mixedWorld.dm mixedType).1, mixedWorld.env⟩
    [Value.str "1", Value.str "", Value.int 2, Value.str "", Value.str "1", Value.str ""]
    ⟨"Priority", true, [("enum", "priority"), ("dictField", "PriorityName")]⟩
    (Error.errorf "enum 'priority' not found") rfl rfl rfl rfl).1

/-! ## Sequences -/

theorem translateSlice_prefix_ok (es : List Value) (w : World) (k : Nat)
    (hok : (translateSlice es w).2.2 = none) : (translateSlice (es.take k) w).2.2 = none := by
  have h := translateSlice_append (es.take k) (es.drop k) w
  rw [List.take_append_drop] at h
  cases hp : (translateSlice (es.take k) w).2.2 with
  | none => rfl
  | some err =>
    rw [hp] at h
    simp only [] at h
    rw [h] at hok
    simp at hok

theorem translateSlice_getElem (es : List Value) (w : World) (k : Nat) (e : Value)
    (he : es[k]? = some e) (hpre : (translateSlice (es.take k) w).2.2 = none) :
    (translateSlice es w).2.1[k]? = some (elemStep (translateSlice (es.take k) w).1 e).2.1 := by
  have hk : k < es.length := (List.getElem?_eq_some_iff.1 he).1
  have hek : es[k] = e := (List.getElem?_eq_some_iff.1 he).2
  have hsplit : es = es.take k ++ e :: es.drop (k + 1) := by
    rw [← hek]; simp
  have hlen : (translateSlice (es.take k) w).2.1.length = k := by
    rw [translateSlice_length]; simp; omega
  have h := translateSlice_append (es.take k) (e :: es.drop (k + 1)) w
  rw [← hsplit, hpre] at h
  simp only [] at h
  rw [h, translateSlice_cons]
  cases h1 : (elemStep (translateSlice (es.take k) w).1 e).2.2 with
  | some err =>
    simp only []
    rw [List.getElem?_append_right (by omega), hlen]
    simp
  | none =>
    simp only []
    rw [List.getElem?_append_right (by omega), hlen]
    simp

theorem elemStep_skip (w : World) (e : Value) (h1 : e.isStruct = false)
    (h2 : ∀ x, e = Value.ptr x → x.isStruct = false) : elemStep w e = (w, e, none) := by
  cases e with
  | ptr x =>
    have hx := h2 x rfl
    simp only [elemStep, h1, hx, Bool.false_eq_true, if_false]
  | struct rt fs => simp [Value.isStruct] at h1
  | _ => simp [elemStep, Value.isStruct]

/-- C18: `translateSlice`, which `Translate` runs on a pointer to a sequence
and the loop of `translateStruct` runs on a sequence held in a field, keeps
the length of the sequence; when it raises no error, the element at every
index is the result of translating the element that was at that index, in the
state the elements before it left (index order); an element that is a record
or a pointer to a record is translated by `translateStruct`, and every other
element, a nil pointer included, is skipped: it is returned as it was, with
the state unchanged and no error. -/
theorem translateSlice_elements (w : World) (es : List Value)
    (hok : (translateSlice es w).2.2 = none) :
    (translateSlice es w).2.1.length = es.length ∧
    (∀ k e, es[k]? = some e →
      (translateSlice es w).2.1[k]? = some (elemStep (translateSlice (es.take k) w).1 e).2.1) ∧
    (∀ (w2 : World) (e : Value), e.isStruct = false → (∀ x, e = Value.ptr x → x.isStruct = false) →
      elemStep w2 e = (w2, e, none)) ∧
    (∀ (w2 : World) (e : Value), e.isStruct = true →
      elemStep w2 e = translateStruct w2 e ∧
      elemStep w2 (Value.ptr e)
        = ((translateStruct w2 e).1, Value.ptr (translateStruct w2 e).2.1,
            (translateStruct w2 e).2.2)) ∧
    (tryUnwrap w.dm (Value.ptr (Value.slice es)) = none →
      Translate w (Value.ptr (Value.slice es))
        = ((translateSlice es w).1, Value.ptr (Value.slice (translateSlice es w).2.1), none)) ∧
    (∀ (cur : List Value) (i : Nat),
      nestedStep w cur i (Value.slice es)
        = ((translateSlice es w).1, cur.set i (Value.slice (translateSlice es w).2.1), none)) := by
  refine ⟨translateSlice_length es w, ?_, elemStep_skip, ?_, ?_, ?_⟩
  · intro k e he
    exact translateSlice_getElem es w k e he (translateSlice_prefix_ok es w k hok)
  · intro w2 e he
    cases e with
    | struct rt fs => simp [elemStep, Value.isStruct]
    | _ => simp [Value.isStruct] at he
  · intro hu
    simp [Translate, hu, hok]
  · intro cur i
    simp [nestedStep, Value.isStruct, hok]

theorem translateSlice_elements_witness :
    (translateSlice
      [Value.struct statusItemType [Value.str "1", Value.str ""], Value.nilPtr, Value.int 7,
        Value.ptr (Value.struct statusItemType [Value.str "0", Value.str ""])]
      (statusWorld [("1", "启用"), ("0", "禁用")])).2.1
    = [Value.struct statusItemType [Value.str "1", Value.str "启用"], Value.nilPtr, Value.int 7,
        Value.ptr (Value.struct statusItemType [Value.str "0", Value.str "禁用"])] ∧
    (translateSlice
      [Value.struct statusItemType [Value.str "1", Value.str ""], Value.nilPtr, Value.int 7,
        Value.ptr (Value.struct statusItemType [Value.str "0", Value.str ""])]
      (statusWorld [("1", "启用"), ("0", "禁用")])).2.1.length = 4 :=
  ⟨rfl, (translateSlice_elements (statusWorld [("1", "启用"), ("0", "禁用")])
      [Value.struct statusItemType [Value.str "1", Value.str ""], Value.nilPtr, Value.int 7,
        Value.ptr (Value.struct statusItemType [Value.str "0", Value.str ""])] rfl).1⟩

/-! ## The order of the invocations -/

theorem TraceExt.refl (e : Env) : TraceExt e e := ⟨[], by simp⟩

theorem TraceExt.trans {e1 e2 e3 : Env} (h1 : TraceExt e1 e2) (h2 : TraceExt e2 e3) :
    TraceExt e1 e3 := by
  obtain ⟨a, ha⟩ := h1
  obtain ⟨b, hb⟩ := h2
  exact ⟨a ++ b, by rw [hb, ha, List.append_assoc]⟩

theorem backendTranslate_traceExt (t : Translator) (env : Env) (value : Value) :
    TraceExt env (backendTranslate t env value).1 := by
  unfold backendTranslate
  split
  · exact TraceExt.refl env
  · split
    · exact TraceExt.refl env
    · exact ⟨[t.queryEvent value], rfl⟩
    · split
      · exact ⟨[t.queryEvent value], by rw [trace_setCache]; rfl⟩
      · exact ⟨[t.queryEvent value], rfl⟩

theorem Translator_Translate_traceExt (t : Translator) (env : Env) (value : Value)
    (fieldName tagValue : String) : TraceExt env (t.Translate env value fieldName tagValue).1 := by
  cases t with
  | enum => exact TraceExt.refl env
  | custom f => exact ⟨[Event.custom value fieldName tagValue], rfl⟩
  | db a b c =>
    rw [Translate_eq_backendTranslate (Translator.db a b c) rfl]
    exact backendTranslate_traceExt _ env value
  | dictTable a =>
    rw [Translate_eq_backendTranslate (Translator.dictTable a) rfl]
    exact backendTranslate_traceExt _ env value
  | dictTableTwo a =>
    rw [Translate_eq_backendTranslate (Translator.dictTableTwo a) rfl]
    exact backendTranslate_traceExt _ env value

theorem translateTagged_traceExt (w : World) (cfg : structConfig) (i : Nat) (ft : StructField)
    (rt : StructType) (cur : List Value) :
    TraceExt w.env (translateTagged w cfg i ft rt cur).1.env := by
  unfold translateTagged
  split
  · exact TraceExt.refl w.env
  · rename_i c hc
    unfold translateEntry
    simp only []
    split
    · rename_i t ht
      unfold translateFieldWithTranslator
      simp only []
      have h := Translator_Translate_traceExt t w.env (cur.getD i Value.nilPtr) ft.name
        c.translatorTag
      rcases hb : t.Translate w.env (cur.getD i Value.nilPtr) ft.name c.translatorTag
        with ⟨env1, r⟩
      rw [hb] at h
      cases r with
      | error err => exact h
      | ok label =>
        simp only []
        split
        · exact h
        · split <;> exact h
    · split <;> exact TraceExt.refl w.env

theorem translateStruct_not_struct (w : World) (v : Value) (h : v.isStruct = false) :
    translateStruct w v = (w, v, none) := by
  cases v <;> simp_all [translateStruct, Value.isStruct]

theorem nestedStep_struct (w : World) (cur : List Value) (i : Nat) (v : Value)
    (h : v.isStruct = true) :
    nestedStep w cur i v
      = ((translateStruct w v).1, cur.set i (translateStruct w v).2.1, (translateStruct w v).2.2) := by
  simp [nestedStep, h]

theorem nestedStep_ptr (w : World) (cur : List Value) (i : Nat) (e : Value) :
    nestedStep w cur i (Value.ptr e) =
      if e.isStruct then
        ((translateStruct w e).1, cur.set i (Value.ptr (translateStruct w e).2.1),
          (translateStruct w e).2.2)
      else (w, cur, none) := by
  simp [nestedStep, Value.isStruct]

theorem nestedStep_slice (w : World) (cur : List Value) (i : Nat) (es : List Value) :
    nestedStep w cur i (Value.slice es)
      = ((translateSlice es w).1, cur.set i (Value.slice (translateSlice es w).2.1),
          (translateSlice es w).2.2) := by
  simp [nestedStep, Value.isStruct]

theorem elemStep_struct (w : World) (v : Value) (h : v.isStruct = true) :
    elemStep w v = translateStruct w v := by
  simp [elemStep, h]

theorem elemStep_ptr (w : World) (e : Value) :
    elemStep w (Value.ptr e) =
      if e.isStruct then
        ((translateStruct w e).1, Value.ptr (translateStruct w e).2.1, (translateStruct w e).2.2)
      else (w, Value.ptr e, none) := by
  simp [elemStep, Value.isStruct]

theorem translateStruct_struct (w : World) (rt : StructType) (fs : List Value) :
    translateStruct w (Value.struct rt fs) =
      ((translateFields rt (getOrCreateConfig w.dm rt).2 0 fs
          ⟨(getOrCreateConfig w.dm rt).1, w.env⟩ fs).1,
       Value.struct rt (translateFields rt (getOrCreateConfig w.dm rt).2 0 fs
          ⟨(getOrCreateConfig w.dm rt).1, w.env⟩ fs).2.1,
       (translateFields rt (getOrCreateConfig w.dm rt).2 0 fs
          ⟨(getOrCreateConfig w.dm rt).1, w.env⟩ fs).2.2) := by
  simp [translateStruct]

theorem traceExt_leaf (v : Value) (h1 : v.isLeaf = true) (h2 : v.isStruct = false)
    (h3 : ∀ x, v = Value.ptr x → x.isStruct = false) :
    (∀ w, TraceExt w.env (translateStruct w v).1.env) ∧
    (∀ w cur i, TraceExt w.env (nestedStep w cur i v).1.env) ∧
    (∀ w, TraceExt w.env (elemStep w v).1.env) := by
  refine ⟨?_, ?_, ?_⟩
  · intro w
    rw [translateStruct_not_struct w v h2]
    exact TraceExt.refl _
  · intro w cur i
    rw [nestedStep_leaf _ _ _ _ h1]
    exact TraceExt.refl _
  · intro w
    rw [elemStep_skip w v h2 h3]
    exact TraceExt.refl _

/-- The traversal only ever appends to the trace of invocations. -/
theorem traversal_traceExt :
    (∀ v : Value,
      (∀ w, TraceExt w.env (translateStruct w v).1.env) ∧
      (∀ w cur i, TraceExt w.env (nestedStep w cur i v).1.env) ∧
      (∀ w, TraceExt w.env (elemStep w v).1.env)) ∧
    (∀ l : List Value,
      (∀ rt cfg i w cur, TraceExt w.env (translateFields rt cfg i l w cur).1.env) ∧
      (∀ w, TraceExt w.env (translateSlice l w).1.env)) := by
  apply Value.induction
  · intro s
    exact traceExt_leaf (Value.str s) rfl rfl (fun x h => by cases h)
  · intro s
    exact traceExt_leaf (Value.int s) rfl rfl (fun x h => by cases h)
  · intro s
    exact traceExt_leaf (Value.uint s) rfl rfl (fun x h => by cases h)
  · intro t r
    exact traceExt_leaf (Value.other t r) rfl rfl (fun x h => by cases h)
  · intro rt fs ih
    have hs : ∀ w, TraceExt w.env (translateStruct w (Value.struct rt fs)).1.env := by
      intro w
      rw [translateStruct_struct]
      exact ih.1 rt _ 0 ⟨(getOrCreateConfig w.dm rt).1, w.env⟩ fs
    refine ⟨hs, ?_, ?_⟩
    · intro w cur i
      rw [nestedStep_struct _ _ _ (Value.struct rt fs) rfl]
      exact hs w
    · intro w
      rw [elemStep_struct _ (Value.struct rt fs) rfl]
      exact hs w
  · exact traceExt_leaf Value.nilPtr rfl rfl (fun x h => by cases h)
  · intro e ih
    refine ⟨fun w => by rw [translateStruct_not_struct w (Value.ptr e) rfl]; exact TraceExt.refl _,
      ?_, ?_⟩
    · intro w cur i
      rw [nestedStep_ptr]
      split
      · exact ih.1 w
      · exact TraceExt.refl _
    · intro w
      rw [elemStep_ptr]
      split
      · exact ih.1 w
      · exact TraceExt.refl _
  · intro es ih
    refine ⟨fun w => by rw [translateStruct_not_struct w (Value.slice es) rfl]; exact TraceExt.refl _,
      ?_, ?_⟩
    · intro w cur i
      rw [nestedStep_slice]
      exact ih.2 w
    · intro w
      rw [elemStep_skip w (Value.slice es) rfl (fun x h => by cases h)]
      exact TraceExt.refl _
  · exact ⟨fun rt cfg i w cur => by rw [translateFields_nil]; exact TraceExt.refl _,
      fun w => by rw [translateSlice_nil]; exact TraceExt.refl _⟩
  · intro v vs ihv ihl
    constructor
    · intro rt cfg i w cur
      rw [translateFields_cons]
      cases hft : rt.fields[i]? with
      | none => exact TraceExt.refl _
      | some ft =>
        simp only []
        split
        · exact ihl.1 rt cfg (i + 1) w cur
        · have h1 := ihv.2.1 w cur i
          split
          · exact h1
          · have h2 := translateTagged_traceExt (nestedStep w cur i v).1 cfg i ft rt
              (nestedStep w cur i v).2.1
            split
            · exact h1.trans h2
            · exact (h1.trans h2).trans (ihl.1 rt cfg (i + 1) _ _)
    · intro w
      rw [translateSlice_cons]
      have h1 := ihv.2.2 w
      split
      · exact h1
      · exact h1.trans (ihl.2 _)

/-- C17 (amended): the loop of `translateStruct` visits the fields in
declaration order and, for each field, first translates inside the value the
field holds (record, pointer to a record, sequence) and then invokes the
translator of the tag of that same field.  So the invocations made for the
fields declared before a field come first in the trace, then those made inside
the value of the field, then the invocation for the tag of the field, then
those for the fields declared after it; a nested record is translated before
the tag of its own field, not before the tags of the fields declared before
it. -/
theorem translateFields_order (rt : StructType) (cfg : structConfig) (i : Nat)
    (pre : List Value) (v : Value) (post : List Value) (w : World) (cur : List Value)
    (ft : StructField) (a n t : World × List Value × Option Error)
    (ha : a = translateFields rt cfg i pre w cur)
    (hn : n = nestedStep a.1 a.2.1 (i + pre.length) v)
    (ht : t = translateTagged n.1 cfg (i + pre.length) ft rt n.2.1)
    (hft : rt.fields[i + pre.length]? = some ft) (hexp : ft.exported = true)
    (hok : a.2.2 = none ∧ n.2.2 = none ∧ t.2.2 = none) :
    translateFields rt cfg i (pre ++ v :: post) w cur
      = translateFields rt cfg (i + pre.length + 1) post t.1 t.2.1 ∧
    ∃ e1 e2 e3 e4 : List Event,
      a.1.env.trace = w.env.trace ++ e1 ∧
      n.1.env.trace = w.env.trace ++ e1 ++ e2 ∧
      t.1.env.trace = w.env.trace ++ e1 ++ e2 ++ e3 ∧
      (translateFields rt cfg i (pre ++ v :: post) w cur).1.env.trace
        = w.env.trace ++ e1 ++ e2 ++ e3 ++ e4 := by
  obtain ⟨hoka, hokn, hokt⟩ := hok
  have hrun : translateFields rt cfg i (pre ++ v :: post) w cur
      = translateFields rt cfg (i + pre.length + 1) post t.1 t.2.1 := by
    rw [translateFields_append, ← ha, hoka]
    simp only []
    rw [translateFields_cons_exported _ _ _ _ _ _ _ ft hft hexp]
    have hfs : fieldStep rt cfg (i + pre.length) ft a.1 a.2.1 v = t := by
      unfold fieldStep
      rw [← hn, hokn, ht]
    rw [hfs, hokt]
  refine ⟨hrun, ?_⟩
  obtain ⟨e1, h1⟩ : TraceExt w.env a.1.env := by
    rw [ha]; exact (traversal_traceExt.2 pre).1 rt cfg i w cur
  obtain ⟨e2, h2⟩ : TraceExt a.1.env n.1.env := by
    rw [hn]; exact (traversal_traceExt.1 v).2.1 a.1 a.2.1 (i + pre.length)
  obtain ⟨e3, h3⟩ : TraceExt n.1.env t.1.env := by
    rw [ht]; exact translateTagged_traceExt n.1 cfg (i + pre.length) ft rt n.2.1
  obtain ⟨e4, h4⟩ : TraceExt t.1.env
      (translateFields rt cfg (i + pre.length + 1) post t.1 t.2.1).1.env :=
    (traversal_traceExt.2 post).1 rt cfg (i + pre.length + 1) t.1 t.2.1
  refine ⟨e1, e2, e3, e4, h1, by rw [h2, h1], by rw [h3, h2, h1], by rw [hrun, h4, h3, h2, h1]⟩

theorem translateFields_order_witness :
    (translateFields orderOuterType (getOrCreateConfig mixedWorld.dm orderOuterType).2 0
        ([Value.str "1", Value.str ""] ++
          Value.struct orderInnerType [Value.str "2", Value.str ""] :: [])
        ⟨(getOrCreateConfig mixedWorld.dm orderOuterType).1, mixedWorld.env⟩
        [Value.str "1", Value.str "", Value.struct orderInnerType [Value.str "2", Value.str ""]]).2.1
      = [Value.str "1", Value.str "启用",
          Value.struct orderInnerType [Value.str "2", Value.str "启用"]] :=
  (congrArg (fun r => r.2.1)
    (translateFields_order orderOuterType (getOrCreateConfig mixedWorld.dm orderOuterType).2 0
      [Value.str "1", Value.str ""] (Value.struct orderInnerType [Value.str "2", Value.str ""]) []
      ⟨(getOrCreateConfig mixedWorld.dm orderOuterType).1, mixedWorld.env⟩
      [Value.str "1", Value.str "", Value.struct orderInnerType [Value.str "2", Value.str ""]]
      ⟨"Inner", true, []⟩ _ _ _ rfl rfl rfl rfl rfl ⟨rfl, rfl, rfl⟩).1).trans rfl

/-- C17 as stated fails for a nested record held in a field declared after a
tagged field of the enclosing record: the query for the own field `ID` of the
outer record is invoked first, and the query inside the nested record only
after it. -/
theorem Translate_nested_after_own_tag_counterexample :
    (Translate mixedWorld
      (Value.ptr (Value.struct orderOuterType
        [Value.str "1", Value.str "", Value.struct orderInnerType [Value.str "2", Value.str ""]]))).2.2
      = none ∧
    (Translate mixedWorld
      (Value.ptr (Value.struct orderOuterType
        [Value.str "1", Value.str "",
          Value.struct orderInnerType [Value.str "2", Value.str ""]]))).1.env.trace
      = [Event.dictTableQuery "outer" "1", Event.dictTableQuery "inner" "2"] ∧
    (Translate mixedWorld
      (Value.ptr (Value.struct orderOuterType
        [Value.str "1", Value.str "",
          Value.struct orderInnerType [Value.str "2", Value.str ""]]))).1.env.trace
      ≠ [Event.dictTableQuery "inner" "2", Event.dictTableQuery "outer" "1"] := by
  refine ⟨rfl, rfl, ?_⟩
  intro h
  have h2 : [Event.dictTableQuery "outer" "1", Event.dictTableQuery "inner" "2"]
      = [Event.dictTableQuery "inner" "2", Event.dictTableQuery "outer" "1"] := h
  simp at h2

/-! ## The chunks of `batchTranslateParallel` -/

theorem chunkLoop_of_ge (n c r i : Nat) (h : i * c ≥ n) : chunkLoop n c r i = [] := by
  cases r with
  | zero => rfl
  | succ r => simp [chunkLoop, h]

theorem chunkLoop_length_le (n c : Nat) : ∀ r i, (chunkLoop n c r i).length ≤ r := by
  intro r
  induction r with
  | zero => intro i; simp [chunkLoop]
  | succ r ih =>
    intro i
    unfold chunkLoop
    split
    · simp
    · simp only [List.length_cons]
      have := ih (i + 1)
      omega

theorem chunkLoop_getElem (n c : Nat) :
    ∀ (r i k : Nat) (p : Nat × Nat), (chunkLoop n c r i)[k]? = some p →
      (i + k) * c < n ∧ p = ((i + k) * c, min ((i + k) * c + c) n) := by
  intro r
  induction r with
  | zero => intro i k p h; simp [chunkLoop] at h
  | succ r ih =>
    intro i k p h
    unfold chunkLoop at h
    split at h
    · simp at h
    · rename_i hlt
      cases k with
      | zero =>
        simp only [List.getElem?_cons_zero, Option.some.injEq] at h
        subst h
        refine ⟨by simpa using hlt, ?_⟩
        simp only [Nat.add_zero, Prod.mk.injEq, true_and]
        split <;> omega
      | succ k =>
        simp only [List.getElem?_cons_succ] at h
        have := ih (i + 1) k p h
        have e : i + 1 + k = i + (k + 1) := by omega
        rw [e] at this
        exact this

theorem chunkLoop_indexes (n c : Nat) (hc : 1 ≤ c) :
    ∀ r i, i * c ≤ n → n ≤ (i + r) * c →
      rangeIndexes (chunkLoop n c r i) = List.range' (i * c) (n - i * c) := by
  intro r
  induction r with
  | zero =>
    intro i h1 h2
    have : n - i * c = 0 := by simp at h2; omega
    simp [chunkLoop, rangeIndexes, this]
  | succ r ih =>
    intro i h1 h2
    unfold chunkLoop
    split
    · rename_i hge
      have : n - i * c = 0 := by omega
      simp [rangeIndexes, this]
    · rename_i hlt
      have hmul : (i + 1) * c = i * c + c := by rw [Nat.add_mul, Nat.one_mul]
      simp only [rangeIndexes, List.map_cons, List.flatten_cons]
      by_cases hover : i * c + c > n
      · rw [if_pos hover, chunkLoop_of_ge n c r (i + 1) (by rw [hmul]; omega)]
        simp
      · rw [if_neg hover]
        have hrec := ih (i + 1) (by rw [hmul]; omega) (by
          have e : i + 1 + r = i + (r + 1) := by omega
          rw [e]; exact h2)
        simp only [rangeIndexes] at hrec
        rw [hrec, hmul]
        have e1 : i * c + c - i * c = c := by omega
        rw [e1]
        have e2 : n - i * c = c + (n - (i * c + c)) := by omega
        rw [e2, List.range'_append_1, Nat.add_comm]

theorem chunkLoop_last (n c : Nat) :
    ∀ r i, n ≤ (i + r) * c → ∀ p, (chunkLoop n c r i).getLast? = some p → p.2 = n := by
  intro r
  induction r with
  | zero => intro i _ p h; simp [chunkLoop] at h
  | succ r ih =>
    intro i h2 p h
    have hmul : (i + 1) * c = i * c + c := by rw [Nat.add_mul, Nat.one_mul]
    unfold chunkLoop at h
    split at h
    · simp at h
    · rename_i hlt
      cases hrest : chunkLoop n c r (i + 1) with
      | nil =>
        rw [hrest] at h
        simp only [List.getLast?_singleton, Option.some.injEq] at h
        subst h
        simp only []
        have hge : n ≤ (i + 1) * c := by
          cases r with
          | zero => simpa using h2
          | succ r2 =>
            unfold chunkLoop at hrest
            split at hrest
            · assumption
            · simp at hrest
        split <;> omega
      | cons q qs =>
        rw [hrest, List.getLast?_cons_cons] at h
        rw [← hrest] at h
        exact ih (i + 1) (by
          have e : i + 1 + r = i + (r + 1) := by omega
          rw [e]; exact h2) p h

theorem workerCount_eq_min (n : Nat) : workerCount n = min 10 n := by
  unfold workerCount
  split <;> omega

theorem ceil_bounds (n w : Nat) (hw : 1 ≤ w) (hn : 1 ≤ n) :
    n ≤ (n + w - 1) / w * w ∧ ((n + w - 1) / w - 1) * w < n ∧ 1 ≤ (n + w - 1) / w := by
  have h1 := Nat.div_add_mod (n + w - 1) w
  have h2 := Nat.mod_lt (n + w - 1) (by omega : w > 0)
  have h3 : 1 ≤ (n + w - 1) / w := by
    rw [Nat.le_div_iff_mul_le (by omega)]
    omega
  have hcomm : w * ((n + w - 1) / w) = (n + w - 1) / w * w := Nat.mul_comm _ _
  refine ⟨by omega, ?_, h3⟩
  have h4 : ((n + w - 1) / w - 1) * w = (n + w - 1) / w * w - w := by
    rw [Nat.sub_mul, Nat.one_mul]
  omega

/-- C20: for every length `n ≥ 1`, with `w = min 10 n` workers and the chunk
size `c` of the code, which is the ceiling of `n / w`, the ranges handed to
the workers are `[k * c, min ((k + 1) * c) n)`, each of them non-empty; they
are pairwise disjoint, contiguous in increasing order, and their indexes one
range after the other are exactly `0, …, n - 1`; there is at least one range
and at most `w` of them; every range but the last has exactly `c` elements and
the last one ends at `n` and has between `1` and `c` elements. -/
theorem batchTranslateParallel_chunks (n : Nat) (hn : 1 ≤ n) :
    ∃ c chunks, workerCount n = min 10 n ∧ chunkSize n = some c ∧
      chunkRanges n = some chunks ∧
      (n ≤ c * min 10 n ∧ (c - 1) * min 10 n < n) ∧
      (∀ (k : Nat) (p : Nat × Nat), chunks[k]? = some p → p = (k * c, min ((k + 1) * c) n) ∧ p.1 < p.2) ∧
      (∀ (k l : Nat) (p q : Nat × Nat), k < l → chunks[k]? = some p → chunks[l]? = some q → p.2 ≤ q.1) ∧
      (∀ (k : Nat) (p q : Nat × Nat), chunks[k]? = some p → chunks[k + 1]? = some q →
        q.1 = p.2 ∧ p.2 - p.1 = c) ∧
      rangeIndexes chunks = List.range n ∧
      1 ≤ chunks.length ∧ chunks.length ≤ min 10 n ∧
      (∀ p : Nat × Nat, chunks.getLast? = some p → p.2 = n ∧ 1 ≤ p.2 - p.1 ∧ p.2 - p.1 ≤ c) := by
  have hw := workerCount_eq_min n
  have hw1 : 1 ≤ min 10 n := by omega
  obtain ⟨hc1, hc2, hc3⟩ := ceil_bounds n (min 10 n) hw1 hn
  have hsize : chunkSize n = some ((n + min 10 n - 1) / min 10 n) := by
    unfold chunkSize
    rw [hw, if_neg (by omega)]
  have hget : ∀ k p, (chunkLoop n ((n + min 10 n - 1) / min 10 n) (min 10 n) 0)[k]? = some p →
      k * ((n + min 10 n - 1) / min 10 n) < n ∧
      p = (k * ((n + min 10 n - 1) / min 10 n),
        min ((k + 1) * ((n + min 10 n - 1) / min 10 n)) n) := by
    intro k p h
    have h1 := chunkLoop_getElem n _ _ 0 k p h
    rw [Nat.zero_add] at h1
    rw [Nat.add_mul, Nat.one_mul]
    exact h1
  refine ⟨(n + min 10 n - 1) / min 10 n, chunkLoop n ((n + min 10 n - 1) / min 10 n) (min 10 n) 0,
    hw, hsize, ?_, ⟨?_, hc2⟩, ?_, ?_, ?_, ?_, ?_, ?_, ?_⟩
  · unfold chunkRanges
    rw [hsize, hw]
    rfl
  · exact hc1
  · intro k p h
    obtain ⟨h1, h2⟩ := hget k p h
    refine ⟨h2, ?_⟩
    subst h2
    simp only []
    rw [Nat.add_mul, Nat.one_mul]
    omega
  · intro k l p q hkl hp hq
    obtain ⟨_, h2⟩ := hget k p hp
    obtain ⟨_, h4⟩ := hget l q hq
    subst h2 h4
    simp only []
    have : (k + 1) * ((n + min 10 n - 1) / min 10 n) ≤ l * ((n + min 10 n - 1) / min 10 n) :=
      Nat.mul_le_mul_right _ hkl
    omega
  · intro k p q hp hq
    obtain ⟨_, h2⟩ := hget k p hp
    obtain ⟨h3, h4⟩ := hget (k + 1) q hq
    subst h2 h4
    simp only []
    rw [Nat.add_mul, Nat.one_mul] at h3 ⊢
    omega
  · have h := chunkLoop_indexes n _ hc3 (min 10 n) 0 (by omega) (by rw [Nat.zero_add, Nat.mul_comm]; exact hc1)
    rw [Nat.zero_mul, Nat.sub_zero] at h
    rw [h, List.range_eq_range']
  · cases hl : chunkLoop n ((n + min 10 n - 1) / min 10 n) (min 10 n) 0 with
    | nil =>
      have h := chunkLoop_indexes n _ hc3 (min 10 n) 0 (by omega) (by rw [Nat.zero_add, Nat.mul_comm]; exact hc1)
      rw [hl, Nat.zero_mul, Nat.sub_zero] at h
      have h5 := congrArg List.length h
      simp [rangeIndexes] at h5
      omega
    | cons a l => simp
  · exact chunkLoop_length_le n _ _ 0
  · intro p hp
    have hlast := chunkLoop_last n _ (min 10 n) 0 (by rw [Nat.zero_add, Nat.mul_comm]; exact hc1) p hp
    obtain ⟨k, hk⟩ : ∃ k, (chunkLoop n ((n + min 10 n - 1) / min 10 n) (min 10 n) 0)[k]? = some p := by
      rw [List.getLast?_eq_getElem?] at hp
      exact ⟨_, hp⟩
    obtain ⟨h1, h2⟩ := hget k p hk
    refine ⟨hlast, ?_⟩
    subst h2
    simp only [] at hlast ⊢
    rw [Nat.add_mul, Nat.one_mul] at hlast ⊢
    omega

/-- Witness for C20 at length 25: ten workers, chunk size 3, nine ranges. -/
theorem batchTranslateParallel_chunks_witness :
    1 ≤ 25 ∧ ∃ c chunks, workerCount 25 = min 10 25 ∧ chunkSize 25 = some c ∧
      chunkRanges 25 = some chunks ∧
      (25 ≤ c * min 10 25 ∧ (c - 1) * min 10 25 < 25) ∧
      (∀ (k : Nat) (p : Nat × Nat), chunks[k]? = some p → p = (k * c, min ((k + 1) * c) 25) ∧ p.1 < p.2) ∧
      (∀ (k l : Nat) (p q : Nat × Nat), k < l → chunks[k]? = some p → chunks[l]? = some q → p.2 ≤ q.1) ∧
      (∀ (k : Nat) (p q : Nat × Nat), chunks[k]? = some p → chunks[k + 1]? = some q →
        q.1 = p.2 ∧ p.2 - p.1 = c) ∧
      rangeIndexes chunks = List.range 25 ∧
      1 ≤ chunks.length ∧ chunks.length ≤ min 10 25 ∧
      (∀ p : Nat × Nat, chunks.getLast? = some p → p.2 = 25 ∧ 1 ≤ p.2 - p.1 ∧ p.2 - p.1 ≤ c) :=
  ⟨by decide, batchTranslateParallel_chunks 25 (by decide)⟩

/-! ## Traversals from worlds that differ in the trace and the plan cache only -/

theorem envSame_refl (e : Env) : EnvSame e e := ⟨rfl, rfl, rfl, rfl⟩

theorem envSame_symm {e1 e2 : Env} (h : EnvSame e1 e2) : EnvSame e2 e1 :=
  ⟨h.1.symm, h.2.1.symm, h.2.2.1.symm, h.2.2.2.symm⟩

theorem envSame_trans {e1 e2 e3 : Env} (h : EnvSame e1 e2) (h2 : EnvSame e2 e3) : EnvSame e1 e3 :=
  ⟨h.1.trans h2.1, h.2.1.trans h2.2.1, h.2.2.1.trans h2.2.2.1, h.2.2.2.trans h2.2.2.2⟩

theorem worldSim_symm {w1 w2 : World} (h : WorldSim w1 w2) : WorldSim w2 w1 :=
  ⟨h.1.symm, h.2.1.symm, fun rt => (h.2.2.1 rt).symm, envSame_symm h.2.2.2⟩

theorem worldSim_trans {w1 w2 w3 : World} (h : WorldSim w1 w2) (h2 : WorldSim w2 w3) :
    WorldSim w1 w3 :=
  ⟨h.1.trans h2.1, h.2.1.trans h2.2.1, fun rt => (h.2.2.1 rt).trans (h2.2.2.1 rt),
    envSame_trans h.2.2.2 h2.2.2.2⟩

theorem worldSim_refl (w : World) : WorldSim w w := ⟨rfl, rfl, fun _ => rfl, envSame_refl _⟩

theorem Translator_Translate_envSame (t : Translator) (e1 e2 : Env) (value : Value)
    (fieldName tagValue : String) (h : EnvSame e1 e2) :
    (t.Translate e1 value fieldName tagValue).2 = (t.Translate e2 value fieldName tagValue).2 ∧
    EnvSame (t.Translate e1 value fieldName tagValue).1
      (t.Translate e2 value fieldName tagValue).1 := by
  obtain ⟨m1, d1, dt1, dtt1, tr1⟩ := e1
  obtain ⟨m2, d2, dt2, dtt2, tr2⟩ := e2
  obtain ⟨h1, h2, h3, h4⟩ := h
  simp only at h1 h2 h3 h4
  subst h1 h2 h3 h4
  cases t with
  | enum => exact ⟨rfl, rfl, rfl, rfl, rfl⟩
  | custom f => exact ⟨rfl, rfl, rfl, rfl, rfl⟩
  | db a b c =>
    simp only [Translator.Translate, createDBTranslator]
    cases (if d1.enabled = true then List.lookup (a ++ ":" ++ b ++ ":" ++ c ++ ":" ++ fmtV value) d1.cache else none) with
    | some x => exact ⟨rfl, rfl, rfl, rfl, rfl⟩
    | none =>
      simp only []
      cases d1.translator with
      | none => exact ⟨rfl, rfl, rfl, rfl, rfl⟩
      | some q =>
        simp only []
        cases q a b c value with
        | error err => exact ⟨rfl, rfl, rfl, rfl, rfl⟩
        | ok r =>
          simp only []
          split
          · exact ⟨rfl, rfl, rfl, rfl, rfl⟩
          · exact ⟨rfl, rfl, rfl, rfl, rfl⟩
  | dictTable a =>
    simp only [Translator.Translate, createDictTableTranslator]
    cases (if dt1.enabled = true then List.lookup (a ++ ":" ++ fmtV value) dt1.cache else none) with
    | some x => exact ⟨rfl, rfl, rfl, rfl, rfl⟩
    | none =>
      simp only []
      cases dt1.translator with
      | none => exact ⟨rfl, rfl, rfl, rfl, rfl⟩
      | some q =>
        simp only []
        cases q a (fmtV value) with
        | error err => exact ⟨rfl, rfl, rfl, rfl, rfl⟩
        | ok r =>
          simp only []
          split
          · exact ⟨rfl, rfl, rfl, rfl, rfl⟩
          · exact ⟨rfl, rfl, rfl, rfl, rfl⟩
  | dictTableTwo a =>
    simp only [Translator.Translate, createDictTableTwoTranslator]
    cases (if dtt1.enabled = true then List.lookup (a ++ ":" ++ fmtV value) dtt1.cache else none) with
    | some x => exact ⟨rfl, rfl, rfl, rfl, rfl⟩
    | none =>
      simp only []
      cases dtt1.translator with
      | none => exact ⟨rfl, rfl, rfl, rfl, rfl⟩
      | some q =>
        simp only []
        cases q a (fmtV value) with
        | error err => exact ⟨rfl, rfl, rfl, rfl, rfl⟩
        | ok r =>
          simp only []
          split
          · exact ⟨rfl, rfl, rfl, rfl, rfl⟩
          · exact ⟨rfl, rfl, rfl, rfl, rfl⟩

theorem simOut_same {α : Type} (w1 w2 : World) (a : α) (e : Option Error) (h : WorldSim w1 w2) :
    SimOut w1 (w1, a, e) (w2, a, e) := ⟨rfl, h, rfl, rfl, fun _ => rfl⟩

theorem translateField_dicts (dm1 dm2 : DictManager) (h : dm1.dicts = dm2.dicts) (field : Value)
    (ft : StructField) (tag : String) (rt : StructType) (cur : List Value) :
    translateField dm1 field ft tag rt cur = translateField dm2 field ft tag rt cur := by
  unfold translateField
  rw [h]

theorem translateTagged_sim (w1 w2 : World) (cfg : structConfig) (i : Nat) (ft : StructField)
    (rt : StructType) (cur : List Value) (h : WorldSim w1 w2) :
    SimOut w1 (translateTagged w1 cfg i ft rt cur) (translateTagged w2 cfg i ft rt cur) := by
  unfold translateTagged
  cases fieldConfigMap cfg i with
  | none => exact simOut_same _ _ _ _ h
  | some fc =>
    simp only []
    unfold translateEntry
    cases fc.translator with
    | none =>
      simp only []
      split
      · rw [translateField_dicts w1.dm w2.dm h.1]
        exact simOut_same _ _ _ _ h
      · exact simOut_same _ _ _ _ h
    | some t =>
      simp only []
      unfold translateFieldWithTranslator
      dsimp only
      have hT := Translator_Translate_envSame t w1.env w2.env (cur.getD i Value.nilPtr) ft.name
        fc.translatorTag h.2.2.2
      rcases hr1 : t.Translate w1.env (cur.getD i Value.nilPtr) ft.name fc.translatorTag with ⟨ea, ra⟩
      rcases hr2 : t.Translate w2.env (cur.getD i Value.nilPtr) ft.name fc.translatorTag with ⟨eb, rb⟩
      rw [hr1, hr2] at hT
      obtain ⟨hT1, hT2⟩ := hT
      simp only at hT1 hT2
      subst hT1
      have hW : WorldSim ⟨w1.dm, ea⟩ ⟨w2.dm, eb⟩ := ⟨h.1, h.2.1, h.2.2.1, hT2⟩
      cases ra with
      | error err => exact ⟨rfl, hW, rfl, rfl, fun _ => rfl⟩
      | ok label =>
        simp only []
        split
        · exact ⟨rfl, hW, rfl, rfl, fun _ => rfl⟩
        · split
          · exact ⟨rfl, hW, rfl, rfl, fun _ => rfl⟩
          · exact ⟨rfl, hW, rfl, rfl, fun _ => rfl⟩

/-- The plan of a type is the same before and after the plan of any type has
been fetched or built. -/
theorem getOrCreateConfig_plan_stable (dm : DictManager) (rt rt2 : StructType) :
    (getOrCreateConfig (getOrCreateConfig dm rt).1 rt2).2 = (getOrCreateConfig dm rt2).2 := by
  unfold getOrCreateConfig
  cases h : dm.configCache.lookup rt with
  | some cfg => rfl
  | none =>
    simp only [List.lookup]
    cases hb : rt2 == rt with
    | true =>
      have e : rt2 = rt := by simpa using hb
      subst e
      simp only [h]
    | false =>
      simp only []
      cases dm.configCache.lookup rt2 <;> rfl

theorem getOrCreateConfig_sim (w1 w2 : World) (rt : StructType) (h : WorldSim w1 w2) :
    (getOrCreateConfig w1.dm rt).2 = (getOrCreateConfig w2.dm rt).2 ∧
    WorldSim ⟨(getOrCreateConfig w1.dm rt).1, w1.env⟩ ⟨(getOrCreateConfig w2.dm rt).1, w2.env⟩ := by
  refine ⟨h.2.2.1 rt, ?_, ?_, ?_, h.2.2.2⟩
  · simp only [getOrCreateConfig_dicts]
    exact h.1
  · simp only [getOrCreateConfig_translators]
    exact h.2.1
  · intro rt2
    simp only [getOrCreateConfig_plan_stable]
    exact h.2.2.1 rt2

theorem simOut_rebase {α : Type} {w0 w1 : World} {r1 r2 : World × α × Option Error}
    (h : SimOut w0 r1 r2) (hd : w0.dm.dicts = w1.dm.dicts)
    (ht : w0.dm.translators = w1.dm.translators)
    (hp : ∀ rt, (getOrCreateConfig w0.dm rt).2 = (getOrCreateConfig w1.dm rt).2) :
    SimOut w1 r1 r2 :=
  ⟨h.1, h.2.1, h.2.2.1.trans hd, h.2.2.2.1.trans ht, fun rt => (h.2.2.2.2 rt).trans (hp rt)⟩

theorem simOut_map {α β : Type} (f : α → β) {w0 : World} {r1 r2 : World × α × Option Error}
    (h : SimOut w0 r1 r2) : SimOut w0 (r1.1, f r1.2.1, r1.2.2) (r2.1, f r2.2.1, r2.2.2) := by
  refine ⟨?_, h.2.1, h.2.2.1, h.2.2.2.1, h.2.2.2.2⟩
  show (f r1.2.1, r1.2.2) = (f r2.2.1, r2.2.2)
  rw [h.1]

theorem sim_leaf (v : Value) (h1 : v.isLeaf = true) (h2 : v.isStruct = false)
    (h3 : ∀ x, v = Value.ptr x → x.isStruct = false) :
    (∀ w1 w2, WorldSim w1 w2 → SimOut w1 (translateStruct w1 v) (translateStruct w2 v)) ∧
    (∀ w1 w2 cur i, WorldSim w1 w2 → SimOut w1 (nestedStep w1 cur i v) (nestedStep w2 cur i v)) ∧
    (∀ w1 w2, WorldSim w1 w2 → SimOut w1 (elemStep w1 v) (elemStep w2 v)) := by
  refine ⟨?_, ?_, ?_⟩
  · intro w1 w2 h
    rw [translateStruct_not_struct w1 v h2, translateStruct_not_struct w2 v h2]
    exact simOut_same _ _ _ _ h
  · intro w1 w2 cur i h
    rw [nestedStep_leaf w1 cur i v h1, nestedStep_leaf w2 cur i v h1]
    exact simOut_same _ _ _ _ h
  · intro w1 w2 h
    rw [elemStep_skip w1 v h2 h3, elemStep_skip w2 v h2 h3]
    exact simOut_same _ _ _ _ h

/-- A traversal started in two similar worlds yields the same values and the
same error, and ends in similar worlds. -/
theorem traversal_sim :
    (∀ v : Value,
      (∀ w1 w2, WorldSim w1 w2 → SimOut w1 (translateStruct w1 v) (translateStruct w2 v)) ∧
      (∀ w1 w2 cur i, WorldSim w1 w2 →
        SimOut w1 (nestedStep w1 cur i v) (nestedStep w2 cur i v)) ∧
      (∀ w1 w2, WorldSim w1 w2 → SimOut w1 (elemStep w1 v) (elemStep w2 v))) ∧
    (∀ l : List Value,
      (∀ rt cfg i w1 w2 cur, WorldSim w1 w2 →
        SimOut w1 (translateFields rt cfg i l w1 cur) (translateFields rt cfg i l w2 cur)) ∧
      (∀ w1 w2, WorldSim w1 w2 → SimOut w1 (translateSlice l w1) (translateSlice l w2))) := by
  apply Value.induction
  · intro s
    exact sim_leaf (Value.str s) rfl rfl (fun x h => by cases h)
  · intro s
    exact sim_leaf (Value.int s) rfl rfl (fun x h => by cases h)
  · intro s
    exact sim_leaf (Value.uint s) rfl rfl (fun x h => by cases h)
  · intro t r
    exact sim_leaf (Value.other t r) rfl rfl (fun x h => by cases h)
  · intro rt fs ih
    have hs : ∀ w1 w2, WorldSim w1 w2 →
        SimOut w1 (translateStruct w1 (Value.struct rt fs)) (translateStruct w2 (Value.struct rt fs)) := by
      intro w1 w2 h
      rw [translateStruct_struct, translateStruct_struct]
      obtain ⟨hc, hw⟩ := getOrCreateConfig_sim w1 w2 rt h
      rw [← hc]
      have h1 := ih.1 rt (getOrCreateConfig w1.dm rt).2 0 _ _ fs hw
      exact simOut_rebase (simOut_map (Value.struct rt) h1) (getOrCreateConfig_dicts _ _)
        (getOrCreateConfig_translators _ _) (getOrCreateConfig_plan_stable _ _)
    refine ⟨hs, ?_, ?_⟩
    · intro w1 w2 cur i h
      rw [nestedStep_struct _ _ _ (Value.struct rt fs) rfl,
        nestedStep_struct _ _ _ (Value.struct rt fs) rfl]
      exact simOut_map (fun x => cur.set i x) (hs w1 w2 h)
    · intro w1 w2 h
      rw [elemStep_struct _ (Value.struct rt fs) rfl, elemStep_struct _ (Value.struct rt fs) rfl]
      exact hs w1 w2 h
  · exact sim_leaf Value.nilPtr rfl rfl (fun x h => by cases h)
  · intro e ih
    refine ⟨fun w1 w2 h => by
      rw [translateStruct_not_struct w1 (Value.ptr e) rfl,
        translateStruct_not_struct w2 (Value.ptr e) rfl]
      exact simOut_same _ _ _ _ h, ?_, ?_⟩
    · intro w1 w2 cur i h
      rw [nestedStep_ptr, nestedStep_ptr]
      cases he : e.isStruct with
      | true => exact simOut_map (fun x => cur.set i (Value.ptr x)) (ih.1 w1 w2 h)
      | false => exact simOut_same _ _ _ _ h
    · intro w1 w2 h
      rw [elemStep_ptr, elemStep_ptr]
      cases he : e.isStruct with
      | true => exact simOut_map Value.ptr (ih.1 w1 w2 h)
      | false => exact simOut_same _ _ _ _ h
  · intro es ih
    refine ⟨fun w1 w2 h => by
      rw [translateStruct_not_struct w1 (Value.slice es) rfl,
        translateStruct_not_struct w2 (Value.slice es) rfl]
      exact simOut_same _ _ _ _ h, ?_, ?_⟩
    · intro w1 w2 cur i h
      rw [nestedStep_slice, nestedStep_slice]
      exact simOut_map (fun x => cur.set i (Value.slice x)) (ih.2 w1 w2 h)
    · intro w1 w2 h
      rw [elemStep_skip w1 (Value.slice es) rfl (fun x h => by cases h),
        elemStep_skip w2 (Value.slice es) rfl (fun x h => by cases h)]
      exact simOut_same _ _ _ _ h
  · exact ⟨fun rt cfg i w1 w2 cur h => by
      rw [translateFields_nil, translateFields_nil]
      exact simOut_same _ _ _ _ h,
      fun w1 w2 h => by
        rw [translateSlice_nil, translateSlice_nil]
        exact simOut_same _ _ _ _ h⟩
  · intro v vs ihv ihl
    constructor
    · intro rt cfg i w1 w2 cur h
      rw [translateFields_cons, translateFields_cons]
      cases hft : rt.fields[i]? with
      | none => exact simOut_same _ _ _ _ h
      | some ft =>
        simp only []
        cases hx : ft.exported with
        | false =>
          simp only [Bool.not_false, if_true]
          exact ihl.1 rt cfg (i + 1) w1 w2 cur h
        | true =>
          simp only [Bool.not_true, Bool.false_eq_true, if_false]
          have h1 := ihv.2.1 w1 w2 cur i h
          rcases hn1 : nestedStep w1 cur i v with ⟨wa, ca, ea⟩
          rcases hn2 : nestedStep w2 cur i v with ⟨wb, cb, eb⟩
          rw [hn1, hn2] at h1
          obtain ⟨h11, h12, h13, h14, h15⟩ := h1
          simp only [Prod.mk.injEq] at h11 h13 h14 h15
          obtain ⟨rfl, rfl⟩ := h11
          cases ea with
          | some err => exact ⟨rfl, h12, h13, h14, h15⟩
          | none =>
            simp only []
            have h2 := translateTagged_sim wa wb cfg i ft rt ca h12
            rcases ht1 : translateTagged wa cfg i ft rt ca with ⟨wc, cc, ec⟩
            rcases ht2 : translateTagged wb cfg i ft rt ca with ⟨wd, cd, ed⟩
            rw [ht1, ht2] at h2
            obtain ⟨h21, h22, h23, h24, h25⟩ := h2
            simp only [Prod.mk.injEq] at h21 h23 h24 h25
            obtain ⟨rfl, rfl⟩ := h21
            cases ec with
            | some err =>
              exact ⟨rfl, h22, h23.trans h13, h24.trans h14, fun x => (h25 x).trans (h15 x)⟩
            | none =>
              simp only []
              exact simOut_rebase (ihl.1 rt cfg (i + 1) wc wd cc h22) (h23.trans h13) (h24.trans h14)
                (fun x => (h25 x).trans (h15 x))
    · intro w1 w2 h
      rw [translateSlice_cons, translateSlice_cons]
      have h1 := ihv.2.2 w1 w2 h
      rcases hn1 : elemStep w1 v with ⟨wa, ca, ea⟩
      rcases hn2 : elemStep w2 v with ⟨wb, cb, eb⟩
      rw [hn1, hn2] at h1
      obtain ⟨h11, h12, h13, h14, h15⟩ := h1
      simp only [Prod.mk.injEq] at h11 h13 h14 h15
      obtain ⟨rfl, rfl⟩ := h11
      cases ea with
      | some err => exact ⟨rfl, h12, h13, h14, h15⟩
      | none =>
        simp only []
        exact simOut_rebase (simOut_map (fun x => ca :: x) (ihl.2 wa wb h12)) h13 h14 h15

/-! ## Parallel and sequential batches -/

theorem quiet_step (w w2 : World) (e : Value) (h : WorldSim w w2) (hq : Quiet w e) :
    (elemStep w2 e).2.1 = (elemStep w e).2.1 ∧ (elemStep w2 e).2.2 = none ∧
      WorldSim w (elemStep w2 e).1 := by
  have h1 := (traversal_sim.1 e).2.2 w w2 h
  have h2 := (traversal_sim.1 e).2.2 w w (worldSim_refl w)
  have hw : WorldSim w (elemStep w e).1 :=
    ⟨h2.2.2.1.symm, h2.2.2.2.1.symm, fun rt => (h2.2.2.2.2 rt).symm, hq.2⟩
  have h3 := h1.1
  refine ⟨?_, ?_, worldSim_trans hw h1.2.1⟩
  · rw [← h3]
  · rw [← h3]; exact hq.1

theorem translateSlice_quiet (w : World) :
    ∀ (es : List Value) (w2 : World), WorldSim w w2 → (∀ e ∈ es, Quiet w e) →
      (translateSlice es w2).2 = (es.map (fun e => (elemStep w e).2.1), none) ∧
      WorldSim w (translateSlice es w2).1 := by
  intro es
  induction es with
  | nil =>
    intro w2 h _
    rw [translateSlice_nil]
    exact ⟨rfl, h⟩
  | cons e rest ih =>
    intro w2 h hq
    obtain ⟨q1, q2, q3⟩ := quiet_step w w2 e h (hq e (List.mem_cons_self _ _))
    have ih2 := ih (elemStep w2 e).1 q3 (fun x hx => hq x (List.mem_cons_of_mem _ hx))
    rw [translateSlice_cons, q2]
    simp only []
    refine ⟨?_, ih2.2⟩
    rw [ih2.1, q1]
    rfl

theorem modify_of_lookup {α : Type} (f : α → α) (L : List α) (id : Nat) (a : α)
    (h : L[id]? = some a) : List.modify f id L = L.set id (f a) := by
  rw [List.modify_eq_set_get?, List.get?_eq_getElem?, h]
  rfl

theorem modify_of_none {α : Type} (f : α → α) (L : List α) (id : Nat)
    (h : L[id]? = none) : List.modify f id L = L := by
  rw [List.modify_eq_set_get?, List.get?_eq_getElem?, h]
  rfl

theorem set_of_lookup {α : Type} (L : List α) (id : Nat) (a : α)
    (h : L[id]? = some a) : L.set id a = L := by
  apply List.ext_getElem?
  intro m
  rw [List.getElem?_set]
  split
  · rename_i hm
    subst hm
    split
    · exact h.symm
    · rename_i hlt
      rw [List.getElem?_eq_none (by omega)]
  · rfl

theorem range_apart (c k id a b : Nat) (hk1 : k * c ≤ a) (hk2 : a < k * c + c)
    (hi1 : id * c ≤ b) (hi2 : b < id * c + c) (hne : k ≠ id) : a ≠ b := by
  intro hab
  subst hab
  rcases Nat.lt_or_gt_of_ne hne with h | h
  · have := Nat.mul_le_mul_right c (show k + 1 ≤ id from h)
    rw [Nat.add_mul, Nat.one_mul] at this
    omega
  · have := Nat.mul_le_mul_right c (show id + 1 ≤ k from h)
    rw [Nat.add_mul, Nat.one_mul] at this
    omega

theorem stepWorker_inv (w : World) (es : List Value) (c : Nat) (hq : ∀ e ∈ es, Quiet w e)
    (s : ParState) (id : Nat) (h : ParInv w es c s) :
    ParInv w es c (stepWorker s id) ∧
      (stepWorker s id).workers = List.modify Worker.advance id s.workers := by
  obtain ⟨ha, hb, hc, hd, hf⟩ := h
  unfold stepWorker
  cases hwk : s.workers[id]? with
  | none => exact ⟨⟨ha, hb, hc, hd, hf⟩, (modify_of_none _ _ _ hwk).symm⟩
  | some wk =>
    simp only []
    obtain ⟨d1, d2, d3, d4, d5⟩ := hd id wk hwk
    rw [modify_of_lookup _ _ _ _ hwk]
    by_cases hact : wk.j < wk.stop
    · have hcond : (wk.returned || decide (wk.j ≥ wk.stop)) = false := by
        rw [d1]; simp; exact hact
      have hadv : wk.advance = { wk with j := wk.j + 1 } := by
        unfold Worker.advance
        rw [hcond]; rfl
      rw [hcond, hadv]
      simp only [Bool.false_eq_true, if_false]
      have hlt : wk.j < es.length := by omega
      have hes : es[wk.j]? = some (es[wk.j]) := List.getElem?_eq_getElem hlt
      have hel := hf wk.j _ id wk hes hwk d2 hact
      rw [if_neg (Nat.lt_irrefl _)] at hel
      rw [hel]
      simp only []
      obtain ⟨q1, q2, q3⟩ := quiet_step w s.w _ ha (hq _ (List.getElem_mem hlt))
      rw [q2]
      simp only []
      refine ⟨⟨q3, hb, ?_, ?_, ?_⟩, trivial⟩
      · rw [List.length_set]; exact hc
      · intro k wk2 hk
        rw [List.getElem?_set] at hk
        split at hk
        · rename_i hik
          subst hik
          split at hk
          · simp only [Option.some.injEq] at hk
            subst hk
            exact ⟨d1, by simp only []; omega, by simp only []; omega, d4, d5⟩
          · cases hk
        · exact hd k wk2 hk
      · intro idx e k wk2 he hk h1 h2
        rw [List.getElem?_set] at hk
        split at hk
        · rename_i hik
          subst hik
          split at hk
          · simp only [Option.some.injEq] at hk
            subst hk
            simp only [] at h2 ⊢
            rw [List.getElem?_set]
            split
            · rename_i hji
              subst hji
              rw [hes] at he
              simp only [Option.some.injEq] at he
              subst he
              rw [if_pos (by omega), if_pos (Nat.lt_succ_self _), q1]
            · rename_i hji
              rw [hf idx e id wk he hwk h1 h2]
              by_cases hlt2 : idx < wk.j
              · rw [if_pos hlt2, if_pos (by omega)]
              · rw [if_neg hlt2, if_neg (by omega)]
          · cases hk
        · rename_i hik
          obtain ⟨e1, e2, e3, e4, e5⟩ := hd k wk2 hk
          have hne := range_apart c k id idx wk.j h1 (by omega) d2 (by omega) (Ne.symm hik)
          rw [List.getElem?_set, if_neg (Ne.symm hne)]
          exact hf idx e k wk2 he hk h1 h2
    · have hcond : (wk.returned || decide (wk.j ≥ wk.stop)) = true := by
        rw [d1]; simp; omega
      have hadv : wk.advance = wk := by
        unfold Worker.advance
        rw [hcond]; rfl
      rw [hcond, hadv, set_of_lookup _ _ _ hwk]
      exact ⟨⟨ha, hb, hc, hd, hf⟩, rfl⟩

theorem runSchedule_inv (w : World) (es : List Value) (c : Nat) (hq : ∀ e ∈ es, Quiet w e) :
    ∀ (sched : List Nat) (s : ParState), ParInv w es c s →
      ParInv w es c (runSchedule s sched) ∧
      (runSchedule s sched).workers =
        sched.foldl (fun L id => List.modify Worker.advance id L) s.workers := by
  intro sched
  induction sched with
  | nil => intro s h; exact ⟨h, rfl⟩
  | cons id rest ih =>
    intro s h
    obtain ⟨h1, h2⟩ := stepWorker_inv w es c hq s id h
    obtain ⟨h3, h4⟩ := ih (stepWorker s id) h1
    refine ⟨h3, ?_⟩
    show (runSchedule (stepWorker s id) rest).workers = _
    rw [h4, h2]
    rfl

theorem modify_append_cons {α : Type} (f : α → α) (b : α) (B : List α) :
    ∀ A : List α, List.modify f A.length (A ++ b :: B) = A ++ f b :: B := by
  intro A
  induction A with
  | nil => rfl
  | cons a A ih =>
    simp only [List.length_cons, List.cons_append, List.modify_succ_cons, ih]

theorem foldl_modify_range' {α : Type} (f : α → α) :
    ∀ B A : List α,
      (List.range' A.length B.length).foldl (fun L id => List.modify f id L) (A ++ B)
        = A ++ B.map f := by
  intro B
  induction B with
  | nil => intro A; simp
  | cons b B ih =>
    intro A
    rw [List.length_cons, List.range'_succ, List.foldl_cons, modify_append_cons]
    have e1 : A ++ f b :: B = (A ++ [f b]) ++ B := by simp
    have e2 : A.length + 1 = (A ++ [f b]).length := by simp
    rw [e1, e2, ih (A ++ [f b])]
    simp

theorem foldl_modify_range {α : Type} (f : α → α) (L : List α) :
    (List.range L.length).foldl (fun L id => List.modify f id L) L = L.map f := by
  have h := foldl_modify_range' f L []
  simpa [List.range_eq_range'] using h

theorem foldl_advance_stop :
    ∀ (sched : List Nat) (L : List Worker),
      (sched.foldl (fun L id => List.modify Worker.advance id L) L).map (fun wk => wk.stop)
        = L.map (fun wk => wk.stop) := by
  intro sched
  induction sched with
  | nil => intro L; rfl
  | cons id rest ih =>
    intro L
    rw [List.foldl_cons, ih]
    apply List.ext_getElem?
    intro m
    rw [List.getElem?_map, List.getElem?_map, List.getElem?_modify]
    cases L[m]? with
    | none => rfl
    | some wk =>
      simp only [Option.map_eq_map, Option.map_some']
      split
      · unfold Worker.advance
        split <;> rfl
      · rfl

theorem completion_done :
    ∀ (n : Nat) (L : List Worker), (∀ wk ∈ L, wk.returned = false ∧ wk.stop ≤ wk.j + n) →
      ∀ wk ∈ (completion n L.length).foldl (fun L id => List.modify Worker.advance id L) L,
        wk.stop ≤ wk.j := by
  intro n
  induction n with
  | zero =>
    intro L h wk hwk
    simp only [completion, List.replicate_zero, List.flatten_nil, List.foldl_nil] at hwk
    exact (h wk hwk).2
  | succ n ih =>
    intro L h wk hwk
    have e : completion (n + 1) L.length = List.range L.length ++ completion n L.length := by
      simp [completion, List.replicate_succ]
    rw [e, List.foldl_append, foldl_modify_range] at hwk
    have hlen : L.length = (L.map Worker.advance).length := by simp
    rw [hlen] at hwk
    refine ih (L.map Worker.advance) ?_ wk hwk
    intro wk2 h2
    rw [List.mem_map] at h2
    obtain ⟨wk0, h0, rfl⟩ := h2
    obtain ⟨r0, s0⟩ := h wk0 h0
    unfold Worker.advance
    split
    · rename_i hc
      rw [r0] at hc
      simp at hc
      exact ⟨r0, by omega⟩
    · exact ⟨r0, by simp only []; omega⟩

theorem chunkRanges_eq (n : Nat) (hn : 1 ≤ n) :
    chunkRanges n =
      some (chunkLoop n ((n + min 10 n - 1) / min 10 n) (min 10 n) 0) := by
  unfold chunkRanges chunkSize
  rw [workerCount_eq_min, if_neg (by omega)]
  rfl

theorem chunkRanges_cover (n idx : Nat) (hn : 1 ≤ n) (hidx : idx < n) :
    ∃ (k : Nat) (p : Nat × Nat),
      (chunkLoop n ((n + min 10 n - 1) / min 10 n) (min 10 n) 0)[k]? = some p ∧
      p.1 ≤ idx ∧ idx < p.2 := by
  obtain ⟨hc1, _, hc3⟩ := ceil_bounds n (min 10 n) (by omega) hn
  have h := chunkLoop_indexes n _ hc3 (min 10 n) 0 (by omega)
    (by rw [Nat.zero_add, Nat.mul_comm]; exact hc1)
  rw [Nat.zero_mul, Nat.sub_zero, ← List.range_eq_range'] at h
  have hm : idx ∈ rangeIndexes (chunkLoop n ((n + min 10 n - 1) / min 10 n) (min 10 n) 0) := by
    rw [h]; exact List.mem_range.mpr hidx
  unfold rangeIndexes at hm
  rw [List.mem_flatten] at hm
  obtain ⟨l, hl, hil⟩ := hm
  rw [List.mem_map] at hl
  obtain ⟨p, hp, rfl⟩ := hl
  rw [List.mem_range'_1] at hil
  obtain ⟨k, hk⟩ := List.getElem?_of_mem hp
  exact ⟨k, p, hk, hil.1, by omega⟩

/-- The parallel path on quiet elements: whatever the schedule and the choice
of the collecting loop, every element ends as the translation of the element
on its own, and no error is returned. -/
theorem batchTranslateParallel_quiet (w : World) (es : List Value)
    (hne : 1 ≤ es.length) (hq : ∀ e ∈ es, Quiet w e) (sched : List Nat) (pickDone : Bool) :
    ∃ wp, batchTranslateParallel sched pickDone w es
        = some (wp, es.map (fun e => (elemStep w e).2.1), none) ∧ WorldSim w wp := by
  have hform : ∀ k p, (chunkLoop es.length ((es.length + min 10 es.length - 1) / min 10 es.length)
      (min 10 es.length) 0)[k]? = some p →
      k * ((es.length + min 10 es.length - 1) / min 10 es.length) < es.length ∧
      p = (k * ((es.length + min 10 es.length - 1) / min 10 es.length),
        min (k * ((es.length + min 10 es.length - 1) / min 10 es.length)
          + (es.length + min 10 es.length - 1) / min 10 es.length) es.length) := by
    intro k p h
    have h1 := chunkLoop_getElem es.length _ _ 0 k p h
    rw [Nat.zero_add] at h1
    exact h1
  generalize hcdef : (es.length + min 10 es.length - 1) / min 10 es.length = c at hform
  generalize hchunks : chunkLoop es.length c (min 10 es.length) 0 = chunks at hform
  have hinit : ParInv w es c ⟨w, es, chunks.map (fun p => ⟨p.1, p.2, false⟩), []⟩ := by
    refine ⟨worldSim_refl w, rfl, rfl, ?_, ?_⟩
    · intro k wk hk
      simp only [List.getElem?_map, Option.map_eq_some'] at hk
      obtain ⟨p, hp, rfl⟩ := hk
      obtain ⟨h1, h2⟩ := hform k p hp
      subst h2
      simp only []
      refine ⟨trivial, Nat.le_refl _, ?_, ?_, ?_⟩ <;> omega
    · intro idx e k wk he hk h1 h2
      simp only [List.getElem?_map, Option.map_eq_some'] at hk
      obtain ⟨p, hp, rfl⟩ := hk
      obtain ⟨_, h4⟩ := hform k p hp
      subst h4
      simp only [] at h2 ⊢
      rw [if_neg (by omega)]
      exact he
  obtain ⟨hI1, hW1⟩ := runSchedule_inv w es c hq sched _ hinit
  obtain ⟨hI2, hW2⟩ := runSchedule_inv w es c hq (completion es.length chunks.length) _ hI1
  have hrun : runSchedule ⟨w, es, chunks.map (fun p => ⟨p.1, p.2, false⟩), []⟩
      (sched ++ completion es.length chunks.length)
      = runSchedule (runSchedule ⟨w, es, chunks.map (fun p => ⟨p.1, p.2, false⟩), []⟩ sched)
          (completion es.length chunks.length) := by
    unfold runSchedule
    rw [List.foldl_append]
  generalize hs1 : runSchedule ⟨w, es, chunks.map (fun p => ⟨p.1, p.2, false⟩), []⟩ sched = s1
    at hI1 hW1 hI2 hW2 hrun
  generalize hs2 : runSchedule s1 (completion es.length chunks.length) = s2 at hI2 hW2 hrun
  have hstop1 : s1.workers.map (fun wk => wk.stop) = chunks.map (fun p => p.2) := by
    rw [hW1, foldl_advance_stop, List.map_map]
    rfl
  have hlen1 : s1.workers.length = chunks.length := by
    have := congrArg List.length hstop1
    simpa using this
  have hstop2 : s2.workers.map (fun wk => wk.stop) = chunks.map (fun p => p.2) := by
    rw [hW2, foldl_advance_stop, hstop1]
  have hdone : ∀ wk ∈ s2.workers, wk.stop ≤ wk.j := by
    rw [hW2, ← hlen1]
    apply completion_done
    intro wk hwk
    obtain ⟨k, hk⟩ := List.getElem?_of_mem hwk
    obtain ⟨d1, _, _, _, d5⟩ := hI1.2.2.2.1 k wk hk
    exact ⟨d1, by omega⟩
  have helems : s2.elems = es.map (fun e => (elemStep w e).2.1) := by
    apply List.ext_getElem?
    intro idx
    rw [List.getElem?_map]
    cases he : es[idx]? with
    | none =>
      rw [List.getElem?_eq_none_iff] at he
      rw [List.getElem?_eq_none (by rw [hI2.2.2.1]; exact he)]
      rfl
    | some e =>
      have hidx : idx < es.length := by
        rcases Nat.lt_or_ge idx es.length with h | h
        · exact h
        · rw [List.getElem?_eq_none h] at he
          cases he
      obtain ⟨k, p, hp, hp1, hp2⟩ := chunkRanges_cover es.length idx hne hidx
      rw [hcdef, hchunks] at hp
      obtain ⟨_, hpf⟩ := hform k p hp
      have hk2 := congrArg (fun l => l[k]?) hstop2
      simp only [List.getElem?_map, hp, Option.map_some'] at hk2
      rw [Option.map_eq_some'] at hk2
      obtain ⟨wk, hwk, hwks⟩ := hk2
      have hj := hdone wk (List.mem_iff_getElem?.mpr ⟨k, hwk⟩)
      have := hI2.2.2.2.2 idx e k wk he hwk (by rw [hpf] at hp1; exact hp1) (by omega)
      rw [this, if_pos (by omega)]
      rfl
  refine ⟨s2.w, ?_, hI2.1⟩
  unfold batchTranslateParallel
  rw [chunkRanges_eq _ hne, hcdef, hchunks]
  simp only []
  rw [hrun, helems, hI2.2.1]

/-- C19: for a sequence of any length whose elements, each translated on its
own from the starting world, raise no error and leave the package state as it
was (the translators are stateless; the record of invocations and the plan
cache may grow), `BatchTranslate` with and without `parallel` both succeed and
leave the same sequence, index by index: every element is replaced by its own
translation.  This holds for every interleaving of the workers and every
choice of the collecting loop; the two final worlds differ at most in the
record of invocations and in which plans are cached. -/
theorem BatchTranslate_parallel_eq_sequential (w : World) (es : List Value)
    (hq : ∀ e ∈ es, Quiet w e) (sched sched2 : List Nat) (pickDone pickDone2 : Bool) :
    ∃ wp ws,
      BatchTranslate sched pickDone w (Value.ptr (Value.slice es)) true
        = some (wp, Value.ptr (Value.slice (es.map (fun e => (elemStep w e).2.1))), none) ∧
      BatchTranslate sched2 pickDone2 w (Value.ptr (Value.slice es)) false
        = some (ws, Value.ptr (Value.slice (es.map (fun e => (elemStep w e).2.1))), none) ∧
      WorldSim wp ws := by
  obtain ⟨hs1, hs2⟩ := translateSlice_quiet w es w (worldSim_refl w) hq
  have hseq : (translateSlice es w).1 = (translateSlice es w).1 ∧
      (translateSlice es w).2.1 = es.map (fun e => (elemStep w e).2.1) ∧
      (translateSlice es w).2.2 = none :=
    ⟨rfl, congrArg Prod.fst hs1, congrArg Prod.snd hs1⟩
  unfold BatchTranslate
  simp only []
  by_cases h0 : es.length = 0
  · have he : es = [] := List.length_eq_zero.mp h0
    subst he
    exact ⟨w, w, rfl, rfl, worldSim_refl w⟩
  · rw [if_neg h0]
    simp only [Bool.not_true, Bool.not_false, Bool.false_or, Bool.true_or, if_true]
    by_cases h10 : es.length < 10
    · simp only [h10, decide_True, if_true]
      refine ⟨(translateSlice es w).1, (translateSlice es w).1, ?_, ?_, worldSim_refl _⟩
      · rw [hseq.2.1, hseq.2.2]
      · rw [hseq.2.1, hseq.2.2, if_neg h0]
    · simp only [h10, decide_False, Bool.false_eq_true, if_false]
      obtain ⟨wp, hp, hwp⟩ := batchTranslateParallel_quiet w es (by omega) hq sched pickDone
      refine ⟨wp, (translateSlice es w).1, ?_, ?_, worldSim_trans (worldSim_symm hwp) hs2⟩
      · rw [hp]; rfl
      · rw [hseq.2.1, hseq.2.2, if_neg h0]

/-- Witness for C19: twelve records in six chunks of two under a schedule
that interleaves the workers, against the sequential run. -/
theorem BatchTranslate_parallel_eq_sequential_witness :
    (∀ e ∈ batchItems, Quiet batchWorld e) ∧
    ∃ wp ws,
      BatchTranslate [5, 0, 3, 3, 1, 0, 4, 2] true batchWorld (Value.ptr (Value.slice batchItems)) true
        = some (wp,
            Value.ptr (Value.slice (batchItems.map (fun e => (elemStep batchWorld e).2.1))), none) ∧
      BatchTranslate [] false batchWorld (Value.ptr (Value.slice batchItems)) false
        = some (ws,
            Value.ptr (Value.slice (batchItems.map (fun e => (elemStep batchWorld e).2.1))), none) ∧
      WorldSim wp ws :=
  (fun hq => ⟨hq, BatchTranslate_parallel_eq_sequential batchWorld batchItems hq
      [5, 0, 3, 3, 1, 0, 4, 2] [] true false⟩)
    (by
      intro e he
      simp only [batchItems, List.map_cons, List.map_nil, List.mem_cons, List.mem_singleton,
        List.mem_nil_iff, or_false] at he
      rcases he with h | h | h | h | h | h | h | h | h | h | h | h <;> subst h <;>
        exact ⟨rfl, rfl, rfl, rfl, rfl⟩)

/-! ## The entry checks and the error collection of `BatchTranslate` -/

/-- When the `select` of the collecting loop picks the `done` signal, the
parallel path returns nil whatever the workers sent to the error channel. -/
theorem batchTranslateParallel_pickDone (sched : List Nat) (w : World) (es : List Value) :
    (batchTranslateParallel sched true w es).map (fun r => r.2.2)
      = (chunkRanges es.length).map (fun _ => none) := by
  unfold batchTranslateParallel
  cases chunkRanges es.length with
  | none => rfl
  | some chunks =>
    simp only [Option.map_some', Option.some.injEq]
    split <;> rfl

/-- C21 fails in the code: for twelve records of which the fourth cannot be
translated, the worker of the second chunk sends its error to the error
channel, and the call returns that error when the collecting loop receives from
the channel, but returns nil when all workers have finished before the loop
runs its `select` and the `select` picks the `done` signal; the sequential run
returns the error.  With `done` picked the parallel path returns nil for every
input and schedule. -/
theorem BatchTranslate_error_lost :
    (BatchTranslate [] false failWorld (Value.ptr (Value.slice failItems)) true).map
        (fun r => r.2.2) = some (some (Error.user "no such row")) ∧
    (BatchTranslate [] true failWorld (Value.ptr (Value.slice failItems)) true).map
        (fun r => r.2.2) = some none ∧
    (BatchTranslate [] true failWorld (Value.ptr (Value.slice failItems)) false).map
        (fun r => r.2.2) = some (some (Error.user "no such row")) ∧
    (∀ (sched : List Nat) (w : World) (es : List Value),
      (batchTranslateParallel sched true w es).map (fun r => r.2.2)
        = (chunkRanges es.length).map (fun _ => none)) :=
  ⟨rfl, rfl, rfl, batchTranslateParallel_pickDone⟩

/-- C22: `BatchTranslate` returns `ErrNotPointer` for every argument that is
not a pointer and `ErrNotSlice` for every pointer (nil or not) whose pointee
is not a sequence, a pointer to a single record included; for a pointer to an
empty sequence it returns nil.  In all these cases the world is left as it
was, so no translator is invoked and no plan is built; this holds in both
modes and whatever the schedule. -/
theorem BatchTranslate_entry_checks (sched : List Nat) (pickDone : Bool) (w : World)
    (parallel : Bool) (v rv : Value) (rt : StructType) (fs : List Value)
    (hv : v.isPtr = false) (hrv : rv.isSlice = false) :
    BatchTranslate sched pickDone w v parallel = some (w, v, some Error.ErrNotPointer) ∧
    BatchTranslate sched pickDone w (Value.ptr rv) parallel
      = some (w, Value.ptr rv, some Error.ErrNotSlice) ∧
    BatchTranslate sched pickDone w Value.nilPtr parallel
      = some (w, Value.nilPtr, some Error.ErrNotSlice) ∧
    BatchTranslate sched pickDone w (Value.ptr (Value.struct rt fs)) parallel
      = some (w, Value.ptr (Value.struct rt fs), some Error.ErrNotSlice) ∧
    BatchTranslate sched pickDone w (Value.ptr (Value.slice [])) parallel
      = some (w, Value.ptr (Value.slice []), none) := by
  refine ⟨?_, ?_, rfl, rfl, rfl⟩
  · cases v <;> first | rfl | simp [Value.isPtr] at hv
  · cases rv <;> first | rfl | simp [Value.isSlice] at hrv

theorem BatchTranslate_entry_checks_witness :
    (Value.str "x").isPtr = false ∧ (Value.int 3).isSlice = false ∧
    BatchTranslate [1, 0] true failWorld (Value.str "x") true
      = some (failWorld, Value.str "x", some Error.ErrNotPointer) ∧
    BatchTranslate [1, 0] true failWorld (Value.ptr (Value.int 3)) true
      = some (failWorld, Value.ptr (Value.int 3), some Error.ErrNotSlice) ∧
    BatchTranslate [1, 0] true failWorld Value.nilPtr true
      = some (failWorld, Value.nilPtr, some Error.ErrNotSlice) ∧
    BatchTranslate [1, 0] true failWorld (Value.ptr (batchItem "bad")) true
      = some (failWorld, Value.ptr (batchItem "bad"), some Error.ErrNotSlice) ∧
    BatchTranslate [1, 0] true failWorld (Value.ptr (Value.slice [])) true
      = some (failWorld, Value.ptr (Value.slice []), none) :=
  ⟨rfl, rfl, BatchTranslate_entry_checks [1, 0] true failWorld true (Value.str "x")
    (Value.int 3) (itemType "test:id:name") [Value.str "bad", Value.str ""] rfl rfl⟩

/-! ## Tags without a target -/

/-- C23: when the tagged field of a flat record has no `dictField` tag,
`Translate` leaves every field of the record as it was.  If the plan binds a
translator to the field (tags `translate`, `db`, `dictTableTwo`, `dictTable`,
`enum`), the package state after the call is the state after one call of that
translator with the value of the field, its name and the tag argument, and an
error of that call is returned; if the plan binds none (legacy `dict` tag, or
no entry), the package state is unchanged and no error is returned.  One call
of a custom translator is one recorded invocation. -/
theorem Translate_without_dictField (w : World) (rt : StructType) (fs : List Value) (i : Nat)
    (ft : StructField) (kv : Value) (trs : List (String × Option Translator))
    (hu : tryUnwrap w.dm (Value.ptr (Value.struct rt fs)) = none)
    (hcfg : (getOrCreateConfig w.dm rt).2 = ⟨buildFields trs 0 rt.fields⟩)
    (hshape : flatSingle rt fs i = true)
    (hft : rt.fields[i]? = some ft) (hval : fs[i]? = some kv)
    (hT : ft.tagGet "dictField" = "") :
    (Translate w (Value.ptr (Value.struct rt fs))).2.1 = Value.ptr (Value.struct rt fs) ∧
    (∀ t, (planField trs i ft).translator = some t →
      (Translate w (Value.ptr (Value.struct rt fs))).1.env
        = (t.Translate w.env kv ft.name (planField trs i ft).translatorTag).1 ∧
      (Translate w (Value.ptr (Value.struct rt fs))).2.2
        = match (t.Translate w.env kv ft.name (planField trs i ft).translatorTag).2 with
          | .ok _ => none
          | .error err => some err) ∧
    ((planField trs i ft).translator = none →
      (Translate w (Value.ptr (Value.struct rt fs))).1.env = w.env ∧
      (Translate w (Value.ptr (Value.struct rt fs))).2.2 = none) ∧
    (∀ (f : Value → String → String → Except Error String) (env : Env) (value : Value)
      (fieldName tag : String),
      ((Translator.custom f).Translate env value fieldName tag).1
        = env.log (Event.custom value fieldName tag)) := by
  have h := Translate_flatSingle_trs w rt fs i ft kv trs hu hcfg hshape hft hval
  have htn : targetName (planField trs i ft) ft = "" := by
    rw [targetName_planField]; exact hT
  rw [htn] at h
  simp only [or_true, if_true] at h
  have key : ∀ (e1 : Env) (r1 : Except Error String),
      lookupLabel w (planField trs i ft) ft kv = (e1, r1) →
      Translate w (Value.ptr (Value.struct rt fs)) =
        if (planField trs i ft).translator.isSome ||
            decide ((planField trs i ft).translatorTag ≠ "")
        then (⟨(getOrCreateConfig w.dm rt).1, e1⟩, Value.ptr (Value.struct rt fs),
          match r1 with
          | .ok _ => none
          | .error err => some err)
        else (⟨(getOrCreateConfig w.dm rt).1, w.env⟩, Value.ptr (Value.struct rt fs), none) := by
    intro e1 r1 hl
    rw [h, hl]
    cases r1 <;> rfl
  refine ⟨?_, ?_, ?_, fun _ _ _ _ _ => rfl⟩
  · rw [key _ _ rfl]; split <;> rfl
  · intro t ht
    have hl : lookupLabel w (planField trs i ft) ft kv
        = t.Translate w.env kv ft.name (planField trs i ft).translatorTag := by
      unfold lookupLabel
      rw [ht]
    have hk := key (t.Translate w.env kv ft.name (planField trs i ft).translatorTag).1
      (t.Translate w.env kv ft.name (planField trs i ft).translatorTag).2 hl
    have hact : ((planField trs i ft).translator.isSome ||
        decide ((planField trs i ft).translatorTag ≠ "")) = true := by
      rw [ht]; rfl
    rw [hk, if_pos hact]
    exact ⟨rfl, rfl⟩
  · intro ht
    have hl : lookupLabel w (planField trs i ft) ft kv
        = (w.env, Except.ok (dictLabel w.dm (planField trs i ft).translatorTag kv)) := by
      unfold lookupLabel
      rw [ht]
    rw [key _ _ hl]
    split <;> exact ⟨rfl, rfl⟩

theorem Translate_without_dictField_witness :
    (Translate echoWorld
      (Value.ptr (Value.struct docTypeNoTarget [Value.str "a", Value.str "old"]))).2.1
      = Value.ptr (Value.struct docTypeNoTarget [Value.str "a", Value.str "old"]) ∧
    (Translate echoWorld
      (Value.ptr (Value.struct docTypeNoTarget [Value.str "a", Value.str "old"]))).1.env
      = Env.init.log (Event.custom (Value.str "a") "Code" "echo,x=1") ∧
    (Translate echoWorld
      (Value.ptr (Value.struct docTypeNoTarget [Value.str "a", Value.str "old"]))).2.2 = none :=
  ⟨(Translate_without_dictField echoWorld docTypeNoTarget [Value.str "a", Value.str "old"] 0
      ⟨"Code", true, [("translate", "echo,x=1")]⟩ (Value.str "a") echoWorld.dm.translators
      rfl rfl (by decide) rfl rfl rfl).1,
   ((Translate_without_dictField echoWorld docTypeNoTarget [Value.str "a", Value.str "old"] 0
      ⟨"Code", true, [("translate", "echo,x=1")]⟩ (Value.str "a") echoWorld.dm.translators
      rfl rfl (by decide) rfl rfl rfl).2.1 echoTranslator rfl).1,
   ((Translate_without_dictField echoWorld docTypeNoTarget [Value.str "a", Value.str "old"] 0
      ⟨"Code", true, [("translate", "echo,x=1")]⟩ (Value.str "a") echoWorld.dm.translators
      rfl rfl (by decide) rfl rfl rfl).2.1 echoTranslator rfl).2⟩

/-! ## Custom translators -/

theorem split_headD_of_comma (name extra : String) (h : ',' ∉ name.data) :
    (split (name ++ "," ++ extra) ',').headD "" = name := by
  have e : (name ++ "," ++ extra).data = name.data ++ ',' :: extra.data := by
    simp [String.data_append]
  unfold split
  rw [e, splitChars_append _ _ _ h]
  rfl

/-- C28: for a field tagged `translate:"name"` or `translate:"name,extra"`
(`name` without comma) while a translator is registered under `name`, the plan
binds that translator to the field with the whole tag as argument; `Translate`
on the flat record then calls it once with the value of the field, the name of
the field and the whole tag (for a custom translator: exactly one recorded
invocation with these arguments), assigns a non-empty label to the first
writable string field matching the `dictField` name, and returns an error of
the translator, leaving the record as it was. -/
theorem Translate_custom_tag (w : World) (rt : StructType) (fs : List Value) (i : Nat)
    (ft : StructField) (kv : Value) (name extra : String) (t : Translator)
    (hu : tryUnwrap w.dm (Value.ptr (Value.struct rt fs)) = none)
    (hcur : PlanCurrent w.dm rt) (hshape : flatSingle rt fs i = true)
    (hft : rt.fields[i]? = some ft) (hval : fs[i]? = some kv)
    (hname : ',' ∉ name.data) (hne : name ≠ "")
    (htag : ft.tagGet "translate" = name ∨ ft.tagGet "translate" = name ++ "," ++ extra)
    (hreg : w.dm.translators.lookup name = some (some t)) :
    planField w.dm.translators i ft =
      { fieldIndex := i, sourceField := "", targetField := ft.tagGet "dictField",
        translatorTag := ft.tagGet "translate", translator := some t } ∧
    (Translate w (Value.ptr (Value.struct rt fs))).1.env
      = (t.Translate w.env kv ft.name (ft.tagGet "translate")).1 ∧
    (∀ f, t = Translator.custom f →
      (Translate w (Value.ptr (Value.struct rt fs))).1.env
        = w.env.log (Event.custom kv ft.name (ft.tagGet "translate")) ∧
      (t.Translate w.env kv ft.name (ft.tagGet "translate")).2
        = f kv ft.name (ft.tagGet "translate")) ∧
    (∀ label j, (t.Translate w.env kv ft.name (ft.tagGet "translate")).2 = Except.ok label →
      label ≠ "" → ft.tagGet "dictField" ≠ "" →
      firstWritable (ft.tagGet "dictField") rt.fields fs = some j →
      (Translate w (Value.ptr (Value.struct rt fs))).2
        = (Value.ptr (Value.struct rt (fs.set j (Value.str label))), none)) ∧
    (∀ err, (t.Translate w.env kv ft.name (ft.tagGet "translate")).2 = Except.error err →
      (Translate w (Value.ptr (Value.struct rt fs))).2
        = (Value.ptr (Value.struct rt fs), some err)) := by
  have hhead : (split (ft.tagGet "translate") ',').headD "" = name := by
    rcases htag with h | h
    · rw [h]; exact split_headD_of_no_comma name hname
    · rw [h]; exact split_headD_of_comma name extra hname
  have htne : ft.tagGet "translate" ≠ "" := by
    intro h0
    rw [h0] at hhead
    exact hne hhead.symm
  have hplan : planField w.dm.translators i ft =
      { fieldIndex := i, sourceField := "", targetField := ft.tagGet "dictField",
        translatorTag := ft.tagGet "translate", translator := some t } := by
    unfold planField
    simp only [htne, ne_eq, not_false_eq_true, if_true, hhead, hreg]
  have hcfg := getOrCreateConfig_current w.dm rt hcur
  have h := Translate_flatSingle_trs w rt fs i ft kv w.dm.translators hu hcfg hshape hft hval
  have hl : lookupLabel w (planField w.dm.translators i ft) ft kv
      = t.Translate w.env kv ft.name (ft.tagGet "translate") := by
    rw [hplan]; rfl
  have htn := targetName_planField w.dm.translators i ft
  have hact : ((planField w.dm.translators i ft).translator.isSome ||
      decide ((planField w.dm.translators i ft).translatorTag ≠ "")) = true := by
    rw [hplan]; rfl
  rw [if_pos hact, hl, htn] at h
  refine ⟨hplan, ?_, ?_, ?_, ?_⟩
  · rw [h]
  · intro f hf
    subst hf
    rw [h]
    exact ⟨rfl, rfl⟩
  · intro label j hlab hl0 hT hj
    rw [h, hlab]
    simp only [hl0, hT, or_self, if_false]
    rw [setTarget_eq_firstWritable, hj]
  · intro err herr
    rw [h, herr]

theorem Translate_custom_tag_witness :
    (Translate echoWorld
      (Value.ptr (Value.struct docType [Value.str "a", Value.str ""]))).1.env
      = Env.init.log (Event.custom (Value.str "a") "Code" "echo,x=1") ∧
    (Translate echoWorld (Value.ptr (Value.struct docType [Value.str "a", Value.str ""]))).2
      = (Value.ptr (Value.struct docType [Value.str "a", Value.str "a/Code/echo,x=1"]), none) ∧
    (Translate echoWorld (Value.ptr (Value.struct docType [Value.str "bad", Value.str ""]))).2
      = (Value.ptr (Value.struct docType [Value.str "bad", Value.str ""]),
          some (Error.user "cannot translate")) :=
  ⟨((Translate_custom_tag echoWorld docType [Value.str "a", Value.str ""] 0
      ⟨"Code", true, [("translate", "echo,x=1"), ("dictField", "Name")]⟩ (Value.str "a")
      "echo" "x=1" echoTranslator rfl
      (by intro cfg h; simp [echoWorld, RegisterTranslator, DictManager.init] at h)
      (by decide) rfl rfl (by decide) (by decide) (Or.inr rfl) rfl).2.2.1 _ rfl).1,
   (Translate_custom_tag echoWorld docType [Value.str "a", Value.str ""] 0
      ⟨"Code", true, [("translate", "echo,x=1"), ("dictField", "Name")]⟩ (Value.str "a")
      "echo" "x=1" echoTranslator rfl
      (by intro cfg h; simp [echoWorld, RegisterTranslator, DictManager.init] at h)
      (by decide) rfl rfl (by decide) (by decide) (Or.inr rfl) rfl).2.2.2.1
      "a/Code/echo,x=1" 1 rfl (by decide) (by decide) rfl,
   (Translate_custom_tag echoWorld docType [Value.str "bad", Value.str ""] 0
      ⟨"Code", true, [("translate", "echo,x=1"), ("dictField", "Name")]⟩ (Value.str "bad")
      "echo" "x=1" echoTranslator rfl
      (by intro cfg h; simp [echoWorld, RegisterTranslator, DictManager.init] at h)
      (by decide) rfl rfl (by decide) (by decide) (Or.inr rfl) rfl).2.2.2.2
      (Error.user "cannot translate") rfl⟩

/-! ## Registration -/

theorem lookup_mapSet_eq {β : Type} (m : List (String × β)) (k : String) (v : β) :
    (mapSet m k v).lookup k = some v := by
  simp [mapSet, List.lookup]

theorem lookup_mapSet_ne {β : Type} (m : List (String × β)) (k k2 : String) (v : β)
    (h : k2 ≠ k) : (mapSet m k v).lookup k2 = m.lookup k2 := by
  unfold mapSet
  have hb : (k2 == k) = false := by simpa using h
  simp only [List.lookup, hb]
  induction m with
  | nil => rfl
  | cons p ps ih =>
    by_cases hp : p.1 = k
    · have hf : (decide (p.1 ≠ k)) = false := by simp [hp]
      have hb2 : (k2 == p.1) = false := by rw [hp]; exact hb
      rw [List.filter_cons, hf]
      simp only [Bool.false_eq_true, if_false]
      rw [ih]
      obtain ⟨a, b⟩ := p
      simp only [List.lookup]
      simp only at hb2
      rw [hb2]
    · have hf : (decide (p.1 ≠ k)) = true := by simp [hp]
      rw [List.filter_cons, hf]
      simp only [if_true]
      obtain ⟨a, b⟩ := p
      simp only [List.lookup]
      cases k2 == a
      · exact ih
      · rfl

/-- C25: dictionaries and enum tables are kept in separate maps and a
registration touches the entry of its name only: `RegisterDict n d` leaves
`GetDict n2` as it was for every other name `n2` and `GetEnum x` as it was for
every name `x` (also `x = n`), and `RegisterEnum n e` leaves `GetEnum n2` as it
was for every other name and `GetDict x` as it was for every name. -/
theorem Register_frame (p : Process) (n n2 x : String) (d e : Option GoMap) (hne : n2 ≠ n) :
    (p.RegisterDict n d).GetDict n2 = p.GetDict n2 ∧
    (p.RegisterDict n d).GetEnum x = p.GetEnum x ∧
    (p.RegisterDict n d).GetEnum n = p.GetEnum n ∧
    (p.RegisterEnum n e).GetEnum n2 = p.GetEnum n2 ∧
    (p.RegisterEnum n e).GetDict x = p.GetDict x ∧
    (p.RegisterEnum n e).GetDict n = p.GetDict n := by
  refine ⟨?_, rfl, rfl, ?_, rfl, rfl⟩
  · show Registry.get (mapSet p.defaultManager.dicts n d) n2 = Registry.get p.defaultManager.dicts n2
    unfold Registry.get
    rw [lookup_mapSet_ne _ _ _ _ hne]
  · show Registry.get (mapSet p.env.enumMap n e) n2 = Registry.get p.env.enumMap n2
    unfold Registry.get
    rw [lookup_mapSet_ne _ _ _ _ hne]

theorem Register_frame_witness :
    (Process.RegisterDict ⟨DictManager.init, Env.init, []⟩ "sex" (some [("1", "男")])).GetDict
        "status" = none ∧
    (Process.RegisterDict ⟨DictManager.init, Env.init, []⟩ "sex" (some [("1", "男")])).GetEnum
        "sex" = none ∧
    (Process.RegisterEnum ⟨sexWorld [("1", "男")] |>.dm, Env.init, []⟩ "sex"
        (some [("1", "M")])).GetDict "sex" = some [("1", "男")] :=
  ⟨(Register_frame ⟨DictManager.init, Env.init, []⟩ "sex" "status" "sex" (some [("1", "男")]) none
      (by decide)).1,
   (Register_frame ⟨DictManager.init, Env.init, []⟩ "sex" "status" "sex" (some [("1", "男")]) none
      (by decide)).2.2.1,
   (Register_frame ⟨sexWorld [("1", "男")] |>.dm, Env.init, []⟩ "sex" "status" "sex" none
      (some [("1", "M")]) (by decide)).2.2.2.2.2⟩

theorem Registry_get_mapSet (r : Registry) (n : String) (d : Option GoMap) :
    Registry.get (mapSet r n d) n = d := by
  unfold Registry.get
  rw [lookup_mapSet_eq]
  rfl

/-- `Translate` on a flat record whose only tagged field carries a `translate`
tag that names a registered translator, with a current plan. -/
theorem Translate_translate_tag (w : World) (rt : StructType) (fs : List Value) (i : Nat)
    (ft : StructField) (kv : Value) (name : String) (t : Translator)
    (hu : tryUnwrap w.dm (Value.ptr (Value.struct rt fs)) = none)
    (hcur : PlanCurrent w.dm rt) (hshape : flatSingle rt fs i = true)
    (hft : rt.fields[i]? = some ft) (hval : fs[i]? = some kv)
    (hhead : (split (ft.tagGet "translate") ',').headD "" = name)
    (htne : ft.tagGet "translate" ≠ "")
    (hreg : w.dm.translators.lookup name = some (some t)) :
    Translate w (Value.ptr (Value.struct rt fs)) =
      (⟨(getOrCreateConfig w.dm rt).1, (t.Translate w.env kv ft.name (ft.tagGet "translate")).1⟩,
        Value.ptr (Value.struct rt
          (match (t.Translate w.env kv ft.name (ft.tagGet "translate")).2 with
            | .ok label =>
              if label = "" ∨ ft.tagGet "dictField" = "" then fs
              else setTarget (ft.tagGet "dictField") label rt.fields fs
            | .error _ => fs)),
        match (t.Translate w.env kv ft.name (ft.tagGet "translate")).2 with
        | .ok _ => none
        | .error err => some err) := by
  have hplan : planField w.dm.translators i ft =
      { fieldIndex := i, sourceField := "", targetField := ft.tagGet "dictField",
        translatorTag := ft.tagGet "translate", translator := some t } := by
    unfold planField
    simp only [htne, ne_eq, not_false_eq_true, if_true, hhead, hreg]
  have hcfg := getOrCreateConfig_current w.dm rt hcur
  have h := Translate_flatSingle_trs w rt fs i ft kv w.dm.translators hu hcfg hshape hft hval
  have hl : lookupLabel w (planField w.dm.translators i ft) ft kv
      = t.Translate w.env kv ft.name (ft.tagGet "translate") := by
    rw [hplan]; rfl
  have htn := targetName_planField w.dm.translators i ft
  have hact : ((planField w.dm.translators i ft).translator.isSome ||
      decide ((planField w.dm.translators i ft).translatorTag ≠ "")) = true := by
    rw [hplan]; rfl
  rw [if_pos hact, hl, htn] at h
  exact h

/-- `Translate` on a flat record whose only tagged field carries the legacy
`dict` tag `n` while the dictionary `D` is registered under `n`. -/
theorem Translate_dict_tag (w : World) (rt : StructType) (fs : List Value) (i : Nat)
    (ft : StructField) (k n T : String) (D : GoMap)
    (hu : tryUnwrap w.dm (Value.ptr (Value.struct rt fs)) = none)
    (hplan : PlanSound w.dm rt) (hshape : flatSingle rt fs i = true)
    (hft : rt.fields[i]? = some ft) (hval : fs[i]? = some (Value.str k))
    (htags : ft.dictTagged n T = true) (hn : n ≠ "") (hcomma : ',' ∉ n.data)
    (hD : GetDict w.dm n = some D) :
    (Translate w (Value.ptr (Value.struct rt fs))).2 =
      (Value.ptr (Value.struct rt
        (if k = "" ∨ D.get k = "" ∨ T = "" then fs else setTarget T (D.get k) rt.fields fs)),
       none) := by
  obtain ⟨trs, hcfg⟩ := getOrCreateConfig_of_sound w.dm rt hplan
  have h := Translate_flatSingle_trs w rt fs i ft (Value.str k) trs hu hcfg hshape hft hval
  have hpf := planField_dictTagged trs i ft n T htags hn
  have hTT : ft.tagGet "dictField" = T := by
    unfold StructField.dictTagged at htags
    simp only [Bool.and_eq_true, decide_eq_true_eq] at htags
    exact htags.2
  have htn := targetName_planField trs i ft
  rw [hTT] at htn
  have hl : lookupLabel w (planField trs i ft) ft (Value.str k)
      = (w.env, Except.ok (if k = "" then "" else D.get k)) := by
    rw [hpf]
    unfold lookupLabel dictLabel
    simp only []
    rw [split_headD_of_no_comma n hcomma]
    unfold GetDict at hD
    rw [hD]
  have hact : ((planField trs i ft).translator.isSome ||
      decide ((planField trs i ft).translatorTag ≠ "")) = true := by
    rw [hpf]; simp [hn]
  rw [if_pos hact, hl, htn] at h
  rw [h]
  simp only []
  by_cases hk : k = ""
  · simp [hk]
  · simp only [hk, if_false, false_or]

/-- `Translate` on a flat record whose only tagged field carries the `enum`
tag `e` while the table `E` is registered under `e`. -/
theorem Translate_enum_tag (w : World) (rt : StructType) (fs : List Value) (i : Nat)
    (ft : StructField) (k e T : String) (E : GoMap)
    (hu : tryUnwrap w.dm (Value.ptr (Value.struct rt fs)) = none)
    (hplan : PlanSound w.dm rt) (hshape : flatSingle rt fs i = true)
    (hft : rt.fields[i]? = some ft) (hval : fs[i]? = some (Value.str k))
    (htags : ft.enumTagged e T = true) (he : e ≠ "")
    (hE : GetEnum w.env e = some E) :
    (Translate w (Value.ptr (Value.struct rt fs))).2 =
      (Value.ptr (Value.struct rt
        (if E.get k = "" ∨ T = "" then fs else setTarget T (E.get k) rt.fields fs)),
       none) := by
  obtain ⟨trs, hcfg⟩ := getOrCreateConfig_of_sound w.dm rt hplan
  have h := Translate_flatSingle_trs w rt fs i ft (Value.str k) trs hu hcfg hshape hft hval
  have hpf := planField_enumTagged trs i ft e T htags he
  have hTT : ft.tagGet "dictField" = T := by
    unfold StructField.enumTagged at htags
    simp only [Bool.and_eq_true, decide_eq_true_eq] at htags
    exact htags.2
  have htn := targetName_planField trs i ft
  rw [hTT] at htn
  have hl : lookupLabel w (planField trs i ft) ft (Value.str k)
      = (w.env, Except.ok (E.get k)) := by
    rw [hpf]
    unfold lookupLabel
    simp only [Translator.Translate, EnumTranslator.Translate]
    unfold GetEnum at hE
    rw [hE]
  have hact : ((planField trs i ft).translator.isSome ||
      decide ((planField trs i ft).translatorTag ≠ "")) = true := by
    rw [hpf]; rfl
  rw [if_pos hact, hl, htn] at h
  rw [h]

/-- C24 (amended): registration is last-wins in the registries: after
`RegisterDict n d1` the call `GetDict n` returns `d1`, after a further
`RegisterDict n d2` it returns `d2`, likewise for `RegisterEnum` and `GetEnum`,
and the translator map holds the translator registered last.  Translations
through the tags `dict:"n"` and `enum:"n"` read the registry at translation
time and so use the map registered last, whatever plans are cached.  A
translation through `translate:"n"` uses the translator registered last when
the plan of the record type has not been built before the call. -/
theorem Register_last_wins (w : World) (n : String) (d1 d2 : Option GoMap)
    (t1 t2 : Option Translator) :
    GetDict (RegisterDict w.dm n d1) n = d1 ∧
    GetDict (RegisterDict (RegisterDict w.dm n d1) n d2) n = d2 ∧
    GetEnum (RegisterEnum w.env n d1) n = d1 ∧
    GetEnum (RegisterEnum (RegisterEnum w.env n d1) n d2) n = d2 ∧
    (RegisterTranslator (RegisterTranslator w.dm n t1) n t2).translators.lookup n = some t2 ∧
    (∀ (rt : StructType) (fs : List Value) (i : Nat) (ft : StructField) (k T : String)
      (D : GoMap), d2 = some D →
      tryUnwrap w.dm (Value.ptr (Value.struct rt fs)) = none → PlanSound w.dm rt →
      flatSingle rt fs i = true → rt.fields[i]? = some ft → fs[i]? = some (Value.str k) →
      ft.dictTagged n T = true → n ≠ "" → ',' ∉ n.data →
      (Translate ⟨RegisterDict (RegisterDict w.dm n d1) n d2, w.env⟩
          (Value.ptr (Value.struct rt fs))).2 =
        (Value.ptr (Value.struct rt
          (if k = "" ∨ D.get k = "" ∨ T = "" then fs else setTarget T (D.get k) rt.fields fs)),
         none)) ∧
    (∀ (rt : StructType) (fs : List Value) (i : Nat) (ft : StructField) (k T : String)
      (E : GoMap), d2 = some E →
      tryUnwrap w.dm (Value.ptr (Value.struct rt fs)) = none → PlanSound w.dm rt →
      flatSingle rt fs i = true → rt.fields[i]? = some ft → fs[i]? = some (Value.str k) →
      ft.enumTagged n T = true → n ≠ "" →
      (Translate ⟨w.dm, RegisterEnum (RegisterEnum w.env n d1) n d2⟩
          (Value.ptr (Value.struct rt fs))).2 =
        (Value.ptr (Value.struct rt
          (if E.get k = "" ∨ T = "" then fs else setTarget T (E.get k) rt.fields fs)),
         none)) ∧
    (∀ (rt : StructType) (fs : List Value) (i : Nat) (ft : StructField) (kv : Value)
      (t : Translator), t2 = some t →
      tryUnwrap w.dm (Value.ptr (Value.struct rt fs)) = none →
      w.dm.configCache.lookup rt = none →
      flatSingle rt fs i = true → rt.fields[i]? = some ft → fs[i]? = some kv →
      (split (ft.tagGet "translate") ',').headD "" = n → ft.tagGet "translate" ≠ "" →
      (Translate ⟨RegisterTranslator (RegisterTranslator w.dm n t1) n t2, w.env⟩
          (Value.ptr (Value.struct rt fs))).1.env
        = (t.Translate w.env kv ft.name (ft.tagGet "translate")).1 ∧
      (Translate ⟨RegisterTranslator (RegisterTranslator w.dm n t1) n t2, w.env⟩
          (Value.ptr (Value.struct rt fs))).2 =
        (Value.ptr (Value.struct rt
          (match (t.Translate w.env kv ft.name (ft.tagGet "translate")).2 with
            | .ok label =>
              if label = "" ∨ ft.tagGet "dictField" = "" then fs
              else setTarget (ft.tagGet "dictField") label rt.fields fs
            | .error _ => fs)),
         match (t.Translate w.env kv ft.name (ft.tagGet "translate")).2 with
         | .ok _ => none
         | .error err => some err)) := by
  refine ⟨Registry_get_mapSet _ _ _, Registry_get_mapSet _ _ _, Registry_get_mapSet _ _ _,
    Registry_get_mapSet _ _ _, lookup_mapSet_eq _ _ _, ?_, ?_, ?_⟩
  · intro rt fs i ft k T D hd hu hplan hshape hft hval htags hn hcomma
    subst hd
    exact Translate_dict_tag ⟨RegisterDict (RegisterDict w.dm n d1) n (some D), w.env⟩ rt fs i ft
      k n T D hu hplan hshape hft hval htags hn hcomma (Registry_get_mapSet _ _ _)
  · intro rt fs i ft k T E hd hu hplan hshape hft hval htags hn
    subst hd
    exact Translate_enum_tag ⟨w.dm, RegisterEnum (RegisterEnum w.env n d1) n (some E)⟩ rt fs i ft
      k n T E hu hplan hshape hft hval htags hn (Registry_get_mapSet _ _ _)
  · intro rt fs i ft kv t ht hu hnone hshape hft hval hhead htne
    subst ht
    have h := Translate_translate_tag
      ⟨RegisterTranslator (RegisterTranslator w.dm n t1) n (some t), w.env⟩ rt fs i ft kv n t hu
      (by intro cfg hc; rw [show (RegisterTranslator (RegisterTranslator w.dm n t1) n
            (some t)).configCache = w.dm.configCache from rfl, hnone] at hc; cases hc)
      hshape hft hval hhead htne (lookup_mapSet_eq _ _ _)
    rw [h]
    exact ⟨rfl, rfl⟩

theorem Register_last_wins_witness :
    GetDict (RegisterDict (RegisterDict DictManager.init "sex" (some [("1", "男")])) "sex"
      (some [("1", "M")])) "sex" = some [("1", "M")] ∧
    (Translate ⟨RegisterDict (RegisterDict DictManager.init "sex" (some [("1", "男")])) "sex"
        (some [("1", "M")]), Env.init⟩
      (Value.ptr (Value.struct userType [Value.str "1", Value.str ""]))).2
      = (Value.ptr (Value.struct userType [Value.str "1", Value.str "M"]), none) ∧
    (Translate ⟨DictManager.init,
        RegisterEnum (RegisterEnum Env.init "priority" (some [("2", "中")])) "priority"
          (some [("2", "mid")])⟩
      (Value.ptr (Value.struct taskType [Value.str "2", Value.str ""]))).2
      = (Value.ptr (Value.struct taskType [Value.str "2", Value.str "mid"]), none) ∧
    (Translate ⟨RegisterTranslator (RegisterTranslator DictManager.init "echo"
        (some constTranslator)) "echo" (some echoTranslator), Env.init⟩
      (Value.ptr (Value.struct docType [Value.str "a", Value.str ""]))).2
      = (Value.ptr (Value.struct docType [Value.str "a", Value.str "a/Code/echo,x=1"]), none) :=
  ⟨(Register_last_wins World.init "sex" (some [("1", "男")]) (some [("1", "M")]) none none).2.1,
   (Register_last_wins World.init "sex" (some [("1", "男")]) (some [("1", "M")]) none
      none).2.2.2.2.2.1 userType [Value.str "1", Value.str ""] 0
      ⟨"Sex", true, [("dict", "sex"), ("dictField", "SexName")]⟩ "1" "SexName" [("1", "M")] rfl rfl
      (by intro cfg h; simp [World.init, DictManager.init] at h) (by decide) rfl rfl (by decide)
      (by decide) (by decide),
   (Register_last_wins World.init "priority" (some [("2", "中")]) (some [("2", "mid")]) none
      none).2.2.2.2.2.2.1 taskType [Value.str "2", Value.str ""] 0
      ⟨"Priority", true, [("enum", "priority"), ("dictField", "PriorityName")]⟩ "2" "PriorityName"
      [("2", "mid")] rfl rfl
      (by intro cfg h; simp [World.init, DictManager.init] at h) (by decide) rfl rfl (by decide)
      (by decide),
   ((Register_last_wins World.init "echo" none none (some constTranslator)
      (some echoTranslator)).2.2.2.2.2.2.2 docType [Value.str "a", Value.str ""] 0
      ⟨"Code", true, [("translate", "echo,x=1"), ("dictField", "Name")]⟩ (Value.str "a")
      echoTranslator rfl rfl rfl (by decide) rfl rfl rfl (by decide)).2⟩

/-- C24 as stated fails for `RegisterTranslator` when the plan of the record
type was built before the later registration: the plan keeps the translator
that was registered when it was built, so after `RegisterTranslator` has
replaced `echoTranslator` by `constTranslator` under the name `echo`, a record
of the type translated before still gets the label of `echoTranslator`. -/
theorem RegisterTranslator_after_plan_counterexample :
    (RegisterTranslator (Translate echoWorld
        (Value.ptr (Value.struct docType [Value.str "a", Value.str ""]))).1.dm "echo"
      (some constTranslator)).translators.lookup "echo" = some (some constTranslator) ∧
    (Translate
      ⟨RegisterTranslator (Translate echoWorld
          (Value.ptr (Value.struct docType [Value.str "a", Value.str ""]))).1.dm "echo"
        (some constTranslator),
       (Translate echoWorld
          (Value.ptr (Value.struct docType [Value.str "a", Value.str ""]))).1.env⟩
      (Value.ptr (Value.struct docType [Value.str "b", Value.str ""]))).2
      = (Value.ptr (Value.struct docType [Value.str "b", Value.str "b/Code/echo,x=1"]), none) ∧
    (Translate
      ⟨RegisterTranslator (Translate echoWorld
          (Value.ptr (Value.struct docType [Value.str "a", Value.str ""]))).1.dm "echo"
        (some constTranslator),
       (Translate echoWorld
          (Value.ptr (Value.struct docType [Value.str "a", Value.str ""]))).1.env⟩
      (Value.ptr (Value.struct docType [Value.str "b", Value.str ""]))).2.1
      ≠ Value.ptr (Value.struct docType [Value.str "b", Value.str "new"]) := by
  refine ⟨rfl, rfl, ?_⟩
  intro h
  have h2 : (Translate
      ⟨RegisterTranslator (Translate echoWorld
          (Value.ptr (Value.struct docType [Value.str "a", Value.str ""]))).1.dm "echo"
        (some constTranslator),
       (Translate echoWorld
          (Value.ptr (Value.struct docType [Value.str "a", Value.str ""]))).1.env⟩
      (Value.ptr (Value.struct docType [Value.str "b", Value.str ""]))).2.1
      = Value.ptr (Value.struct docType [Value.str "b", Value.str "b/Code/echo,x=1"]) := rfl
  rw [h2] at h
  simp at h

/-! ## Framework instances -/

theorem Framework_Translate_congr (p q : Process) (f : Nat) (v : Value)
    (hf : q.frameworks[f]? = p.frameworks[f]?) (he : q.env = p.env) :
    (Framework.Translate q f v).2 = (Framework.Translate p f v).2 := by
  unfold Framework.Translate
  rw [hf, he]
  cases p.frameworks[f]? <;> rfl

theorem getElem?_modify_ne {α : Type} (h : α → α) (l : List α) (f g : Nat) (hfg : f ≠ g) :
    (List.modify h g l)[f]? = l[f]? := by
  rw [List.getElem?_modify]
  cases l[f]? with
  | none => rfl
  | some a => simp [Ne.symm hfg]

/-- C26 (amended): dictionaries and translators are kept per manager: a
dictionary or translator registered for another framework, or for the default
manager, does not change the record and the error that `Translate` through a
framework yields, a registration for a framework does not change what the
package level `Translate` yields, and a new framework starts with empty maps
and leaves the existing frameworks as they are.  (Enum tables are not per
manager; see the counterexample.) -/
theorem Framework_registrations_local (p : Process) (f g : Nat) (hfg : f ≠ g) (n : String)
    (d : Option GoMap) (t : Option Translator) (v : Value) :
    (Framework.Translate (Framework.RegisterDict p g n d) f v).2 = (Framework.Translate p f v).2 ∧
    (Framework.Translate (Framework.RegisterTranslator p g n t) f v).2
      = (Framework.Translate p f v).2 ∧
    (Framework.Translate (p.RegisterDict n d) f v).2 = (Framework.Translate p f v).2 ∧
    (Framework.Translate (p.RegisterTranslator n t) f v).2 = (Framework.Translate p f v).2 ∧
    ((Framework.RegisterDict p g n d).Translate v).2 = (p.Translate v).2 ∧
    ((Framework.RegisterTranslator p g n t).Translate v).2 = (p.Translate v).2 ∧
    (NewFramework p).1.frameworks[(NewFramework p).2]? = some ⟨DictManager.init⟩ ∧
    (f < p.frameworks.length → (NewFramework p).1.frameworks[f]? = p.frameworks[f]?) := by
  refine ⟨?_, ?_, ?_, ?_, rfl, rfl, ?_, ?_⟩
  · exact Framework_Translate_congr p _ f v (getElem?_modify_ne _ _ f g hfg) rfl
  · exact Framework_Translate_congr p _ f v (getElem?_modify_ne _ _ f g hfg) rfl
  · exact Framework_Translate_congr p _ f v rfl rfl
  · exact Framework_Translate_congr p _ f v rfl rfl
  · unfold NewFramework
    simp
  · intro hlt
    unfold NewFramework
    simp only []
    rw [List.getElem?_append_left hlt]

theorem Framework_registrations_local_witness :
    (Framework.Translate (Framework.RegisterDict twoFrameworks 1 "sex" (some [("1", "男")])) 0
      (Value.ptr (Value.struct userType [Value.str "1", Value.str ""]))).2
      = (Value.ptr (Value.struct userType [Value.str "1", Value.str ""]), none) ∧
    (Framework.Translate (Framework.RegisterDict twoFrameworks 1 "sex" (some [("1", "男")])) 1
      (Value.ptr (Value.struct userType [Value.str "1", Value.str ""]))).2
      = (Value.ptr (Value.struct userType [Value.str "1", Value.str "男"]), none) :=
  ⟨(Framework_registrations_local twoFrameworks 0 1 (by decide) "sex" (some [("1", "男")]) none
      (Value.ptr (Value.struct userType [Value.str "1", Value.str ""]))).1.trans rfl,
   rfl⟩

/-- C26 as stated fails for enum tables: there is one enum registry in the
process (the default enum translator, which every plan binds to an `enum`
tag), so `RegisterEnum` changes what `Translate` through a framework yields:
before the registration the call returns the error that the table is not
found, after it the record gets the label. -/
theorem Framework_shares_enum_counterexample :
    (Framework.Translate twoFrameworks 0
      (Value.ptr (Value.struct taskType [Value.int 2, Value.str ""]))).2
      = (Value.ptr (Value.struct taskType [Value.int 2, Value.str ""]),
          some (Error.errorf "enum 'priority' not found")) ∧
    (Framework.Translate (twoFrameworks.RegisterEnum "priority" (some [("2", "中")])) 0
      (Value.ptr (Value.struct taskType [Value.int 2, Value.str ""]))).2
      = (Value.ptr (Value.struct taskType [Value.int 2, Value.str "中"]), none) :=
  ⟨rfl, rfl⟩

/-! ## The three backends are independent -/

theorem cache_setCache_other (t1 t2 : Translator) (h : t1.sameBackend t2 = false) (env : Env)
    (c : GoMap) : t2.cache (t1.setCache env c) = t2.cache env := by
  cases t1 <;> cases t2 <;> first | rfl | simp [Translator.sameBackend] at h

theorem cacheEnabled_setCache_other (t1 t2 : Translator) (env : Env) (c : GoMap) :
    t2.cacheEnabled (t1.setCache env c) = t2.cacheEnabled env := by
  cases t1 <;> cases t2 <;> rfl

theorem query_setCache_other (t1 t2 : Translator) (env : Env) (c : GoMap) (v : Value) :
    t2.query (t1.setCache env c) v = t2.query env v := by
  cases t1 <;> cases t2 <;> rfl

theorem backendTranslate_other (t1 t2 : Translator) (h : t1.sameBackend t2 = false) (env : Env)
    (v : Value) :
    t2.cache (backendTranslate t1 env v).1 = t2.cache env ∧
    t2.cacheEnabled (backendTranslate t1 env v).1 = t2.cacheEnabled env := by
  unfold backendTranslate
  split
  · exact ⟨rfl, rfl⟩
  · split
    · exact ⟨rfl, rfl⟩
    · exact ⟨cache_log _ _ _, cacheEnabled_log _ _ _⟩
    · split
      · exact ⟨by rw [cache_setCache_other _ _ h, cache_log],
          by rw [cacheEnabled_setCache_other, cacheEnabled_log]⟩
      · exact ⟨cache_log _ _ _, cacheEnabled_log _ _ _⟩

theorem enableCache_other (t1 t2 : Translator) (h : t1.sameBackend t2 = false) (env : Env)
    (b : Bool) :
    t2.cache (t1.enableCache env b) = t2.cache env ∧
    t2.cacheEnabled (t1.enableCache env b) = t2.cacheEnabled env := by
  cases t1 <;> cases t2 <;> first | exact ⟨rfl, rfl⟩ | simp [Translator.sameBackend] at h

theorem clearCache_eq_setCache (t : Translator) (env : Env) :
    t.clearCache env = t.setCache env [] := by
  cases t <;> rfl

/-- C27: the three database flavoured backends keep their cache state apart:
switching the cache of one backend on or off, clearing it, and a lookup
through it leave the cache contents and the cache switch of a translator of
another backend as they were.  After the cache of a backend has been cleared
it is empty, and the next lookup of any key through that backend, when it has
a query function, invokes the query function exactly once and returns its
answer. -/
theorem backends_independent (t1 t2 : Translator) (env : Env) (b : Bool) (v : Value)
    (fieldName tagValue : String)
    (h1 : t1.isDBFlavoured = true)
    (hdiff : t1.sameBackend t2 = false) :
    (t2.cache (t1.enableCache env b) = t2.cache env ∧
      t2.cacheEnabled (t1.enableCache env b) = t2.cacheEnabled env) ∧
    (t2.cache (t1.clearCache env) = t2.cache env ∧
      t2.cacheEnabled (t1.clearCache env) = t2.cacheEnabled env) ∧
    (t2.cache (t1.Translate env v fieldName tagValue).1 = t2.cache env ∧
      t2.cacheEnabled (t1.Translate env v fieldName tagValue).1 = t2.cacheEnabled env) ∧
    t1.cache (t1.clearCache env) = [] ∧
    t1.cacheEnabled (t1.clearCache env) = t1.cacheEnabled env ∧
    (∀ r, t1.query env v = some r →
      (t1.Translate (t1.clearCache env) v fieldName tagValue).1.trace
        = env.trace ++ [t1.queryEvent v] ∧
      (t1.Translate (t1.clearCache env) v fieldName tagValue).2 = r) := by
  refine ⟨?_, ?_, ?_, ?_, ?_, ?_⟩
  · exact enableCache_other t1 t2 hdiff env b
  · rw [clearCache_eq_setCache]
    exact ⟨cache_setCache_other _ _ hdiff _ _, cacheEnabled_setCache_other _ _ _ _⟩
  · rw [Translate_eq_backendTranslate t1 h1]
    exact backendTranslate_other t1 t2 hdiff env v
  · rw [clearCache_eq_setCache]
    exact cache_setCache t1 h1 env []
  · rw [clearCache_eq_setCache]
    exact cacheEnabled_setCache t1 env []
  · intro r hr
    rw [Translate_eq_backendTranslate t1 h1, clearCache_eq_setCache]
    have hc : t1.cache (t1.setCache env []) = [] := cache_setCache t1 h1 env []
    have hq : t1.query (t1.setCache env []) v = some r := by rw [query_setCache]; exact hr
    unfold backendTranslate
    rw [hc, hq]
    simp only [List.lookup, ite_self]
    cases r with
    | error err =>
      refine ⟨?_, rfl⟩
      show (t1.setCache env []).trace ++ _ = _
      rw [trace_setCache]
    | ok label =>
      simp only []
      cases hst : (t1.cacheEnabled (t1.setCache env []) && decide (label ≠ "")) with
      | true =>
        rw [if_pos rfl]
        refine ⟨?_, rfl⟩
        show (t1.setCache ((t1.setCache env []).log (t1.queryEvent v)) _).trace = _
        rw [trace_setCache]
        show (t1.setCache env []).trace ++ _ = _
        rw [trace_setCache]
      | false =>
        rw [if_neg (by decide)]
        refine ⟨?_, rfl⟩
        show (t1.setCache env []).trace ++ _ = _
        rw [trace_setCache]

theorem backends_independent_witness :
    (Translator.dictTable "status").cache
      ((Translator.db "t" "k" "v").clearCache twoBackendsEnv) = [("status:1", "old entry")] ∧
    (Translator.dictTable "status").cache
      ((Translator.db "t" "k" "v").Translate twoBackendsEnv (Value.str "2") "ID" "t:k:v").1
        = [("status:1", "old entry")] ∧
    ((Translator.db "t" "k" "v").Translate ((Translator.db "t" "k" "v").clearCache twoBackendsEnv)
        (Value.str "1") "ID" "t:k:v").1.trace = [Event.dbQuery "t" "k" "v" (Value.str "1")] ∧
    ((Translator.db "t" "k" "v").Translate ((Translator.db "t" "k" "v").clearCache twoBackendsEnv)
        (Value.str "1") "ID" "t:k:v").2 = Except.ok "row" :=
  ⟨(backends_independent (Translator.db "t" "k" "v") (Translator.dictTable "status")
      twoBackendsEnv true (Value.str "2") "ID" "t:k:v" rfl rfl).2.1.1,
   (backends_independent (Translator.db "t" "k" "v") (Translator.dictTable "status")
      twoBackendsEnv true (Value.str "2") "ID" "t:k:v" rfl rfl).2.2.1.1,
   ((backends_independent (Translator.db "t" "k" "v") (Translator.dictTable "status")
      twoBackendsEnv true (Value.str "1") "ID" "t:k:v" rfl rfl).2.2.2.2.2
        (Except.ok "row") rfl).1,
   ((backends_independent (Translator.db "t" "k" "v") (Translator.dictTable "status")
      twoBackendsEnv true (Value.str "1") "ID" "t:k:v" rfl rfl).2.2.2.2.2
        (Except.ok "row") rfl).2⟩

/-! ## The plan of a type is built once -/

theorem plansKept_refl (dm : DictManager) : PlansKept dm dm := fun _ _ h => h

theorem plansKept_trans {a b c : DictManager} (h1 : PlansKept a b) (h2 : PlansKept b c) :
    PlansKept a c := fun rt cfg h => h2 rt cfg (h1 rt cfg h)

theorem getOrCreateConfig_plansKept (dm : DictManager) (rt : StructType) :
    PlansKept dm (getOrCreateConfig dm rt).1 := by
  intro rt2 cfg h
  unfold getOrCreateConfig
  cases hl : dm.configCache.lookup rt with
  | some c => exact h
  | none =>
    simp only [List.lookup]
    cases hb : rt2 == rt with
    | true =>
      have e : rt2 = rt := by simpa using hb
      subst e
      rw [hl] at h
      cases h
    | false => exact h

theorem translateTagged_dm (w : World) (cfg : structConfig) (i : Nat) (ft : StructField)
    (rt : StructType) (cur : List Value) : (translateTagged w cfg i ft rt cur).1.dm = w.dm := by
  unfold translateTagged
  split
  · rfl
  · unfold translateEntry
    simp only []
    split
    · rfl
    · split <;> rfl

theorem plansKept_leaf (v : Value) (h1 : v.isLeaf = true) (h2 : v.isStruct = false)
    (h3 : ∀ x, v = Value.ptr x → x.isStruct = false) :
    (∀ w, PlansKept w.dm (translateStruct w v).1.dm) ∧
    (∀ w cur i, PlansKept w.dm (nestedStep w cur i v).1.dm) ∧
    (∀ w, PlansKept w.dm (elemStep w v).1.dm) := by
  refine ⟨?_, ?_, ?_⟩
  · intro w
    rw [translateStruct_not_struct w v h2]
    exact plansKept_refl _
  · intro w cur i
    rw [nestedStep_leaf _ _ _ _ h1]
    exact plansKept_refl _
  · intro w
    rw [elemStep_skip w v h2 h3]
    exact plansKept_refl _

/-- A traversal never removes or replaces a stored plan. -/
theorem traversal_plansKept :
    (∀ v : Value,
      (∀ w, PlansKept w.dm (translateStruct w v).1.dm) ∧
      (∀ w cur i, PlansKept w.dm (nestedStep w cur i v).1.dm) ∧
      (∀ w, PlansKept w.dm (elemStep w v).1.dm)) ∧
    (∀ l : List Value,
      (∀ rt cfg i w cur, PlansKept w.dm (translateFields rt cfg i l w cur).1.dm) ∧
      (∀ w, PlansKept w.dm (translateSlice l w).1.dm)) := by
  apply Value.induction
  · intro s
    exact plansKept_leaf (Value.str s) rfl rfl (fun x h => by cases h)
  · intro s
    exact plansKept_leaf (Value.int s) rfl rfl (fun x h => by cases h)
  · intro s
    exact plansKept_leaf (Value.uint s) rfl rfl (fun x h => by cases h)
  · intro t r
    exact plansKept_leaf (Value.other t r) rfl rfl (fun x h => by cases h)
  · intro rt fs ih
    have hs : ∀ w, PlansKept w.dm (translateStruct w (Value.struct rt fs)).1.dm := by
      intro w
      rw [translateStruct_struct]
      exact plansKept_trans (getOrCreateConfig_plansKept w.dm rt)
        (ih.1 rt _ 0 ⟨(getOrCreateConfig w.dm rt).1, w.env⟩ fs)
    refine ⟨hs, ?_, ?_⟩
    · intro w cur i
      rw [nestedStep_struct _ _ _ (Value.struct rt fs) rfl]
      exact hs w
    · intro w
      rw [elemStep_struct _ (Value.struct rt fs) rfl]
      exact hs w
  · exact plansKept_leaf Value.nilPtr rfl rfl (fun x h => by cases h)
  · intro e ih
    refine ⟨fun w => by
      rw [translateStruct_not_struct w (Value.ptr e) rfl]; exact plansKept_refl _, ?_, ?_⟩
    · intro w cur i
      rw [nestedStep_ptr]
      split
      · exact ih.1 w
      · exact plansKept_refl _
    · intro w
      rw [elemStep_ptr]
      split
      · exact ih.1 w
      · exact plansKept_refl _
  · intro es ih
    refine ⟨fun w => by
      rw [translateStruct_not_struct w (Value.slice es) rfl]; exact plansKept_refl _, ?_, ?_⟩
    · intro w cur i
      rw [nestedStep_slice]
      exact ih.2 w
    · intro w
      rw [elemStep_skip w (Value.slice es) rfl (fun x h => by cases h)]
      exact plansKept_refl _
  · exact ⟨fun rt cfg i w cur => by rw [translateFields_nil]; exact plansKept_refl _,
      fun w => by rw [translateSlice_nil]; exact plansKept_refl _⟩
  · intro v vs ihv ihl
    constructor
    · intro rt cfg i w cur
      rw [translateFields_cons]
      cases hft : rt.fields[i]? with
      | none => exact plansKept_refl _
      | some ft =>
        simp only []
        split
        · exact ihl.1 rt cfg (i + 1) w cur
        · have h1 := ihv.2.1 w cur i
          split
          · exact h1
          · have h2 : PlansKept w.dm
                (translateTagged (nestedStep w cur i v).1 cfg i ft rt
                  (nestedStep w cur i v).2.1).1.dm := by
              rw [translateTagged_dm]; exact h1
            split
            · exact h2
            · exact plansKept_trans h2 (ihl.1 rt cfg (i + 1) _ _)
    · intro w
      rw [translateSlice_cons]
      have h1 := ihv.2.2 w
      split
      · exact h1
      · exact plansKept_trans h1 (ihl.2 _)

theorem Translate_plansKept (w : World) (v : Value) : PlansKept w.dm (Translate w v).1.dm := by
  unfold Translate
  simp only []
  split
  · split
    · exact traversal_plansKept.2 _ |>.2 w
    · exact (traversal_plansKept.1 _).1 w
    · exact plansKept_refl _
  · exact plansKept_refl _
  · exact plansKept_refl _

theorem apply_plansKept (w : World) (op : ManagerOp) : PlansKept w.dm (w.apply op).dm := by
  cases op with
  | registerDict name dict => exact plansKept_refl _
  | registerEnum name enum => exact plansKept_refl _
  | registerTranslator tagName translator => exact plansKept_refl _
  | registerUnWrapper unwrapper => exact plansKept_refl _
  | getOrCreateConfig rt => exact getOrCreateConfig_plansKept w.dm rt
  | translate v => exact Translate_plansKept w v

theorem applyAll_plansKept (ops : List ManagerOp) :
    ∀ w : World, PlansKept w.dm (w.applyAll ops).dm := by
  induction ops with
  | nil => intro w; exact plansKept_refl _
  | cons op rest ih =>
    intro w
    exact plansKept_trans (apply_plansKept w op) (ih (w.apply op))

/-- C29: the plan of a record type is built once per manager.  The first call
of `getOrCreateConfig` for a type that has no stored plan builds the plan from
the fields of the type and the translators registered at that time and stores
it; after any sequence of registrations of dictionaries, enum tables,
translators and unwrappers, of calls of `getOrCreateConfig` and of calls of
`Translate`, a call for that type returns the stored plan, entry for entry,
and leaves the manager as it is. -/
theorem getOrCreateConfig_once (w : World) (rt : StructType) (ops : List ManagerOp) :
    (w.dm.configCache.lookup rt = none →
      (getOrCreateConfig w.dm rt).2 = ⟨buildFields w.dm.translators 0 rt.fields⟩) ∧
    (getOrCreateConfig w.dm rt).1.configCache.lookup rt = some (getOrCreateConfig w.dm rt).2 ∧
    (getOrCreateConfig (World.applyAll ⟨(getOrCreateConfig w.dm rt).1, w.env⟩ ops).dm rt).2
      = (getOrCreateConfig w.dm rt).2 ∧
    (getOrCreateConfig (World.applyAll ⟨(getOrCreateConfig w.dm rt).1, w.env⟩ ops).dm rt).2.fields
      = (getOrCreateConfig w.dm rt).2.fields ∧
    (getOrCreateConfig (World.applyAll ⟨(getOrCreateConfig w.dm rt).1, w.env⟩ ops).dm rt).1
      = (World.applyAll ⟨(getOrCreateConfig w.dm rt).1, w.env⟩ ops).dm := by
  have hstored := getOrCreateConfig_lookup w.dm rt
  have hkept := applyAll_plansKept ops ⟨(getOrCreateConfig w.dm rt).1, w.env⟩ rt _ hstored
  have hlater : getOrCreateConfig (World.applyAll ⟨(getOrCreateConfig w.dm rt).1, w.env⟩ ops).dm rt
      = ((World.applyAll ⟨(getOrCreateConfig w.dm rt).1, w.env⟩ ops).dm,
          (getOrCreateConfig w.dm rt).2) := by
    unfold getOrCreateConfig at hkept ⊢
    rw [hkept]
  refine ⟨?_, hstored, ?_, ?_, ?_⟩
  · intro hnone
    unfold getOrCreateConfig
    rw [hnone]
  · rw [hlater]
  · rw [hlater]
  · rw [hlater]

/-! ## The memory cache -/

theorem lookup_mapDelete_eq {β : Type} (m : List (String × β)) (k : String) :
    (mapDelete m k).lookup k = none := by
  unfold mapDelete
  induction m with
  | nil => rfl
  | cons p ps ih =>
    obtain ⟨a, b⟩ := p
    by_cases hp : a = k
    · rw [List.filter_cons]
      simp only [hp, ne_eq, not_true_eq_false, decide_False, Bool.false_eq_true, if_false]
      exact ih
    · rw [List.filter_cons]
      simp only [hp, ne_eq, not_false_eq_true, decide_True, if_true, List.lookup]
      have hb : (k == a) = false := by simpa using Ne.symm hp
      rw [hb]
      exact ih

theorem lookup_mapDelete_ne {β : Type} (m : List (String × β)) (k k2 : String) (h : k2 ≠ k) :
    (mapDelete m k).lookup k2 = m.lookup k2 := by
  unfold mapDelete
  induction m with
  | nil => rfl
  | cons p ps ih =>
    obtain ⟨a, b⟩ := p
    by_cases hp : a = k
    · rw [List.filter_cons]
      simp only [hp, ne_eq, not_true_eq_false, decide_False, Bool.false_eq_true, if_false,
        List.lookup]
      have hb : (k2 == k) = false := by simpa using h
      rw [hb]
      exact ih
    · rw [List.filter_cons]
      simp only [hp, ne_eq, not_false_eq_true, decide_True, if_true, List.lookup]
      cases k2 == a
      · exact ih
      · rfl

theorem Get_of_absent (c : memoryCache) (now : Int) (k : String)
    (h : c.data.lookup k = none) : c.Get now k = ("", false) := by
  unfold memoryCache.Get
  rw [h]

theorem Set_data_lookup (c : memoryCache) (pick : Nat) (now : Int) (k v : String) (ttl : Int) :
    (c.Set pick now k v ttl).data.lookup k
      = some ⟨v, if ttl > 0 then some (now + wrapInt64 (ttl * 1000000000)) else none⟩ := by
  unfold memoryCache.Set
  simp only []
  exact lookup_mapSet_eq _ _ _

theorem apply_absent (c : memoryCache) (op : CacheOp) (k : String)
    (hop : op.sets k = false) (h : c.data.lookup k = none) :
    (c.apply op).data.lookup k = none := by
  cases op with
  | set pick now key value ttl =>
    have hne : k ≠ key := by
      intro e
      simp [CacheOp.sets, e] at hop
    show (c.Set pick now key value ttl).data.lookup k = none
    unfold memoryCache.Set
    simp only []
    rw [lookup_mapSet_ne _ _ _ _ hne]
    split
    · split
      · rename_i p hp
        by_cases hpk : k = p.1
        · rw [hpk]; exact lookup_mapDelete_eq _ _
        · rw [lookup_mapDelete_ne _ _ _ hpk]; exact h
      · exact h
    · exact h
  | delete key =>
    show (mapDelete c.data key).lookup k = none
    by_cases hk : k = key
    · rw [hk]; exact lookup_mapDelete_eq _ _
    · rw [lookup_mapDelete_ne _ _ _ hk]; exact h
  | clear => rfl

theorem applyAll_absent (ops : List CacheOp) (k : String) :
    ∀ c : memoryCache, (∀ op ∈ ops, op.sets k = false) → c.data.lookup k = none →
      (c.applyAll ops).data.lookup k = none := by
  induction ops with
  | nil => intro c _ h; exact h
  | cons op rest ih =>
    intro c hops h
    exact ih (c.apply op) (fun o ho => hops o (List.mem_cons_of_mem _ ho))
      (apply_absent c op k (hops op (List.mem_cons_self _ _)) h)

/-- C30: for a memory cache in any state, whatever its capacity and whichever
entry a full cache evicts: `Get k` after `Set k v 0` (or any `ttl` that is not
positive) returns `(v, true)` at every instant; `Get k` after `Delete k`
returns `("", false)`; `Get` of every key after `Clear` returns `("", false)`;
and `Get k` returns `("", false)` in a cache made by `NewMemoryCache` and
changed by any sequence of calls none of which is a `Set` of `k`. -/
theorem memoryCache_Get_laws (c : memoryCache) (pick : Nat) (now later : Int)
    (k v : String) (ttl : Int) (maxEntries : Int) (ops : List CacheOp)
    (httl : ttl ≤ 0) (hops : ∀ op ∈ ops, op.sets k = false) :
    (c.Set pick now k v 0).Get later k = (v, true) ∧
    (c.Set pick now k v ttl).Get later k = (v, true) ∧
    (c.Delete k).Get later k = ("", false) ∧
    c.Clear.Get later k = ("", false) ∧
    ((NewMemoryCache maxEntries).applyAll ops).Get later k = ("", false) := by
  refine ⟨?_, ?_, ?_, ?_, ?_⟩
  · unfold memoryCache.Get
    rw [Set_data_lookup]
    rfl
  · unfold memoryCache.Get
    rw [Set_data_lookup, if_neg (by omega)]
  · exact Get_of_absent _ _ _ (lookup_mapDelete_eq _ _)
  · rfl
  · exact Get_of_absent _ _ _ (applyAll_absent ops k _ hops rfl)

theorem memoryCache_Get_laws_witness :
    ((memoryCache.mk [("a", ⟨"1", none⟩)] 1).Set 0 5 "b" "2" 0).Get 9 "b" = ("2", true) ∧
    ((memoryCache.mk [("a", ⟨"1", none⟩)] 1).Delete "b").Get 9 "b" = ("", false) ∧
    ((NewMemoryCache 1).applyAll
      [CacheOp.set 0 1 "a" "1" 0, CacheOp.set 0 2 "c" "3" 60, CacheOp.delete "a"]).Get 9 "b"
      = ("", false) :=
  ⟨(memoryCache_Get_laws ⟨[("a", ⟨"1", none⟩)], 1⟩ 0 5 9 "b" "2" (-1) 1
      [CacheOp.set 0 1 "a" "1" 0, CacheOp.set 0 2 "c" "3" 60, CacheOp.delete "a"]
      (by decide) (by decide)).1,
   (memoryCache_Get_laws ⟨[("a", ⟨"1", none⟩)], 1⟩ 0 5 9 "b" "2" (-1) 1
      [CacheOp.set 0 1 "a" "1" 0, CacheOp.set 0 2 "c" "3" 60, CacheOp.delete "a"]
      (by decide) (by decide)).2.2.1,
   (memoryCache_Get_laws ⟨[("a", ⟨"1", none⟩)], 1⟩ 0 5 9 "b" "2" (-1) 1
      [CacheOp.set 0 1 "a" "1" 0, CacheOp.set 0 2 "c" "3" 60, CacheOp.delete "a"]
      (by decide) (by decide)).2.2.2.2⟩

/-! ## Capacity, expiry and updates of the memory cache -/

theorem Set_data_full (c : memoryCache) (pick : Nat) (now : Int) (key value : String) (ttl : Int)
    (p : String × cacheItem) (hfull : (c.data.length : Int) ≥ c.maxEntries)
    (hp : c.data[pick % c.data.length]? = some p) :
    (c.Set pick now key value ttl).data
      = mapSet (mapDelete c.data p.1) key ⟨value, expiryOf now ttl⟩ := by
  unfold memoryCache.Set expiryOf
  simp only [hfull, if_true, hp]

theorem Set_data_room (c : memoryCache) (pick : Nat) (now : Int) (key value : String) (ttl : Int)
    (hroom : (c.data.length : Int) < c.maxEntries) :
    (c.Set pick now key value ttl).data = mapSet c.data key ⟨value, expiryOf now ttl⟩ := by
  unfold memoryCache.Set expiryOf
  rw [if_neg (by omega)]

theorem wrapInt64_of_range (x : Int) (h1 : -(2 ^ 63) ≤ x) (h2 : x < 2 ^ 63) : wrapInt64 x = x := by
  unfold wrapInt64
  rw [Int.emod_eq_of_lt (by omega) (by omega)]
  omega

theorem Get_after_Set (c : memoryCache) (pick : Nat) (t0 t : Int) (k v : String) (ttl : Int) :
    (c.Set pick t0 k v ttl).Get t k =
      match expiryOf t0 ttl with
      | some expiresAt => if t > expiresAt then ("", false) else (v, true)
      | none => (v, true) := by
  unfold memoryCache.Get
  rw [Set_data_lookup]
  rfl

/-- C32, with the clock as an instant in nanoseconds: an entry stored by
`Set k v ttl` at the instant `t0` with a positive `ttl` of at most 9223372036
seconds (so that the duration fits `int64` nanoseconds) is returned by `Get` at
every instant up to `t0` plus `ttl` seconds and reported absent at every later
instant; an entry stored with a `ttl` that is not positive is returned at every
instant.  For the `ttl` of 9223372037 seconds the duration wraps around to a
negative number and the entry is reported absent at the very instant it was
stored. -/
theorem memoryCache_expiry (c : memoryCache) (pick : Nat) (t0 t : Int) (k v : String)
    (ttl : Int) :
    (0 < ttl → ttl ≤ 9223372036 →
      (t ≤ t0 + ttl * 1000000000 → (c.Set pick t0 k v ttl).Get t k = (v, true)) ∧
      (t > t0 + ttl * 1000000000 → (c.Set pick t0 k v ttl).Get t k = ("", false))) ∧
    (ttl ≤ 0 → (c.Set pick t0 k v ttl).Get t k = (v, true)) ∧
    (c.Set pick t0 k v 9223372037).Get t0 k = ("", false) := by
  refine ⟨?_, ?_, ?_⟩
  · intro hpos hle
    have hw : wrapInt64 (ttl * 1000000000) = ttl * 1000000000 :=
      wrapInt64_of_range _ (by omega) (by omega)
    have he : expiryOf t0 ttl = some (t0 + ttl * 1000000000) := by
      unfold expiryOf
      rw [if_pos hpos, hw]
    rw [Get_after_Set, he]
    constructor
    · intro h
      simp only []
      rw [if_neg (by omega)]
    · intro h
      simp only []
      rw [if_pos h]
  · intro hle
    have he : expiryOf t0 ttl = none := by
      unfold expiryOf
      rw [if_neg (by omega)]
    rw [Get_after_Set, he]
  · have he : expiryOf t0 9223372037 = some (t0 + (-9223372036709551616)) := by
      unfold expiryOf
      rw [if_pos (by decide)]
      rfl
    rw [Get_after_Set, he]
    simp only []
    rw [if_pos (by omega)]

theorem memoryCache_expiry_witness :
    ((NewMemoryCache 10).Set 0 1000000000 "k" "v" 60).Get 61000000000 "k" = ("v", true) ∧
    ((NewMemoryCache 10).Set 0 1000000000 "k" "v" 60).Get 61000000001 "k" = ("", false) ∧
    ((NewMemoryCache 10).Set 0 1000000000 "k" "v" (-5)).Get 61000000001 "k" = ("v", true) :=
  ⟨((memoryCache_expiry (NewMemoryCache 10) 0 1000000000 61000000000 "k" "v" 60).1
      (by decide) (by decide)).1 (by decide),
   ((memoryCache_expiry (NewMemoryCache 10) 0 1000000000 61000000001 "k" "v" 60).1
      (by decide) (by decide)).2 (by decide),
   (memoryCache_expiry (NewMemoryCache 10) 0 1000000000 61000000001 "k" "v" (-5)).2.1
      (by decide)⟩

/-- C40 (amended): a `Set` of a key in a cache that holds fewer entries than
its capacity leaves every other stored key with its entry; in a cache that
holds as many entries as its capacity or more, `Set` first evicts the picked
entry, also when the key it assigns is already stored, so every other stored
key keeps its entry unless it is the evicted one, which is gone. -/
theorem memoryCache_Set_others (c : memoryCache) (pick : Nat) (now : Int) (k v : String)
    (ttl : Int) (k2 : String) (item : cacheItem)
    (hne : k2 ≠ k) (hk2 : c.data.lookup k2 = some item) :
    ((c.data.length : Int) < c.maxEntries →
      (c.Set pick now k v ttl).data.lookup k2 = some item) ∧
    (∀ p, (c.data.length : Int) ≥ c.maxEntries → c.data[pick % c.data.length]? = some p →
      (p.1 ≠ k2 → (c.Set pick now k v ttl).data.lookup k2 = some item) ∧
      (p.1 = k2 → (c.Set pick now k v ttl).data.lookup k2 = none)) := by
  constructor
  · intro hroom
    rw [Set_data_room c pick now k v ttl hroom, lookup_mapSet_ne _ _ _ _ hne]
    exact hk2
  · intro p hfull hp
    rw [Set_data_full c pick now k v ttl p hfull hp, lookup_mapSet_ne _ _ _ _ hne]
    constructor
    · intro hpk
      rw [lookup_mapDelete_ne _ _ _ (Ne.symm hpk)]
      exact hk2
    · intro hpk
      rw [hpk]
      exact lookup_mapDelete_eq _ _

theorem memoryCache_Set_others_witness :
    ((memoryCache.mk [("a", ⟨"1", none⟩), ("b", ⟨"2", none⟩)] 3).Set 1 0 "a" "9" 0).data.lookup "b"
      = some ⟨"2", none⟩ :=
  (memoryCache_Set_others ⟨[("a", ⟨"1", none⟩), ("b", ⟨"2", none⟩)], 3⟩ 1 0 "a" "9" 0 "b"
    ⟨"2", none⟩ (by decide) rfl).1 (by decide)

/-- C40 as stated fails in a full cache: with the capacity 2 and the keys `a`
and `b` stored, `Set` of the stored key `a` evicts `b` when the iteration over
the map yields `b` first, so `b` is no longer stored. -/
theorem memoryCache_Set_evicts_counterexample :
    (memoryCache.mk [("a", ⟨"1", none⟩), ("b", ⟨"2", none⟩)] 2).Get 0 "a" = ("1", true) ∧
    (memoryCache.mk [("a", ⟨"1", none⟩), ("b", ⟨"2", none⟩)] 2).Get 0 "b" = ("2", true) ∧
    ((memoryCache.mk [("a", ⟨"1", none⟩), ("b", ⟨"2", none⟩)] 2).Set 1 0 "a" "9" 0).Get 0 "b"
      = ("", false) ∧
    ((memoryCache.mk [("a", ⟨"1", none⟩), ("b", ⟨"2", none⟩)] 2).Set 1 0 "a" "9" 0).Get 0 "a"
      = ("9", true) := by
  decide

/-! ## The query of a table configuration -/

/-- C33: for every table configuration, `BuildQueryWithKey` returns the head
`SELECT <ValueField> FROM <TableName> WHERE ` followed by the conditions
`<TypeField> = ?`, `<KeyField> = ?` and `<FieldName of the status> = ?` for
exactly those of type field, key field and status configuration that are set,
in that order and joined by ` AND `, and as arguments the values `dictType`,
`dictKey` and the enabled value of the status in the same order. -/
theorem BuildQueryWithKey_described (tc : TableConfig) (dictType dictKey : String) :
    tc.BuildQueryWithKey dictType dictKey = tc.describedQuery dictType dictKey ∧
    (tc.StatusField = none →
      (tc.BuildQueryWithKey dictType dictKey).2
        = (if tc.Fields.TypeField ≠ "" then [dictType] else []) ++
          (if tc.Fields.KeyField ≠ "" then [dictKey] else [])) := by
  obtain ⟨name, ⟨tf, kf, vf⟩, st, sort⟩ := tc
  have key : TableConfig.BuildQueryWithKey ⟨name, ⟨tf, kf, vf⟩, st, sort⟩ dictType dictKey
      = TableConfig.describedQuery ⟨name, ⟨tf, kf, vf⟩, st, sort⟩ dictType dictKey := by
    unfold TableConfig.BuildQueryWithKey TableConfig.describedQuery TableConfig.conditions
    by_cases h1 : tf = "" <;> by_cases h2 : kf = "" <;> cases st <;>
      simp [h1, h2, String.intercalate, String.intercalate.go, String.append_assoc]
  refine ⟨key, ?_⟩
  intro hst
  rw [key]
  simp only at hst
  subst hst
  unfold TableConfig.describedQuery TableConfig.conditions
  by_cases h1 : tf = "" <;> by_cases h2 : kf = "" <;> simp [h1, h2]

/-! ## Unwrappers -/

theorem Translate_eq_translatePayload (w : World) (v : Value) :
    Translate w v = translatePayload w ((tryUnwrap w.dm v).getD v) := rfl

theorem tryUnwrap_first (us : List UnWrapper) (v : Value) :
    ∀ (pre : List UnWrapper) (u : UnWrapper) (post : List UnWrapper) (payload : Value),
      us = pre ++ u :: post → (∀ u2 ∈ pre, UnWrapper.declines u2 v = true) →
      u v = Except.ok (some payload) →
      us.findSome? (fun unwrapper =>
        match unwrapper v with
        | .ok (some result) => some result
        | _ => none) = some payload := by
  intro pre
  induction pre generalizing us with
  | nil =>
    intro u post payload hus _ hu
    subst hus
    simp [List.findSome?, hu]
  | cons a rest ih =>
    intro u post payload hus hpre hu
    subst hus
    have ha := hpre a (List.mem_cons_self _ _)
    have hnone : (match a v with
        | .ok (some result) => some result
        | _ => none) = none := by
      unfold UnWrapper.declines at ha
      cases hav : a v with
      | error e => rfl
      | ok r =>
        cases r with
        | none => rfl
        | some x => rw [hav] at ha; simp at ha
    simp only [List.cons_append, List.findSome?, hnone]
    exact ih (rest ++ u :: post) u post payload rfl
      (fun u2 h2 => hpre u2 (List.mem_cons_of_mem _ h2)) hu

theorem tryUnwrap_none (us : List UnWrapper) (v : Value)
    (h : ∀ u ∈ us, UnWrapper.declines u v = true) :
    us.findSome? (fun unwrapper =>
      match unwrapper v with
      | .ok (some result) => some result
      | _ => none) = none := by
  induction us with
  | nil => rfl
  | cons a rest ih =>
    have ha := h a (List.mem_cons_self _ _)
    have hnone : (match a v with
        | .ok (some result) => some result
        | _ => none) = none := by
      unfold UnWrapper.declines at ha
      cases hav : a v with
      | error e => rfl
      | ok r =>
        cases r with
        | none => rfl
        | some x => rw [hav] at ha; simp at ha
    simp only [List.findSome?, hnone]
    exact ih (fun u hu => h u (List.mem_cons_of_mem _ hu))

/-- C34: `RegisterUnWrapper` appends to the list of unwrappers, and `Translate`
goes on with the payload of the first unwrapper in that list that returns a
payload which is not nil and no error: every unwrapper before it returned an
error or a nil payload, and what the unwrappers after it would return does not
matter.  A pointer to a sequence as payload has its elements translated by
`translateSlice`.  When every unwrapper returns an error or a nil payload,
`Translate` goes on with the argument itself. -/
theorem Translate_unwraps_first (w : World) (v : Value) (u0 : UnWrapper) :
    (RegisterUnWrapper w.dm u0).unwrappers = w.dm.unwrappers ++ [u0] ∧
    (∀ (pre : List UnWrapper) (u : UnWrapper) (post : List UnWrapper) (payload : Value),
      w.dm.unwrappers = pre ++ u :: post → (∀ u2 ∈ pre, UnWrapper.declines u2 v = true) →
      u v = Except.ok (some payload) →
      tryUnwrap w.dm v = some payload ∧ Translate w v = translatePayload w payload) ∧
    ((∀ u ∈ w.dm.unwrappers, UnWrapper.declines u v = true) →
      tryUnwrap w.dm v = none ∧ Translate w v = translatePayload w v) ∧
    (∀ es, translatePayload w (Value.ptr (Value.slice es))
      = ((translateSlice es w).1, Value.ptr (Value.slice (translateSlice es w).2.1),
          (translateSlice es w).2.2)) := by
  refine ⟨rfl, ?_, ?_, fun _ => rfl⟩
  · intro pre u post payload hus hpre hu
    have h := tryUnwrap_first w.dm.unwrappers v pre u post payload hus hpre hu
    have h2 : tryUnwrap w.dm v = some payload := h
    refine ⟨h2, ?_⟩
    rw [Translate_eq_translatePayload, h2]
    rfl
  · intro hall
    have h2 : tryUnwrap w.dm v = none := tryUnwrap_none w.dm.unwrappers v hall
    refine ⟨h2, ?_⟩
    rw [Translate_eq_translatePayload, h2]
    rfl

theorem Translate_unwraps_first_witness :
    (Translate
      ⟨RegisterUnWrapper (RegisterUnWrapper (statusWorld [("1", "启用"), ("0", "禁用")]).dm
          failingUnWrapper) pageUnWrapper, Env.init⟩
      (Value.ptr (Value.struct pageType [Value.slice
        [Value.struct statusItemType [Value.str "1", Value.str ""],
         Value.struct statusItemType [Value.str "0", Value.str ""]]]))).2
      = (Value.ptr (Value.slice
          [Value.struct statusItemType [Value.str "1", Value.str "启用"],
           Value.struct statusItemType [Value.str "0", Value.str "禁用"]]), none) ∧
    (Translate
      ⟨RegisterUnWrapper (RegisterUnWrapper (statusWorld [("1", "启用"), ("0", "禁用")]).dm
          failingUnWrapper) pageUnWrapper, Env.init⟩
      (Value.ptr (Value.struct statusItemType [Value.str "1", Value.str ""]))).2
      = (Value.ptr (Value.struct statusItemType [Value.str "1", Value.str "启用"]), none) :=
  ⟨(congrArg Prod.snd
      (((Translate_unwraps_first
        ⟨RegisterUnWrapper (RegisterUnWrapper (statusWorld [("1", "启用"), ("0", "禁用")]).dm
            failingUnWrapper) pageUnWrapper, Env.init⟩
        (Value.ptr (Value.struct pageType [Value.slice
          [Value.struct statusItemType [Value.str "1", Value.str ""],
           Value.struct statusItemType [Value.str "0", Value.str ""]]]))
        pageUnWrapper).2.1 [failingUnWrapper] pageUnWrapper []
        (Value.ptr (Value.slice
          [Value.struct statusItemType [Value.str "1", Value.str ""],
           Value.struct statusItemType [Value.str "0", Value.str ""]]))
        rfl (by intro u2 h2; simp only [List.mem_singleton] at h2; subst h2; rfl) rfl).2)).trans
      rfl,
   (congrArg Prod.snd
      (((Translate_unwraps_first
        ⟨RegisterUnWrapper (RegisterUnWrapper (statusWorld [("1", "启用"), ("0", "禁用")]).dm
            failingUnWrapper) pageUnWrapper, Env.init⟩
        (Value.ptr (Value.struct statusItemType [Value.str "1", Value.str ""]))
        pageUnWrapper).2.2.1
        (by
          intro u h
          simp only [RegisterUnWrapper, statusWorld, RegisterDict, DictManager.init,
            List.nil_append, List.cons_append, List.mem_cons, List.mem_singleton,
            List.mem_nil_iff, or_false] at h
          rcases h with h | h <;> subst h <;> rfl)).2)).trans rfl⟩

/-! ## The parallel threshold of `TranslateBatch` -/

theorem chunkRanges_eq_none_iff (n : Nat) : chunkRanges n = none ↔ n = 0 := by
  constructor
  · intro h
    by_contra hn
    rw [chunkRanges_eq n (by omega)] at h
    simp at h
  · intro h
    subst h
    rfl

theorem batchTranslateParallel_eq_none_iff (sched : List Nat) (pickDone : Bool) (w : World)
    (es : List Value) : batchTranslateParallel sched pickDone w es = none ↔ es = [] := by
  unfold batchTranslateParallel
  cases h : chunkRanges es.length with
  | none =>
    simp only [true_iff]
    exact List.length_eq_zero.mp ((chunkRanges_eq_none_iff _).mp h)
  | some chunks =>
    constructor
    · intro h2
      simp at h2
    · intro he
      have := (chunkRanges_eq_none_iff es.length).mpr (by rw [he]; rfl)
      rw [this] at h
      simp at h

/-- C35 (refuted for thresholds below 1): `TranslateBatch` on a pointer to a
sequence ends in the division by a worker count of zero (here: returns `none`)
exactly when the parallel path is enabled (nil options, or `Parallel` set), the
sequence is empty and the configured `ParallelThreshold` is zero or negative.
With a threshold of at least 1, as in the default configuration, the call on
an empty sequence returns success and leaves everything as it was. -/
theorem TranslateBatch_division_by_zero (sched : List Nat) (pickDone : Bool)
    (config : PerformanceConfig) (w : World) (es : List Value)
    (options : Option BatchOptions) :
    (TranslateBatch sched pickDone config w (Value.ptr (Value.slice es)) options = none ↔
      (options.getD ⟨true, true, 0⟩).Parallel = true ∧ es = [] ∧
        config.ParallelThreshold ≤ 0) ∧
    (1 ≤ config.ParallelThreshold →
      TranslateBatch sched pickDone config w (Value.ptr (Value.slice [])) options
        = some (w, Value.ptr (Value.slice []), none)) ∧
    TranslateBatch sched pickDone ⟨10, 0, 10, 10⟩ w (Value.ptr (Value.slice [])) none = none ∧
    TranslateBatch sched pickDone defaultPerformanceConfig w (Value.ptr (Value.slice [])) none
      = some (w, Value.ptr (Value.slice []), none) := by
  have hopt : (match options with
      | none => (⟨true, true, 0⟩ : BatchOptions)
      | some o => o) = options.getD ⟨true, true, 0⟩ := by
    cases options <;> rfl
  refine ⟨?_, ?_, rfl, ?_⟩
  · unfold TranslateBatch
    simp only [hopt]
    by_cases hp : (options.getD ⟨true, true, 0⟩).Parallel = true
    · by_cases ht : (es.length : Int) ≥ config.ParallelThreshold
      · rw [if_pos (by simp [hp, ht])]
        rw [Option.map_eq_none', batchTranslateParallel_eq_none_iff]
        constructor
        · intro he
          subst he
          exact ⟨hp, rfl, by simpa using ht⟩
        · intro h
          exact h.2.1
      · rw [if_neg (by simp [hp, ht])]
        constructor
        · intro h2
          simp at h2
        · intro h
          exfalso
          apply ht
          rw [h.2.1]
          simpa using h.2.2
    · rw [if_neg (by simp [hp])]
      constructor
      · intro h2
        simp at h2
      · intro h
        exact absurd h.1 hp
  · intro ht
    unfold TranslateBatch
    simp only [hopt]
    rw [if_neg (by simp; intro _; omega)]
    simp only [translateSlice_nil]
  · unfold TranslateBatch defaultPerformanceConfig
    simp only [translateSlice_nil]
    rfl

/-! ## The cache keys of the database flavoured backends -/

theorem append_colon_inj (a : List Char) :
    ∀ (a2 r r2 : List Char), ':' ∉ a → ':' ∉ a2 → a ++ ':' :: r = a2 ++ ':' :: r2 →
      a = a2 ∧ r = r2 := by
  induction a with
  | nil =>
    intro a2 r r2 _ ha2 h
    cases a2 with
    | nil => simp at h; exact ⟨rfl, h⟩
    | cons c cs =>
      simp at h
      exact absurd (h.1 ▸ List.mem_cons_self _ _) ha2
  | cons x xs ih =>
    intro a2 r r2 ha ha2 h
    cases a2 with
    | nil =>
      simp at h
      exact absurd (h.1 ▸ List.mem_cons_self _ _) ha
    | cons c cs =>
      simp only [List.cons_append, List.cons.injEq] at h
      have := ih cs r r2 (fun hm => ha (List.mem_cons_of_mem _ hm))
        (fun hm => ha2 (List.mem_cons_of_mem _ hm)) h.2
      exact ⟨by rw [h.1, this.1], this.2⟩

theorem string_colon_inj (a a2 r r2 : String) (ha : ':' ∉ a.data) (ha2 : ':' ∉ a2.data)
    (h : a ++ ":" ++ r = a2 ++ ":" ++ r2) : a = a2 ∧ r = r2 := by
  have hd := congrArg String.data h
  simp only [String.data_append] at hd
  rw [List.append_assoc, List.append_assoc] at hd
  have := append_colon_inj a.data a2.data r.data r2.data ha ha2 hd
  exact ⟨String.ext this.1, String.ext this.2⟩

/-- C36 (refuted): the cache keys join their parts with a colon and render the
source value with `%v`, so they are injective only while the parts before the
source value hold no colon, and only up to the rendering of the source value.
Two different type codes with two different source values give the same key
(`a:b` with `c`, `a` with `b:c`), two `db` tags in the written-out form
likewise, and the number 1 and the string `1` under one `db` tag as well.  In
each case the second lookup is served the label cached by the first, though its
own query answers with another label. -/
theorem cacheKey_not_injective :
    (∀ (t1 k1 f1 t2 k2 f2 : String) (v1 v2 : Value),
      ':' ∉ t1.data → ':' ∉ k1.data → ':' ∉ f1.data →
      ':' ∉ t2.data → ':' ∉ k2.data → ':' ∉ f2.data →
      Translator.cacheKey (.db t1 k1 f1) v1 = Translator.cacheKey (.db t2 k2 f2) v2 →
      t1 = t2 ∧ k1 = k2 ∧ f1 = f2 ∧ fmtV v1 = fmtV v2) ∧
    (∀ (t1 t2 : String) (v1 v2 : Value), ':' ∉ t1.data → ':' ∉ t2.data →
      (Translator.cacheKey (.dictTable t1) v1 = Translator.cacheKey (.dictTable t2) v2 ∨
       Translator.cacheKey (.dictTableTwo t1) v1 = Translator.cacheKey (.dictTableTwo t2) v2) →
      t1 = t2 ∧ fmtV v1 = fmtV v2) ∧
    Translator.cacheKey (.dictTable "a:b") (Value.str "c")
      = Translator.cacheKey (.dictTable "a") (Value.str "b:c") ∧
    Translator.cacheKey (.dictTableTwo "a:b") (Value.str "c")
      = Translator.cacheKey (.dictTableTwo "a") (Value.str "b:c") ∧
    parseDBTag "table=a:b,key=c,value=d" = some (.db "a:b" "c" "d") ∧
    parseDBTag "table=a,key=b:c,value=d" = some (.db "a" "b:c" "d") ∧
    Translator.cacheKey (.db "a:b" "c" "d") (Value.str "1")
      = Translator.cacheKey (.db "a" "b:c" "d") (Value.str "1") ∧
    Translator.cacheKey (.db "user" "id" "name") (Value.int 1)
      = Translator.cacheKey (.db "user" "id" "name") (Value.str "1") ∧
    (Translate collisionWorld
        (Value.ptr (Value.struct plainTypeRecord [Value.str "b:c", Value.str ""]))).2
      = (Value.ptr (Value.struct plainTypeRecord [Value.str "b:c", Value.str "a/b:c"]), none) ∧
    (Translate
        (Translate collisionWorld
          (Value.ptr (Value.struct colonTypeRecord [Value.str "c", Value.str ""]))).1
        (Value.ptr (Value.struct plainTypeRecord [Value.str "b:c", Value.str ""]))).2
      = (Value.ptr (Value.struct plainTypeRecord [Value.str "b:c", Value.str "a:b/c"]), none) ∧
    (Translate collisionWorld
        (Value.ptr (Value.struct userRefRecord [Value.str "1", Value.str ""]))).2
      = (Value.ptr (Value.struct userRefRecord [Value.str "1", Value.str "text"]), none) ∧
    (Translate
        (Translate collisionWorld
          (Value.ptr (Value.struct userRefRecord [Value.int 1, Value.str ""]))).1
        (Value.ptr (Value.struct userRefRecord [Value.str "1", Value.str ""]))).2
      = (Value.ptr (Value.struct userRefRecord [Value.str "1", Value.str "number"]), none) := by
  refine ⟨?_, ?_, rfl, rfl, rfl, rfl, rfl, rfl, rfl, rfl, rfl, rfl⟩
  · intro t1 k1 f1 t2 k2 f2 v1 v2 h1 h2 h3 h4 h5 h6 h
    simp only [Translator.cacheKey] at h
    have e1 := string_colon_inj t1 t2 (k1 ++ ":" ++ f1 ++ ":" ++ fmtV v1)
      (k2 ++ ":" ++ f2 ++ ":" ++ fmtV v2) h1 h4 (by simpa only [String.append_assoc] using h)
    have e2 := string_colon_inj k1 k2 (f1 ++ ":" ++ fmtV v1) (f2 ++ ":" ++ fmtV v2) h2 h5
      (by simpa only [String.append_assoc] using e1.2)
    have e3 := string_colon_inj f1 f2 (fmtV v1) (fmtV v2) h3 h6 e2.2
    exact ⟨e1.1, e2.1, e3.1, e3.2⟩
  · intro t1 t2 v1 v2 h1 h2 h
    simp only [Translator.cacheKey] at h
    rcases h with h | h <;> exact string_colon_inj t1 t2 _ _ h1 h2 h

/-! ## Tags that cannot be resolved -/

theorem planField_unregistered (trs : List (String × Option Translator)) (i : Nat)
    (f : StructField) (htr : f.tagGet "translate" ≠ "")
    (hnone : trs.lookup ((split (f.tagGet "translate") ',').headD "") = none) :
    (planField trs i f).translator = none ∧ (planField trs i f).translatorTag = "" := by
  unfold planField
  simp only [htr, ne_eq, not_false_eq_true, if_true, hnone]
  trivial

/-- C37: let the plan of a record type be built with the translators `trs`.
A field whose `translate` tag names a translator that is not among `trs`, or
that has no `translate` tag and a `db` tag from which `parseDBTag` gets no
translator, has no entry in the plan, whatever other tags it carries; and
`Translate` on a flat record whose only tagged field is that field returns no
error and leaves the record unchanged. -/
theorem Translate_unresolved_tag (w : World) (rt : StructType) (fs : List Value) (i : Nat)
    (ft : StructField) (kv : Value) (trs : List (String × Option Translator))
    (hu : tryUnwrap w.dm (Value.ptr (Value.struct rt fs)) = none)
    (hcfg : (getOrCreateConfig w.dm rt).2 = ⟨buildFields trs 0 rt.fields⟩)
    (hshape : flatSingle rt fs i = true)
    (hft : rt.fields[i]? = some ft) (hval : fs[i]? = some kv)
    (hunres :
      (ft.tagGet "translate" ≠ "" ∧
        trs.lookup ((split (ft.tagGet "translate") ',').headD "") = none) ∨
      (ft.tagGet "translate" = "" ∧ ft.tagGet "db" ≠ "" ∧
        parseDBTag (ft.tagGet "db") = none)) :
    (∀ c ∈ buildFields trs 0 rt.fields, c.fieldIndex ≠ i) ∧
    Translate w (Value.ptr (Value.struct rt fs))
      = (⟨(getOrCreateConfig w.dm rt).1, w.env⟩, Value.ptr (Value.struct rt fs), none) := by
  have hpf : (planField trs i ft).translator = none ∧ (planField trs i ft).translatorTag = "" := by
    rcases hunres with ⟨h1, h2⟩ | ⟨h1, h2, h3⟩
    · exact planField_unregistered trs i ft h1 h2
    · exact planField_incomplete_db trs i ft h1 h2 h3
  refine ⟨?_, ?_⟩
  · intro c hc hidx
    rw [mem_buildFields] at hc
    obtain ⟨idx, g, h1, h2, h3⟩ := hc
    rw [h2, planField_fieldIndex] at hidx
    simp only [Nat.zero_add] at hidx h3
    subst hidx
    rw [hft] at h1
    cases h1
    rw [hpf.1, hpf.2] at h3
    simp at h3
  · rw [Translate_flatSingle_trs w rt fs i ft kv trs hu hcfg hshape hft hval, hpf.1, hpf.2]
    simp

theorem Translate_unresolved_tag_witness :
    ((∀ c ∈ buildFields dictEnumWorld.dm.translators 0
        (taggedStatusType [("translate", "missing"), ("enum", "status"), ("dict", "status"),
          ("dictField", "StatusName")]).fields, c.fieldIndex ≠ 0) ∧
     Translate dictEnumWorld (Value.ptr (Value.struct
        (taggedStatusType [("translate", "missing"), ("enum", "status"), ("dict", "status"),
          ("dictField", "StatusName")]) [Value.str "1", Value.str ""]))
      = (⟨(getOrCreateConfig dictEnumWorld.dm
            (taggedStatusType [("translate", "missing"), ("enum", "status"), ("dict", "status"),
              ("dictField", "StatusName")])).1, dictEnumWorld.env⟩,
          Value.ptr (Value.struct
            (taggedStatusType [("translate", "missing"), ("enum", "status"), ("dict", "status"),
              ("dictField", "StatusName")]) [Value.str "1", Value.str ""]), none)) ∧
    ((∀ c ∈ buildFields dictEnumWorld.dm.translators 0
        (taggedStatusType [("db", "user:id"), ("enum", "status"), ("dict", "status"),
          ("dictField", "StatusName")]).fields, c.fieldIndex ≠ 0) ∧
     Translate dictEnumWorld (Value.ptr (Value.struct
        (taggedStatusType [("db", "user:id"), ("enum", "status"), ("dict", "status"),
          ("dictField", "StatusName")]) [Value.str "1", Value.str ""]))
      = (⟨(getOrCreateConfig dictEnumWorld.dm
            (taggedStatusType [("db", "user:id"), ("enum", "status"), ("dict", "status"),
              ("dictField", "StatusName")])).1, dictEnumWorld.env⟩,
          Value.ptr (Value.struct
            (taggedStatusType [("db", "user:id"), ("enum", "status"), ("dict", "status"),
              ("dictField", "StatusName")]) [Value.str "1", Value.str ""]), none)) ∧
    (Translate dictEnumWorld (Value.ptr (Value.struct
        (taggedStatusType [("enum", "status"), ("dict", "status"), ("dictField", "StatusName")])
        [Value.str "1", Value.str ""]))).2
      = (Value.ptr (Value.struct
          (taggedStatusType [("enum", "status"), ("dict", "status"), ("dictField", "StatusName")])
          [Value.str "1", Value.str "在线"]), none) :=
  ⟨Translate_unresolved_tag dictEnumWorld
      (taggedStatusType [("translate", "missing"), ("enum", "status"), ("dict", "status"),
        ("dictField", "StatusName")]) [Value.str "1", Value.str ""] 0
      ⟨"Status", true, [("translate", "missing"), ("enum", "status"), ("dict", "status"),
        ("dictField", "StatusName")]⟩ (Value.str "1") dictEnumWorld.dm.translators
      rfl rfl (by decide) rfl rfl (Or.inl ⟨by decide, rfl⟩),
   Translate_unresolved_tag dictEnumWorld
      (taggedStatusType [("db", "user:id"), ("enum", "status"), ("dict", "status"),
        ("dictField", "StatusName")]) [Value.str "1", Value.str ""] 0
      ⟨"Status", true, [("db", "user:id"), ("enum", "status"), ("dict", "status"),
        ("dictField", "StatusName")]⟩ (Value.str "1") dictEnumWorld.dm.translators
      rfl rfl (by decide) rfl rfl (Or.inr ⟨by decide, by decide, rfl⟩),
   rfl⟩

/-! ## The frame of a translation -/

theorem Frame_struct (rt : StructType) (fs : List Value) (v2 : Value) :
    Frame (Value.struct rt fs) v2 ↔ ∃ fs2, v2 = Value.struct rt fs2 ∧ FrameFields rt 0 fs fs2 := by
  simp only [Frame]

theorem Frame_ptr (e v2 : Value) :
    Frame (Value.ptr e) v2 ↔ ∃ e2, v2 = Value.ptr e2 ∧ Frame e e2 := by
  simp only [Frame]

theorem Frame_slice (es : List Value) (v2 : Value) :
    Frame (Value.slice es) v2 ↔ ∃ es2, v2 = Value.slice es2 ∧ FrameElems es es2 := by
  simp only [Frame]

theorem Frame_leaf (v v2 : Value) (h1 : v.isStruct = false) (h2 : v.isPtr = false ∨ v = Value.nilPtr)
    (h3 : v.isSlice = false) : Frame v v2 ↔ v2 = v := by
  cases v with
  | struct rt fs => simp [Value.isStruct] at h1
  | slice es => simp [Value.isSlice] at h3
  | ptr e =>
    rcases h2 with h | h
    · simp [Value.isPtr] at h
    · cases h
  | _ => simp only [Frame]

theorem FrameFields_nil (rt : StructType) (i : Nat) (vs2 : List Value) :
    FrameFields rt i [] vs2 ↔ vs2 = [] := by
  simp only [FrameFields]

theorem FrameFields_cons (rt : StructType) (i : Nat) (v : Value) (vs vs2 : List Value) :
    FrameFields rt i (v :: vs) vs2 ↔
      ∃ v2 rest2, vs2 = v2 :: rest2 ∧ FieldRel rt i v v2 ∧ FrameFields rt (i + 1) vs rest2 := by
  simp only [FrameFields, FieldRel]

theorem FrameElems_nil (vs2 : List Value) : FrameElems [] vs2 ↔ vs2 = [] := by
  simp only [FrameElems]

theorem FrameElems_cons (v : Value) (vs vs2 : List Value) :
    FrameElems (v :: vs) vs2 ↔
      ∃ v2 rest2, vs2 = v2 :: rest2 ∧ Frame v v2 ∧ FrameElems vs rest2 := by
  simp only [FrameElems]

theorem FrameFields_iff (rt : StructType) :
    ∀ (vs : List Value) (i : Nat) (vs2 : List Value),
      FrameFields rt i vs vs2 ↔
        vs2.length = vs.length ∧
        ∀ (k : Nat) (v v2 : Value), vs[k]? = some v → vs2[k]? = some v2 →
          FieldRel rt (i + k) v v2 := by
  intro vs
  induction vs with
  | nil =>
    intro i vs2
    rw [FrameFields_nil]
    constructor
    · intro h
      subst h
      exact ⟨rfl, fun k v v2 h => by simp at h⟩
    · intro h
      exact List.length_eq_zero.mp h.1
  | cons v vs ih =>
    intro i vs2
    rw [FrameFields_cons]
    constructor
    · rintro ⟨v2, rest2, rfl, h1, h2⟩
      rw [ih] at h2
      refine ⟨by simp [h2.1], ?_⟩
      intro k x x2 hx hx2
      cases k with
      | zero =>
        simp only [List.getElem?_cons_zero, Option.some.injEq] at hx hx2
        subst hx; subst hx2
        exact h1
      | succ k =>
        simp only [List.getElem?_cons_succ] at hx hx2
        have := h2.2 k x x2 hx hx2
        rwa [Nat.add_assoc, Nat.add_comm 1 k] at this
    · rintro ⟨hlen, h⟩
      cases vs2 with
      | nil => simp at hlen
      | cons v2 rest2 =>
        refine ⟨v2, rest2, rfl, ?_, ?_⟩
        · exact h 0 v v2 (by rw [List.getElem?_cons_zero]) (by rw [List.getElem?_cons_zero])
        · rw [ih]
          refine ⟨by simpa using hlen, ?_⟩
          intro k x x2 hx hx2
          have := h (k + 1) x x2 (by rw [List.getElem?_cons_succ]; exact hx)
            (by rw [List.getElem?_cons_succ]; exact hx2)
          rwa [Nat.add_assoc, Nat.add_comm 1 k]

theorem FrameElems_iff :
    ∀ (vs vs2 : List Value),
      FrameElems vs vs2 ↔
        vs2.length = vs.length ∧
        ∀ (k : Nat) (v v2 : Value), vs[k]? = some v → vs2[k]? = some v2 → Frame v v2 := by
  intro vs
  induction vs with
  | nil =>
    intro vs2
    rw [FrameElems_nil]
    constructor
    · intro h
      subst h
      exact ⟨rfl, fun k v v2 h => by simp at h⟩
    · intro h
      exact List.length_eq_zero.mp h.1
  | cons v vs ih =>
    intro vs2
    rw [FrameElems_cons]
    constructor
    · rintro ⟨v2, rest2, rfl, h1, h2⟩
      rw [ih] at h2
      refine ⟨by simp [h2.1], ?_⟩
      intro k x x2 hx hx2
      cases k with
      | zero =>
        simp only [List.getElem?_cons_zero, Option.some.injEq] at hx hx2
        subst hx; subst hx2
        exact h1
      | succ k =>
        simp only [List.getElem?_cons_succ] at hx hx2
        exact h2.2 k x x2 hx hx2
    · rintro ⟨hlen, h⟩
      cases vs2 with
      | nil => simp at hlen
      | cons v2 rest2 =>
        refine ⟨v2, rest2, rfl, ?_, ?_⟩
        · exact h 0 v v2 (by rw [List.getElem?_cons_zero]) (by rw [List.getElem?_cons_zero])
        · rw [ih]
          refine ⟨by simpa using hlen, ?_⟩
          intro k x x2 hx hx2
          exact h (k + 1) x x2 (by rw [List.getElem?_cons_succ]; exact hx)
            (by rw [List.getElem?_cons_succ]; exact hx2)

theorem frame_refl_all :
    (∀ v : Value, Frame v v) ∧
    (∀ l : List Value, (∀ rt i, FrameFields rt i l l) ∧ FrameElems l l) := by
  apply Value.induction
  · intro s; simp only [Frame]
  · intro s; simp only [Frame]
  · intro s; simp only [Frame]
  · intro t r; simp only [Frame]
  · intro rt fs ih
    rw [Frame_struct]
    exact ⟨fs, rfl, ih.1 rt 0⟩
  · simp only [Frame]
  · intro e ih
    rw [Frame_ptr]
    exact ⟨e, rfl, ih⟩
  · intro es ih
    rw [Frame_slice]
    exact ⟨es, rfl, ih.2⟩
  · exact ⟨fun rt i => (FrameFields_nil rt i []).mpr rfl, (FrameElems_nil []).mpr rfl⟩
  · intro v vs ihv ihl
    refine ⟨fun rt i => ?_, ?_⟩
    · rw [FrameFields_cons]
      exact ⟨v, vs, rfl, Or.inl ihv, ihl.1 rt (i + 1)⟩
    · rw [FrameElems_cons]
      exact ⟨v, vs, rfl, ihv, ihl.2⟩

theorem frame_refl (v : Value) : Frame v v := frame_refl_all.1 v

theorem frame_str_right (v : Value) (s : String) (h : Frame v (Value.str s)) :
    v = Value.str s := by
  cases v with
  | str t => simp only [Frame] at h; exact h.symm
  | int n => simp only [Frame] at h; cases h
  | uint n => simp only [Frame] at h; cases h
  | other t r => simp only [Frame] at h; cases h
  | nilPtr => simp only [Frame] at h; cases h
  | struct rt fs =>
    rw [Frame_struct] at h
    obtain ⟨fs2, h1, _⟩ := h
    cases h1
  | ptr e =>
    rw [Frame_ptr] at h
    obtain ⟨e2, h1, _⟩ := h
    cases h1
  | slice es =>
    rw [Frame_slice] at h
    obtain ⟨es2, h1, _⟩ := h
    cases h1

/-- A string written to an exported target keeps the relation of the field to
its value at the start. -/
theorem fieldRel_write (rt : StructType) (j : Nat) (sf : StructField) (x : Value)
    (s label : String) (hsf : rt.fields[j]? = some sf) (hexp : sf.exported = true)
    (htgt : rt.isTarget sf = true) (h : FieldRel rt j x (Value.str s)) :
    FieldRel rt j x (Value.str label) := by
  rcases h with h | ⟨sf2, s0, s2, _, h2, _, _, _⟩
  · have := frame_str_right x s h
    exact Or.inr ⟨sf, s, label, hsf, this, rfl, hexp, htgt⟩
  · exact Or.inr ⟨sf, s0, label, hsf, h2, rfl, hexp, htgt⟩

/-- The last step of the loop body under a plan built from the fields of the
type: the lookup for the plan entry of the field, and the assignment of a label
that is not empty to the field the `dictField` tag names. -/
theorem translateTagged_eq_lookup (w : World) (cfg : structConfig) (i : Nat) (ft : StructField)
    (rt : StructType) (cur : List Value) (trs : List (String × Option Translator))
    (hcfg : cfg.fields = buildFields trs 0 rt.fields) (hft : rt.fields[i]? = some ft) :
    translateTagged w cfg i ft rt cur =
      if (planField trs i ft).translator.isSome ||
          decide ((planField trs i ft).translatorTag ≠ "")
      then
        (⟨w.dm, (lookupLabel w (planField trs i ft) ft (cur.getD i Value.nilPtr)).1⟩,
          (match (lookupLabel w (planField trs i ft) ft (cur.getD i Value.nilPtr)).2 with
            | .ok label =>
              if label = "" ∨ ft.tagGet "dictField" = "" then cur
              else setTarget (ft.tagGet "dictField") label rt.fields cur
            | .error _ => cur),
          match (lookupLabel w (planField trs i ft) ft (cur.getD i Value.nilPtr)).2 with
          | .ok _ => none
          | .error err => some err)
      else (w, cur, none) := by
  have hc : cfg = ⟨buildFields trs 0 rt.fields⟩ := by
    cases cfg; simp only at hcfg; rw [hcfg]
  unfold translateTagged
  rw [hc, fieldConfigMap_buildFields trs rt.fields i ft hft]
  by_cases hact : ((planField trs i ft).translator.isSome ||
      decide ((planField trs i ft).translatorTag ≠ "")) = true
  · rw [if_pos hact, if_pos hact]
    simp only []
    rw [translateEntry_eq_lookup w (planField trs i ft) i ft rt cur (by simpa using hact),
      targetName_planField]
    try rfl
  · rw [if_neg hact, if_neg hact]

/-- The last step of the loop body changes nothing, or writes a string into an
exported string field that is a target of the record type. -/
theorem translateTagged_write (w : World) (cfg : structConfig) (i : Nat) (ft : StructField)
    (rt : StructType) (cur : List Value)
    (hcfg : ∃ trs, cfg.fields = buildFields trs 0 rt.fields) (hft : rt.fields[i]? = some ft) :
    (translateTagged w cfg i ft rt cur).2.1 = cur ∨
    ∃ j sf s label, rt.fields[j]? = some sf ∧ cur[j]? = some (Value.str s) ∧
      sf.exported = true ∧ rt.isTarget sf = true ∧
      (translateTagged w cfg i ft rt cur).2.1 = cur.set j (Value.str label) := by
  obtain ⟨trs, htrs⟩ := hcfg
  rw [translateTagged_eq_lookup w cfg i ft rt cur trs htrs hft]
  split
  · rename_i hact
    simp only []
    have htagged : ft.untagged = false := by
      cases hun : ft.untagged with
      | false => rfl
      | true =>
        have := planField_untagged trs i ft hun
        rw [this.1, this.2] at hact
        simp at hact
    cases (lookupLabel w (planField trs i ft) ft (cur.getD i Value.nilPtr)).2 with
    | error err => exact Or.inl rfl
    | ok label =>
      simp only []
      split
      · exact Or.inl rfl
      · rw [setTarget_eq_firstWritable]
        cases hfw : firstWritable (ft.tagGet "dictField") rt.fields cur with
        | none => exact Or.inl rfl
        | some j =>
          obtain ⟨⟨sf, v, h1, h2, h3⟩, _⟩ :=
            firstWritable_spec (ft.tagGet "dictField") rt.fields cur j hfw
          simp only [writableMatch, Bool.and_eq_true] at h3
          obtain ⟨⟨hm, hexp⟩, hstr⟩ := h3
          cases v with
          | str s =>
            refine Or.inr ⟨j, sf, s, label, h1, h2, hexp, ?_, rfl⟩
            unfold StructType.isTarget
            rw [List.any_eq_true]
            exact ⟨ft, List.mem_iff_getElem?.mpr ⟨i, hft⟩, by simp [htagged, hm]⟩
          | _ => simp [Value.isString] at hstr
  · exact Or.inl rfl

/-- An invariant of the world that the building of a plan and the last step of
the loop body keep is kept by every traversal. -/
theorem traversal_invariant (P : World → Prop)
    (hplan : ∀ w rt, P w → P ⟨(getOrCreateConfig w.dm rt).1, w.env⟩)
    (htag : ∀ w cfg i ft rt cur, P w → P (translateTagged w cfg i ft rt cur).1) :
    (∀ v : Value,
      (∀ w, P w → P (translateStruct w v).1) ∧
      (∀ w cur i, P w → P (nestedStep w cur i v).1) ∧
      (∀ w, P w → P (elemStep w v).1)) ∧
    (∀ l : List Value,
      (∀ rt cfg i w cur, P w → P (translateFields rt cfg i l w cur).1) ∧
      (∀ w, P w → P (translateSlice l w).1)) := by
  have leaf : ∀ v : Value, v.isLeaf = true → v.isStruct = false →
      (∀ x, v = Value.ptr x → x.isStruct = false) →
      (∀ w, P w → P (translateStruct w v).1) ∧
      (∀ w cur i, P w → P (nestedStep w cur i v).1) ∧
      (∀ w, P w → P (elemStep w v).1) := by
    intro v h1 h2 h3
    refine ⟨?_, ?_, ?_⟩
    · intro w hw
      rw [translateStruct_not_struct w v h2]
      exact hw
    · intro w cur i hw
      rw [nestedStep_leaf _ _ _ _ h1]
      exact hw
    · intro w hw
      rw [elemStep_skip w v h2 h3]
      exact hw
  apply Value.induction
  · intro s
    exact leaf (Value.str s) rfl rfl (fun x h => by cases h)
  · intro s
    exact leaf (Value.int s) rfl rfl (fun x h => by cases h)
  · intro s
    exact leaf (Value.uint s) rfl rfl (fun x h => by cases h)
  · intro t r
    exact leaf (Value.other t r) rfl rfl (fun x h => by cases h)
  · intro rt fs ih
    have hs : ∀ w, P w → P (translateStruct w (Value.struct rt fs)).1 := by
      intro w hw
      rw [translateStruct_struct]
      exact ih.1 rt _ 0 ⟨(getOrCreateConfig w.dm rt).1, w.env⟩ fs (hplan w rt hw)
    refine ⟨hs, ?_, ?_⟩
    · intro w cur i hw
      rw [nestedStep_struct _ _ _ (Value.struct rt fs) rfl]
      exact hs w hw
    · intro w hw
      rw [elemStep_struct _ (Value.struct rt fs) rfl]
      exact hs w hw
  · exact leaf Value.nilPtr rfl rfl (fun x h => by cases h)
  · intro e ih
    refine ⟨fun w hw => by
      rw [translateStruct_not_struct w (Value.ptr e) rfl]; exact hw, ?_, ?_⟩
    · intro w cur i hw
      rw [nestedStep_ptr]
      split
      · exact ih.1 w hw
      · exact hw
    · intro w hw
      rw [elemStep_ptr]
      split
      · exact ih.1 w hw
      · exact hw
  · intro es ih
    refine ⟨fun w hw => by
      rw [translateStruct_not_struct w (Value.slice es) rfl]; exact hw, ?_, ?_⟩
    · intro w cur i hw
      rw [nestedStep_slice]
      exact ih.2 w hw
    · intro w hw
      rw [elemStep_skip w (Value.slice es) rfl (fun x h => by cases h)]
      exact hw
  · exact ⟨fun rt cfg i w cur hw => by rw [translateFields_nil]; exact hw,
      fun w hw => by rw [translateSlice_nil]; exact hw⟩
  · intro v vs ihv ihl
    constructor
    · intro rt cfg i w cur hw
      rw [translateFields_cons]
      cases hft : rt.fields[i]? with
      | none => exact hw
      | some ft =>
        simp only []
        split
        · exact ihl.1 rt cfg (i + 1) w cur hw
        · have h1 := ihv.2.1 w cur i hw
          split
          · exact h1
          · have h2 := htag (nestedStep w cur i v).1 cfg i ft rt (nestedStep w cur i v).2.1 h1
            split
            · exact h2
            · exact ihl.1 rt cfg (i + 1) _ _ h2
    · intro w hw
      rw [translateSlice_cons]
      have h1 := ihv.2.2 w hw
      split
      · exact h1
      · exact ihl.2 _ h1

theorem traversal_cacheSound :
    (∀ v : Value,
      (∀ w, CacheSound w.dm → CacheSound (translateStruct w v).1.dm) ∧
      (∀ w cur i, CacheSound w.dm → CacheSound (nestedStep w cur i v).1.dm) ∧
      (∀ w, CacheSound w.dm → CacheSound (elemStep w v).1.dm)) ∧
    (∀ l : List Value,
      (∀ rt cfg i w cur, CacheSound w.dm → CacheSound (translateFields rt cfg i l w cur).1.dm) ∧
      (∀ w, CacheSound w.dm → CacheSound (translateSlice l w).1.dm)) :=
  traversal_invariant (fun w => CacheSound w.dm)
    (fun w rt h => getOrCreateConfig_cacheSound w.dm rt h)
    (fun w cfg i ft rt cur h => by
      show CacheSound (translateTagged w cfg i ft rt cur).1.dm
      rw [translateTagged_dm]; exact h)

theorem fieldsInv_refl (rt : StructType) (fs : List Value) : FieldsInv rt fs fs :=
  ⟨rfl, fun k x x2 h1 h2 => by
    rw [h1] at h2
    cases h2
    exact Or.inl (frame_refl x)⟩

theorem fieldsInv_set_frame (rt : StructType) (orig cur : List Value) (i : Nat) (v r : Value)
    (h : FieldsInv rt orig cur) (hv : orig[i]? = some v) (hr : Frame v r) :
    FieldsInv rt orig (cur.set i r) := by
  refine ⟨by rw [List.length_set]; exact h.1, ?_⟩
  intro k x x2 hx hx2
  by_cases hk : i = k
  · subst hk
    rw [hv] at hx
    cases hx
    have hlt : i < cur.length := by
      rw [h.1]
      exact (List.getElem?_eq_some.mp hv).1
    rw [List.getElem?_set_self hlt] at hx2
    cases hx2
    exact Or.inl hr
  · rw [List.getElem?_set_ne hk] at hx2
    exact h.2 k x x2 hx hx2

theorem fieldsInv_set_target (rt : StructType) (orig cur : List Value) (j : Nat)
    (sf : StructField) (s label : String) (h : FieldsInv rt orig cur)
    (hsf : rt.fields[j]? = some sf) (hcur : cur[j]? = some (Value.str s))
    (hexp : sf.exported = true) (htgt : rt.isTarget sf = true) :
    FieldsInv rt orig (cur.set j (Value.str label)) := by
  refine ⟨by rw [List.length_set]; exact h.1, ?_⟩
  intro k x x2 hx hx2
  by_cases hk : j = k
  · subst hk
    have hlt : j < cur.length := (List.getElem?_eq_some.mp hcur).1
    rw [List.getElem?_set_self hlt] at hx2
    cases hx2
    exact fieldRel_write rt j sf x s label hsf hexp htgt (h.2 j x _ hx hcur)
  · rw [List.getElem?_set_ne hk] at hx2
    exact h.2 k x x2 hx hx2

/-- Every traversal relates what it leaves to what it found as `Frame`
says. -/
theorem traversal_frame :
    (∀ v : Value,
      (∀ w, CacheSound w.dm → Frame v (translateStruct w v).2.1) ∧
      (∀ w cur i, CacheSound w.dm →
        (nestedStep w cur i v).2.1 = cur ∨
        (v.isLeaf = false ∧ ∃ r, Frame v r ∧ (nestedStep w cur i v).2.1 = cur.set i r)) ∧
      (∀ w, CacheSound w.dm → Frame v (elemStep w v).2.1)) ∧
    (∀ l : List Value,
      (∀ rt cfg i w cur orig, (∃ trs, cfg.fields = buildFields trs 0 rt.fields) →
        CacheSound w.dm →
        (∀ (m : Nat) (x : Value), l[m]? = some x → x.isLeaf = false → orig[i + m]? = some x) →
        FieldsInv rt orig cur → FieldsInv rt orig (translateFields rt cfg i l w cur).2.1) ∧
      (∀ w, CacheSound w.dm → FrameElems l (translateSlice l w).2.1)) := by
  have leaf : ∀ v : Value, v.isLeaf = true → v.isStruct = false →
      (∀ x, v = Value.ptr x → x.isStruct = false) →
      (∀ w, CacheSound w.dm → Frame v (translateStruct w v).2.1) ∧
      (∀ w cur i, CacheSound w.dm →
        (nestedStep w cur i v).2.1 = cur ∨
        (v.isLeaf = false ∧ ∃ r, Frame v r ∧ (nestedStep w cur i v).2.1 = cur.set i r)) ∧
      (∀ w, CacheSound w.dm → Frame v (elemStep w v).2.1) := by
    intro v h1 h2 h3
    refine ⟨?_, ?_, ?_⟩
    · intro w _
      rw [translateStruct_not_struct w v h2]
      exact frame_refl v
    · intro w cur i _
      rw [nestedStep_leaf _ _ _ _ h1]
      exact Or.inl rfl
    · intro w _
      rw [elemStep_skip w v h2 h3]
      exact frame_refl v
  apply Value.induction
  · intro s
    exact leaf (Value.str s) rfl rfl (fun x h => by cases h)
  · intro s
    exact leaf (Value.int s) rfl rfl (fun x h => by cases h)
  · intro s
    exact leaf (Value.uint s) rfl rfl (fun x h => by cases h)
  · intro t r
    exact leaf (Value.other t r) rfl rfl (fun x h => by cases h)
  · intro rt fs ih
    have hs : ∀ w, CacheSound w.dm →
        Frame (Value.struct rt fs) (translateStruct w (Value.struct rt fs)).2.1 := by
      intro w hw
      rw [translateStruct_struct, Frame_struct]
      refine ⟨_, rfl, ?_⟩
      rw [FrameFields_iff]
      have := ih.1 rt (getOrCreateConfig w.dm rt).2 0 ⟨(getOrCreateConfig w.dm rt).1, w.env⟩ fs fs
        (getOrCreateConfig_sound w.dm rt (hw rt))
        (getOrCreateConfig_cacheSound w.dm rt hw)
        (fun m x hx _ => by rw [Nat.zero_add]; exact hx)
        (fieldsInv_refl rt fs)
      refine ⟨this.1, ?_⟩
      intro k x x2 hx hx2
      rw [Nat.zero_add]
      exact this.2 k x x2 hx hx2
    refine ⟨hs, ?_, ?_⟩
    · intro w cur i hw
      rw [nestedStep_struct _ _ _ (Value.struct rt fs) rfl]
      exact Or.inr ⟨rfl, _, hs w hw, rfl⟩
    · intro w hw
      rw [elemStep_struct _ (Value.struct rt fs) rfl]
      exact hs w hw
  · exact leaf Value.nilPtr rfl rfl (fun x h => by cases h)
  · intro e ih
    refine ⟨fun w _ => by
      rw [translateStruct_not_struct w (Value.ptr e) rfl]; exact frame_refl _, ?_, ?_⟩
    · intro w cur i hw
      rw [nestedStep_ptr]
      by_cases he : e.isStruct = true
      · rw [if_pos he]
        refine Or.inr ⟨by simp [Value.isLeaf, he], Value.ptr (translateStruct w e).2.1, ?_, rfl⟩
        rw [Frame_ptr]
        exact ⟨_, rfl, ih.1 w hw⟩
      · rw [if_neg he]
        exact Or.inl rfl
    · intro w hw
      rw [elemStep_ptr]
      by_cases he : e.isStruct = true
      · rw [if_pos he, Frame_ptr]
        exact ⟨_, rfl, ih.1 w hw⟩
      · rw [if_neg he]
        exact frame_refl _
  · intro es ih
    refine ⟨fun w _ => by
      rw [translateStruct_not_struct w (Value.slice es) rfl]; exact frame_refl _, ?_, ?_⟩
    · intro w cur i hw
      rw [nestedStep_slice]
      refine Or.inr ⟨rfl, Value.slice (translateSlice es w).2.1, ?_, rfl⟩
      rw [Frame_slice]
      exact ⟨_, rfl, ih.2 w hw⟩
    · intro w _
      rw [elemStep_skip w (Value.slice es) rfl (fun x h => by cases h)]
      exact frame_refl _
  · refine ⟨fun rt cfg i w cur orig _ _ _ h => by rw [translateFields_nil]; exact h,
      fun w _ => by rw [translateSlice_nil]; exact (FrameElems_nil []).mpr rfl⟩
  · intro v vs ihv ihl
    constructor
    · intro rt cfg i w cur orig hcfg hw hnest hinv
      have hnest2 : ∀ (m : Nat) (x : Value), vs[m]? = some x → x.isLeaf = false →
          orig[i + 1 + m]? = some x := by
        intro m x hx hl
        have := hnest (m + 1) x (by rw [List.getElem?_cons_succ]; exact hx) hl
        rwa [Nat.add_assoc, Nat.add_comm 1 m]
      rw [translateFields_cons]
      cases hft : rt.fields[i]? with
      | none => exact hinv
      | some ft =>
        simp only []
        split
        · exact ihl.1 rt cfg (i + 1) w cur orig hcfg hw hnest2 hinv
        · have hw1 := (traversal_cacheSound.1 v).2.1 w cur i hw
          have hinv1 : FieldsInv rt orig (nestedStep w cur i v).2.1 := by
            rcases ihv.2.1 w cur i hw with h | ⟨hl, r, hr, h⟩
            · rw [h]; exact hinv
            · rw [h]
              exact fieldsInv_set_frame rt orig cur i v r hinv
                (hnest 0 v (by rw [List.getElem?_cons_zero]) hl) hr
          split
          · exact hinv1
          · have hw2 : CacheSound (translateTagged (nestedStep w cur i v).1 cfg i ft rt
                (nestedStep w cur i v).2.1).1.dm := by
              rw [translateTagged_dm]; exact hw1
            have hinv2 : FieldsInv rt orig (translateTagged (nestedStep w cur i v).1 cfg i ft rt
                (nestedStep w cur i v).2.1).2.1 := by
              rcases translateTagged_write (nestedStep w cur i v).1 cfg i ft rt
                (nestedStep w cur i v).2.1 hcfg hft with h | ⟨j, sf, s, label, h1, h2, h3, h4, h⟩
              · rw [h]; exact hinv1
              · rw [h]
                exact fieldsInv_set_target rt orig _ j sf s label hinv1 h1 h2 h3 h4
            split
            · exact hinv2
            · exact ihl.1 rt cfg (i + 1) _ _ orig hcfg hw2 hnest2 hinv2
    · intro w hw
      rw [translateSlice_cons, FrameElems_cons]
      have h1 := ihv.2.2 w hw
      have hw1 := (traversal_cacheSound.1 v).2.2 w hw
      split
      · exact ⟨_, _, rfl, h1, frame_refl_all.2 vs |>.2⟩
      · exact ⟨_, _, rfl, h1, ihl.2 _ hw1⟩

/-- C39: in a world whose stored plans were all built by `getOrCreateConfig`,
what `Translate` leaves is related to what it was given (after unwrapping) by
`Frame`.  Spelled out: a record keeps its type and its number of fields, and
each of its fields is related recursively or is an exported string field,
named exactly or under case folding by the `dictField` tag of a
translation-tagged field of the same record, that holds a string again; a
sequence keeps its length and its elements are related index by index; a
pointer stays a pointer to a related value; and a string, an integer, any other
plain value and a nil pointer are unchanged.  So a field that is not a target
changes at most inside the record, pointer or sequence it holds. -/
theorem Translate_frame (w : World) (v : Value) (hcs : CacheSound w.dm) :
    Frame ((tryUnwrap w.dm v).getD v) (Translate w v).2.1 ∧
    (∀ (rt : StructType) (fs : List Value) (v2 : Value), Frame (Value.struct rt fs) v2 →
      ∃ fs2, v2 = Value.struct rt fs2 ∧ fs2.length = fs.length ∧
        ∀ (k : Nat) (x x2 : Value), fs[k]? = some x → fs2[k]? = some x2 →
          Frame x x2 ∨
          ∃ sf s s2, rt.fields[k]? = some sf ∧ x = Value.str s ∧ x2 = Value.str s2 ∧
            sf.exported = true ∧ rt.isTarget sf = true) ∧
    (∀ (es : List Value) (v2 : Value), Frame (Value.slice es) v2 →
      ∃ es2, v2 = Value.slice es2 ∧ es2.length = es.length ∧
        ∀ (k : Nat) (x x2 : Value), es[k]? = some x → es2[k]? = some x2 → Frame x x2) ∧
    (∀ (e v2 : Value), Frame (Value.ptr e) v2 → ∃ e2, v2 = Value.ptr e2 ∧ Frame e e2) ∧
    (∀ (x x2 : Value), Frame x x2 → x.isStruct = false → x.isSlice = false →
      (x.isPtr = false ∨ x = Value.nilPtr) → x2 = x) := by
  refine ⟨?_, ?_, ?_, ?_, ?_⟩
  · rw [Translate_eq_translatePayload]
    cases hp : (tryUnwrap w.dm v).getD v with
    | ptr rv =>
      cases rv with
      | slice es =>
        show Frame (Value.ptr (Value.slice es))
          (Value.ptr (Value.slice (translateSlice es w).2.1))
        rw [Frame_ptr]
        refine ⟨_, rfl, ?_⟩
        rw [Frame_slice]
        exact ⟨_, rfl, (traversal_frame.2 es).2 w hcs⟩
      | struct rt fs =>
        show Frame (Value.ptr (Value.struct rt fs))
          (Value.ptr (translateStruct w (Value.struct rt fs)).2.1)
        rw [Frame_ptr]
        exact ⟨_, rfl, (traversal_frame.1 _).1 w hcs⟩
      | _ => exact frame_refl _
    | _ => exact frame_refl _
  · intro rt fs v2 h
    rw [Frame_struct] at h
    obtain ⟨fs2, h1, h2⟩ := h
    rw [FrameFields_iff] at h2
    refine ⟨fs2, h1, h2.1, ?_⟩
    intro k x x2 hx hx2
    have := h2.2 k x x2 hx hx2
    rw [Nat.zero_add] at this
    exact this
  · intro es v2 h
    rw [Frame_slice] at h
    obtain ⟨es2, h1, h2⟩ := h
    rw [FrameElems_iff] at h2
    exact ⟨es2, h1, h2.1, h2.2⟩
  · intro e v2 h
    rw [Frame_ptr] at h
    exact h
  · intro x x2 h h1 h2 h3
    exact (Frame_leaf x x2 h1 h3 h2).mp h

theorem Translate_frame_witness :
    Frame
      ((tryUnwrap (statusWorld [("1", "启用"), ("0", "禁用")]).dm
          (Value.ptr (nested "status" (fun _ => "") "1" ["0", "1", "1"]))).getD
        (Value.ptr (nested "status" (fun _ => "") "1" ["0", "1", "1"])))
      (Translate (statusWorld [("1", "启用"), ("0", "禁用")])
        (Value.ptr (nested "status" (fun _ => "") "1" ["0", "1", "1"]))).2.1 ∧
    Frame
      ((tryUnwrap (statusWorld [("1", "启用"), ("0", "禁用")]).dm
          (Value.ptr (Value.slice
            [Value.struct statusItemType [Value.str "1", Value.str ""], Value.nilPtr]))).getD
        (Value.ptr (Value.slice
          [Value.struct statusItemType [Value.str "1", Value.str ""], Value.nilPtr])))
      (Translate (statusWorld [("1", "启用"), ("0", "禁用")])
        (Value.ptr (Value.slice
          [Value.struct statusItemType [Value.str "1", Value.str ""], Value.nilPtr]))).2.1 :=
  ⟨(Translate_frame (statusWorld [("1", "启用"), ("0", "禁用")])
      (Value.ptr (nested "status" (fun _ => "") "1" ["0", "1", "1"]))
      (by intro rt cfg h; simp [statusWorld, RegisterDict, DictManager.init] at h)).1,
   (Translate_frame (statusWorld [("1", "启用"), ("0", "禁用")])
      (Value.ptr (Value.slice
        [Value.struct statusItemType [Value.str "1", Value.str ""], Value.nilPtr]))
      (by intro rt cfg h; simp [statusWorld, RegisterDict, DictManager.init] at h)).1⟩

/-! ## Idempotence for the in-memory backends -/

theorem Translator_Translate_enumMap (t : Translator) (env : Env) (value : Value)
    (fieldName tagValue : String) :
    (t.Translate env value fieldName tagValue).1.enumMap = env.enumMap := by
  cases t with
  | enum => rfl
  | custom f => rfl
  | db a b c =>
    simp only [Translator.Translate, createDBTranslator]
    repeat' split
    all_goals rfl
  | dictTable a =>
    simp only [Translator.Translate, createDictTableTranslator]
    repeat' split
    all_goals rfl
  | dictTableTwo a =>
    simp only [Translator.Translate, createDictTableTwoTranslator]
    repeat' split
    all_goals rfl

theorem translateTagged_enumMap (w : World) (cfg : structConfig) (i : Nat) (ft : StructField)
    (rt : StructType) (cur : List Value) :
    (translateTagged w cfg i ft rt cur).1.env.enumMap = w.env.enumMap := by
  unfold translateTagged
  cases fieldConfigMap cfg i with
  | none => rfl
  | some fc =>
    simp only []
    unfold translateEntry
    cases ht : fc.translator with
    | none =>
      simp only []
      split <;> rfl
    | some t =>
      simp only []
      have hT := Translator_Translate_enumMap t w.env (cur.getD i Value.nilPtr) ft.name
        fc.translatorTag
      unfold translateFieldWithTranslator
      dsimp only
      rcases hr : t.Translate w.env (cur.getD i Value.nilPtr) ft.name fc.translatorTag
        with ⟨env1, r⟩
      rw [hr] at hT
      cases r with
      | error e => exact hT
      | ok label =>
        simp only []
        split
        · exact hT
        · split <;> exact hT

theorem traversal_memoryWorld (D E : Registry) :
    (∀ v : Value,
      (∀ w, MemoryWorld D E w → MemoryWorld D E (translateStruct w v).1) ∧
      (∀ w cur i, MemoryWorld D E w → MemoryWorld D E (nestedStep w cur i v).1) ∧
      (∀ w, MemoryWorld D E w → MemoryWorld D E (elemStep w v).1)) ∧
    (∀ l : List Value,
      (∀ rt cfg i w cur, MemoryWorld D E w →
        MemoryWorld D E (translateFields rt cfg i l w cur).1) ∧
      (∀ w, MemoryWorld D E w → MemoryWorld D E (translateSlice l w).1)) :=
  traversal_invariant (MemoryWorld D E)
    (fun w rt h => ⟨by
        show (getOrCreateConfig w.dm rt).1.dicts = D
        rw [getOrCreateConfig_dicts]; exact h.1, h.2.1,
      getOrCreateConfig_cacheSound w.dm rt h.2.2⟩)
    (fun w cfg i ft rt cur h => ⟨by rw [translateTagged_dm]; exact h.1,
      by rw [translateTagged_enumMap]; exact h.2.1,
      by rw [translateTagged_dm]; exact h.2.2⟩)

theorem nestedStep_eq_nestedValue (w : World) (cur : List Value) (i : Nat) (v : Value) :
    nestedStep w cur i v =
      if v.isLeaf then (w, cur, none)
      else ((nestedValue w v).1, cur.set i (nestedValue w v).2.1, (nestedValue w v).2.2) := by
  cases v with
  | struct rt fs => simp [nestedStep, nestedValue, Value.isLeaf, Value.isStruct]
  | ptr e =>
    have h1 : (Value.ptr e).isStruct = false := rfl
    rw [nestedStep_ptr]
    by_cases he : e.isStruct = true
    · simp only [nestedValue, h1, Value.isLeaf, he, if_true, Bool.not_true, Bool.false_eq_true,
        if_false]
    · simp only [nestedValue, h1, Value.isLeaf, he, if_true, Bool.false_eq_true, if_false]
      simp [he]
  | slice es => simp [nestedStep, nestedValue, Value.isLeaf, Value.isStruct]
  | _ => simp [nestedStep, Value.isLeaf, Value.isStruct]

theorem nestedValue_not_string (w : World) (v : Value) (h : v.isLeaf = false) :
    (nestedValue w v).2.1.isString = false := by
  cases v with
  | struct rt fs =>
    simp only [nestedValue, Value.isStruct, if_true]
    rw [translateStruct_struct]
    rfl
  | ptr e =>
    have he : e.isStruct = true := by simpa [Value.isLeaf] using h
    have h1 : (Value.ptr e).isStruct = false := rfl
    simp only [nestedValue, h1, he, if_true, Bool.false_eq_true, if_false]
    rfl
  | slice es => rfl
  | _ => simp [Value.isLeaf] at h

theorem planField_memory (trs : List (String × Option Translator)) (i : Nat) (f : StructField)
    (h : f.tagGet "translate" = "") : planField trs i f = planField [] i f := by
  unfold planField
  simp only [h, ne_eq, not_true_eq_false, if_false]

theorem planField_memory_translator (i : Nat) (f : StructField)
    (h1 : f.tagGet "translate" = "") (h2 : f.tagGet "db" = "")
    (h3 : f.tagGet "dictTableTwo" = "") (h4 : f.tagGet "dictTable" = "") :
    (planField [] i f).translator = none ∨ (planField [] i f).translator = some Translator.enum := by
  unfold planField
  simp only [h1, h2, h3, h4, ne_eq, not_true_eq_false, if_false]
  split
  · exact Or.inr rfl
  · split
    · exact Or.inl rfl
    · exact Or.inl rfl

/-- The lookup for the plan entry of a field with `dict` and `enum` tags only
reads the dictionaries and the enum tables, and leaves the package state as it
is. -/
theorem lookupLabel_memory (D E : Registry) (w1 w2 : World) (i : Nat) (f : StructField)
    (field : Value) (hw1 : MemoryWorld D E w1) (hw2 : MemoryWorld D E w2)
    (h1 : f.tagGet "translate" = "") (h2 : f.tagGet "db" = "")
    (h3 : f.tagGet "dictTableTwo" = "") (h4 : f.tagGet "dictTable" = "") :
    (lookupLabel w1 (planField [] i f) f field).1 = w1.env ∧
    (lookupLabel w1 (planField [] i f) f field).2 = (lookupLabel w2 (planField [] i f) f field).2 := by
  unfold lookupLabel
  rcases planField_memory_translator i f h1 h2 h3 h4 with h | h
  · rw [h]
    simp only [dictLabel, hw1.1, hw2.1]
    exact ⟨trivial, trivial⟩
  · rw [h]
    simp only [Translator.Translate, hw1.2.1, hw2.2.1]
    exact ⟨trivial, trivial⟩

theorem firstWritable_congr (target : String) :
    ∀ (fields : List StructField) (c1 c2 : List Value), SameKinds c1 c2 →
      firstWritable target fields c1 = firstWritable target fields c2 := by
  intro fields
  induction fields with
  | nil => intro c1 c2 _; cases c1 <;> cases c2 <;> rfl
  | cons f rest ih =>
    intro c1 c2 h
    cases c1 with
    | nil =>
      cases c2 with
      | nil => rfl
      | cons y ys => have := h.1; simp at this
    | cons x xs =>
      cases c2 with
      | nil => have := h.1; simp at this
      | cons y ys =>
        have hxy : y.isString = x.isString :=
          h.2 0 x y (by rw [List.getElem?_cons_zero]) (by rw [List.getElem?_cons_zero])
        have hrest : SameKinds xs ys := by
          refine ⟨by simpa using h.1, ?_⟩
          intro k a b ha hb
          exact h.2 (k + 1) a b (by rw [List.getElem?_cons_succ]; exact ha)
            (by rw [List.getElem?_cons_succ]; exact hb)
        simp only [firstWritable, writableMatch, hxy, ih xs ys hrest]

theorem sameKinds_refl (c : List Value) : SameKinds c c :=
  ⟨rfl, fun k x y hx hy => by rw [hx] at hy; cases hy; rfl⟩

theorem sameKinds_set (c1 c2 : List Value) (j : Nat) (y : Value) (h : SameKinds c1 c2) :
    SameKinds (c1.set j y) (c2.set j y) := by
  refine ⟨by rw [List.length_set, List.length_set]; exact h.1, ?_⟩
  intro k a b ha hb
  by_cases hk : j = k
  · subst hk
    have hlt : j < c1.length := by
      have := (List.getElem?_eq_some.mp ha).1
      rwa [List.length_set] at this
    rw [List.getElem?_set_self hlt] at ha
    rw [List.getElem?_set_self (by rw [← h.1]; exact hlt)] at hb
    cases ha; cases hb; rfl
  · rw [List.getElem?_set_ne hk] at ha hb
    exact h.2 k a b ha hb

/-- The last step of the loop body, run in two worlds with the same
dictionaries and enum tables on two records that hold strings at the same
positions and the same source value: both runs leave their world as it is,
raise the same error, and change nothing or write the same label to the field
with the same index. -/
theorem translateTagged_pair (D E : Registry) (w1 w2 : World) (cfg1 cfg2 : structConfig)
    (i : Nat) (ft : StructField) (rt : StructType) (c1 c2 : List Value)
    (hw1 : MemoryWorld D E w1) (hw2 : MemoryWorld D E w2)
    (hcfg1 : ∃ trs, cfg1.fields = buildFields trs 0 rt.fields)
    (hcfg2 : ∃ trs, cfg2.fields = buildFields trs 0 rt.fields)
    (hft : rt.fields[i]? = some ft) (hmem : rt.memoryTagged = true)
    (hk : SameKinds c1 c2)
    (hsrc : ft.untagged = false → c1.getD i Value.nilPtr = c2.getD i Value.nilPtr) :
    (translateTagged w1 cfg1 i ft rt c1).1 = w1 ∧
    (translateTagged w2 cfg2 i ft rt c2).1 = w2 ∧
    (translateTagged w2 cfg2 i ft rt c2).2.2 = (translateTagged w1 cfg1 i ft rt c1).2.2 ∧
    (((translateTagged w1 cfg1 i ft rt c1).2.1 = c1 ∧
        (translateTagged w2 cfg2 i ft rt c2).2.1 = c2) ∨
      ∃ j s label, c1[j]? = some (Value.str s) ∧
        (translateTagged w1 cfg1 i ft rt c1).2.1 = c1.set j (Value.str label) ∧
        (translateTagged w2 cfg2 i ft rt c2).2.1 = c2.set j (Value.str label)) := by
  obtain ⟨trs1, htrs1⟩ := hcfg1
  obtain ⟨trs2, htrs2⟩ := hcfg2
  have hf : ft.tagGet "translate" = "" ∧ ft.tagGet "db" = "" ∧
      ft.tagGet "dictTableTwo" = "" ∧ ft.tagGet "dictTable" = "" := by
    unfold StructType.memoryTagged at hmem
    rw [List.all_eq_true] at hmem
    have := hmem ft (List.mem_iff_getElem?.mpr ⟨i, hft⟩)
    simp only [Bool.and_eq_true, decide_eq_true_eq] at this
    exact ⟨this.1.1.1, this.1.1.2, this.1.2, this.2⟩
  rw [translateTagged_eq_lookup w1 cfg1 i ft rt c1 trs1 htrs1 hft,
    translateTagged_eq_lookup w2 cfg2 i ft rt c2 trs2 htrs2 hft,
    planField_memory trs1 i ft hf.1, planField_memory trs2 i ft hf.1]
  by_cases hact : ((planField [] i ft).translator.isSome ||
      decide ((planField [] i ft).translatorTag ≠ "")) = true
  · rw [if_pos hact, if_pos hact]
    have htagged : ft.untagged = false := by
      cases hun : ft.untagged with
      | false => rfl
      | true =>
        have := planField_untagged [] i ft hun
        rw [this.1, this.2] at hact
        simp at hact
    have hs := hsrc htagged
    have hl1 := lookupLabel_memory D E w1 w2 i ft (c1.getD i Value.nilPtr) hw1 hw2
      hf.1 hf.2.1 hf.2.2.1 hf.2.2.2
    have hl2 := lookupLabel_memory D E w2 w1 i ft (c2.getD i Value.nilPtr) hw2 hw1
      hf.1 hf.2.1 hf.2.2.1 hf.2.2.2
    rw [← hs] at hl2
    refine ⟨by simp only []; rw [hl1.1], by simp only []; rw [← hs, hl2.1], ?_, ?_⟩
    · simp only []
      rw [← hs, hl1.2]
    · simp only []
      rw [← hs, ← hl1.2]
      cases (lookupLabel w1 (planField [] i ft) ft (c1.getD i Value.nilPtr)).2 with
      | error err => exact Or.inl ⟨rfl, rfl⟩
      | ok label =>
        simp only []
        by_cases hc : label = "" ∨ ft.tagGet "dictField" = ""
        · rw [if_pos hc, if_pos hc]
          exact Or.inl ⟨rfl, rfl⟩
        · rw [if_neg hc, if_neg hc, setTarget_eq_firstWritable, setTarget_eq_firstWritable,
            ← firstWritable_congr (ft.tagGet "dictField") rt.fields c1 c2 hk]
          cases hfw : firstWritable (ft.tagGet "dictField") rt.fields c1 with
          | none => exact Or.inl ⟨rfl, rfl⟩
          | some j =>
            obtain ⟨⟨sf, v, _, h2, h3⟩, _⟩ :=
              firstWritable_spec (ft.tagGet "dictField") rt.fields c1 j hfw
            simp only [writableMatch, Bool.and_eq_true] at h3
            cases v with
            | str s => exact Or.inr ⟨j, s, label, h2, rfl, rfl⟩
            | _ => simp [Value.isString] at h3
  · rw [if_neg hact, if_neg hact]
    exact ⟨rfl, rfl, rfl, Or.inl ⟨rfl, rfl⟩⟩

theorem nestedAt_tail (cur : List Value) (i : Nat) (v : Value) (vs : List Value)
    (h : NestedAt cur i (v :: vs)) : NestedAt cur (i + 1) vs := by
  intro m x hx hl
  have := h (m + 1) x (by rw [List.getElem?_cons_succ]; exact hx) hl
  rwa [Nat.add_assoc, Nat.add_comm 1 m]

theorem nestedAt_set_string (cur : List Value) (i j : Nat) (s label : String) (l : List Value)
    (h : NestedAt cur i l) (hj : cur[j]? = some (Value.str s)) :
    NestedAt (cur.set j (Value.str label)) i l := by
  intro m x hx hl
  have h1 := h m x hx hl
  by_cases hk : j = i + m
  · subst hk
    rw [hj] at h1
    cases h1
    simp [Value.isLeaf] at hl
  · rw [List.getElem?_set_ne hk]
    exact h1

theorem nestedAt_set_before (cur : List Value) (i : Nat) (r : Value) (l : List Value)
    (h : NestedAt cur (i + 1) l) : NestedAt (cur.set i r) (i + 1) l := by
  intro m x hx hl
  rw [List.getElem?_set_ne (by omega)]
  exact h m x hx hl

theorem todoRel_tail (v y : Value) (vs ys fin : List Value) (i : Nat)
    (h : TodoRel (v :: vs) (y :: ys) fin i) : TodoRel vs ys fin (i + 1) := by
  refine ⟨by simpa using h.1, ?_⟩
  intro m a b ha hb
  have := h.2 (m + 1) a b (by rw [List.getElem?_cons_succ]; exact ha)
    (by rw [List.getElem?_cons_succ]; exact hb)
  rwa [Nat.add_assoc, Nat.add_comm 1 m]

theorem between_set (c1 fin c2 : List Value) (j : Nat) (y : Value) (h : Between c1 fin c2)
    (hlen : c1.length = c2.length) : Between (c1.set j y) fin (c2.set j y) := by
  intro k a ha
  by_cases hk : j = k
  · subst hk
    have hlt : j < c2.length := by
      have := (List.getElem?_eq_some.mp ha).1
      rwa [List.length_set] at this
    rw [List.getElem?_set_self hlt] at ha
    cases ha
    exact Or.inl (by rw [List.getElem?_set_self (by rw [hlen]; exact hlt)])
  · rw [List.getElem?_set_ne hk] at ha
    rw [List.getElem?_set_ne hk]
    exact h k a ha

theorem between_eq (c1 c2 : List Value) (h : Between c1 c1 c2) (hlen : c1.length = c2.length) :
    c2 = c1 := by
  apply List.ext_getElem? 
  intro k
  cases h2 : c2[k]? with
  | some y =>
    rcases h k y h2 with h1 | h1 <;> exact h1.symm
  | none =>
    have : c2.length ≤ k := List.getElem?_eq_none_iff.mp h2
    exact (List.getElem?_eq_none_iff.mpr (by omega)).symm

/-- The loop of `translateStruct` from index `i` on leaves the field with index
`k` as it is when that field is no target or holds no string, and lies before
`i` or is not descended into. -/
theorem translateFields_keep (rt : StructType) (cfg : structConfig)
    (hcfg : ∃ trs, cfg.fields = buildFields trs 0 rt.fields) (k : Nat) :
    ∀ (l : List Value) (i : Nat) (w : World) (cur : List Value),
      ((∀ sf, rt.fields[k]? = some sf → rt.isTarget sf = false) ∨
        ∀ s, cur[k]? ≠ some (Value.str s)) →
      (k < i ∨ ∃ x, l[k - i]? = some x ∧ x.isLeaf = true) →
      (translateFields rt cfg i l w cur).2.1[k]? = cur[k]? := by
  intro l
  induction l with
  | nil => intro i w cur _ _; rw [translateFields_nil]
  | cons v vs ih =>
    intro i w cur hk hpos
    have hpos2 : k < i + 1 ∨ ∃ x, vs[k - (i + 1)]? = some x ∧ x.isLeaf = true := by
      rcases hpos with h | ⟨x, hx, hl⟩
      · exact Or.inl (by omega)
      · by_cases hki : k ≤ i
        · exact Or.inl (by omega)
        · refine Or.inr ⟨x, ?_, hl⟩
          have : k - i = (k - (i + 1)) + 1 := by omega
          rw [this, List.getElem?_cons_succ] at hx
          exact hx
    rw [translateFields_cons]
    cases hft : rt.fields[i]? with
    | none => rfl
    | some ft =>
      simp only []
      split
      · exact ih (i + 1) w cur hk hpos2
      · have hn : (nestedStep w cur i v).2.1[k]? = cur[k]? := by
          rw [nestedStep_eq_nestedValue]
          by_cases hl : v.isLeaf = true
          · rw [if_pos hl]
          · rw [if_neg hl]
            have hki : i ≠ k := by
              rcases hpos with h | ⟨x, hx, hlx⟩
              · omega
              · intro hik
                subst hik
                rw [Nat.sub_self, List.getElem?_cons_zero] at hx
                cases hx
                exact hl hlx
            exact List.getElem?_set_ne hki
        have ht : (translateTagged (nestedStep w cur i v).1 cfg i ft rt
            (nestedStep w cur i v).2.1).2.1[k]? = cur[k]? := by
          rcases translateTagged_write (nestedStep w cur i v).1 cfg i ft rt
            (nestedStep w cur i v).2.1 hcfg hft with h | ⟨j, sf, s, label, h1, h2, h3, h4, h⟩
          · rw [h, hn]
          · rw [h]
            have hjk : j ≠ k := by
              intro hjk
              subst hjk
              rcases hk with hk | hk
              · have := hk sf h1
                rw [h4] at this
                cases this
              · rw [hn] at h2
                exact hk s h2
            rw [List.getElem?_set_ne hjk, hn]
        split
        · exact hn
        · split
          · exact ht
          · rw [ih (i + 1) _ _ ?_ hpos2, ht]
            rcases hk with hk | hk
            · exact Or.inl hk
            · exact Or.inr (by rw [ht]; exact hk)

theorem frame_kinds (x y : Value) (h : Frame x y) :
    y.isString = x.isString ∧ y.isStruct = x.isStruct := by
  cases x with
  | struct rt fs =>
    rw [Frame_struct] at h
    obtain ⟨fs2, h1, _⟩ := h
    subst h1
    exact ⟨rfl, rfl⟩
  | ptr e =>
    rw [Frame_ptr] at h
    obtain ⟨e2, h1, _⟩ := h
    subst h1
    exact ⟨rfl, rfl⟩
  | slice es =>
    rw [Frame_slice] at h
    obtain ⟨es2, h1, _⟩ := h
    subst h1
    exact ⟨rfl, rfl⟩
  | str s => simp only [Frame] at h; subst h; exact ⟨rfl, rfl⟩
  | int n => simp only [Frame] at h; subst h; exact ⟨rfl, rfl⟩
  | uint n => simp only [Frame] at h; subst h; exact ⟨rfl, rfl⟩
  | other t r => simp only [Frame] at h; subst h; exact ⟨rfl, rfl⟩
  | nilPtr => simp only [Frame] at h; subst h; exact ⟨rfl, rfl⟩

theorem frame_isLeaf (x y : Value) (h : Frame x y) : y.isLeaf = x.isLeaf := by
  cases x with
  | struct rt fs =>
    rw [Frame_struct] at h
    obtain ⟨fs2, h1, _⟩ := h
    subst h1
    rfl
  | ptr e =>
    rw [Frame_ptr] at h
    obtain ⟨e2, h1, h2⟩ := h
    subst h1
    simp only [Value.isLeaf, (frame_kinds e e2 h2).2]
  | slice es =>
    rw [Frame_slice] at h
    obtain ⟨es2, h1, _⟩ := h
    subst h1
    rfl
  | str s => simp only [Frame] at h; subst h; rfl
  | int n => simp only [Frame] at h; subst h; rfl
  | uint n => simp only [Frame] at h; subst h; rfl
  | other t r => simp only [Frame] at h; subst h; rfl
  | nilPtr => simp only [Frame] at h; subst h; rfl

theorem fieldRel_kinds (rt : StructType) (k : Nat) (x y : Value) (h : FieldRel rt k x y) :
    y.isString = x.isString ∧ y.isLeaf = x.isLeaf := by
  rcases h with h | ⟨sf, s, s2, _, h1, h2, _, _⟩
  · exact ⟨(frame_kinds x y h).1, frame_isLeaf x y h⟩
  · subst h1; subst h2
    exact ⟨rfl, rfl⟩

theorem sameKinds_of_fieldsInv (rt : StructType) (a b : List Value) (h : FieldsInv rt a b) :
    SameKinds a b :=
  ⟨h.1.symm, fun k x y hx hy => (fieldRel_kinds rt k x y (h.2 k x y hx hy)).1⟩

theorem nestedValue_leaf (w : World) (v : Value) (h : v.isLeaf = true) :
    nestedValue w v = (w, v, none) := by
  cases v with
  | struct rt fs => simp [Value.isLeaf] at h
  | slice es => simp [Value.isLeaf] at h
  | ptr e =>
    have he : e.isStruct = false := by simpa [Value.isLeaf] using h
    have h1 : (Value.ptr e).isStruct = false := rfl
    simp only [nestedValue, h1, he, Bool.false_eq_true, if_false]
  | _ => rfl

theorem nestedValue_world (w : World) (v : Value) :
    (nestedValue w v).1 = (nestedStep w [] 0 v).1 := by
  rw [nestedStep_eq_nestedValue]
  by_cases h : v.isLeaf = true
  · rw [if_pos h, nestedValue_leaf w v h]
  · rw [if_neg h]

theorem nestedValue_memoryWorld (D E : Registry) (w : World) (v : Value)
    (h : MemoryWorld D E w) : MemoryWorld D E (nestedValue w v).1 := by
  rw [nestedValue_world]
  exact ((traversal_memoryWorld D E).1 v).2.1 w [] 0 h

theorem nestedValue_isLeaf (w : World) (v : Value) :
    (nestedValue w v).2.1.isLeaf = v.isLeaf := by
  cases v with
  | struct rt fs =>
    simp only [nestedValue, Value.isStruct, if_true]
    rw [translateStruct_struct]
    rfl
  | ptr e =>
    have h1 : (Value.ptr e).isStruct = false := rfl
    by_cases he : e.isStruct = true
    · simp only [nestedValue, h1, he, if_true, Bool.false_eq_true, if_false, Value.isLeaf]
      cases e with
      | struct rt fs => rw [translateStruct_struct]; rfl
      | _ => simp [Value.isStruct] at he
    · simp only [nestedValue, h1, he, Bool.false_eq_true, if_false]
  | slice es => rfl
  | _ => rfl

theorem translateTagged_memoryWorld (D E : Registry) (w : World) (cfg : structConfig) (i : Nat)
    (ft : StructField) (rt : StructType) (cur : List Value) (h : MemoryWorld D E w) :
    MemoryWorld D E (translateTagged w cfg i ft rt cur).1 :=
  ⟨by rw [translateTagged_dm]; exact h.1, by rw [translateTagged_enumMap]; exact h.2.1,
    by rw [translateTagged_dm]; exact h.2.2⟩

/-- The loop of `translateStruct` leaves, in a field it descends into, what the
descent left there. -/
theorem translateFields_keep_nested (rt : StructType) (cfg : structConfig)
    (hcfg : ∃ trs, cfg.fields = buildFields trs 0 rt.fields) (i : Nat) (v : Value)
    (vs : List Value) (w : World) (cur : List Value) (ft : StructField)
    (hft : rt.fields[i]? = some ft) (hexp : ft.exported = true) (hl : v.isLeaf = false)
    (hi : i < cur.length) :
    (translateFields rt cfg i (v :: vs) w cur).2.1[i]? = some (nestedValue w v).2.1 := by
  have hns : ¬ (v.isLeaf = true) := by rw [hl]; simp
  have hn : (nestedStep w cur i v).2.1[i]? = some (nestedValue w v).2.1 := by
    rw [nestedStep_eq_nestedValue, if_neg hns]
    exact List.getElem?_set_self hi
  have hnot : ∀ s, (nestedStep w cur i v).2.1[i]? ≠ some (Value.str s) := by
    intro s hs
    rw [hn] at hs
    have := nestedValue_not_string w v hl
    cases hs2 : (nestedValue w v).2.1 with
    | str t => rw [hs2] at this; simp [Value.isString] at this
    | _ => rw [hs2] at hs; cases hs
  have ht : (translateTagged (nestedStep w cur i v).1 cfg i ft rt
      (nestedStep w cur i v).2.1).2.1[i]? = some (nestedValue w v).2.1 := by
    rcases translateTagged_write (nestedStep w cur i v).1 cfg i ft rt
      (nestedStep w cur i v).2.1 hcfg hft with h | ⟨j, sf, s, label, _, h2, _, _, h⟩
    · rw [h, hn]
    · rw [h]
      have hji : j ≠ i := by
        intro hji
        subst hji
        exact hnot s h2
      rw [List.getElem?_set_ne hji, hn]
  rw [translateFields_cons, hft]
  simp only [hexp, Bool.not_true, Bool.false_eq_true, if_false]
  split
  · exact hn
  · split
    · exact ht
    · rw [translateFields_keep rt cfg hcfg i vs (i + 1) _ _ ?_ (Or.inl (by omega)), ht]
      refine Or.inr ?_
      intro s hs
      rw [ht] at hs
      rw [hn] at hnot
      exact hnot s hs

theorem translateTagged_pair_rel (D E : Registry) (w1 w2 : World) (cfg1 cfg2 : structConfig)
    (i : Nat) (ft : StructField) (rt : StructType) (c1 c2 fin vs : List Value)
    (hw1 : MemoryWorld D E w1) (hw2 : MemoryWorld D E w2)
    (hcfg1 : ∃ trs, cfg1.fields = buildFields trs 0 rt.fields)
    (hcfg2 : ∃ trs, cfg2.fields = buildFields trs 0 rt.fields)
    (hft : rt.fields[i]? = some ft) (hmem : rt.memoryTagged = true)
    (hk : SameKinds c1 c2) (hbet : Between c1 fin c2) (hnest : NestedAt c1 (i + 1) vs)
    (hsrc : ft.untagged = false → c1.getD i Value.nilPtr = c2.getD i Value.nilPtr) :
    (translateTagged w2 cfg2 i ft rt c2).2.2 = (translateTagged w1 cfg1 i ft rt c1).2.2 ∧
    MemoryWorld D E (translateTagged w1 cfg1 i ft rt c1).1 ∧
    MemoryWorld D E (translateTagged w2 cfg2 i ft rt c2).1 ∧
    SameKinds (translateTagged w1 cfg1 i ft rt c1).2.1 (translateTagged w2 cfg2 i ft rt c2).2.1 ∧
    Between (translateTagged w1 cfg1 i ft rt c1).2.1 fin (translateTagged w2 cfg2 i ft rt c2).2.1 ∧
    NestedAt (translateTagged w1 cfg1 i ft rt c1).2.1 (i + 1) vs := by
  obtain ⟨e1, e2, e3, e4⟩ := translateTagged_pair D E w1 w2 cfg1 cfg2 i ft rt c1 c2 hw1 hw2
    hcfg1 hcfg2 hft hmem hk hsrc
  refine ⟨e3, by rw [e1]; exact hw1, by rw [e2]; exact hw2, ?_⟩
  rcases e4 with ⟨h1, h2⟩ | ⟨j, s, label, hj, h1, h2⟩
  · rw [h1, h2]
    exact ⟨hk, hbet, hnest⟩
  · rw [h1, h2]
    exact ⟨sameKinds_set c1 c2 j _ hk, between_set c1 fin c2 j _ hbet hk.1,
      nestedAt_set_string c1 (i + 1) j s label vs hnest hj⟩

/-- The loop body of `translateStruct` for one exported field, in a first run
and in a second run that is related to the first as the second of two calls of
`Translate` is: both raise the same error and stay related. -/
theorem fieldStep_pair (D E : Registry) (rt : StructType) (cfg1 cfg2 : structConfig) (i : Nat)
    (ft : StructField) (w1 w2 : World) (c1 c2 fin : List Value) (v y : Value) (vs : List Value)
    (hmem : rt.memoryTagged = true)
    (hcfg1 : ∃ trs, cfg1.fields = buildFields trs 0 rt.fields)
    (hcfg2 : ∃ trs, cfg2.fields = buildFields trs 0 rt.fields)
    (hft : rt.fields[i]? = some ft)
    (hw1 : MemoryWorld D E w1) (hw2 : MemoryWorld D E w2)
    (hkinds : SameKinds c1 c2) (hbet : Between c1 fin c2) (hnest : NestedAt c1 i (v :: vs))
    (hIH : ∀ wa wb, MemoryWorld D E wa → MemoryWorld D E wb →
      (nestedValue wb (nestedValue wa v).2.1).2 = (nestedValue wa v).2)
    (hy : (v.isLeaf = true → y.isLeaf = true) ∧
      (v.isLeaf = false → y = (nestedValue w1 v).2.1))
    (hsrc : v.isLeaf = true → ft.untagged = false →
      c1.getD i Value.nilPtr = c2.getD i Value.nilPtr) :
    (fieldStep rt cfg2 i ft w2 c2 y).2.2 = (fieldStep rt cfg1 i ft w1 c1 v).2.2 ∧
    MemoryWorld D E (fieldStep rt cfg1 i ft w1 c1 v).1 ∧
    MemoryWorld D E (fieldStep rt cfg2 i ft w2 c2 y).1 ∧
    SameKinds (fieldStep rt cfg1 i ft w1 c1 v).2.1 (fieldStep rt cfg2 i ft w2 c2 y).2.1 ∧
    Between (fieldStep rt cfg1 i ft w1 c1 v).2.1 fin (fieldStep rt cfg2 i ft w2 c2 y).2.1 ∧
    NestedAt (fieldStep rt cfg1 i ft w1 c1 v).2.1 (i + 1) vs := by
  by_cases hl : v.isLeaf = true
  · have hA : fieldStep rt cfg1 i ft w1 c1 v = translateTagged w1 cfg1 i ft rt c1 := by
      unfold fieldStep
      rw [nestedStep_leaf w1 c1 i v hl]
    have hB : fieldStep rt cfg2 i ft w2 c2 y = translateTagged w2 cfg2 i ft rt c2 := by
      unfold fieldStep
      rw [nestedStep_leaf w2 c2 i y (hy.1 hl)]
    rw [hA, hB]
    exact translateTagged_pair_rel D E w1 w2 cfg1 cfg2 i ft rt c1 c2 fin vs hw1 hw2 hcfg1 hcfg2
      hft hmem hkinds hbet (nestedAt_tail c1 i v vs hnest) (hsrc hl)
  · have hlf : v.isLeaf = false := by simpa using hl
    have hyr := hy.2 hlf
    subst hyr
    have hrl : ¬ ((nestedValue w1 v).2.1.isLeaf = true) := by
      rw [nestedValue_isLeaf, hlf]; simp
    have hih := hIH w1 w2 hw1 hw2
    have hv2 : (nestedValue w2 (nestedValue w1 v).2.1).2.1 = (nestedValue w1 v).2.1 := by
      rw [hih]
    have he2 : (nestedValue w2 (nestedValue w1 v).2.1).2.2 = (nestedValue w1 v).2.2 := by
      rw [hih]
    have hnA : nestedStep w1 c1 i v =
        ((nestedValue w1 v).1, c1.set i (nestedValue w1 v).2.1, (nestedValue w1 v).2.2) := by
      rw [nestedStep_eq_nestedValue, if_neg hl]
    have hnB : nestedStep w2 c2 i (nestedValue w1 v).2.1 =
        ((nestedValue w2 (nestedValue w1 v).2.1).1, c2.set i (nestedValue w1 v).2.1,
          (nestedValue w1 v).2.2) := by
      rw [nestedStep_eq_nestedValue, if_neg hrl, hv2, he2]
    have hwA := nestedValue_memoryWorld D E w1 v hw1
    have hwB := nestedValue_memoryWorld D E w2 (nestedValue w1 v).2.1 hw2
    have hk2 := sameKinds_set c1 c2 i (nestedValue w1 v).2.1 hkinds
    have hb2 := between_set c1 fin c2 i (nestedValue w1 v).2.1 hbet hkinds.1
    have hn2 := nestedAt_set_before c1 i (nestedValue w1 v).2.1 vs (nestedAt_tail c1 i v vs hnest)
    have hi1 : i < c1.length := by
      have := hnest 0 v (by rw [List.getElem?_cons_zero]) hlf
      exact (List.getElem?_eq_some.mp this).1
    unfold fieldStep
    rw [hnA, hnB]
    cases herr : (nestedValue w1 v).2.2 with
    | some err => exact ⟨rfl, hwA, hwB, hk2, hb2, hn2⟩
    | none =>
      simp only []
      refine translateTagged_pair_rel D E _ _ cfg1 cfg2 i ft rt _ _ fin vs hwA hwB hcfg1 hcfg2
        hft hmem hk2 hb2 hn2 ?_
      intro _
      rw [List.getD_eq_getElem?_getD, List.getD_eq_getElem?_getD,
        List.getElem?_set_self hi1, List.getElem?_set_self (by rw [← hkinds.1]; exact hi1)]

theorem memoryWorld_plan (D E : Registry) (w : World) (rt : StructType)
    (h : MemoryWorld D E w) : MemoryWorld D E ⟨(getOrCreateConfig w.dm rt).1, w.env⟩ :=
  ⟨by
    show (getOrCreateConfig w.dm rt).1.dicts = D
    rw [getOrCreateConfig_dicts]; exact h.1, h.2.1, getOrCreateConfig_cacheSound w.dm rt h.2.2⟩

theorem nestedValue_struct (w : World) (v : Value) (h : v.isStruct = true) :
    nestedValue w v = translateStruct w v := by
  simp [nestedValue, h]

theorem nestedValue_ptr (w : World) (e : Value) :
    nestedValue w (Value.ptr e) =
      if e.isStruct then
        ((translateStruct w e).1, Value.ptr (translateStruct w e).2.1, (translateStruct w e).2.2)
      else (w, Value.ptr e, none) := by
  have h1 : (Value.ptr e).isStruct = false := rfl
  simp only [nestedValue, h1, Bool.false_eq_true, if_false]

theorem nestedValue_slice (w : World) (es : List Value) :
    nestedValue w (Value.slice es) =
      ((translateSlice es w).1, Value.slice (translateSlice es w).2.1,
        (translateSlice es w).2.2) := by
  have h1 : (Value.slice es).isStruct = false := rfl
  simp only [nestedValue, h1, Bool.false_eq_true, if_false]

theorem translateStruct_isStruct (w : World) (v : Value) :
    (translateStruct w v).2.1.isStruct = v.isStruct := by
  cases v with
  | struct rt fs => rw [translateStruct_struct]; rfl
  | _ => rfl

/-- A second run of a traversal over what a first run left, in a world with the
same dictionaries and enum tables, leaves the same values and raises the same
error, when every record type of the tree is repeatable. -/
theorem traversal_idem (D E : Registry) :
    (∀ v : Value, v.allTypes StructType.repeatable = true →
      (∀ w1 w2, MemoryWorld D E w1 → MemoryWorld D E w2 →
        (translateStruct w2 (translateStruct w1 v).2.1).2 = (translateStruct w1 v).2) ∧
      (∀ w1 w2, MemoryWorld D E w1 → MemoryWorld D E w2 →
        (nestedValue w2 (nestedValue w1 v).2.1).2 = (nestedValue w1 v).2) ∧
      (∀ w1 w2, MemoryWorld D E w1 → MemoryWorld D E w2 →
        (elemStep w2 (elemStep w1 v).2.1).2 = (elemStep w1 v).2)) ∧
    (∀ l : List Value, Value.allTypesList StructType.repeatable l = true →
      (∀ rt cfg1 cfg2 i w1 c1 w2 c2 l2 fin, rt.repeatable = true →
        (∃ trs, cfg1.fields = buildFields trs 0 rt.fields) →
        (∃ trs, cfg2.fields = buildFields trs 0 rt.fields) →
        MemoryWorld D E w1 → MemoryWorld D E w2 → SameKinds c1 c2 → NestedAt c1 i l →
        TodoRel l l2 fin i → Between c1 fin c2 →
        (translateFields rt cfg1 i l w1 c1).2.1 = fin →
        (translateFields rt cfg2 i l2 w2 c2).2
          = (fin, (translateFields rt cfg1 i l w1 c1).2.2)) ∧
      (∀ w1 w2, MemoryWorld D E w1 → MemoryWorld D E w2 →
        (translateSlice (translateSlice l w1).2.1 w2).2 = (translateSlice l w1).2)) := by
  have leaf : ∀ v : Value, v.isLeaf = true → v.isStruct = false →
      (∀ x, v = Value.ptr x → x.isStruct = false) →
      v.allTypes StructType.repeatable = true →
      (∀ w1 w2, MemoryWorld D E w1 → MemoryWorld D E w2 →
        (translateStruct w2 (translateStruct w1 v).2.1).2 = (translateStruct w1 v).2) ∧
      (∀ w1 w2, MemoryWorld D E w1 → MemoryWorld D E w2 →
        (nestedValue w2 (nestedValue w1 v).2.1).2 = (nestedValue w1 v).2) ∧
      (∀ w1 w2, MemoryWorld D E w1 → MemoryWorld D E w2 →
        (elemStep w2 (elemStep w1 v).2.1).2 = (elemStep w1 v).2) := by
    intro v h1 h2 h3 _
    refine ⟨?_, ?_, ?_⟩
    · intro w1 w2 _ _
      rw [translateStruct_not_struct w1 v h2, translateStruct_not_struct w2 v h2]
    · intro w1 w2 _ _
      rw [nestedValue_leaf w1 v h1, nestedValue_leaf w2 v h1]
    · intro w1 w2 _ _
      rw [elemStep_skip w1 v h2 h3, elemStep_skip w2 v h2 h3]
  apply Value.induction
  · intro s
    exact leaf (Value.str s) rfl rfl (fun x h => by cases h)
  · intro s
    exact leaf (Value.int s) rfl rfl (fun x h => by cases h)
  · intro s
    exact leaf (Value.uint s) rfl rfl (fun x h => by cases h)
  · intro t r
    exact leaf (Value.other t r) rfl rfl (fun x h => by cases h)
  · intro rt fs ih hty
    have hty2 : rt.repeatable = true ∧ Value.allTypesList StructType.repeatable fs = true := by
      simpa [Value.allTypes] using hty
    have hs : ∀ w1 w2, MemoryWorld D E w1 → MemoryWorld D E w2 →
        (translateStruct w2 (translateStruct w1 (Value.struct rt fs)).2.1).2
          = (translateStruct w1 (Value.struct rt fs)).2 := by
      intro w1 w2 hw1 hw2
      have hwA := memoryWorld_plan D E w1 rt hw1
      have hwB := memoryWorld_plan D E w2 rt hw2
      have hcA := getOrCreateConfig_sound w1.dm rt (hw1.2.2 rt)
      have hcB := getOrCreateConfig_sound w2.dm rt (hw2.2.2 rt)
      have hframe : FieldsInv rt fs (translateFields rt (getOrCreateConfig w1.dm rt).2 0 fs
          ⟨(getOrCreateConfig w1.dm rt).1, w1.env⟩ fs).2.1 :=
        (traversal_frame.2 fs).1 rt _ 0 _ fs fs hcA hwA.2.2
          (fun m x hx _ => by rw [Nat.zero_add]; exact hx) (fieldsInv_refl rt fs)
      have main := (ih hty2.2).1 rt (getOrCreateConfig w1.dm rt).2 (getOrCreateConfig w2.dm rt).2 0
        ⟨(getOrCreateConfig w1.dm rt).1, w1.env⟩ fs ⟨(getOrCreateConfig w2.dm rt).1, w2.env⟩
        (translateFields rt (getOrCreateConfig w1.dm rt).2 0 fs
          ⟨(getOrCreateConfig w1.dm rt).1, w1.env⟩ fs).2.1
        (translateFields rt (getOrCreateConfig w1.dm rt).2 0 fs
          ⟨(getOrCreateConfig w1.dm rt).1, w1.env⟩ fs).2.1
        (translateFields rt (getOrCreateConfig w1.dm rt).2 0 fs
          ⟨(getOrCreateConfig w1.dm rt).1, w1.env⟩ fs).2.1
        hty2.1 hcA hcB hwA hwB (sameKinds_of_fieldsInv rt _ _ hframe)
        (fun m x hx _ => by rw [Nat.zero_add]; exact hx)
        ⟨hframe.1, fun m x y hx hy =>
          ⟨fun hl => by rw [(fieldRel_kinds rt m x y (hframe.2 m x y hx hy)).2]; exact hl,
            fun _ => by rw [Nat.zero_add]; exact hy⟩⟩
        (fun k y hy => Or.inr hy) rfl
      rw [translateStruct_struct w1 rt fs]
      simp only []
      rw [translateStruct_struct w2 rt _]
      simp only []
      rw [main]
    refine ⟨hs, ?_, ?_⟩
    · intro w1 w2 hw1 hw2
      rw [nestedValue_struct w1 (Value.struct rt fs) rfl,
        nestedValue_struct w2 _ (by rw [translateStruct_isStruct]; rfl)]
      exact hs w1 w2 hw1 hw2
    · intro w1 w2 hw1 hw2
      rw [elemStep_struct w1 (Value.struct rt fs) rfl,
        elemStep_struct w2 _ (by rw [translateStruct_isStruct]; rfl)]
      exact hs w1 w2 hw1 hw2
  · exact leaf Value.nilPtr rfl rfl (fun x h => by cases h)
  · intro e ih hty
    have hty2 : e.allTypes StructType.repeatable = true := by
      simpa [Value.allTypes] using hty
    refine ⟨fun w1 w2 _ _ => by
      rw [translateStruct_not_struct w1 (Value.ptr e) rfl,
        translateStruct_not_struct w2 (Value.ptr e) rfl], ?_, ?_⟩
    · intro w1 w2 hw1 hw2
      by_cases he : e.isStruct = true
      · rw [nestedValue_ptr w1 e, if_pos he]
        simp only []
        rw [nestedValue_ptr w2 _, if_pos (by rw [translateStruct_isStruct]; exact he)]
        simp only []
        rw [(ih hty2).1 w1 w2 hw1 hw2]
      · rw [nestedValue_ptr w1 e, if_neg he]
        simp only []
        rw [nestedValue_ptr w2 e, if_neg he]
    · intro w1 w2 hw1 hw2
      by_cases he : e.isStruct = true
      · rw [elemStep_ptr w1 e, if_pos he]
        simp only []
        rw [elemStep_ptr w2 _, if_pos (by rw [translateStruct_isStruct]; exact he)]
        simp only []
        rw [(ih hty2).1 w1 w2 hw1 hw2]
      · rw [elemStep_ptr w1 e, if_neg he]
        simp only []
        rw [elemStep_ptr w2 e, if_neg he]
  · intro es ih hty
    have hty2 : Value.allTypesList StructType.repeatable es = true := by
      simpa [Value.allTypes] using hty
    refine ⟨fun w1 w2 _ _ => by
      rw [translateStruct_not_struct w1 (Value.slice es) rfl,
        translateStruct_not_struct w2 (Value.slice es) rfl], ?_, ?_⟩
    · intro w1 w2 hw1 hw2
      rw [nestedValue_slice w1 es]
      simp only []
      rw [nestedValue_slice w2 _]
      simp only []
      rw [(ih hty2).2 w1 w2 hw1 hw2]
    · intro w1 w2 _ _
      rw [elemStep_skip w1 (Value.slice es) rfl (fun x h => by cases h),
        elemStep_skip w2 (Value.slice es) rfl (fun x h => by cases h)]
  · intro _
    refine ⟨?_, ?_⟩
    · intro rt cfg1 cfg2 i w1 c1 w2 c2 l2 fin _ _ _ _ _ hk _ htodo hbet hfin
      have hl2 : l2 = [] := List.length_eq_zero.mp htodo.1
      subst hl2
      rw [translateFields_nil] at hfin ⊢
      rw [translateFields_nil]
      simp only [] at hfin
      subst hfin
      rw [between_eq c1 c2 hbet hk.1]
    · intro w1 w2 _ _
      rw [translateSlice_nil, translateSlice_nil]
  · intro v vs ihv ihl hty
    have hty2 : v.allTypes StructType.repeatable = true ∧
        Value.allTypesList StructType.repeatable vs = true := by
      simpa [Value.allTypesList] using hty
    refine ⟨?_, ?_⟩
    · intro rt cfg1 cfg2 i w1 c1 w2 c2 l2 fin hgood hcfg1 hcfg2 hw1 hw2 hk hnest htodo hbet hfin
      have hgood2 : rt.memoryTagged = true ∧ rt.targetsUntagged = true := by
        simpa [StructType.repeatable] using hgood
      cases l2 with
      | nil => have := htodo.1; simp at this
      | cons y ys =>
        have hty0 := htodo.2 0 v y (by rw [List.getElem?_cons_zero])
          (by rw [List.getElem?_cons_zero])
        have htodo2 := todoRel_tail v y vs ys fin i htodo
        cases hft : rt.fields[i]? with
        | none =>
          rw [translateFields_cons, hft] at hfin ⊢
          rw [translateFields_cons, hft]
          simp only [] at hfin ⊢
          subst hfin
          rw [between_eq c1 c2 hbet hk.1]
        | some ft =>
          by_cases hexp : ft.exported = true
          · have hA := translateFields_cons_exported rt cfg1 i v vs w1 c1 ft hft hexp
            have hB := translateFields_cons_exported rt cfg2 i y ys w2 c2 ft hft hexp
            have hy : (v.isLeaf = true → y.isLeaf = true) ∧
                (v.isLeaf = false → y = (nestedValue w1 v).2.1) := by
              refine ⟨hty0.1, ?_⟩
              intro hl
              have h1 := hty0.2 hl
              have hi1 : i < c1.length := by
                have := hnest 0 v (by rw [List.getElem?_cons_zero]) hl
                exact (List.getElem?_eq_some.mp this).1
              have h2 := translateFields_keep_nested rt cfg1 hcfg1 i v vs w1 c1 ft hft hexp hl hi1
              rw [hfin] at h2
              rw [Nat.add_zero, h2] at h1
              cases h1
              rfl
            have hsrc : v.isLeaf = true → ft.untagged = false →
                c1.getD i Value.nilPtr = c2.getD i Value.nilPtr := by
              intro hl htag
              have hnt : rt.isTarget ft = false := by
                have h0 := hgood2.2
                unfold StructType.targetsUntagged at h0
                rw [List.all_eq_true] at h0
                have := h0 ft (List.mem_iff_getElem?.mpr ⟨i, hft⟩)
                rw [htag] at this
                simpa using this
              have hkeep := translateFields_keep rt cfg1 hcfg1 i (v :: vs) i w1 c1
                (Or.inl (fun sf hsf => by rw [hft] at hsf; cases hsf; exact hnt))
                (Or.inr ⟨v, by rw [Nat.sub_self, List.getElem?_cons_zero], hl⟩)
              rw [hfin] at hkeep
              rw [List.getD_eq_getElem?_getD, List.getD_eq_getElem?_getD]
              cases h2 : c2[i]? with
              | some y2 =>
                rcases hbet i y2 h2 with h | h
                · rw [h]
                · rw [hkeep] at h
                  rw [h]
              | none =>
                have h3 : c2.length ≤ i := List.getElem?_eq_none_iff.mp h2
                rw [List.getElem?_eq_none_iff.mpr (by rw [hk.1]; exact h3)]
            obtain ⟨he, hwA, hwB, hk2, hb2, hn2⟩ := fieldStep_pair D E rt cfg1 cfg2 i ft w1 w2
              c1 c2 fin v y vs hgood2.1 hcfg1 hcfg2 hft hw1 hw2 hk hbet hnest
              (fun wa wb ha hb => (ihv hty2.1).2.1 wa wb ha hb) hy hsrc
            rw [hA] at hfin ⊢
            rw [hB, he]
            cases herr : (fieldStep rt cfg1 i ft w1 c1 v).2.2 with
            | some err =>
              rw [herr] at hfin
              simp only [] at hfin ⊢
              rw [hfin] at hb2 hk2
              rw [between_eq fin _ hb2 hk2.1]
            | none =>
              rw [herr] at hfin
              simp only [] at hfin ⊢
              exact (ihl hty2.2).1 rt cfg1 cfg2 (i + 1) _ _ _ _ ys fin hgood hcfg1 hcfg2 hwA hwB
                hk2 hn2 htodo2 hb2 hfin
          · rw [translateFields_cons, hft] at hfin ⊢
            rw [translateFields_cons, hft]
            simp only [hexp, Bool.not_false, if_true] at hfin ⊢
            exact (ihl hty2.2).1 rt cfg1 cfg2 (i + 1) w1 c1 w2 c2 ys fin hgood hcfg1 hcfg2 hw1 hw2
              hk (nestedAt_tail c1 i v vs hnest) htodo2 hbet hfin
    · intro w1 w2 hw1 hw2
      have h1 := (ihv hty2.1).2.2 w1 w2 hw1 hw2
      have hwA := ((traversal_memoryWorld D E).1 v).2.2 w1 hw1
      have hwB := ((traversal_memoryWorld D E).1 (elemStep w1 v).2.1).2.2 w2 hw2
      have hv : (elemStep w2 (elemStep w1 v).2.1).2.1 = (elemStep w1 v).2.1 := by rw [h1]
      have he : (elemStep w2 (elemStep w1 v).2.1).2.2 = (elemStep w1 v).2.2 := by rw [h1]
      rw [translateSlice_cons v vs w1]
      cases herr : (elemStep w1 v).2.2 with
      | some err =>
        simp only []
        rw [translateSlice_cons, he, herr]
        simp only []
        rw [hv]
      | none =>
        simp only []
        rw [translateSlice_cons, he, herr]
        simp only []
        rw [hv, (ihl hty2.2).2 _ _ hwA hwB]

theorem Translate_of_no_unwrappers (w : World) (v : Value) (hu : w.dm.unwrappers = []) :
    Translate w v = translatePayload w v := by
  rw [Translate_eq_translatePayload]
  have : tryUnwrap w.dm v = none := by simp [tryUnwrap, hu]
  rw [this]
  rfl

theorem traversal_unwrappers (U : List UnWrapper) :
    (∀ v : Value,
      (∀ w, w.dm.unwrappers = U → (translateStruct w v).1.dm.unwrappers = U) ∧
      (∀ w cur i, w.dm.unwrappers = U → (nestedStep w cur i v).1.dm.unwrappers = U) ∧
      (∀ w, w.dm.unwrappers = U → (elemStep w v).1.dm.unwrappers = U)) ∧
    (∀ l : List Value,
      (∀ rt cfg i w cur, w.dm.unwrappers = U →
        (translateFields rt cfg i l w cur).1.dm.unwrappers = U) ∧
      (∀ w, w.dm.unwrappers = U → (translateSlice l w).1.dm.unwrappers = U)) :=
  traversal_invariant (fun w => w.dm.unwrappers = U)
    (fun w rt h => by
      show (getOrCreateConfig w.dm rt).1.unwrappers = U
      rw [getOrCreateConfig_unwrappers]; exact h)
    (fun w cfg i ft rt cur h => by
      show (translateTagged w cfg i ft rt cur).1.dm.unwrappers = U
      rw [translateTagged_dm]; exact h)

/-- C38, for the in-memory backends: in a world without unwrappers whose stored
plans were all built by `getOrCreateConfig`, for a tree of records in which
every record type has `dict` and `enum` tags only (the labels come from the
in-memory dictionaries and the enum tables) and no field named, exactly or
under case folding, by the `dictField` tag of a translation-tagged field
carries a translation tag itself, a second `Translate` on what the first left
returns the same error and leaves the same values as the first. -/
theorem Translate_idempotent (w : World) (v : Value) (hu : w.dm.unwrappers = [])
    (hcs : CacheSound w.dm) (hty : v.allTypes StructType.repeatable = true) :
    (Translate (Translate w v).1 (Translate w v).2.1).2 = (Translate w v).2 := by
  have hw : MemoryWorld w.dm.dicts w.env.enumMap w := ⟨rfl, rfl, hcs⟩
  rw [Translate_of_no_unwrappers w v hu]
  cases v with
  | ptr rv =>
    cases rv with
    | slice es =>
      have hty2 : Value.allTypesList StructType.repeatable es = true := by
        simpa [Value.allTypes] using hty
      have hw2 := ((traversal_memoryWorld w.dm.dicts w.env.enumMap).2 es).2 w hw
      have hu2 := ((traversal_unwrappers []).2 es).2 w hu
      show (Translate (translateSlice es w).1
          (Value.ptr (Value.slice (translateSlice es w).2.1))).2
        = (Value.ptr (Value.slice (translateSlice es w).2.1), (translateSlice es w).2.2)
      rw [Translate_of_no_unwrappers _ _ hu2]
      show (Value.ptr (Value.slice (translateSlice (translateSlice es w).2.1
            (translateSlice es w).1).2.1),
          (translateSlice (translateSlice es w).2.1 (translateSlice es w).1).2.2)
        = (Value.ptr (Value.slice (translateSlice es w).2.1), (translateSlice es w).2.2)
      rw [((traversal_idem w.dm.dicts w.env.enumMap).2 es hty2).2 w _ hw hw2]
    | struct rt fs =>
      have hty2 : (Value.struct rt fs).allTypes StructType.repeatable = true := by
        simpa [Value.allTypes] using hty
      have hw2 := ((traversal_memoryWorld w.dm.dicts w.env.enumMap).1 (Value.struct rt fs)).1 w hw
      have hu2 := ((traversal_unwrappers []).1 (Value.struct rt fs)).1 w hu
      have hid := ((traversal_idem w.dm.dicts w.env.enumMap).1 (Value.struct rt fs) hty2).1 w _
        hw hw2
      show (Translate (translateStruct w (Value.struct rt fs)).1
          (Value.ptr (translateStruct w (Value.struct rt fs)).2.1)).2
        = (Value.ptr (translateStruct w (Value.struct rt fs)).2.1,
            (translateStruct w (Value.struct rt fs)).2.2)
      rw [Translate_of_no_unwrappers _ _ hu2]
      have hst : ∃ fs2, (translateStruct w (Value.struct rt fs)).2.1 = Value.struct rt fs2 := by
        rw [translateStruct_struct]
        exact ⟨_, rfl⟩
      obtain ⟨fs2, hfs2⟩ := hst
      rw [hfs2] at hid ⊢
      show (Value.ptr (translateStruct (translateStruct w (Value.struct rt fs)).1
            (Value.struct rt fs2)).2.1,
          (translateStruct (translateStruct w (Value.struct rt fs)).1 (Value.struct rt fs2)).2.2)
        = (Value.ptr (Value.struct rt fs2), (translateStruct w (Value.struct rt fs)).2.2)
      rw [hid, hfs2]
    | _ => exact congrArg Prod.snd (Translate_of_no_unwrappers w _ hu)
  | _ => exact congrArg Prod.snd (Translate_of_no_unwrappers w _ hu)

theorem Translate_idempotent_witness :
    (Translate
      (Translate dictEnumWorld (Value.ptr (Value.slice
        [Value.struct (taggedStatusType [("enum", "status"), ("dictField", "StatusName")])
          [Value.str "1", Value.str ""],
         Value.struct statusItemType [Value.str "1", Value.str ""]]))).1
      (Translate dictEnumWorld (Value.ptr (Value.slice
        [Value.struct (taggedStatusType [("enum", "status"), ("dictField", "StatusName")])
          [Value.str "1", Value.str ""],
         Value.struct statusItemType [Value.str "1", Value.str ""]]))).2.1).2
      = (Translate dictEnumWorld (Value.ptr (Value.slice
        [Value.struct (taggedStatusType [("enum", "status"), ("dictField", "StatusName")])
          [Value.str "1", Value.str ""],
         Value.struct statusItemType [Value.str "1", Value.str ""]]))).2 :=
  Translate_idempotent dictEnumWorld (Value.ptr (Value.slice
      [Value.struct (taggedStatusType [("enum", "status"), ("dictField", "StatusName")])
        [Value.str "1", Value.str ""],
       Value.struct statusItemType [Value.str "1", Value.str ""]]))
    rfl (by intro rt cfg h; simp [dictEnumWorld, RegisterDict, DictManager.init] at h) rfl

/-- C38 fails for fields of the `db` backend whose lookups collide on one cache
key: no target of the record type carries a tag, the query function finds no
label for the number 1 and a label for the string `1`, the first `Translate`
leaves the target of the numeric field empty (an empty label is not stored in
the result cache) and stores the label of the string field under the cache key
that the two fields share; the second `Translate` serves that label to the
numeric field and fills its target. -/
theorem Translate_twice_db_counterexample :
    twoKeysType.targetsUntagged = true ∧
    (Translate textOnlyWorld (Value.ptr (Value.struct twoKeysType
        [Value.int 1, Value.str "", Value.str "1", Value.str ""]))).2
      = (Value.ptr (Value.struct twoKeysType
          [Value.int 1, Value.str "", Value.str "1", Value.str "文本"]), none) ∧
    (Translate
        (Translate textOnlyWorld (Value.ptr (Value.struct twoKeysType
          [Value.int 1, Value.str "", Value.str "1", Value.str ""]))).1
        (Translate textOnlyWorld (Value.ptr (Value.struct twoKeysType
          [Value.int 1, Value.str "", Value.str "1", Value.str ""]))).2.1).2
      = (Value.ptr (Value.struct twoKeysType
          [Value.int 1, Value.str "文本", Value.str "1", Value.str "文本"]), none) ∧
    (Translate
        (Translate textOnlyWorld (Value.ptr (Value.struct twoKeysType
          [Value.int 1, Value.str "", Value.str "1", Value.str ""]))).1
        (Translate textOnlyWorld (Value.ptr (Value.struct twoKeysType
          [Value.int 1, Value.str "", Value.str "1", Value.str ""]))).2.1).2.1
      ≠ (Translate textOnlyWorld (Value.ptr (Value.struct twoKeysType
          [Value.int 1, Value.str "", Value.str "1", Value.str ""]))).2.1 := by
  refine ⟨by decide, rfl, rfl, ?_⟩
  intro h
  have h2 : Value.ptr (Value.struct twoKeysType
        [Value.int 1, Value.str "文本", Value.str "1", Value.str "文本"])
      = Value.ptr (Value.struct twoKeysType
        [Value.int 1, Value.str "", Value.str "1", Value.str "文本"]) := h
  simp at h2

/-! ## Case folding outside ASCII -/

/-- What `equalFold` decides on letters inside and outside ASCII: the two cases
of a letter are equal, also for the Kelvin sign and the long s, whose orbits
hold three code points; dotted capital I and dotless small i fold to
themselves only; one letter never equals two. -/
theorem equalFold_examples :
    equalFold "Nameä" "NAMEÄ" = true ∧ equalFold "statusname" "StatusName" = true ∧
    equalFold "\u212A" "k" = true ∧ equalFold "\u212A" "K" = true ∧
    equalFold "ſ" "S" = true ∧ equalFold "ẞ" "ß" = true ∧
    equalFold "ς" "Σ" = true ∧ equalFold "σ" "ς" = true ∧ equalFold "дж" "ДЖ" = true ∧
    equalFold "İ" "i" = false ∧ equalFold "ı" "I" = false ∧
    equalFold "Straße" "STRASSE" = false ∧ equalFold "Status" "StatusName" = false := by
  decide

/-- The target search folds letters outside ASCII as well: with the tag
`dictField:"NAMEÄ"` the label goes to the field `Nameä`, which is declared
before the field `NAMEÄ` and matches under case folding. -/
theorem Translate_fold_unicode :
    (Translate (sexWorld [("1", "男")])
      (Value.ptr (Value.struct foldUnicodeType [Value.str "1", Value.str "", Value.str ""]))).2
      = (Value.ptr (Value.struct foldUnicodeType
          [Value.str "1", Value.str "男", Value.str ""]), none) := by
  rfl

/-! ## Nested records of any shape -/

/-- The record of `TestTranslateNested` after `Translate`: `SexName` holds the
label of `Sex`, and `StatusName` of the nested `Device` the label of `Status`. -/
theorem nestedResult_userDevice :
    nestedRecord userDeviceLevels
      = Value.struct userDeviceType [Value.str "1", Value.str "",
          Value.struct deviceType [Value.str "1", Value.str ""]] ∧
    nestedResult userDeviceLevels
      = Value.struct userDeviceType [Value.str "1", Value.str "男",
          Value.struct deviceType [Value.str "1", Value.str "启用"]] :=
  ⟨rfl, rfl⟩

/-! ## The legacy `dict` tag: the field on its own and in any record -/

/-- The records of `TestNestedDepth` are nested records in the sense of
`nestedRecord`, before and after the translation. -/
theorem nestedRecord_depthLevels (n : String) (D : GoMap) (ks : List String) :
    ∀ k : String, nestedRecord (depthLevels n D k ks) = nested n (fun _ => "") k ks ∧
      nestedResult (depthLevels n D k ks) = nested n D.get k ks := by
  induction ks with
  | nil => intro k; exact ⟨rfl, rfl⟩
  | cons k2 ks ih =>
    intro k
    obtain ⟨h1, h2⟩ := ih k2
    cases ks with
    | nil =>
      constructor
      · show Value.struct _ (List.set _ 2 (nestedRecord (depthLevels n D k2 []))) = _
        rw [h1]; rfl
      · show Value.struct _ (List.set (List.set _ 2 (nestedResult (depthLevels n D k2 []))) 1 _) = _
        rw [h2]; rfl
    | cons k3 ks =>
      constructor
      · show Value.struct _ (List.set _ 2 (nestedRecord (depthLevels n D k2 (k3 :: ks)))) = _
        rw [h1]; rfl
      · show Value.struct _
          (List.set (List.set _ 2 (nestedResult (depthLevels n D k2 (k3 :: ks)))) 1 _) = _
        rw [h2]; rfl

/-- The records of `TestNestedDepth` whose keys are not empty and have
non-empty labels are well formed at every depth. -/
theorem nestedWellFormed_depthLevels (n : String) (D : GoMap) (hn : n ≠ "")
    (hcomma : ',' ∉ n.data) (ks : List String) :
    ∀ k : String, (∀ x ∈ k :: ks, x ≠ "" ∧ D.get x ≠ "") →
      nestedWellFormed (depthLevels n D k ks) = true := by
  induction ks with
  | nil =>
    intro k hkeys
    obtain ⟨hk, hl⟩ := hkeys k (by simp)
    simp [depthLevels, nestedWellFormed, NestLevel.wellFormed, NestLevel.key, levelType,
      levelFields, targetAt, nameMatches, status_not_fold, StructField.dictTagged,
      StructField.untagged, StructField.tagGet, List.lookup, List.enum, List.enumFrom,
      Value.isLeaf, hn, hcomma, hk, hl]
  | cons k2 ks ih =>
    intro k hkeys
    obtain ⟨hk, hl⟩ := hkeys k (by simp)
    have h2 := ih k2 (fun x hx => hkeys x (by simp [hx]))
    have h1 : (NestLevel.mk (levelType n (ks.length + 1))
        [Value.str k, Value.str "", Value.nilPtr] 0 1 2 n "StatusName" D).wellFormed true
        = true := by
      simp [NestLevel.wellFormed, NestLevel.key, levelType,
        levelFields, targetAt, nameMatches, status_not_fold, StructField.dictTagged,
        StructField.untagged, StructField.tagGet, List.lookup, List.enum, List.enumFrom,
        Value.isLeaf, hn, hcomma, hk, hl]
    cases ks with
    | nil =>
      show (NestLevel.wellFormed _ true && nestedWellFormed (depthLevels n D k2 [])) = true
      rw [h1, h2]; rfl
    | cons k3 ks =>
      show (NestLevel.wellFormed _ true && nestedWellFormed (depthLevels n D k2 (k3 :: ks)))
        = true
      rw [h1, h2]; rfl

/-- The fields that count as targets are found under the case folding of
`strings.EqualFold`, also for letters outside ASCII: `Nameä` is a target of
`foldUnicodeType`, named by `dictField:"NAMEÄ"`; and `foldSourceType`, whose
tagged field `Bä` is named by `dictField:"BÄ"`, is not repeatable. -/
theorem isTarget_fold_unicode :
    foldUnicodeType.isTarget ⟨"Nameä", true, []⟩ = true ∧
    foldUnicodeType.isTarget ⟨"NAMEÄ", true, []⟩ = true ∧
    foldUnicodeType.isTarget ⟨"Sex", true, [("dict", "sex"), ("dictField", "NAMEÄ")]⟩ = false ∧
    foldSourceType.isTarget ⟨"Bä", true, [("dict", "d2"), ("dictField", "C")]⟩ = true ∧
    foldSourceType.targetsUntagged = false ∧ foldSourceType.repeatable = false := by
  decide

/-- On `foldSourceType` a second `Translate` changes what the first left: the
first call reads the key `x` from `Bä` and then overwrites `Bä` with the label
of `A`; the second call reads that label from `Bä` as a key. -/
theorem Translate_twice_fold_source :
    (Translate
      ⟨RegisterDict (RegisterDict DictManager.init "d1" (some [("a", "y")]))
        "d2" (some [("x", "1"), ("y", "2")]), Env.init⟩
      (Value.ptr (Value.struct foldSourceType [Value.str "x", Value.str "a", Value.str ""]))).2
      = (Value.ptr (Value.struct foldSourceType [Value.str "y", Value.str "a", Value.str "1"]),
          none) ∧
    (Translate
      (Translate
        ⟨RegisterDict (RegisterDict DictManager.init "d1" (some [("a", "y")]))
          "d2" (some [("x", "1"), ("y", "2")]), Env.init⟩
        (Value.ptr (Value.struct foldSourceType
          [Value.str "x", Value.str "a", Value.str ""]))).1
      (Value.ptr (Value.struct foldSourceType [Value.str "y", Value.str "a", Value.str "1"]))).2
      = (Value.ptr (Value.struct foldSourceType [Value.str "y", Value.str "a", Value.str "2"]),
          none) :=
  ⟨rfl, rfl⟩

end DictTrans
